import Mathlib

/-!
# poqer-lang front end: scanner and parser

A shallow embedding of the C sources of the poqer-lang front end
(`pq_unicode`, `pq_string`, `pq_token`, `pq_scanner`, `pq_list`, `pq_term`,
`pq_syntax_tree`, `pq_parser`) and theorems about them.

Conventions of the embedding.

* A C string is the list of its bytes before the terminating NUL (`Bytes`).
* `size_t` values are natural numbers; subtraction and the addition of a
  negative `int8_t` wrap modulo `2 ^ 64` (`size_dec`, `size_sub`, `size_add`).
* Heap objects (terms, syntax tree nodes, lists, list nodes) live in a `pq_heap`;
  a pointer is an index into the corresponding table and `none` is `NULL`.
* Loops that C writes as `for(;;)` and the recursive descent take a fuel
  argument; running out of fuel is reported separately from every C outcome.
* The wide character classification of libc (`iswalnum`, ...) is not part of the
  repository; it is a parameter `W : WCtype`.
-/

namespace Poqer

/-! ## Bytes and `size_t` arithmetic -/

/-- The bytes of a C string, without the terminating NUL. -/
abbrev Bytes := List Nat

/-- The value `x - 1` computed on `size_t`. -/
def size_dec (x : Nat) : Nat := if x = 0 then 2 ^ 64 - 1 else x - 1

/-- The value `a - b` computed on `size_t`. -/
def size_sub (a b : Nat) : Nat := if b ≤ a then a - b else (a + 2 ^ 64 - b) % 2 ^ 64

/-- The value `x + d` computed on `size_t`, where `d` is an `int8_t` converted to
`size_t` (a negative `d` wraps). -/
def size_add (x : Nat) (d : Int) : Nat :=
  if 0 ≤ d then x + d.toNat else (x + (2 ^ 64 - d.natAbs)) % 2 ^ 64

/-- The C string stored in `buf` at offset `off`: the bytes up to the first NUL.
Reading past the end of the list reads the terminating NUL. -/
def cstr_at (buf : Bytes) (off : Nat) : Bytes := (buf.drop off).takeWhile (fun b => b != 0)

/-- The function `strlen`. -/
def strlen (buf : Bytes) : Nat := (cstr_at buf 0).length

/-! ## pq_unicode.h: the UTF-8 codec -/

/-- Source: `pq_is_utf8_1st_byte`. -/
def pq_is_utf8_1st_byte (b : Nat) : Bool := b ≤ 0x7F || (0xC0 ≤ b && b ≤ 0xF7)

/-- Source: `pq_is_utf8_non_1st_byte`. -/
def pq_is_utf8_non_1st_byte (b : Nat) : Bool := 0x7F < b && b < 0xC0

/-- Source: `pq_cp_to_utf8`. The result is the bytes written to `dest` before the
NUL and the return value; for a code point above `0x10FFFF` nothing is written
and `-1` is returned. -/
def pq_cp_to_utf8 (cp : Nat) : Bytes × Int :=
  if cp ≤ 0x007F then
    ([cp % 256], 1)
  else if cp ≤ 0x07FF then
    let byte1_r6 := cp >>> 6
    ([(byte1_r6 + 0xC0) % 256, ((cp - (byte1_r6 <<< 6)) + 0x80) % 256], 2)
  else if cp ≤ 0xFFFF then
    let byte1_r6 := cp >>> 6
    let byte1_r12 := byte1_r6 >>> 6
    ([(byte1_r12 + 0xE0) % 256,
      (((cp - (byte1_r12 <<< 12)) >>> 6) + 0x80) % 256,
      ((cp - (byte1_r6 <<< 6)) + 0x80) % 256], 3)
  else if cp ≤ 0x10FFFF then
    let byte1_r6 := cp >>> 6
    let byte1_r12 := byte1_r6 >>> 6
    let byte1_r18 := byte1_r12 >>> 6
    ([(byte1_r18 + 0xF0) % 256,
      (((cp - (byte1_r18 <<< 18)) >>> 12) + 0x80) % 256,
      (((cp - (byte1_r12 <<< 12)) >>> 6) + 0x80) % 256,
      ((cp - (byte1_r6 <<< 6)) + 0x80) % 256], 4)
  else
    ([], -1)

/-- Source: `pq_utf8_to_cp`, reading `buf` at offset `off`. `some (cp, n)` is the
code point stored through the `cp` pointer and the returned length `n`;
`none` is the return value `-1`, where `*cp` is left untouched. -/
def pq_utf8_to_cp (buf : Bytes) (off : Nat) : Option (Nat × Nat) :=
  let u0 := buf.getD off 0
  let u1 := buf.getD (off + 1) 0
  let u2 := buf.getD (off + 2) 0
  let u3 := buf.getD (off + 3) 0
  if u0 < 0x80 then
    some (u0, 1)
  else if 0xBF < u0 then
    if u0 < 0xE0 then
      if !pq_is_utf8_non_1st_byte u1 then none
      else some (((u0 - 0xC0) <<< 6) + (u1 - 0x80), 2)
    else if u0 < 0xF0 then
      if !pq_is_utf8_non_1st_byte u1 || !pq_is_utf8_non_1st_byte u2 then none
      else some (((u0 - 0xE0) <<< 12) + ((u1 - 0x80) <<< 6) + (u2 - 0x80), 3)
    else if u0 < 0xF8 then
      if !pq_is_utf8_non_1st_byte u1 || !pq_is_utf8_non_1st_byte u2
          || !pq_is_utf8_non_1st_byte u3 then none
      else some (((u0 - 0xF0) <<< 18) + ((u1 - 0x80) <<< 12) + ((u2 - 0x80) <<< 6)
                  + (u3 - 0x80), 4)
    else none
  else none

/-- The UTF-8 bytes of a Lean string, produced with `pq_cp_to_utf8`. -/
def cstr (s : String) : Bytes := s.toList.flatMap (fun c => (pq_cp_to_utf8 c.toNat).1)

/-! ## pq_unicode.c: character classes -/

/-- The libc wide character classification used by `pq_unicode.c`. It is not part
of the repository and depends on the locale, so it is a parameter. -/
structure WCtype where
  iswprint : Nat → Bool
  iswgraph : Nat → Bool
  iswspace : Nat → Bool
  iswalnum : Nat → Bool
  iswalpha : Nat → Bool
  iswupper : Nat → Bool

/-- The classification that ISO C prescribes for the ASCII range; code points from
`0x80` on belong to no class here. -/
def asciiW : WCtype where
  iswprint := fun c => 32 ≤ c && c ≤ 126
  iswgraph := fun c => 33 ≤ c && c ≤ 126
  iswspace := fun c => (9 ≤ c && c ≤ 13) || c == 32
  iswalnum := fun c => (48 ≤ c && c ≤ 57) || (65 ≤ c && c ≤ 90) || (97 ≤ c && c ≤ 122)
  iswalpha := fun c => (65 ≤ c && c ≤ 90) || (97 ≤ c && c ≤ 122)
  iswupper := fun c => 65 ≤ c && c ≤ 90

/-- A classification agrees with ISO C on the ASCII range. -/
def WCtype.IsoAscii (W : WCtype) : Prop :=
  ∀ c, c < 128 →
    W.iswprint c = asciiW.iswprint c ∧ W.iswgraph c = asciiW.iswgraph c ∧
    W.iswspace c = asciiW.iswspace c ∧ W.iswalnum c = asciiW.iswalnum c ∧
    W.iswalpha c = asciiW.iswalpha c ∧ W.iswupper c = asciiW.iswupper c

/-- Source: `pq_is_unicode_solo_char`. -/
def pq_is_unicode_solo_char (cp : Nat) : Bool :=
  cp == 33 || cp == 40 || cp == 41 || cp == 44 || cp == 59 || cp == 91 || cp == 93
    || cp == 123 || cp == 125 || cp == 124 || cp == 46

/-- Source: `pq_is_unicode_single_quoted_token_char`. -/
def pq_is_unicode_single_quoted_token_char (W : WCtype) (cp : Nat) : Bool := W.iswprint cp

/-- Source: `pq_is_unicode_alnum_char`. -/
def pq_is_unicode_alnum_char (W : WCtype) (cp : Nat) : Bool := W.iswalnum cp || cp == 95

/-- Source: `pq_is_unicode_graphic_char`. -/
def pq_is_unicode_graphic_char (W : WCtype) (cp : Nat) : Bool :=
  (W.iswgraph cp && !pq_is_unicode_alnum_char W cp && !pq_is_unicode_solo_char cp) || cp == 46

/-- Source: `pq_is_unicode_graphic_token_char`. -/
def pq_is_unicode_graphic_token_char (W : WCtype) (cp : Nat) : Bool :=
  pq_is_unicode_graphic_char W cp || cp == 92

/-- Source: `pq_is_unicode_layout_char`. -/
def pq_is_unicode_layout_char (W : WCtype) (cp : Nat) : Bool := W.iswspace cp

/-- Source: `pq_is_unicode_newline_char`. -/
def pq_is_unicode_newline_char (W : WCtype) (cp : Nat) : Bool :=
  if cp = 32 ∨ cp = 9 then false else pq_is_unicode_layout_char W cp

/-- Source: `pq_is_unicode_upper_char`. -/
def pq_is_unicode_upper_char (W : WCtype) (cp : Nat) : Bool := W.iswupper cp

/-- Source: `pq_is_unicode_lower_char`. -/
def pq_is_unicode_lower_char (W : WCtype) (cp : Nat) : Bool := W.iswalpha cp && !W.iswupper cp

/-- Source: `pq_is_unicode_bin_char`. -/
def pq_is_unicode_bin_char (cp : Nat) : Bool := cp == 48 || cp == 49

/-- Source: `pq_is_unicode_oct_char`. -/
def pq_is_unicode_oct_char (cp : Nat) : Bool := 48 ≤ cp && cp ≤ 55

/-- Source: `pq_is_unicode_dec_char`. -/
def pq_is_unicode_dec_char (cp : Nat) : Bool := 48 ≤ cp && cp ≤ 57

/-- Source: `pq_is_unicode_hex_char`. -/
def pq_is_unicode_hex_char (cp : Nat) : Bool :=
  (48 ≤ cp && cp ≤ 57) || (97 ≤ cp && cp ≤ 102) || (65 ≤ cp && cp ≤ 70)

/-- Source: `pq_is_unicode_other_char`. -/
def pq_is_unicode_other_char (cp : Nat) : Bool :=
  cp == 40 || cp == 41 || cp == 91 || cp == 93 || cp == 123 || cp == 125 || cp == 124
    || cp == 44 || cp == 46

/-! ## libc number conversion -/

/-- The value of an ASCII digit in bases up to 16, if it is one. -/
def digit_val (c : Nat) : Option Nat :=
  if 48 ≤ c ∧ c ≤ 57 then some (c - 48)
  else if 97 ≤ c ∧ c ≤ 102 then some (c - 97 + 10)
  else if 65 ≤ c ∧ c ≤ 70 then some (c - 65 + 10)
  else none

/-- The number denoted by the longest prefix of `s` made of digits of `base`,
continuing from the accumulator `acc`. -/
def digits_value (base : Nat) : Bytes → Nat → Nat
  | [], acc => acc
  | c :: cs, acc =>
    match digit_val c with
    | some d => if d < base then digits_value base cs (acc * base + d) else acc
    | none => acc

/-- The libc function `strtoll` (and `strtol` on LP64) on a string that starts with a
digit: the value of the leading digits in `base`, clamped to `LLONG_MAX`. The
scanner only passes such strings, so sign, blanks and radix prefixes are not
modelled. -/
def strtoll (s : Bytes) (base : Nat) : Int :=
  let v := digits_value base s 0
  if v ≤ 2 ^ 63 - 1 then (v : Int) else 2 ^ 63 - 1

/-- The type `PQflt` (a C `double`) as produced by the scanner and parser: the double
nearest to the decimal text `text`, negated when `neg` is set. Multiplying by
`-1.0` flips `neg` and nothing else. -/
structure PQflt where
  neg : Bool
  text : Bytes
  deriving DecidableEq, Repr

/-- The libc function `strtod` on a scanner lexeme. -/
def strtod (s : Bytes) : PQflt := ⟨false, s⟩

/-- The `%lu` conversion of `sprintf`, with `fuel` bounding the number of digits. -/
def sprintf_lu_aux : Nat → Nat → Bytes → Bytes
  | 0, _, acc => acc
  | fuel + 1, n, acc =>
    if n < 10 then (48 + n) :: acc else sprintf_lu_aux fuel (n / 10) ((48 + n % 10) :: acc)

/-- The `%lu` conversion of `sprintf` for a 64 bit value. -/
def sprintf_lu (n : Nat) : Bytes := sprintf_lu_aux 20 n []

/-! ## pq_string: the growable string -/

/-- Source: `PQ_STRING_MEM_OFFSET`. -/
def PQ_STRING_MEM_OFFSET : Nat := 32

/-- Source: `struct pq_string`. `str` holds the `str_size` bytes of the content;
`mem_size` is the recorded capacity. Writes are modelled on the content, whether or
not they fit the recorded capacity. -/
structure pq_string where
  mem_size : Nat
  str_size : Nat
  str : Bytes
  deriving DecidableEq, Repr

/-- Source: `pq_new_string`. -/
def pq_new_string : pq_string := ⟨PQ_STRING_MEM_OFFSET, 0, []⟩

/-- Source: `pq_string_clear`. -/
def pq_string_clear (string : pq_string) : pq_string :=
  if string.mem_size = PQ_STRING_MEM_OFFSET then
    { string with str_size := 0, str := [] }
  else
    { mem_size := PQ_STRING_MEM_OFFSET, str_size := 0, str := [] }

/-- Source: `pq_string_append_char`. -/
def pq_string_append_char (dest : pq_string) (ch : Nat) : pq_string :=
  let dest :=
    if size_dec dest.str_size ≥ dest.mem_size then
      { dest with mem_size := dest.mem_size + PQ_STRING_MEM_OFFSET }
    else dest
  { dest with str := dest.str ++ [ch], str_size := dest.str_size + 1 }

/-- Source: `pq_string_append_str`; `src` is the C string passed. -/
def pq_string_append_str (dest : pq_string) (src : Bytes) : pq_string :=
  let len := strlen src
  if len = 0 then dest
  else
    let dest :=
      if size_sub (dest.str_size + len) 2 ≥ dest.mem_size then
        { dest with mem_size := dest.mem_size + (PQ_STRING_MEM_OFFSET + len - 1) }
      else dest
    { dest with str := dest.str ++ cstr_at src 0, str_size := dest.str_size + len }

/-- Source: `pq_string_append_string`. -/
def pq_string_append_string (dest : pq_string) (src : pq_string) : pq_string :=
  if src.str_size = 0 then dest
  else
    let dest :=
      if size_sub (dest.str_size + src.str_size) 2 ≥ dest.mem_size then
        { dest with mem_size := dest.mem_size + (PQ_STRING_MEM_OFFSET + src.str_size - 1) }
      else dest
    { dest with str := dest.str ++ cstr_at src.str 0,
                str_size := dest.str_size + src.str_size }

/-- Source: `pq_string_get_size`. -/
def pq_string_get_size (string : pq_string) : Nat := string.str_size

/-- Source: `pq_string_get_cstr`. -/
def pq_string_get_cstr (string : pq_string) : Bytes := cstr_at string.str 0

/-- Source: `pq_string_get_char`; the byte after the content is the NUL. -/
def pq_string_get_char (string : pq_string) (index : Nat) : Nat := string.str.getD index 0

/-! ## pq_token.h -/

/-- Source: `enum pq_tag`. -/
inductive pq_tag
  | PQ_NAME_TOK | PQ_INT_TOK | PQ_FLT_TOK | PQ_VAR_TOK
  | PQ_LPAR_TOK | PQ_RPAR_TOK | PQ_LLIST_TOK | PQ_RLIST_TOK | PQ_LCURLY_TOK | PQ_RCURLY_TOK
  | PQ_HT_SEP_TOK | PQ_COMMA_TOK | PQ_END_TOK
  deriving DecidableEq, Repr

/-- Source: `union pq_val`; the constructor records which member was written. -/
inductive pq_val
  | s (val : Bytes)
  | f (val : PQflt)
  | i (val : Int)
  deriving DecidableEq, Repr

/-- Source: `struct pq_tok`. -/
structure pq_tok where
  tag : pq_tag
  val : pq_val
  pri : Int
  _dealloc_str : Nat
  deriving DecidableEq, Repr

/-- Source: `pq_new_str_token`. -/
def pq_new_str_token (tag : pq_tag) (val : Bytes) (pri : Int) : pq_tok := ⟨tag, .s val, pri, 1⟩

/-- Source: `pq_new_str_literal_token`. -/
def pq_new_str_literal_token (tag : pq_tag) (val : Bytes) (pri : Int) : pq_tok :=
  ⟨tag, .s val, pri, 0⟩

/-- Source: `pq_new_flt_token`. -/
def pq_new_flt_token (tag : pq_tag) (val : PQflt) (pri : Int) : pq_tok := ⟨tag, .f val, pri, 0⟩

/-- Source: `pq_new_int_token`. -/
def pq_new_int_token (tag : pq_tag) (val : Int) (pri : Int) : pq_tok := ⟨tag, .i val, pri, 0⟩

/-! ## pq_scanner -/

/-- Source: `enum pq_scanner_state` (the `PQ_SCANNER_STATE_` part of each name is dropped). -/
inductive pq_scanner_state
  | BEGIN | POT_END
  | S_COMMENT | POT_M_COMMENT_OP | M_COMMENT | POT_M_COMMENT_CL
  | A_NAME | G_NAME
  | Q_NAME_OP | Q_NAME_ESC_SEQ | Q_NAME_OCT_ESC_SEQ | Q_NAME_POT_HEX_ESC_SEQ
  | Q_NAME_HEX_ESC_SEQ | POT_Q_NAME_CL
  | POT_RAD_INT | POT_BIN_INT | POT_OCT_INT | POT_DEC_INT | POT_HEX_INT
  | BIN_INT | OCT_INT | HEX_INT
  | POT_FLOAT_FRAC | FLOAT_FRAC | POT_FLOAT_EXP | POT_FLOAT_EXP_INT | FLOAT_EXP_INT
  | VAR
  deriving DecidableEq, Repr

/-- Source: `struct pq_scanner`. The field `end` of the source is `end_` here. -/
structure pq_scanner where
  buffer : Bytes
  buffer_sz : Nat
  ln : Nat
  col : Nat
  beg : Nat
  end_ : Nat
  cp : Nat
  cp_bytes : Int
  quoted_atom_name : pq_string
  quoted_atom_escape : pq_string
  quoted_atom_append_mode : Nat
  deriving DecidableEq, Repr

/-- The statement `scanner->cp_bytes = pq_utf8_to_cp(&scanner->cp, scanner->buffer + scanner->end)`. -/
def pq_scanner_decode (scanner : pq_scanner) : pq_scanner :=
  match pq_utf8_to_cp scanner.buffer scanner.end_ with
  | some (cp, n) => { scanner with cp := cp, cp_bytes := (n : Int) }
  | none => { scanner with cp_bytes := -1 }

/-- Source: `pq_new_scanner`. -/
def pq_new_scanner : pq_scanner :=
  { buffer := [], buffer_sz := 0, ln := 1, col := 1, beg := 0, end_ := 0, cp := 0, cp_bytes := 0,
    quoted_atom_name := pq_new_string, quoted_atom_escape := pq_new_string,
    quoted_atom_append_mode := 0 }

/-- Source: `pq_scanner_set_buffer`. -/
def pq_scanner_set_buffer (scanner : pq_scanner) (buffer : Bytes) : pq_scanner :=
  pq_scanner_decode
    { scanner with buffer := buffer, buffer_sz := strlen buffer, beg := 0, end_ := 0,
                   ln := 1, col := 1 }

/-- Source: `pq_scanner_make_error_from_cstr` (the `PQ_OS_LINUX` branch). -/
def pq_scanner_make_error_from_cstr (scanner : pq_scanner) (str : Bytes) : Bytes :=
  cstr "[ln " ++ sprintf_lu scanner.ln ++ cstr " col " ++ sprintf_lu scanner.col
    ++ cstr "] error, " ++ str

/-- Source: `pq_scanner_next_lexeme`. -/
def pq_scanner_next_lexeme (scanner : pq_scanner) : pq_scanner :=
  if scanner.end_ < scanner.buffer_sz then
    let e := size_add scanner.end_ scanner.cp_bytes
    pq_scanner_decode { scanner with end_ := e, beg := e, col := scanner.col + 1 }
  else if scanner.beg ≠ scanner.end_ then
    { scanner with beg := scanner.end_ }
  else scanner

/-- Source: `pq_scanner_skip`. -/
def pq_scanner_skip (scanner : pq_scanner) : Nat → pq_scanner
  | 0 => scanner
  | i + 1 =>
    if scanner.beg ≤ size_dec scanner.buffer_sz then
      let n : Int := match pq_utf8_to_cp scanner.buffer scanner.beg with
        | some (_, n) => (n : Int)
        | none => -1
      pq_scanner_skip { scanner with beg := size_add scanner.beg n } i
    else scanner

/-- The statement `while(!pq_is_utf8_1st_byte(*(scanner->buffer + --scanner->end)));` of
`pq_scanner_rewind`: the new value of `end`. Moving below offset 0 leaves the buffer;
the search stops there. -/
def pq_scanner_rewind_end (buffer : Bytes) : Nat → Nat
  | 0 => 0
  | e + 1 => if pq_is_utf8_1st_byte (buffer.getD e 0) then e else pq_scanner_rewind_end buffer e

/-- The `for` loop of `pq_scanner_rewind`. -/
def pq_scanner_rewind_loop (scanner : pq_scanner) : Nat → pq_scanner
  | 0 => scanner
  | i + 1 =>
    if scanner.end_ > 0 then
      let scanner := if scanner.cp = 10 then { scanner with ln := size_dec scanner.ln } else scanner
      pq_scanner_rewind_loop
        { scanner with end_ := pq_scanner_rewind_end scanner.buffer scanner.end_,
                       col := size_dec scanner.col } i
    else scanner

/-- Source: `pq_scanner_rewind`. -/
def pq_scanner_rewind (scanner : pq_scanner) (i : Nat) : pq_scanner :=
  if i > 0 then pq_scanner_decode (pq_scanner_rewind_loop scanner i) else scanner

/-- Source: `pq_scanner_forward`. -/
def pq_scanner_forward (scanner : pq_scanner) : Nat → pq_scanner
  | 0 => scanner
  | i + 1 =>
    if scanner.end_ ≤ size_dec scanner.buffer_sz then
      let scanner := if scanner.cp = 10 then { scanner with ln := scanner.ln + 1 } else scanner
      let scanner := pq_scanner_decode
        { scanner with end_ := size_add scanner.end_ scanner.cp_bytes }
      pq_scanner_forward { scanner with col := scanner.col + 1 } i
    else scanner

/-- Source: `pq_scanner_get_lexeme`: `strncpy` of `end - beg + cp_bytes` bytes from offset `beg`. -/
def pq_scanner_get_lexeme (scanner : pq_scanner) : Bytes :=
  let lexeme_sz := size_add (size_sub scanner.end_ scanner.beg) scanner.cp_bytes
  (cstr_at scanner.buffer scanner.beg).take lexeme_sz

/-- Source: `pq_scanner_quoted_atom_set_quote`. -/
def pq_scanner_quoted_atom_set_quote (scanner : pq_scanner) (cp : Nat) : pq_scanner :=
  let utf8ch := (pq_cp_to_utf8 cp).1
  { scanner with
    quoted_atom_escape := pq_string_clear scanner.quoted_atom_escape,
    quoted_atom_name := pq_string_append_str (pq_string_clear scanner.quoted_atom_name) utf8ch,
    quoted_atom_append_mode := 0 }

/-- Source: `pq_scanner_quoted_atom_append`. -/
def pq_scanner_quoted_atom_append (scanner : pq_scanner) (cp : Nat) : pq_scanner :=
  let utf8ch := (pq_cp_to_utf8 cp).1
  if scanner.quoted_atom_append_mode = 0 then
    { scanner with quoted_atom_name := pq_string_append_str scanner.quoted_atom_name utf8ch }
  else if scanner.quoted_atom_append_mode = 1 ∨ scanner.quoted_atom_append_mode = 2 then
    let esc :=
      if pq_string_get_char scanner.quoted_atom_escape 0 = 48
          ∧ pq_string_get_char scanner.quoted_atom_escape 1 = 0 then
        pq_string_clear scanner.quoted_atom_escape
      else scanner.quoted_atom_escape
    { scanner with quoted_atom_escape := pq_string_append_str esc utf8ch }
  else scanner

/-- Source: `pq_scanner_quoted_atom_append_escape`; the second component is the return value. -/
def pq_scanner_quoted_atom_append_escape (scanner : pq_scanner) : pq_scanner × Nat :=
  if scanner.quoted_atom_append_mode = 1 then
    if pq_string_get_size scanner.quoted_atom_escape > 7 then
      ({ scanner with quoted_atom_escape := pq_string_clear scanner.quoted_atom_escape,
                      quoted_atom_append_mode := 0 }, 0)
    else
      let cp := (strtoll (pq_string_get_cstr scanner.quoted_atom_escape) 8).toNat % 2 ^ 32
      let scanner := { scanner with
        quoted_atom_escape := pq_string_clear scanner.quoted_atom_escape,
        quoted_atom_append_mode := 0 }
      if cp ≤ 0x10FFFF then (pq_scanner_quoted_atom_append scanner cp, 1) else (scanner, 0)
  else if scanner.quoted_atom_append_mode = 2 then
    if pq_string_get_size scanner.quoted_atom_escape > 6 then
      ({ scanner with quoted_atom_escape := pq_string_clear scanner.quoted_atom_escape,
                      quoted_atom_append_mode := 0 }, 0)
    else
      let cp := (strtoll (pq_string_get_cstr scanner.quoted_atom_escape) 16).toNat % 2 ^ 32
      let scanner := { scanner with
        quoted_atom_escape := pq_string_clear scanner.quoted_atom_escape,
        quoted_atom_append_mode := 0 }
      if cp ≤ 0x10FFFF then (pq_scanner_quoted_atom_append scanner cp, 1) else (scanner, 0)
  else (scanner, 0)

/-- Source: `pq_scanner_quoted_atom_get_lexeme`. -/
def pq_scanner_quoted_atom_get_lexeme (scanner : pq_scanner) : Bytes :=
  pq_string_get_cstr scanner.quoted_atom_name

/-- What one pass through the `switch(state)` of `pq_scanner_next_token` does: it
either executes a `return` with a token or `NULL`, or it leaves the `switch` with a
next state and the error stored in `*err`, if any. -/
inductive pq_scan_step
  | ret (tok : Option pq_tok) (scanner : pq_scanner)
  | next (state : pq_scanner_state) (err : Option Bytes) (scanner : pq_scanner)
  deriving DecidableEq, Repr

/-- The tail shared by the states that end a token with the current lexeme:
`pq_scanner_rewind(scanner, n)`, `pq_scanner_get_lexeme`, `pq_scanner_next_lexeme`, and
the `return` of the token made from the lexeme by `mk`. -/
def pq_scan_emit_lexeme (scanner : pq_scanner) (n : Nat) (mk : Bytes → pq_tok) : pq_scan_step :=
  let scanner := pq_scanner_rewind scanner n
  let lexeme := pq_scanner_get_lexeme scanner
  .ret (some (mk lexeme)) (pq_scanner_next_lexeme scanner)

/-- The tail shared by the states that end a token with a literal: `pq_scanner_rewind(scanner, n)`,
`pq_scanner_next_lexeme`, and the `return` of `tok`. -/
def pq_scan_emit_literal (scanner : pq_scanner) (n : Nat) (tok : pq_tok) : pq_scan_step :=
  .ret (some tok) (pq_scanner_next_lexeme (pq_scanner_rewind scanner n))

/-- The three branches of `PQ_SCANNER_STATE_Q_NAME_OCT_ESC_SEQ` and
`PQ_SCANNER_STATE_Q_NAME_HEX_ESC_SEQ` that end the escape: `pq_scanner_quoted_atom_append_escape`,
then `pq_scanner_rewind(scanner, n)` and the state `Q_NAME_OP`, or the error `msg`. -/
def pq_scan_end_escape (scanner : pq_scanner) (state : pq_scanner_state) (n : Nat)
    (msg : Bytes) : pq_scan_step :=
  let r := pq_scanner_quoted_atom_append_escape scanner
  if r.2 ≠ 0 then .next .Q_NAME_OP none (pq_scanner_rewind r.1 n)
  else .next state (some (pq_scanner_make_error_from_cstr r.1 msg)) r.1

/-- The body of the `switch(state)` in `pq_scanner_next_token`. -/
def pq_scanner_switch (W : WCtype) (state : pq_scanner_state) (scanner : pq_scanner) :
    pq_scan_step :=
  let cp := scanner.cp
  match state with
  | .BEGIN =>
    if cp = 0 then .ret none scanner
    else if cp = 37 then .next .S_COMMENT none (pq_scanner_skip scanner 1)
    else if cp = 47 then .next .POT_M_COMMENT_OP none scanner
    else if cp = 40 then
      .ret (some (pq_new_str_literal_token .PQ_LPAR_TOK [40] 0)) (pq_scanner_next_lexeme scanner)
    else if cp = 41 then
      .ret (some (pq_new_str_literal_token .PQ_RPAR_TOK [41] 0)) (pq_scanner_next_lexeme scanner)
    else if cp = 91 then
      .ret (some (pq_new_str_literal_token .PQ_LLIST_TOK [91] 0)) (pq_scanner_next_lexeme scanner)
    else if cp = 93 then
      .ret (some (pq_new_str_literal_token .PQ_RLIST_TOK [93] 0)) (pq_scanner_next_lexeme scanner)
    else if cp = 123 then
      .ret (some (pq_new_str_literal_token .PQ_LCURLY_TOK [123] 0)) (pq_scanner_next_lexeme scanner)
    else if cp = 125 then
      .ret (some (pq_new_str_literal_token .PQ_RCURLY_TOK [125] 0)) (pq_scanner_next_lexeme scanner)
    else if cp = 124 then
      .ret (some (pq_new_str_literal_token .PQ_HT_SEP_TOK [124] 0)) (pq_scanner_next_lexeme scanner)
    else if cp = 44 then
      .ret (some (pq_new_str_literal_token .PQ_COMMA_TOK [44] 0)) (pq_scanner_next_lexeme scanner)
    else if cp = 59 then
      .ret (some (pq_new_str_literal_token .PQ_NAME_TOK [59] 0)) (pq_scanner_next_lexeme scanner)
    else if cp = 33 then
      .ret (some (pq_new_str_literal_token .PQ_NAME_TOK [33] 0)) (pq_scanner_next_lexeme scanner)
    else if cp = 39 ∨ cp = 34 ∨ cp = 96 then
      .next .Q_NAME_OP none (pq_scanner_quoted_atom_set_quote scanner cp)
    else if cp = 46 then .next .POT_END none scanner
    else if cp = 48 then .next .POT_RAD_INT none scanner
    else if pq_is_unicode_layout_char W cp then .next .BEGIN none (pq_scanner_skip scanner 1)
    else if pq_is_unicode_lower_char W cp then .next .A_NAME none scanner
    else if pq_is_unicode_dec_char cp then .next .POT_DEC_INT none scanner
    else if pq_is_unicode_graphic_token_char W cp then .next .G_NAME none scanner
    else if pq_is_unicode_alnum_char W cp then .next .VAR none scanner
    else .next .BEGIN (some (pq_scanner_make_error_from_cstr scanner (cstr "unrecognized character")))
           scanner
  | .POT_END =>
    if pq_is_unicode_graphic_token_char W cp then
      if 37 = cp then
        pq_scan_emit_literal scanner 1 (pq_new_str_literal_token .PQ_END_TOK [46] 0)
      else .next .G_NAME none scanner
    else if pq_is_unicode_layout_char W cp ∨ 0 = cp then
      pq_scan_emit_literal scanner 1 (pq_new_str_literal_token .PQ_END_TOK [46] 0)
    else
      pq_scan_emit_literal scanner 1 (pq_new_str_literal_token .PQ_NAME_TOK [46] 0)
  | .S_COMMENT =>
    let state := if pq_is_unicode_newline_char W cp ∨ 0 = cp then .BEGIN else .S_COMMENT
    .next state none (pq_scanner_skip scanner 1)
  | .POT_M_COMMENT_OP =>
    if 42 = cp then .next .M_COMMENT none (pq_scanner_skip scanner 2)
    else .next .G_NAME none (pq_scanner_rewind scanner 1)
  | .M_COMMENT =>
    if 42 = cp then .next .POT_M_COMMENT_CL none (pq_scanner_skip scanner 1)
    else if 0 = cp then
      .next .M_COMMENT
        (some (pq_scanner_make_error_from_cstr scanner (cstr "expected end of multi-line comment")))
        scanner
    else .next .M_COMMENT none (pq_scanner_skip scanner 1)
  | .POT_M_COMMENT_CL =>
    if cp = 47 then .next .BEGIN none (pq_scanner_skip scanner 1)
    else if cp = 0 then
      .next .POT_M_COMMENT_CL
        (some (pq_scanner_make_error_from_cstr scanner (cstr "expected end of multi-line comment")))
        (pq_scanner_skip scanner 1)
    else if cp = 42 then .next .POT_M_COMMENT_CL none (pq_scanner_skip scanner 1)
    else .next .M_COMMENT none (pq_scanner_skip scanner 1)
  | .A_NAME =>
    if !pq_is_unicode_alnum_char W cp then
      pq_scan_emit_lexeme scanner 1 (fun lexeme => pq_new_str_token .PQ_NAME_TOK lexeme 0)
    else .next .A_NAME none scanner
  | .Q_NAME_OP =>
    if cp = 39 ∨ cp = 34 ∨ cp = 96 then
      if cp = pq_string_get_char scanner.quoted_atom_name 0 then .next .POT_Q_NAME_CL none scanner
      else .next .Q_NAME_OP none (pq_scanner_quoted_atom_append scanner cp)
    else if cp = 0 then
      .next .Q_NAME_OP
        (some (pq_scanner_make_error_from_cstr scanner (cstr "expected closing quotation"))) scanner
    else if cp = 7 ∨ cp = 8 ∨ cp = 12 ∨ cp = 10 ∨ cp = 13 ∨ cp = 9 ∨ cp = 11 then
      .next .Q_NAME_OP none (pq_scanner_quoted_atom_append scanner cp)
    else if cp = 92 then .next .Q_NAME_ESC_SEQ none scanner
    else if pq_is_unicode_single_quoted_token_char W cp then
      .next .Q_NAME_OP none (pq_scanner_quoted_atom_append scanner cp)
    else
      .next .Q_NAME_OP
        (some (pq_scanner_make_error_from_cstr scanner (cstr "unrecognized quote character")))
        scanner
  | .POT_Q_NAME_CL =>
    if cp = pq_string_get_char scanner.quoted_atom_name 0 then
      .next .Q_NAME_OP none (pq_scanner_quoted_atom_append scanner cp)
    else
      let scanner := pq_scanner_rewind scanner 1
      let scanner := { scanner with
        quoted_atom_name := pq_string_append_char scanner.quoted_atom_name
          (pq_string_get_char scanner.quoted_atom_name 0) }
      let scanner := pq_scanner_next_lexeme scanner
      .ret (some (pq_new_str_token .PQ_NAME_TOK (pq_scanner_quoted_atom_get_lexeme scanner) 0))
        scanner
  | .Q_NAME_ESC_SEQ =>
    if cp = 97 then .next .Q_NAME_OP none (pq_scanner_quoted_atom_append scanner 7)
    else if cp = 98 then .next .Q_NAME_OP none (pq_scanner_quoted_atom_append scanner 8)
    else if cp = 102 then .next .Q_NAME_OP none (pq_scanner_quoted_atom_append scanner 12)
    else if cp = 110 then .next .Q_NAME_OP none (pq_scanner_quoted_atom_append scanner 10)
    else if cp = 114 then .next .Q_NAME_OP none (pq_scanner_quoted_atom_append scanner 13)
    else if cp = 116 then .next .Q_NAME_OP none (pq_scanner_quoted_atom_append scanner 9)
    else if cp = 118 then .next .Q_NAME_OP none (pq_scanner_quoted_atom_append scanner 11)
    else if cp = 92 ∨ cp = 39 ∨ cp = 34 ∨ cp = 96 then
      .next .Q_NAME_OP none (pq_scanner_quoted_atom_append scanner cp)
    else if cp = 120 then .next .Q_NAME_POT_HEX_ESC_SEQ none scanner
    else if pq_is_unicode_oct_char cp then
      .next .Q_NAME_OCT_ESC_SEQ none
        (pq_scanner_quoted_atom_append { scanner with quoted_atom_append_mode := 1 } cp)
    else
      .next .Q_NAME_ESC_SEQ
        (some (pq_scanner_make_error_from_cstr scanner (cstr "illegal escape sequence character")))
        scanner
  | .Q_NAME_OCT_ESC_SEQ =>
    let msg := cstr "unrecognized octal escape sequence character"
    if cp = 92 then pq_scan_end_escape scanner .Q_NAME_OCT_ESC_SEQ 0 msg
    else if cp = 32 ∨ cp = 12 ∨ cp = 10 ∨ cp = 13 ∨ cp = 9 ∨ cp = 11 then
      pq_scan_end_escape scanner .Q_NAME_OCT_ESC_SEQ 1 msg
    else if cp = pq_string_get_char scanner.quoted_atom_name 0 then
      pq_scan_end_escape scanner .Q_NAME_OCT_ESC_SEQ 1 msg
    else if pq_is_unicode_oct_char cp then
      .next .Q_NAME_OCT_ESC_SEQ none (pq_scanner_quoted_atom_append scanner cp)
    else .next .Q_NAME_OCT_ESC_SEQ (some (pq_scanner_make_error_from_cstr scanner msg)) scanner
  | .Q_NAME_POT_HEX_ESC_SEQ =>
    if pq_is_unicode_hex_char cp then
      .next .Q_NAME_HEX_ESC_SEQ none
        (pq_scanner_quoted_atom_append { scanner with quoted_atom_append_mode := 2 } cp)
    else
      .next .Q_NAME_POT_HEX_ESC_SEQ
        (some (pq_scanner_make_error_from_cstr scanner
          (cstr "unrecognized hexadecimal escape sequence character"))) scanner
  | .Q_NAME_HEX_ESC_SEQ =>
    let msg := cstr "unrecognized hexadecimal escape sequence character"
    if cp = 92 then pq_scan_end_escape scanner .Q_NAME_HEX_ESC_SEQ 0 msg
    else if cp = 32 ∨ cp = 12 ∨ cp = 10 ∨ cp = 13 ∨ cp = 9 ∨ cp = 11 then
      pq_scan_end_escape scanner .Q_NAME_HEX_ESC_SEQ 1 msg
    else if cp = pq_string_get_char scanner.quoted_atom_name 0 then
      pq_scan_end_escape scanner .Q_NAME_HEX_ESC_SEQ 1 msg
    else if pq_is_unicode_hex_char cp then
      .next .Q_NAME_HEX_ESC_SEQ none (pq_scanner_quoted_atom_append scanner cp)
    else .next .Q_NAME_HEX_ESC_SEQ (some (pq_scanner_make_error_from_cstr scanner msg)) scanner
  | .G_NAME =>
    if !pq_is_unicode_graphic_token_char W cp then
      pq_scan_emit_lexeme scanner 1 (fun lexeme => pq_new_str_token .PQ_NAME_TOK lexeme 0)
    else .next .G_NAME none scanner
  | .POT_RAD_INT =>
    if cp = 98 then .next .POT_BIN_INT none scanner
    else if cp = 111 then .next .POT_OCT_INT none scanner
    else if cp = 120 then .next .POT_HEX_INT none scanner
    else if pq_is_unicode_dec_char cp then .next .POT_DEC_INT none scanner
    else if 46 = cp then .next .POT_FLOAT_FRAC none scanner
    else pq_scan_emit_literal scanner 1 (pq_new_int_token .PQ_INT_TOK 0 0)
  | .POT_BIN_INT =>
    if pq_is_unicode_bin_char cp then .next .BIN_INT none scanner
    else pq_scan_emit_literal scanner 2 (pq_new_int_token .PQ_INT_TOK 0 0)
  | .BIN_INT =>
    if !pq_is_unicode_bin_char cp then
      pq_scan_emit_lexeme scanner 1
        (fun lexeme => pq_new_int_token .PQ_INT_TOK (strtoll (lexeme.drop 2) 2) 0)
    else .next .BIN_INT none scanner
  | .POT_OCT_INT =>
    if pq_is_unicode_oct_char cp then .next .OCT_INT none scanner
    else pq_scan_emit_literal scanner 2 (pq_new_int_token .PQ_INT_TOK 0 0)
  | .OCT_INT =>
    if !pq_is_unicode_oct_char cp then
      pq_scan_emit_lexeme scanner 1
        (fun lexeme => pq_new_int_token .PQ_INT_TOK (strtoll (lexeme.drop 2) 8) 0)
    else .next .OCT_INT none scanner
  | .POT_DEC_INT =>
    if 46 = cp then .next .POT_FLOAT_FRAC none scanner
    else if !pq_is_unicode_dec_char cp then
      pq_scan_emit_lexeme scanner 1 (fun lexeme => pq_new_int_token .PQ_INT_TOK (strtoll lexeme 10) 0)
    else .next .POT_DEC_INT none scanner
  | .POT_HEX_INT =>
    if pq_is_unicode_hex_char cp then .next .HEX_INT none scanner
    else pq_scan_emit_literal scanner 2 (pq_new_int_token .PQ_INT_TOK 0 0)
  | .HEX_INT =>
    if !pq_is_unicode_hex_char cp then
      pq_scan_emit_lexeme scanner 1
        (fun lexeme => pq_new_int_token .PQ_INT_TOK (strtoll (lexeme.drop 2) 16) 0)
    else .next .HEX_INT none scanner
  | .POT_FLOAT_FRAC =>
    if pq_is_unicode_dec_char cp then .next .FLOAT_FRAC none scanner
    else
      pq_scan_emit_lexeme scanner 2 (fun lexeme => pq_new_int_token .PQ_INT_TOK (strtoll lexeme 10) 0)
  | .FLOAT_FRAC =>
    if 101 = cp ∨ 69 = cp then .next .POT_FLOAT_EXP none scanner
    else if !pq_is_unicode_dec_char cp then
      pq_scan_emit_lexeme scanner 1 (fun lexeme => pq_new_flt_token .PQ_FLT_TOK (strtod lexeme) 0)
    else .next .FLOAT_FRAC none scanner
  | .POT_FLOAT_EXP =>
    if 43 = cp ∨ 45 = cp then .next .POT_FLOAT_EXP_INT none scanner
    else if pq_is_unicode_dec_char cp then .next .FLOAT_EXP_INT none scanner
    else
      pq_scan_emit_lexeme scanner 2 (fun lexeme => pq_new_flt_token .PQ_FLT_TOK (strtod lexeme) 0)
  | .POT_FLOAT_EXP_INT =>
    if pq_is_unicode_dec_char cp then .next .FLOAT_EXP_INT none scanner
    else
      pq_scan_emit_lexeme scanner 3 (fun lexeme => pq_new_flt_token .PQ_FLT_TOK (strtod lexeme) 0)
  | .FLOAT_EXP_INT =>
    if !pq_is_unicode_dec_char cp then
      pq_scan_emit_lexeme scanner 1 (fun lexeme => pq_new_flt_token .PQ_FLT_TOK (strtod lexeme) 0)
    else .next .FLOAT_EXP_INT none scanner
  | .VAR =>
    if !pq_is_unicode_alnum_char W cp then
      pq_scan_emit_lexeme scanner 1 (fun lexeme => pq_new_str_token .PQ_VAR_TOK lexeme 0)
    else .next .VAR none scanner

/-- What a call of `pq_scanner_next_token` leaves behind: the returned token (`none` is
`NULL`), the error stored in `*err`, and the scanner. -/
structure pq_scan_result where
  tok : Option pq_tok
  err : Option Bytes
  scanner : pq_scanner
  deriving DecidableEq, Repr

/-- The `for(;;)` loop of `pq_scanner_next_token`, run for at most `fuel` passes, from
`state`; `entry` is the scanner at entry of the call, whose position is restored on a
lexer error. `none` means that the loop is still running after `fuel` passes. -/
def pq_scanner_loop (W : WCtype) (entry : pq_scanner) :
    Nat → pq_scanner_state → pq_scanner → Option pq_scan_result
  | 0, _, _ => none
  | fuel + 1, state, scanner =>
    match pq_scanner_switch W state scanner with
    | .ret tok scanner => some ⟨tok, none, scanner⟩
    | .next _ (some err) scanner =>
      some ⟨none, some err,
        { scanner with ln := entry.ln, col := entry.col, beg := entry.beg, end_ := entry.end_ }⟩
    | .next state none scanner => pq_scanner_loop W entry fuel state (pq_scanner_forward scanner 1)

/-- Source: `pq_scanner_next_token`, with at most `fuel` passes through its loop. -/
def pq_scanner_next_token (W : WCtype) (fuel : Nat) (scanner : pq_scanner) :
    Option pq_scan_result :=
  pq_scanner_loop W scanner fuel .BEGIN scanner

/-! ## The heap: pq_list.h, pq_term.h, pq_syntax_tree.h -/

/-- A pointer into one of the tables of `pq_heap`. -/
abbrev Ptr := Nat

/-- Source: `struct pq_list_node`. An `item` that was never written is `none`. -/
structure pq_list_node where
  item : Option Ptr
  prev : Option Ptr
  next : Option Ptr
  deriving DecidableEq, Repr

/-- Source: `struct pq_list`. -/
structure pq_list where
  nil : Ptr
  size : Nat
  deriving DecidableEq, Repr

/-- Source: `enum pq_op_specifier`. -/
inductive pq_op_specifier
  | PQ_OP_XFX | PQ_OP_XFY | PQ_OP_YFX | PQ_OP_FX | PQ_OP_FY | PQ_OP_XF | PQ_OP_YF
  deriving DecidableEq, Repr

/-- Source: `union pq_term_data`; the constructor records which member was written.
The structs behind `op_data` and `fun_data` are owned by their term and stored in place. -/
inductive pq_term_data
  | op_data (id : Bytes) (specifier : pq_op_specifier)
  | fun_data (id : Bytes) (args : Option Ptr)
  | list_items (items : Option Ptr)
  | var_id (id : Bytes)
  | atom_id (id : Bytes)
  | float_val (val : PQflt)
  | int_val (val : Int)
  deriving DecidableEq, Repr

/-- Source: `struct pq_term`. -/
structure pq_term where
  data : pq_term_data
  priority : Nat
  types : Nat
  deriving DecidableEq, Repr

/-- Source: `PQ_TERM_NUMERIC_TYPE`. -/
def PQ_TERM_NUMERIC_TYPE : Nat := 1 <<< 0
/-- Source: `PQ_TERM_INTEGER_TYPE`. -/
def PQ_TERM_INTEGER_TYPE : Nat := 1 <<< 1
/-- Source: `PQ_TERM_FLOAT_TYPE`. -/
def PQ_TERM_FLOAT_TYPE : Nat := 1 <<< 2
/-- Source: `PQ_TERM_ATOM_TYPE`. -/
def PQ_TERM_ATOM_TYPE : Nat := 1 <<< 3
/-- Source: `PQ_TERM_OPERATOR_TYPE`. -/
def PQ_TERM_OPERATOR_TYPE : Nat := 1 <<< 4
/-- Source: `PQ_TERM_VARIABLE_TYPE`. -/
def PQ_TERM_VARIABLE_TYPE : Nat := 1 <<< 5
/-- Source: `PQ_TERM_FUNCTOR_TYPE`. -/
def PQ_TERM_FUNCTOR_TYPE : Nat := 1 <<< 6
/-- Source: `PQ_TERM_LIST_TYPE`. -/
def PQ_TERM_LIST_TYPE : Nat := 1 <<< 7
/-- Source: `PQ_TERM_EXPR_ARG_TYPE`. -/
def PQ_TERM_EXPR_ARG_TYPE : Nat := 1 <<< 8

/-- Source: `struct pq_syntax_tree_node`; `item` points to a term. -/
structure pq_syntax_tree_node where
  item : Option Ptr
  next : Option Ptr
  prev : Option Ptr
  children_nil : Option Ptr
  deriving DecidableEq, Repr

/-- Source: `struct pq_syntax_tree`. -/
structure pq_syntax_tree where
  children_nil : Option Ptr
  deriving DecidableEq, Repr

/-- The objects allocated so far; `malloc` appends to a table and never fails. -/
structure pq_heap where
  terms : List pq_term
  nodes : List pq_syntax_tree_node
  lists : List pq_list
  list_nodes : List pq_list_node
  deriving DecidableEq, Repr

/-- The heap before any allocation. -/
def pq_heap.empty : pq_heap := ⟨[], [], [], []⟩

/-- Allocation of a term initialised to `t`. -/
def pq_heap.new_term (h : pq_heap) (t : pq_term) : pq_heap × Ptr :=
  ({ h with terms := h.terms ++ [t] }, h.terms.length)

/-- Source: `pq_new_integer_term`. -/
def pq_new_integer_term (h : pq_heap) (val : Int) : pq_heap × Ptr :=
  h.new_term ⟨.int_val val, 0, PQ_TERM_NUMERIC_TYPE ||| PQ_TERM_INTEGER_TYPE⟩

/-- Source: `pq_new_float_term`. -/
def pq_new_float_term (h : pq_heap) (val : PQflt) : pq_heap × Ptr :=
  h.new_term ⟨.float_val val, 0, PQ_TERM_NUMERIC_TYPE ||| PQ_TERM_FLOAT_TYPE⟩

/-- Source: `pq_new_variable_term`. -/
def pq_new_variable_term (h : pq_heap) (val : Bytes) : pq_heap × Ptr :=
  h.new_term ⟨.var_id val, 0, PQ_TERM_VARIABLE_TYPE⟩

/-- Source: `pq_new_atom_term`. -/
def pq_new_atom_term (h : pq_heap) (val : Bytes) (priority : Nat) : pq_heap × Ptr :=
  h.new_term ⟨.atom_id val, priority, PQ_TERM_ATOM_TYPE⟩

/-- Source: `pq_new_operator_term`. -/
def pq_new_operator_term (h : pq_heap) (val : Bytes) (priority : Nat)
    (specifier : pq_op_specifier) : pq_heap × Ptr :=
  h.new_term ⟨.op_data val specifier, priority, PQ_TERM_ATOM_TYPE ||| PQ_TERM_OPERATOR_TYPE⟩

/-- Source: `pq_new_functor_term`. -/
def pq_new_functor_term (h : pq_heap) (val : Bytes) (priority : Nat) (args : Option Ptr) :
    pq_heap × Ptr :=
  h.new_term ⟨.fun_data val args, priority, PQ_TERM_ATOM_TYPE ||| PQ_TERM_FUNCTOR_TYPE⟩

/-- Source: `pq_new_list_term`. -/
def pq_new_list_term (h : pq_heap) (items : Option Ptr) : pq_heap × Ptr :=
  h.new_term ⟨.list_items items, 0, PQ_TERM_ATOM_TYPE ||| PQ_TERM_LIST_TYPE⟩

/-- Source: `pq_new_list`. The `item` of the sentinel is not written. -/
def pq_new_list (h : pq_heap) : pq_heap × Ptr :=
  let nil := h.list_nodes.length
  ({ h with list_nodes := h.list_nodes ++ [⟨none, some nil, some nil⟩],
            lists := h.lists ++ [⟨nil, 0⟩] }, h.lists.length)

/-- Source: `pq_list_push_back`. `none` when `list` or its sentinel is not allocated. -/
def pq_list_push_back (h : pq_heap) (list : Ptr) (item : Option Ptr) : Option pq_heap :=
  match h.lists.get? list with
  | none => none
  | some l =>
    match h.list_nodes.get? l.nil with
    | none => none
    | some nil =>
      let node := h.list_nodes.length
      let list_nodes := h.list_nodes ++ [⟨item, nil.prev, some l.nil⟩]
      let list_nodes := list_nodes.set l.nil { nil with prev := some node }
      some { h with list_nodes := list_nodes,
                    lists := h.lists.set list { l with size := l.size + 1 } }

/-- Source: `pq_list_push_forward`. `none` when `list` or its sentinel is not allocated. -/
def pq_list_push_forward (h : pq_heap) (list : Ptr) (item : Option Ptr) : Option pq_heap :=
  match h.lists.get? list with
  | none => none
  | some l =>
    match h.list_nodes.get? l.nil with
    | none => none
    | some nil =>
      let node := h.list_nodes.length
      let list_nodes := h.list_nodes ++ [⟨item, some l.nil, nil.next⟩]
      let list_nodes := list_nodes.set l.nil { nil with next := some node }
      some { h with list_nodes := list_nodes,
                    lists := h.lists.set list { l with size := l.size + 1 } }

/-- The node that the `next` (resp. `prev`) field of the sentinel of `list` points to. -/
def pq_list_end_node (h : pq_heap) (list : Ptr) (front : Bool) : Option pq_list_node :=
  match h.lists.get? list with
  | none => none
  | some l =>
    match h.list_nodes.get? l.nil with
    | none => none
    | some nil =>
      match (if front then nil.next else nil.prev) with
      | none => none
      | some p => h.list_nodes.get? p

/-- Source: `pq_list_front`: the `item` of `list->nil->next`, when those are allocated. -/
def pq_list_front (h : pq_heap) (list : Ptr) : Option (Option Ptr) :=
  (pq_list_end_node h list true).map (fun n => n.item)

/-- Source: `pq_list_back`: the `item` of `list->nil->prev`, when those are allocated. -/
def pq_list_back (h : pq_heap) (list : Ptr) : Option (Option Ptr) :=
  (pq_list_end_node h list false).map (fun n => n.item)

/-- Source: `pq_new_syntax_tree_node`. -/
def pq_new_syntax_tree_node (h : pq_heap) (item : Option Ptr) : pq_heap × Ptr :=
  ({ h with nodes := h.nodes ++ [⟨item, none, none, none⟩] }, h.nodes.length)

/-- Source: `pq_new_syntax_tree_nil_node`. -/
def pq_new_syntax_tree_nil_node (h : pq_heap) : pq_heap × Ptr :=
  let node := h.nodes.length
  ({ h with nodes := h.nodes ++ [⟨none, some node, some node, none⟩] }, node)

/-- Source: `pq_new_syntax_tree`. -/
def pq_new_syntax_tree (h : pq_heap) : pq_heap × pq_syntax_tree :=
  let r := pq_new_syntax_tree_nil_node h
  (r.1, ⟨some r.2⟩)

/-- Source: `pq_syntax_tree_add_right_sibling_node`. `none` when a pointer that the
function dereferences is `NULL` or not allocated. -/
def pq_syntax_tree_add_right_sibling_node (h : pq_heap) (node : Option Ptr)
    (sibling : Option Ptr) : Option pq_heap :=
  match sibling with
  | none => some h
  | some sib =>
    match node with
    | none => none
    | some nd =>
      match h.nodes.get? sib, h.nodes.get? nd with
      | some s, some n =>
        -- sibling->prev = node; sibling->next = node->next;
        let nodes := h.nodes.set sib { s with prev := some nd, next := n.next }
        -- if(node->next) node->next->prev = sibling;
        match n.next with
        | none =>
          -- node->next = sibling;
          match nodes.get? nd with
          | some n1 => some { h with nodes := nodes.set nd { n1 with next := some sib } }
          | none => none
        | some nx =>
          match nodes.get? nx with
          | none => none
          | some x =>
            let nodes := nodes.set nx { x with prev := some sib }
            match nodes.get? nd with
            | some n1 => some { h with nodes := nodes.set nd { n1 with next := some sib } }
            | none => none
      | _, _ => none

/-- Source: `pq_syntax_tree_add_left_sibling_node`. `none` when a pointer that the
function dereferences is `NULL` or not allocated. -/
def pq_syntax_tree_add_left_sibling_node (h : pq_heap) (node : Option Ptr)
    (sibling : Option Ptr) : Option pq_heap :=
  match sibling with
  | none => some h
  | some sib =>
    match node with
    | none => none
    | some nd =>
      match h.nodes.get? sib, h.nodes.get? nd with
      | some s, some n =>
        let nodes := h.nodes.set sib { s with next := some nd, prev := n.prev }
        match n.prev with
        | none =>
          match nodes.get? nd with
          | some n1 => some { h with nodes := nodes.set nd { n1 with prev := some sib } }
          | none => none
        | some pv =>
          match nodes.get? pv with
          | none => none
          | some x =>
            let nodes := nodes.set pv { x with next := some sib }
            match nodes.get? nd with
            | some n1 => some { h with nodes := nodes.set nd { n1 with prev := some sib } }
            | none => none
      | _, _ => none

/-! ## pq_parser.c -/

/-- Source: `pq_syntax_name_is_spec_operator`; `strcmp(name, lit) == 0` is `name = cstr lit`. -/
def pq_syntax_name_is_spec_operator (name : Bytes) (spec : pq_op_specifier) : Bool :=
  match spec with
  | .PQ_OP_XFX =>
    name = cstr ":-" || name = cstr "-->"
    || name = cstr "=" || name = cstr "\\="
    || name = cstr "==" || name = cstr "\\==" || name = cstr "@<" || name = cstr "@=<"
    || name = cstr "@>" || name = cstr "@>="
    || name = cstr "==.."
    || name = cstr "is" || name = cstr "=:=" || name = cstr "=\\=" || name = cstr "<"
    || name = cstr "=<" || name = cstr ">" || name = cstr ">="
    || name = cstr "**"
  | .PQ_OP_XFY =>
    name = cstr ";" || name = cstr "->" || name = cstr "," || name = cstr "^"
  | .PQ_OP_YFX =>
    name = cstr "+" || name = cstr "-" || name = cstr "/\\" || name = cstr "\\/"
    || name = cstr "*" || name = cstr "/" || name = cstr "//" || name = cstr "rem"
    || name = cstr "mod" || name = cstr "<<" || name = cstr ">>"
  | .PQ_OP_FX =>
    name = cstr ":-" || name = cstr "?-"
  | .PQ_OP_FY =>
    name = cstr "\\+" || name = cstr "-" || name = cstr "\\"
  | _ => false

/-- Source: `pq_syntax_name_is_prefix_operator`. -/
def pq_syntax_name_is_prefix_operator (name : Bytes) : Bool :=
  pq_syntax_name_is_spec_operator name .PQ_OP_FX
  || pq_syntax_name_is_spec_operator name .PQ_OP_FY

/-- Source: `pq_syntax_name_is_operator`. -/
def pq_syntax_name_is_operator (name : Bytes) : Bool :=
  pq_syntax_name_is_spec_operator name .PQ_OP_FX
  || pq_syntax_name_is_spec_operator name .PQ_OP_FY
  || pq_syntax_name_is_spec_operator name .PQ_OP_XFX
  || pq_syntax_name_is_spec_operator name .PQ_OP_XFY
  || pq_syntax_name_is_spec_operator name .PQ_OP_YFX
  || pq_syntax_name_is_spec_operator name .PQ_OP_XF
  || pq_syntax_name_is_spec_operator name .PQ_OP_YF

/-- Source: `struct pq_parser` (named `pq_parser_rec` here). -/
structure pq_parser_rec where
  scanner : pq_scanner
  curr_tok : Option pq_tok
  err : Option Bytes
  deriving DecidableEq, Repr

/-- Source: `pq_new_parser` (named `pq_new_parser_rec` here). -/
def pq_new_parser_rec : pq_parser_rec := ⟨pq_new_scanner, none, none⟩

/-- Source: `pq_parser_set_buffer`. -/
def pq_parser_set_buffer (parser : pq_parser_rec) (buffer : Bytes) : pq_parser_rec :=
  { parser with scanner := pq_scanner_set_buffer parser.scanner buffer }

/-- The parser together with the heap its functions allocate in. -/
structure pq_state where
  parser : pq_parser_rec
  heap : pq_heap
  deriving DecidableEq, Repr

/-- The ways a run of the parser can fail to be a C outcome: the fuel of the model ran
out, or the C code has undefined behaviour (it dereferences `NULL`, or reads the string
member of a token that holds a number). -/
inductive pq_fault
  | out_of_fuel
  | undefined_behaviour
  deriving DecidableEq, Repr

/-- The result of a parser function: its return value and the state it leaves, or a fault. -/
inductive pq_res (α : Type)
  | ok (val : α) (st : pq_state)
  | fault (f : pq_fault)
  deriving DecidableEq, Repr

/-- Sequencing of parser steps. -/
def pq_res.bind {α β : Type} (r : pq_res α) (f : α → pq_state → pq_res β) : pq_res β :=
  match r with
  | .ok a st => f a st
  | .fault e => .fault e

/-- The assignment `parser->err = msg`. -/
def pq_state.set_err (st : pq_state) (msg : String) : pq_state :=
  { st with parser := { st.parser with err := some (cstr msg) } }

/-- Source: `pq_parser_next_token`; `sf` is the fuel of each scanner call. -/
def pq_parser_next_token (W : WCtype) (sf : Nat) (st : pq_state) : pq_res Unit :=
  match pq_scanner_next_token W sf st.parser.scanner with
  | none => .fault .out_of_fuel
  | some r => .ok () { st with parser := ⟨r.scanner, r.tok, r.err⟩ }

/-- The string member `val.s` of a token, when that is the member the scanner wrote. -/
def pq_tok.str (tok : pq_tok) : Option Bytes :=
  match tok.val with
  | .s v => some v
  | _ => none

/-- The statements `pq_term* term = node->item; term->priority = priority;`. `none` when
`node` or its item is `NULL` or not allocated. -/
def pq_heap.set_item_priority (h : pq_heap) (node : Option Ptr) (priority : Nat) :
    Option pq_heap :=
  match node with
  | none => none
  | some nd =>
    match h.nodes.get? nd with
    | none => none
    | some n =>
      match n.item with
      | none => none
      | some t =>
        match h.terms.get? t with
        | none => none
        | some term => some { h with terms := h.terms.set t { term with priority := priority } }

/-- The "check for negative numeric constant" of `pq_parse_prolog_prefix_op_or_functor_or_atom`:
`int_val *= -1` for a term with the integer flag, else `float_val *= -1.0` for a term
with the float flag. The flags are only ever set together with the matching member. The
scanner produces no integer below `-(2 ^ 63 - 1)`, so the negation does not overflow. -/
def pq_term.negate (t : pq_term) : pq_term :=
  if t.types &&& PQ_TERM_INTEGER_TYPE ≠ 0 then
    match t.data with
    | .int_val v => { t with data := .int_val (v * -1) }
    | _ => t
  else if t.types &&& PQ_TERM_FLOAT_TYPE ≠ 0 then
    match t.data with
    | .float_val v => { t with data := .float_val { v with neg := !v.neg } }
    | _ => t
  else t

/-- The statements `right_operand = right_operand_node->item;` and the negation of the
numeric constant. `none` when the node or its item is `NULL` or not allocated. -/
def pq_heap.negate_item (h : pq_heap) (node : Option Ptr) : Option pq_heap :=
  match node with
  | none => none
  | some nd =>
    match h.nodes.get? nd with
    | none => none
    | some n =>
      match n.item with
      | none => none
      | some t =>
        match h.terms.get? t with
        | none => none
        | some term => some { h with terms := h.terms.set t term.negate }

/-- The expression `node->item`. `none` when `node` is `NULL` or not allocated. -/
def pq_heap.node_item (h : pq_heap) (node : Option Ptr) : Option (Option Ptr) :=
  match node with
  | none => none
  | some nd => (h.nodes.get? nd).map (fun n => n.item)

/-- The value `priority - 1` stored in a `pq_priority` (`uint16_t`). -/
def pq_priority_dec (priority : Nat) : Nat := (priority + 65535) % 65536

/-- What `pq_parse_prolog_operand_or_arg_list` returns with `*node_type`:
the list for `"arg-list"`, the node for `"operand"`. -/
inductive pq_operand_or_arg_list
  | arg_list (list : Ptr)
  | operand (node : Option Ptr)
  deriving DecidableEq, Repr

/-- Lift a heap operation that dereferences pointers into a parser step. -/
def pq_state.with_heap {α : Type} (st : pq_state) (h : Option pq_heap)
    (k : pq_state → pq_res α) : pq_res α :=
  match h with
  | none => .fault .undefined_behaviour
  | some h => k { st with heap := h }

/-- Allocate with `mk` and continue with the new pointer. -/
def pq_state.alloc {α : Type} (st : pq_state) (mk : pq_heap → pq_heap × Ptr)
    (k : Ptr → pq_state → pq_res α) : pq_res α :=
  let r := mk st.heap
  k r.2 { st with heap := r.1 }

/-- The tail shared by the three infix branches of `pq_parse_prolog_term`: the operator
node is made and linked after the left operand, the right operand after the operator. -/
def pq_parse_link_infix_op (st : pq_state) (left_operand_node right_operand_node : Option Ptr)
    (op_name : Bytes) (spec : pq_op_specifier) : pq_res (Option Ptr) :=
  st.alloc (fun h => pq_new_operator_term h op_name 1201 spec) fun t st =>
  st.alloc (fun h => pq_new_syntax_tree_node h (some t)) fun op_node st =>
  st.with_heap (pq_syntax_tree_add_right_sibling_node st.heap left_operand_node (some op_node))
    fun st =>
  st.with_heap (pq_syntax_tree_add_right_sibling_node st.heap (some op_node) right_operand_node)
    fun st =>
  .ok left_operand_node st

/-- The tail shared by the two postfix branches of `pq_parse_prolog_term`. -/
def pq_parse_link_postfix_op (st : pq_state) (left_operand_node : Option Ptr)
    (op_name : Bytes) (spec : pq_op_specifier) : pq_res (Option Ptr) :=
  st.alloc (fun h => pq_new_operator_term h op_name 1201 spec) fun t st =>
  st.alloc (fun h => pq_new_syntax_tree_node h (some t)) fun op_node st =>
  st.with_heap (pq_syntax_tree_add_right_sibling_node st.heap left_operand_node (some op_node))
    fun st =>
  .ok left_operand_node st

/-- The tail shared by the two operand branches of
`pq_parse_prolog_prefix_op_or_functor_or_atom`: the negative numeric constant, or the
operator node followed by its right operand. -/
def pq_parse_link_prefix_operand (st : pq_state) (right_operand_node : Option Ptr)
    (op_name : Bytes) (op_spec : pq_op_specifier) : pq_res (Option Ptr) :=
  -- pq_term* right_operand = (pq_term*)right_operand_node->item;
  match st.heap.node_item right_operand_node with
  | none => .fault .undefined_behaviour
  | some _ =>
    if op_name = cstr "-" then
      st.with_heap (st.heap.negate_item right_operand_node) fun st => .ok right_operand_node st
    else
      st.alloc (fun h => pq_new_operator_term h op_name 1201 op_spec) fun t st =>
      st.alloc (fun h => pq_new_syntax_tree_node h (some t)) fun term_node st =>
      st.with_heap
        (pq_syntax_tree_add_right_sibling_node st.heap (some term_node) right_operand_node)
        fun st =>
      .ok (some term_node) st

/-- The test `tok->tag == PQ_NAME_TOK && pq_syntax_name_is_prefix_operator(tok->val.s)`;
`none` when the tag is `PQ_NAME_TOK` and the token holds no string. -/
def pq_tok.is_prefix_operator_name (tok : pq_tok) : Option Bool :=
  if tok.tag = .PQ_NAME_TOK then tok.str.map pq_syntax_name_is_prefix_operator else some false

/-- The test `parser->curr_tok && parser->curr_tok->tag == tag`. -/
def pq_state.curr_tag_is (st : pq_state) (tag : pq_tag) : Bool :=
  match st.parser.curr_tok with
  | none => false
  | some tok => tok.tag = tag

/-- The test `if(parser->err)`. -/
def pq_state.has_err (st : pq_state) : Bool := st.parser.err.isSome

mutual

/-- Source: `pq_parse_prolog_term`. -/
def pq_parse_prolog_term (W : WCtype) (sf : Nat) :
    Nat → Nat → pq_state → pq_res (Option Ptr)
  | 0, _, _ => .fault .out_of_fuel
  | fuel + 1, priority, st =>
    match st.parser.curr_tok with
    | none => .ok none (st.set_err "syntax error: expected a term.")
    | some tok =>
      if priority > 0 then
        match tok.is_prefix_operator_name with
        | none => .fault .undefined_behaviour
        | some true => pq_parse_prolog_prefix_op_or_functor_or_atom W sf fuel priority st
        | some false =>
          let priority := 1200
          (pq_parse_prolog_term W sf fuel 0 st).bind fun left_operand_node st =>
          if st.has_err then .ok none st
          else
            match st.parser.curr_tok with
            | none =>
              st.with_heap (st.heap.set_item_priority left_operand_node 1201) fun st =>
              .ok left_operand_node st
            | some tok =>
              if tok.tag = .PQ_END_TOK then .ok left_operand_node st
              else
                match tok.str with
                | none => .fault .undefined_behaviour
                | some op_name =>
                  if pq_syntax_name_is_spec_operator op_name .PQ_OP_XFX then
                    (pq_parser_next_token W sf st).bind fun _ st =>
                    (pq_parse_prolog_term W sf fuel (priority - 1) st).bind
                      fun right_operand_node st =>
                    if st.has_err then .ok none st
                    else pq_parse_link_infix_op st left_operand_node right_operand_node op_name
                      .PQ_OP_XFX
                  else if pq_syntax_name_is_spec_operator op_name .PQ_OP_XFY then
                    (pq_parser_next_token W sf st).bind fun _ st =>
                    (pq_parse_prolog_term W sf fuel priority st).bind
                      fun right_operand_node st =>
                    if st.has_err then .ok none st
                    else pq_parse_link_infix_op st left_operand_node right_operand_node op_name
                      .PQ_OP_XFY
                  else if pq_syntax_name_is_spec_operator op_name .PQ_OP_YFX then
                    (pq_parser_next_token W sf st).bind fun _ st =>
                    (pq_parse_prolog_term W sf fuel priority st).bind
                      fun right_operand_node st =>
                    if st.has_err then .ok none st
                    else pq_parse_link_infix_op st left_operand_node right_operand_node op_name
                      .PQ_OP_YFX
                  else if pq_syntax_name_is_spec_operator op_name .PQ_OP_XF then
                    (pq_parser_next_token W sf st).bind fun _ st =>
                    pq_parse_link_postfix_op st left_operand_node op_name .PQ_OP_XF
                  else if pq_syntax_name_is_spec_operator op_name .PQ_OP_YF then
                    (pq_parser_next_token W sf st).bind fun _ st =>
                    pq_parse_link_postfix_op st left_operand_node op_name .PQ_OP_YF
                  else
                    st.with_heap (st.heap.set_item_priority left_operand_node 1201) fun st =>
                    .ok left_operand_node st
      else
        match tok.tag with
        | .PQ_LPAR_TOK =>
          (pq_parser_next_token W sf st).bind fun _ st =>
          (pq_parse_prolog_term W sf fuel 1201 st).bind fun term_node st =>
          if st.has_err then .ok none st
          else if !st.curr_tag_is .PQ_RPAR_TOK then
            .ok none (st.set_err "syntax error: expected a closing parenthesis")
          else
            (pq_parser_next_token W sf st).bind fun _ st =>
            st.with_heap (st.heap.set_item_priority term_node 0) fun st =>
            .ok term_node st
        | .PQ_INT_TOK =>
          match tok.val with
          | .i v =>
            st.alloc (fun h => pq_new_integer_term h v) fun t st =>
            st.alloc (fun h => pq_new_syntax_tree_node h (some t)) fun term_node st =>
            (pq_parser_next_token W sf st).bind fun _ st =>
            .ok (some term_node) st
          | _ => .fault .undefined_behaviour
        | .PQ_FLT_TOK =>
          match tok.val with
          | .f v =>
            st.alloc (fun h => pq_new_float_term h v) fun t st =>
            st.alloc (fun h => pq_new_syntax_tree_node h (some t)) fun term_node st =>
            (pq_parser_next_token W sf st).bind fun _ st =>
            .ok (some term_node) st
          | _ => .fault .undefined_behaviour
        | .PQ_VAR_TOK =>
          match tok.val with
          | .s v =>
            st.alloc (fun h => pq_new_variable_term h v) fun t st =>
            st.alloc (fun h => pq_new_syntax_tree_node h (some t)) fun term_node st =>
            (pq_parser_next_token W sf st).bind fun _ st =>
            .ok (some term_node) st
          | _ => .fault .undefined_behaviour
        | .PQ_LLIST_TOK =>
          (pq_parser_next_token W sf st).bind fun _ st =>
          if st.has_err then .ok none st
          else
            match st.parser.curr_tok with
            | none => .ok none (st.set_err "syntax error: expected the end of the list")
            | some tok =>
              if tok.tag = .PQ_RLIST_TOK then
                (pq_parser_next_token W sf st).bind fun _ st =>
                st.alloc (fun h => pq_new_list_term h none) fun t st =>
                st.alloc (fun h => pq_new_syntax_tree_node h (some t)) fun node st =>
                .ok (some node) st
              else
                (pq_parse_prolog_items W sf fuel st).bind fun items st =>
                if st.has_err then .ok none st
                else if st.curr_tag_is .PQ_RLIST_TOK then
                  (pq_parser_next_token W sf st).bind fun _ st =>
                  st.alloc (fun h => pq_new_list_term h items) fun t st =>
                  st.alloc (fun h => pq_new_syntax_tree_node h (some t)) fun node st =>
                  .ok (some node) st
                else .ok none (st.set_err "syntax error: expected the end of the list")
        | .PQ_LCURLY_TOK =>
          (pq_parser_next_token W sf st).bind fun _ st =>
          if st.has_err then .ok none st
          else
            match st.parser.curr_tok with
            | none => .ok none (st.set_err "syntax error: expected a closing curly bracket")
            | some tok =>
              if tok.tag = .PQ_RCURLY_TOK then
                (pq_parser_next_token W sf st).bind fun _ st =>
                st.alloc (fun h => pq_new_atom_term h (cstr "\x7b\x7d") 0) fun t st =>
                st.alloc (fun h => pq_new_syntax_tree_node h (some t)) fun term_node st =>
                .ok (some term_node) st
              else
                (pq_parser_next_token W sf st).bind fun _ st =>
                (pq_parse_prolog_term W sf fuel 1201 st).bind fun term_node st =>
                if st.has_err then .ok none st
                else if !st.curr_tag_is .PQ_RCURLY_TOK then
                  .ok none (st.set_err "syntax error: expected a closing curly bracket")
                else
                  (pq_parser_next_token W sf st).bind fun _ st =>
                  st.alloc pq_new_list fun arg_list st =>
                  match st.heap.node_item term_node with
                  | none => .fault .undefined_behaviour
                  | some item =>
                    st.with_heap (pq_list_push_back st.heap arg_list item) fun st =>
                    st.alloc (fun h => pq_new_functor_term h (cstr "\x7b\x7d") 0 (some arg_list))
                      fun t st =>
                    st.alloc (fun h => pq_new_syntax_tree_node h (some t)) fun node st =>
                    .ok (some node) st
        | .PQ_NAME_TOK =>
          match tok.str with
          | none => .fault .undefined_behaviour
          | some atom_id =>
            let atom_priority := if pq_syntax_name_is_operator atom_id then 1201 else 0
            (pq_parser_next_token W sf st).bind fun _ st =>
            if st.curr_tag_is .PQ_LPAR_TOK then
              (pq_parser_next_token W sf st).bind fun _ st =>
              (pq_parse_prolog_arg_list W sf fuel st).bind fun args st =>
              if st.has_err then .ok none st
              else if !st.curr_tag_is .PQ_RPAR_TOK then
                .ok none (st.set_err "syntax error: expected a closing parenthesis")
              else
                (pq_parser_next_token W sf st).bind fun _ st =>
                st.alloc (fun h => pq_new_functor_term h atom_id 0 args) fun t st =>
                st.alloc (fun h => pq_new_syntax_tree_node h (some t)) fun node st =>
                .ok (some node) st
            else
              st.alloc (fun h => pq_new_atom_term h atom_id atom_priority) fun t st =>
              st.alloc (fun h => pq_new_syntax_tree_node h (some t)) fun node st =>
              .ok (some node) st
        | _ => .ok none (st.set_err "syntax error: expected a term.")

/-- Source: `pq_parse_prolog_prefix_op_or_functor_or_atom`. -/
def pq_parse_prolog_prefix_op_or_functor_or_atom (W : WCtype) (sf : Nat) :
    Nat → Nat → pq_state → pq_res (Option Ptr)
  | 0, _, _ => .fault .out_of_fuel
  | fuel + 1, priority, st =>
    match (match st.parser.curr_tok with
           | none => some none
           | some tok =>
             match tok.is_prefix_operator_name with
             | none => none
             | some true => some tok.str
             | some false => some none) with
    | none => .fault .undefined_behaviour
    | some none => .ok none (st.set_err "syntax error: expected a prefix operator")
    | some (some op_name) =>
      let op_spec : pq_op_specifier :=
        if pq_syntax_name_is_spec_operator op_name .PQ_OP_FX then .PQ_OP_FX else .PQ_OP_FY
      let operand_priority : Nat :=
        if pq_syntax_name_is_spec_operator op_name .PQ_OP_FX then pq_priority_dec priority
        else priority
      (pq_parser_next_token W sf st).bind fun _ st =>
      if st.has_err then .ok none st
      else
        match st.parser.curr_tok with
        | none =>
          st.alloc (fun h => pq_new_atom_term h op_name 1201) fun t st =>
          st.alloc (fun h => pq_new_syntax_tree_node h (some t)) fun node st =>
          .ok (some node) st
        | some tok =>
          match tok.tag with
          | .PQ_LPAR_TOK =>
            (pq_parse_prolog_operand_or_arg_list W sf fuel operand_priority st).bind
              fun syntax_node st =>
            if st.has_err then .ok none st
            else
              match syntax_node with
              | none => .fault .undefined_behaviour
              | some (.arg_list arg_list) =>
                st.alloc (fun h => pq_new_functor_term h op_name 0 (some arg_list)) fun t st =>
                st.alloc (fun h => pq_new_syntax_tree_node h (some t)) fun node st =>
                .ok (some node) st
              | some (.operand right_operand_node) =>
                pq_parse_link_prefix_operand st right_operand_node op_name op_spec
          | .PQ_NAME_TOK | .PQ_INT_TOK | .PQ_FLT_TOK | .PQ_VAR_TOK | .PQ_LLIST_TOK
          | .PQ_LCURLY_TOK =>
            (pq_parse_prolog_term W sf fuel operand_priority st).bind
              fun right_operand_node st =>
            if st.has_err then .ok none st
            else pq_parse_link_prefix_operand st right_operand_node op_name op_spec
          | _ =>
            st.alloc (fun h => pq_new_atom_term h op_name 1201) fun t st =>
            st.alloc (fun h => pq_new_syntax_tree_node h (some t)) fun node st =>
            .ok (some node) st

/-- Source: `pq_parse_prolog_operand_or_arg_list`; `none` is the return value `NULL`. -/
def pq_parse_prolog_operand_or_arg_list (W : WCtype) (sf : Nat) :
    Nat → Nat → pq_state → pq_res (Option pq_operand_or_arg_list)
  | 0, _, _ => .fault .out_of_fuel
  | fuel + 1, priority, st =>
    (pq_parse_prolog_term W sf fuel 1201 st).bind fun syntax_node st =>
    if st.has_err then .ok none st
    else if st.curr_tag_is .PQ_COMMA_TOK then
      match st.heap.node_item syntax_node with
      | none => .fault .undefined_behaviour
      | some arg =>
        st.with_heap (st.heap.set_item_priority syntax_node 999) fun st =>
        st.alloc pq_new_list fun arg_list st =>
        st.with_heap (pq_list_push_back st.heap arg_list arg) fun st =>
        (pq_parse_prolog_arg_list_loop W sf fuel arg_list st).bind fun r st =>
        .ok (r.map fun l => .arg_list l) st
    else
      st.with_heap (st.heap.set_item_priority syntax_node priority) fun st =>
      .ok (some (.operand syntax_node)) st

/-- The loop `while(parser->curr_tok && parser->curr_tok->tag == PQ_COMMA_TOK)` of
`pq_parse_prolog_arg_list` and `pq_parse_prolog_operand_or_arg_list`, with the `return`
that follows it. -/
def pq_parse_prolog_arg_list_loop (W : WCtype) (sf : Nat) :
    Nat → Ptr → pq_state → pq_res (Option Ptr)
  | 0, _, _ => .fault .out_of_fuel
  | fuel + 1, arg_list, st =>
    if st.curr_tag_is .PQ_COMMA_TOK then
      (pq_parser_next_token W sf st).bind fun _ st =>
      (pq_parse_prolog_arg W sf fuel st).bind fun arg st =>
      if st.has_err then .ok none st
      else
        st.with_heap (pq_list_push_back st.heap arg_list arg) fun st =>
        pq_parse_prolog_arg_list_loop W sf fuel arg_list st
    else .ok (some arg_list) st

/-- Source: `pq_parse_prolog_arg_list`. -/
def pq_parse_prolog_arg_list (W : WCtype) (sf : Nat) :
    Nat → pq_state → pq_res (Option Ptr)
  | 0, _ => .fault .out_of_fuel
  | fuel + 1, st =>
    (pq_parse_prolog_arg W sf fuel st).bind fun arg st =>
    if st.has_err then .ok none st
    else
      st.alloc pq_new_list fun arg_list st =>
      st.with_heap (pq_list_push_back st.heap arg_list arg) fun st =>
      pq_parse_prolog_arg_list_loop W sf fuel arg_list st

/-- Source: `pq_parse_prolog_arg`; the value is the returned `pq_term*`. -/
def pq_parse_prolog_arg (W : WCtype) (sf : Nat) :
    Nat → pq_state → pq_res (Option Ptr)
  | 0, _ => .fault .out_of_fuel
  | fuel + 1, st =>
    match st.parser.curr_tok with
    | none => .ok none (st.set_err "syntax error: expected an argument")
    | some tok =>
      if tok.tag = .PQ_NAME_TOK ∧ tok.str.isSome then
        match tok.str with
        | none => .fault .undefined_behaviour
        | some atom_id =>
          (pq_parser_next_token W sf st).bind fun _ st =>
          st.alloc (fun h => pq_new_atom_term h atom_id 1201) fun t st =>
          .ok (some t) st
      else
        (pq_parse_prolog_term W sf fuel 999 st).bind fun term_node st =>
        if st.has_err then .ok none st
        else
          match st.heap.node_item term_node with
          | none => .fault .undefined_behaviour
          | some item => .ok item st

/-- Source: `pq_parse_prolog_items`. -/
def pq_parse_prolog_items (W : WCtype) (sf : Nat) :
    Nat → pq_state → pq_res (Option Ptr)
  | 0, _ => .fault .out_of_fuel
  | fuel + 1, st =>
    (pq_parse_prolog_arg W sf fuel st).bind fun arg st =>
    if st.has_err then .ok none st
    else
      st.alloc pq_new_list fun items st =>
      st.with_heap (pq_list_push_back st.heap items arg) fun st =>
      pq_parse_prolog_items_loop W sf fuel items st

/-- The `for(;;)` loop of `pq_parse_prolog_items`, with the `return` that follows it. -/
def pq_parse_prolog_items_loop (W : WCtype) (sf : Nat) :
    Nat → Ptr → pq_state → pq_res (Option Ptr)
  | 0, _, _ => .fault .out_of_fuel
  | fuel + 1, items, st =>
    match st.parser.curr_tok with
    | none => .ok (some items) st
    | some tok =>
      match tok.tag with
      | .PQ_COMMA_TOK =>
        (pq_parser_next_token W sf st).bind fun _ st =>
        (pq_parse_prolog_arg W sf fuel st).bind fun arg st =>
        if st.has_err then .ok none st
        else
          st.with_heap (pq_list_push_back st.heap items arg) fun st =>
          pq_parse_prolog_items_loop W sf fuel items st
      | .PQ_HT_SEP_TOK =>
        (pq_parser_next_token W sf st).bind fun _ st =>
        (pq_parse_prolog_arg W sf fuel st).bind fun arg st =>
        if st.has_err then .ok none st
        else
          st.with_heap (pq_list_push_back st.heap items arg) fun st =>
          .ok (some items) st
      | _ => .ok (some items) st

end

/-- Source: `pq_parse_prolog_text`. -/
def pq_parse_prolog_text (W : WCtype) (sf : Nat) : Nat → pq_state → pq_res (Option Ptr)
  | 0, _ => .fault .out_of_fuel
  | fuel + 1, st =>
    match st.parser.curr_tok with
    | none => .ok none st
    | some _ =>
      (pq_parse_prolog_term W sf fuel 1200 st).bind fun term_node st =>
      if st.has_err then .ok none st
      else if st.curr_tag_is .PQ_END_TOK then
        (pq_parser_next_token W sf st).bind fun _ st =>
        if st.has_err then .ok none st
        else
          (pq_parse_prolog_text W sf fuel st).bind fun rest st =>
          st.with_heap (pq_syntax_tree_add_right_sibling_node st.heap term_node rest) fun st =>
          .ok term_node st
      else .ok none (st.set_err "syntax error: expected an end token.")

/-- Source: `pq_parser_parse`; the value is the returned tree. -/
def pq_parser_parse (W : WCtype) (sf fuel : Nat) (st : pq_state) : pq_res pq_syntax_tree :=
  st.alloc (fun h => let r := pq_new_syntax_tree_nil_node h; (r.1, r.2)) fun nil st =>
  (pq_parser_next_token W sf st).bind fun _ st =>
  (pq_parse_prolog_text W sf fuel st).bind fun _ st =>
  .ok ⟨some nil⟩ st

/-- A new parser on `buffer` with an empty heap: `pq_new_parser`, then `pq_parser_set_buffer`. -/
def pq_state.init (buffer : Bytes) : pq_state :=
  ⟨pq_parser_set_buffer pq_new_parser_rec buffer, pq_heap.empty⟩

/-! ## Observations on results and on the heap -/

/-- The calls `pq_parser_next_token(parser); pq_parse_prolog_text(parser);` that
`pq_parser_parse` makes, on a new parser over `buffer`; the value is the node that
`pq_parse_prolog_text` returns (and `pq_parser_parse` drops). -/
def pq_parse_buffer (W : WCtype) (sf fuel : Nat) (buffer : Bytes) : pq_res (Option Ptr) :=
  (pq_parser_next_token W sf (pq_state.init buffer)).bind fun _ st =>
  pq_parse_prolog_text W sf fuel st

/-- The returned value, when the run is a C outcome. -/
def pq_res.val? {α : Type} : pq_res α → Option α
  | .ok v _ => some v
  | .fault _ => none

/-- The heap at return, when the run is a C outcome. -/
def pq_res.heap? {α : Type} : pq_res α → Option pq_heap
  | .ok _ st => some st.heap
  | .fault _ => none

/-- The field `parser->err` at return, when the run is a C outcome. -/
def pq_res.err? {α : Type} : pq_res α → Option (Option Bytes)
  | .ok _ st => some st.parser.err
  | .fault _ => none

/-- The token `parser->curr_tok` at return, when the run is a C outcome. -/
def pq_res.curr_tok? {α : Type} : pq_res α → Option (Option pq_tok)
  | .ok _ st => some st.parser.curr_tok
  | .fault _ => none

/-- The term that the syntax tree node `node` holds. -/
def pq_heap.node_term (h : pq_heap) (node : Ptr) : Option pq_term :=
  match h.nodes.get? node with
  | none => none
  | some n =>
    match n.item with
    | none => none
    | some t => h.terms.get? t

/-- The nodes met from `node` on by following the `next` links, at most `fuel` of them. -/
def pq_heap.next_chain (h : pq_heap) : Nat → Option Ptr → List Ptr
  | 0, _ => []
  | _, none => []
  | fuel + 1, some p =>
    match h.nodes.get? p with
    | none => []
    | some n => p :: pq_heap.next_chain h fuel n.next

/-- The terms held by the sibling chain that starts at `node`. -/
def pq_heap.chain_terms (h : pq_heap) (node : Option Ptr) : List (Option pq_term) :=
  (h.next_chain h.nodes.length node).map h.node_term

/-- The items of the list nodes met from `p` on by following `next` (or `prev`, when
`use_next` is off) until the sentinel `nil` comes up; at most `fuel` nodes. -/
def pq_heap.list_walk (h : pq_heap) (nil : Ptr) (use_next : Bool) :
    Nat → Option Ptr → List (Option Ptr)
  | 0, _ => []
  | _, none => []
  | fuel + 1, some p =>
    if p = nil then []
    else
      match h.list_nodes.get? p with
      | none => []
      | some n => n.item :: pq_heap.list_walk h nil use_next fuel (if use_next then n.next else n.prev)

/-- The items of `list` in the order of the `next` links, from the sentinel on. -/
def pq_heap.list_items_by_next (h : pq_heap) (list : Ptr) : List (Option Ptr) :=
  match h.lists.get? list with
  | none => []
  | some l =>
    match h.list_nodes.get? l.nil with
    | none => []
    | some nil => h.list_walk l.nil true h.list_nodes.length nil.next

/-- The items of `list` read through the `prev` links from the sentinel back, listed
first item first. -/
def pq_heap.list_items_by_prev (h : pq_heap) (list : Ptr) : List (Option Ptr) :=
  match h.lists.get? list with
  | none => []
  | some l =>
    match h.list_nodes.get? l.nil with
    | none => []
    | some nil => (h.list_walk l.nil false h.list_nodes.length nil.prev).reverse

/-- The terms behind a list of item pointers. -/
def pq_heap.item_terms (h : pq_heap) (items : List (Option Ptr)) : List (Option pq_term) :=
  items.map fun i => i.bind fun t => h.terms.get? t

/-- The recorded size of `list`. -/
def pq_heap.list_size (h : pq_heap) (list : Ptr) : Option Nat := (h.lists.get? list).map (fun l => l.size)

/-! ## Vocabulary of the statements -/

/-- A C string of ASCII characters: every byte lies in `1 .. 127`. -/
def IsAscii (buf : Bytes) : Prop := ∀ b ∈ buf, 0 < b ∧ b < 128

instance (buf : Bytes) : Decidable (IsAscii buf) := by
  unfold IsAscii; infer_instance

/-- The characters that introduce an integer literal of base `base`: `0b`, `0o`, `0x`, or
nothing for a decimal literal. -/
def radix_intro (base : Nat) : Bytes :=
  if base = 2 then [48, 98] else if base = 8 then [48, 111]
  else if base = 16 then [48, 120] else []

/-- The character `c` is a digit of base `base`. -/
def is_digit_of (base c : Nat) : Bool :=
  match digit_val c with
  | some d => d < base
  | none => false

/-- The number that the digit string `d` denotes in base `base`. -/
def literal_value (base : Nat) (d : Bytes) : Nat :=
  Nat.ofDigits base ((d.map fun c => (digit_val c).getD 0).reverse)

/-- The character `r` that follows the digit string `d` of a literal of base `base` cannot
continue the literal: it is no digit of the base, and after a decimal literal it is no `.`
and, after the single digit `0`, no radix letter. -/
def ends_literal (base : Nat) (d : Bytes) (r : Nat) : Prop :=
  is_digit_of base r = false
  ∧ (base = 10 → r ≠ 46 ∧ (d = [48] → r ≠ 98 ∧ r ≠ 111 ∧ r ≠ 120))

/-- The scanner `s` reads the ASCII buffer `buf`, its lexeme starts at `b` and its current
character is the one at offset `e`. -/
structure ScanPos (buf : Bytes) (b e : Nat) (s : pq_scanner) : Prop where
  buffer : s.buffer = buf
  buffer_sz : s.buffer_sz = buf.length
  beg : s.beg = b
  end_ : s.end_ = e
  cp : s.cp = buf.getD e 0
  cp_bytes : s.cp_bytes = 1

/-- The term is an operator term with an infix specifier. -/
def pq_term.is_infix_op (t : pq_term) : Bool :=
  match t.data with
  | .op_data _ spec =>
    decide (spec = .PQ_OP_XFX) || decide (spec = .PQ_OP_XFY) || decide (spec = .PQ_OP_YFX)
  | _ => false

/-- No term of the heap has a priority above 1201, and every infix operator term has the
priority 1201. -/
def pq_heap.priorities_ok (h : pq_heap) : Prop :=
  ∀ t ∈ h.terms, t.priority ≤ 1201 ∧ (t.is_infix_op = true → t.priority = 1201)

/-- The node, when it is not `NULL`, is allocated and holds an allocated term that is no infix
operator. -/
def pq_heap.operand_node (h : pq_heap) (node : Option Ptr) : Prop :=
  ∀ nd, node = some nd → ∃ n ti t, h.nodes.get? nd = some n ∧ n.item = some ti
    ∧ h.terms.get? ti = some t ∧ t.is_infix_op = false

/-- The priorities of the heap are in order and the nodes of `G` hold no infix operator. -/
def pq_heap.ok_with (h : pq_heap) (G : List (Option Ptr)) : Prop :=
  h.priorities_ok ∧ ∀ nd ∈ G, h.operand_node nd

/-- The property `Q` holds of the value and the state of a result that is a C outcome. -/
def pq_res.holds {α : Type} (r : pq_res α) (Q : α → pq_state → Prop) : Prop :=
  match r with
  | .ok v st => Q v st
  | .fault _ => True

/-- The node that `pq_parse_prolog_operand_or_arg_list` returns as an operand. -/
def pq_operand_or_arg_list.node? : Option pq_operand_or_arg_list → Option Ptr
  | some (.operand node) => node
  | _ => none

/-- Every node of `l` is a node of `l2` with the same item. -/
def nodes_ext (l l2 : List pq_syntax_tree_node) : Prop :=
  ∀ nd n, l.get? nd = some n → ∃ n2, l2.get? nd = some n2 ∧ n2.item = n.item

/-- The right operand of an operator with the specifier `spec` is an `x` operand (`true`) or a
`y` operand (`false`); postfix operators have none. -/
def pq_op_specifier.right_is_x : pq_op_specifier → Option Bool
  | .PQ_OP_XFX => some true
  | .PQ_OP_XFY => some false
  | .PQ_OP_YFX => some true
  | .PQ_OP_FX => some true
  | .PQ_OP_FY => some false
  | .PQ_OP_XF => none
  | .PQ_OP_YF => none

/-- The rule of the spec for an operand of an operator of priority `p`: an `x` operand has a
priority below `p`, a `y` operand a priority of at most `p`. -/
def pq_operand_priority_ok (is_x : Bool) (p operand : Nat) : Bool :=
  if is_x then decide (operand < p) else decide (operand ≤ p)

/-- The rule of the spec checked for the operator in `op_node` and the term of the node that
its `next` link points to, its right operand. -/
def pq_heap.right_operand_rule (h : pq_heap) (op_node : Ptr) : Option Bool :=
  match h.nodes.get? op_node, h.node_term op_node with
  | some n, some t =>
    match t.data, n.next with
    | .op_data _ spec, some nx =>
      match spec.right_is_x, h.node_term nx with
      | some is_x, some r => some (pq_operand_priority_ok is_x t.priority r.priority)
      | _, _ => none
    | _, _ => none
  | _, _ => none

/-- The term with its priority field cleared. -/
def pq_term.erase_priority (t : pq_term) : pq_term := { t with priority := 0 }

/-- The heap with the priority field of every term cleared. -/
def pq_heap.erase_priorities (h : pq_heap) : pq_heap :=
  { h with terms := h.terms.map pq_term.erase_priority }

/-- Successive calls of `pq_scanner_next_token` from `s` on return the tokens `toks`, each
without an error, and then `NULL` without an error: the end of the buffer. -/
def pq_scanner_yields (W : WCtype) (sf : Nat) : pq_scanner → List pq_tok → Bool
  | s, [] =>
    match pq_scanner_next_token W sf s with
    | some ⟨none, none, _⟩ => true
    | _ => false
  | s, tok :: toks =>
    match pq_scanner_next_token W sf s with
    | some ⟨some t, none, s1⟩ => decide (t = tok) && pq_scanner_yields W sf s1 toks
    | _ => false

/-- The scanner of a new parser on `buffer` returns the tokens `toks` and then the end of the
buffer. -/
def pq_buffer_yields (W : WCtype) (sf : Nat) (buffer : Bytes) (toks : List pq_tok) : Bool :=
  pq_scanner_yields W sf (pq_scanner_set_buffer pq_new_scanner buffer) toks

/-- The number of `fx` operators among the prefix operator names that `toks` starts with. -/
def pq_leading_fx : List pq_tok → Nat
  | [] => 0
  | tok :: toks =>
    match tok.is_prefix_operator_name, tok.str with
    | some true, some name =>
      (if pq_syntax_name_is_spec_operator name .PQ_OP_FX then 1 else 0) + pq_leading_fx toks
    | _, _ => 0

/-- The token that the scanner returns for `(`. -/
def pq_lpar_tok : pq_tok := pq_new_str_literal_token .PQ_LPAR_TOK [40] 0

/-- The token that the scanner returns for `)`. -/
def pq_rpar_tok : pq_tok := pq_new_str_literal_token .PQ_RPAR_TOK [41] 0

/-- The token that the scanner returns for an end `.`. -/
def pq_end_tok : pq_tok := pq_new_str_literal_token .PQ_END_TOK [46] 0

/-- The property `P` holds of the value of a result that is a C outcome without an error. -/
def pq_res.gives {α : Type} (r : pq_res α) (P : α → Prop) : Prop :=
  r.holds (fun v st => st.has_err = false → P v)

/-- The two tokens that close a term: the end token `dot`, and the token `rpar` of a closing
parenthesis, whose text is no operator. -/
structure pq_closing (dot rpar : pq_tok) : Prop where
  dot_tag : dot.tag = .PQ_END_TOK
  rpar_tag : rpar.tag = .PQ_RPAR_TOK
  rpar_str : ∃ name, rpar.str = some name ∧ pq_syntax_name_is_operator name = false

/-- Two parsers at the same place of a token sequence that goes on with `rest` and is closed
by `dot` for the first and by `rpar`, `dot` for the second: neither has an error, and their
heaps differ at most in priority fields. No token of `rest` is an end token. -/
structure pq_sim (W : WCtype) (sf : Nat) (dot rpar : pq_tok) (rest : List pq_tok)
    (st1 st2 : pq_state) : Prop where
  err1 : st1.parser.err = none
  err2 : st2.parser.err = none
  cur1 : st1.parser.curr_tok = (rest ++ [dot]).head?
  cur2 : st2.parser.curr_tok = (rest ++ [rpar, dot]).head?
  sc1 : pq_scanner_yields W sf st1.parser.scanner (rest ++ [dot]).tail = true
  sc2 : pq_scanner_yields W sf st2.parser.scanner (rest ++ [rpar, dot]).tail = true
  heap : st1.heap.erase_priorities = st2.heap.erase_priorities
  noend : ∀ t ∈ rest, t.tag ≠ .PQ_END_TOK

/-- When the first run is a C outcome without an error, the second run is one with the same
value, and the two parsers are again at the same place with heaps that differ at most in
priority fields. -/
structure pq_res.sim (W : WCtype) (sf : Nat) (dot rpar : pq_tok) {α : Type}
    (r1 r2 : pq_res α) : Prop where
  out : ∀ v st1, r1 = .ok v st1 → st1.has_err = false →
    ∃ st2 rest, r2 = .ok v st2 ∧ pq_sim W sf dot rpar rest st1 st2

/-- The priorities `p1` and `p2` passed to the two runs are the same, or both are above the
number of `fx` operators that the tokens start with. -/
def pq_priority_rel (rest : List pq_tok) (p1 p2 : Nat) : Prop :=
  p1 = p2 ∨ (pq_leading_fx rest < p1 ∧ pq_leading_fx rest < p2 ∧ p1 ≤ 1201 ∧ p2 ≤ 1201)

/-- The token that the scanner returns for the name `:-`. -/
def pq_neck_tok : pq_tok := pq_new_str_token .PQ_NAME_TOK [58, 45] 0

/-- The token that the scanner returns for the name `a`. -/
def pq_a_tok : pq_tok := pq_new_str_token .PQ_NAME_TOK [97] 0

/-- The text ` :-` written `k` times. -/
def pq_neck_blocks : Nat → Bytes
  | 0 => []
  | k + 1 => 32 :: 58 :: 45 :: pq_neck_blocks k

/-- The text ` :-` written `k` times and then `(a).`: the last `:-` is followed by a
parenthesis. -/
def pq_neck_buffer (k : Nat) : Bytes := pq_neck_blocks k ++ [40, 97, 41, 46]

/-- The text of `pq_neck_buffer k` in parentheses, before its end `.`. -/
def pq_neck_buffer_paren (k : Nat) : Bytes := 40 :: (pq_neck_blocks k ++ [40, 97, 41, 41, 46])

/-- The tokens of `pq_neck_buffer k` before the end token. -/
def pq_neck_tokens (k : Nat) : List pq_tok :=
  List.replicate k pq_neck_tok ++ [pq_lpar_tok, pq_a_tok, pq_rpar_tok]

/-- The operator term that the parser makes for a prefix `:-`. -/
def pq_neck_term : pq_term :=
  ⟨.op_data [58, 45] .PQ_OP_FX, 1201, PQ_TERM_ATOM_TYPE ||| PQ_TERM_OPERATOR_TYPE⟩

/-- The data of the term at index `i` of the heap: its kind with its name or value. -/
def pq_heap.term_data (h : pq_heap) (i : Ptr) : Option pq_term_data :=
  (h.terms.get? i).map (fun t => t.data)

/-! ## Scanner passes, texts of UTF-8 characters and blank texts -/

/-- The state and the scanner after `n` passes through the loop of `pq_scanner_next_token`
that start in `state`, when none of these passes returns or stores an error. -/
def pq_scanner_run (W : WCtype) :
    Nat → pq_scanner_state → pq_scanner → Option (pq_scanner_state × pq_scanner)
  | 0, state, scanner => some (state, scanner)
  | n + 1, state, scanner =>
    match pq_scanner_switch W state scanner with
    | .next state none scanner => pq_scanner_run W n state (pq_scanner_forward scanner 1)
    | _ => none

/-- A character of a buffer: its code point and the bytes that stand for it. -/
structure pq_char where
  cp : Nat
  bytes : Bytes
  deriving DecidableEq, Repr

/-- The decoder reads the bytes of the character as its code point, and the code point is
not the NUL that ends a buffer. -/
def pq_char_ok (c : pq_char) : Prop :=
  c.cp ≠ 0 ∧ pq_utf8_to_cp c.bytes 0 = some (c.cp, c.bytes.length)

instance (c : pq_char) : Decidable (pq_char_ok c) := by
  unfold pq_char_ok; infer_instance

/-- The bytes of a text given as a list of characters. -/
def pq_chars_bytes (cs : List (pq_char)) : Bytes := cs.flatMap (fun c => c.bytes)

/-- The code point that the scanner holds in front of the characters `cs`: that of the
first character, or the NUL at the end of the buffer. -/
def pq_chars_cp (cs : List (pq_char)) : Nat := (cs.head?.map (fun c => c.cp)).getD 0

/-- The length that the scanner holds in front of the characters `cs`: that of the first
character, or the `1` of the NUL at the end of the buffer. -/
def pq_chars_cp_bytes (cs : List (pq_char)) : Int :=
  (cs.head?.map (fun c => (c.bytes.length : Int))).getD 1

/-- The scanner `s` reads `buf`, its lexeme starts at `b`, it is at offset `e`, and the text
from `e` on is the characters `cs`, whose first code point and length it holds. -/
structure CharPos (buf : Bytes) (b e : Nat) (cs : List (pq_char)) (s : pq_scanner) :
    Prop where
  buffer : s.buffer = buf
  buffer_sz : s.buffer_sz = buf.length
  beg : s.beg = b
  end_ : s.end_ = e
  rest : buf.drop e = pq_chars_bytes cs
  cp : s.cp = pq_chars_cp cs
  cp_bytes : s.cp_bytes = pq_chars_cp_bytes cs

/-- The code points hold a `*` that is directly followed by a `/`. -/
def pq_comment_closes : List Nat → Bool
  | [] => false
  | c :: cs => (c == 42 && cs.head? == some 47) || pq_comment_closes cs

/-- Text that the scanner passes over in front of a token: layout characters, `%` comments
up to and with the newline character that ends them, and `/*` comments up to and with the
first `*/` behind the opening. -/
inductive pq_blank_text (W : WCtype) : List pq_char → Prop
  | nil : pq_blank_text W []
  | layout (c : pq_char) (cs : List pq_char) :
    pq_is_unicode_layout_char W c.cp = true → pq_blank_text W cs → pq_blank_text W (c :: cs)
  | line_comment (p : pq_char) (body : List pq_char) (nl : pq_char) (cs : List pq_char) :
    p.cp = 37 → (∀ c ∈ body, pq_is_unicode_newline_char W c.cp = false) →
    pq_is_unicode_newline_char W nl.cp = true → pq_blank_text W cs →
    pq_blank_text W (p :: (body ++ nl :: cs))
  | block_comment (p1 p2 : pq_char) (body : List pq_char) (q1 q2 : pq_char)
    (cs : List pq_char) :
    p1.cp = 47 → p2.cp = 42 → pq_comment_closes (body.map fun c => c.cp) = false →
    q1.cp = 42 → q2.cp = 47 → pq_blank_text W cs →
    pq_blank_text W (p1 :: p2 :: (body ++ q1 :: q2 :: cs))

/-- A buffer of layout characters and comments only: text that the scanner passes over,
which may end with a `%` comment that runs to the end of the buffer. -/
def pq_blank_buffer (W : WCtype) (cs : List pq_char) : Prop :=
  pq_blank_text W cs ∨
    ∃ pre p body, cs = pre ++ p :: body ∧ pq_blank_text W pre ∧ p.cp = 37
      ∧ ∀ c ∈ body, pq_is_unicode_newline_char W c.cp = false

/-- The text of a scanner error: the line and column in brackets, then the message. -/
def pq_scanner_error_text (ln col : Nat) (msg : Bytes) : Bytes :=
  cstr "[ln " ++ sprintf_lu ln ++ cstr " col " ++ sprintf_lu col ++ cstr "] error, " ++ msg

/-- The messages of the errors that `pq_scanner_next_token` stores. The message
`unhandled scanner state` of the `default` label is left out: every value of the state
variable has a `case` label. -/
def pq_scanner_messages : List Bytes :=
  [cstr "unrecognized character", cstr "expected end of multi-line comment",
    cstr "expected closing quotation", cstr "unrecognized quote character",
    cstr "illegal escape sequence character",
    cstr "unrecognized octal escape sequence character",
    cstr "unrecognized hexadecimal escape sequence character"]

/-- The state that a run leaves, when the run is a C outcome. -/
def pq_res.state? {α : Type} : pq_res α → Option pq_state
  | .ok _ st => some st
  | .fault _ => none

/-- The state after `pq_parser_next_token`, when the call is a C outcome. -/
def pq_state.fetch (W : WCtype) (sf : Nat) (st : pq_state) : pq_state :=
  ((pq_parser_next_token W sf st).state?).getD st

/-! ## UTF-8 sequences, the operator table, escape sequences and the sentinel of the tree -/

/-- A byte in the range `0x80..0xBF` of the continuation bytes. -/
def utf8_continuation (b : Nat) : Prop := 0x80 ≤ b ∧ b ≤ 0xBF

instance (b : Nat) : Decidable (utf8_continuation b) := by
  unfold utf8_continuation
  infer_instance

/-- The length that the first byte `b0` announces when the continuation bytes it needs
follow in `b1`, `b2` and `b3`; `none` for every other sequence. -/
def utf8_sequence_length (b0 b1 b2 b3 : Nat) : Option Nat :=
  if b0 < 0x80 then some 1
  else if 0xC0 ≤ b0 ∧ b0 < 0xE0 ∧ utf8_continuation b1 then some 2
  else if 0xE0 ≤ b0 ∧ b0 < 0xF0 ∧ utf8_continuation b1 ∧ utf8_continuation b2 then some 3
  else if 0xF0 ≤ b0 ∧ b0 < 0xF8 ∧ utf8_continuation b1 ∧ utf8_continuation b2
      ∧ utf8_continuation b3 then some 4
  else none

/-- The names listed for each specifier, without `=..`: the table of the built-in operators
with `;` under `xfy` only. -/
def pq_operator_table : pq_op_specifier → List String
  | .PQ_OP_XFX => [":-", "-->", "=", "\\=", "==", "\\==", "@<", "@=<", "@>", "@>=", "is", "=:=",
      "=\\=", "<", "=<", ">", ">=", "**"]
  | .PQ_OP_XFY => [";", "->", ",", "^"]
  | .PQ_OP_YFX => ["+", "-", "/\\", "\\/", "*", "/", "//", "rem", "mod", "<<", ">>"]
  | .PQ_OP_FX => [":-", "?-"]
  | .PQ_OP_FY => ["\\+", "-", "\\"]
  | _ => []

/-- The links of the node point to nodes that were allocated after node `root`. -/
def pq_syntax_tree_node.after (n : pq_syntax_tree_node) (root : Ptr) : Prop :=
  (∀ p, n.next = some p → root < p) ∧ (∀ p, n.prev = some p → root < p)

/-- Node `root` is the sentinel of an empty list of children: it has no item and both of its
links point to itself. The links of the nodes allocated after it point to nodes allocated
after it. -/
def pq_heap.keeps_nil (h : pq_heap) (root : Ptr) : Prop :=
  h.nodes.get? root = some ⟨none, some root, some root, none⟩
    ∧ ∀ j n, root < j → h.nodes.get? j = some n → n.after root

/-- The heap keeps the sentinel `root`, and the nodes of `G` were allocated after it. -/
def pq_heap.nil_with (h : pq_heap) (root : Ptr) (G : List (Option Ptr)) : Prop :=
  h.keeps_nil root ∧ ∀ nd ∈ G, ∀ p, nd = some p → root < p

/-! ## Lists, children of tree nodes, positions in a text, the measure of the scanner and argument lists -/

/-- Calls of `pq_list_push_back` on `list`, one for each item, in order. -/
def pq_list_push_back_all (h : pq_heap) (list : Ptr) : List (Option Ptr) → Option pq_heap
  | [] => some h
  | x :: xs => (pq_list_push_back h list x).bind fun h1 => pq_list_push_back_all h1 list xs

/-- The list `list` of the heap has the sentinel `nil` and the recorded size `k`; the `next`
link of the sentinel points to the sentinel, and its `prev` link to a node with the item
`last`. -/
structure pq_pushed_list (h : pq_heap) (list nil : Ptr) (k : Nat) (last : Option Ptr) :
    Prop where
  list : h.lists.get? list = some ⟨nil, k⟩
  sentinel : ∃ pv, h.list_nodes.get? nil = some ⟨none, some pv, some nil⟩
    ∧ (h.list_nodes.get? pv).map (fun n => n.item) = some last

/-- Source: `pq_syntax_tree_add_left_child_node`. `none` when a pointer that the function
dereferences is `NULL` or not allocated. -/
def pq_syntax_tree_add_left_child_node (h : pq_heap) (node : Option Ptr)
    (child : Option Ptr) : Option pq_heap :=
  match child with
  | none => some h
  | some ch =>
    match node with
    | none => none
    | some nd =>
      match h.nodes.get? nd with
      | none => none
      | some n =>
        -- if(!node->children_nil) node->children_nil = pq_new_syntax_tree_nil_node();
        let r : pq_heap × Ptr :=
          match n.children_nil with
          | some nil => (h, nil)
          | none =>
            let r := pq_new_syntax_tree_nil_node h
            ({ r.1 with nodes := r.1.nodes.set nd { n with children_nil := some r.2 } }, r.2)
        let h := r.1
        let nil := r.2
        match h.nodes.get? ch, h.nodes.get? nil with
        | some c, some s =>
          -- child->prev = node->children_nil; child->next = node->children_nil->next;
          let nodes := h.nodes.set ch { c with prev := some nil, next := s.next }
          -- node->children_nil->next->prev = child;
          match (nodes.get? nil).bind (fun s1 => s1.next) with
          | none => none
          | some nx =>
            match nodes.get? nx with
            | none => none
            | some x =>
              let nodes := nodes.set nx { x with prev := some ch }
              -- node->children_nil->next = child;
              match nodes.get? nil with
              | some s2 => some { h with nodes := nodes.set nil { s2 with next := some ch } }
              | none => none
        | _, _ => none

/-- Source: `pq_syntax_tree_add_left_child`. -/
def pq_syntax_tree_add_left_child (h : pq_heap) (node : Option Ptr) (item : Option Ptr) :
    Option pq_heap :=
  let r := pq_new_syntax_tree_node h item
  pq_syntax_tree_add_left_child_node r.1 node (some r.2)

/-- Source: `pq_syntax_tree_add_right_child_node`. `none` when a pointer that the function
dereferences is `NULL` or not allocated. -/
def pq_syntax_tree_add_right_child_node (h : pq_heap) (node : Option Ptr)
    (child : Option Ptr) : Option pq_heap :=
  match child with
  | none => some h
  | some ch =>
    match node with
    | none => none
    | some nd =>
      match h.nodes.get? nd with
      | none => none
      | some n =>
        -- if(!node->children_nil) node->children_nil = pq_new_syntax_tree_nil_node();
        let r : pq_heap × Ptr :=
          match n.children_nil with
          | some nil => (h, nil)
          | none =>
            let r := pq_new_syntax_tree_nil_node h
            ({ r.1 with nodes := r.1.nodes.set nd { n with children_nil := some r.2 } }, r.2)
        let h := r.1
        let nil := r.2
        match h.nodes.get? ch, h.nodes.get? nil with
        | some c, some s =>
          -- child->next = node->children_nil; child->prev = node->children_nil->prev;
          let nodes := h.nodes.set ch { c with next := some nil, prev := s.prev }
          -- node->children_nil->prev->next = child;
          match (nodes.get? nil).bind (fun s1 => s1.prev) with
          | none => none
          | some pv =>
            match nodes.get? pv with
            | none => none
            | some x =>
              let nodes := nodes.set pv { x with next := some ch }
              -- node->children_nil->prev = child;
              match nodes.get? nil with
              | some s2 => some { h with nodes := nodes.set nil { s2 with prev := some ch } }
              | none => none
        | _, _ => none

/-- Source: `pq_syntax_tree_add_right_child`. -/
def pq_syntax_tree_add_right_child (h : pq_heap) (node : Option Ptr) (item : Option Ptr) :
    Option pq_heap :=
  let r := pq_new_syntax_tree_node h item
  pq_syntax_tree_add_right_child_node r.1 node (some r.2)

/-- Source: `pq_syntax_tree_is_leaf`:
`node->children_nil == NULL || node->children_nil->next == node->children_nil->prev`.
`none` when a pointer that the function dereferences is not allocated. -/
def pq_syntax_tree_is_leaf (h : pq_heap) (node : Ptr) : Option Bool :=
  match h.nodes.get? node with
  | none => none
  | some n =>
    match n.children_nil with
    | none => some true
    | some nil =>
      match h.nodes.get? nil with
      | none => none
      | some s => some (s.next == s.prev)

/-- The nodes met along the `next` links from `p` until the sentinel `nil`. -/
def pq_heap.node_walk (h : pq_heap) (nil : Ptr) : Nat → Option Ptr → List Ptr
  | 0, _ => []
  | _, none => []
  | fuel + 1, some p =>
    if p = nil then []
    else
      match h.nodes.get? p with
      | none => []
      | some n => p :: pq_heap.node_walk h nil fuel n.next

/-- The children of `node`, leftmost first: the nodes between the two ends of the ring of
its sentinel; none when the node has no sentinel. -/
def pq_heap.children (h : pq_heap) (node : Ptr) : List Ptr :=
  match (h.nodes.get? node).bind (fun n => n.children_nil) with
  | none => []
  | some nil =>
    match h.nodes.get? nil with
    | none => []
    | some s => h.node_walk nil h.nodes.length s.next

/-- The items of the children of `node`, leftmost first. -/
def pq_heap.child_items (h : pq_heap) (node : Ptr) : List (Option Ptr) :=
  (h.children node).map fun p => (h.nodes.get? p).bind fun n => n.item

/-- The number of newline characters that lie before offset `e` of the buffer: the count
that the specification gives for the line of the scanner, less one. -/
def pq_newlines_before (buffer : Bytes) (e : Nat) : Nat := (buffer.take e).count 10

/-- The scanner `s` reads the buffer of the characters `pre ++ rest`, which the decoder
accepts, and its offset `end` is behind `pre`. -/
structure TextAt (pre rest : List pq_char) (s : pq_scanner) : Prop where
  ok : ∀ c ∈ pre ++ rest, pq_char_ok c
  buffer : s.buffer = pq_chars_bytes (pre ++ rest)
  buffer_sz : s.buffer_sz = (pq_chars_bytes (pre ++ rest)).length
  end_ : s.end_ = (pq_chars_bytes pre).length

/-- The scanner `s` is behind `pre` in the buffer of the characters `pre ++ rest` and holds
the code point and the length of the first character of `rest`, or the NUL that ends the
buffer. -/
structure TextPos (pre rest : List pq_char) (s : pq_scanner) : Prop where
  pos : TextAt pre rest s
  cp : s.cp = pq_chars_cp rest
  cp_bytes : s.cp_bytes = pq_chars_cp_bytes rest

/-- The argument list of a functor term; `none` for a term of another kind. -/
def pq_term.fun_args (t : pq_term) : Option (Option Ptr) :=
  match t.data with
  | .fun_data _ args => some args
  | _ => none

/-- The list behind the pointer, when it is not `NULL`, is allocated and its recorded size is
at least 1. -/
def pq_heap.list_filled (h : pq_heap) (list : Option Ptr) : Prop :=
  ∀ l, list = some l → ∃ lst, h.lists.get? l = some lst ∧ 1 ≤ lst.size

/-- Every functor term of the heap has an argument list that is not `NULL`, is allocated and
has a recorded size of at least 1. -/
def pq_heap.functors_ok (h : pq_heap) : Prop :=
  ∀ t ∈ h.terms, ∀ args, t.fun_args = some args → args.isSome = true ∧ h.list_filled args

/-- The functor terms of the heap have their argument lists, and the lists of `G` have a
recorded size of at least 1. -/
def pq_heap.fun_with (h : pq_heap) (G : List (Option Ptr)) : Prop :=
  h.functors_ok ∧ ∀ l ∈ G, h.list_filled l

/-- What a function that returns an argument list leaves: the list `v` is among the lists
with a recorded size of at least 1, and it is not `NULL` unless the parser has an error. -/
def pq_heap.fun_res (h : pq_heap) (err : Bool) (v : Option Ptr) (G : List (Option Ptr)) :
    Prop :=
  h.fun_with (v :: G) ∧ (err = false → v.isSome = true)

/-- The list that `pq_parse_prolog_operand_or_arg_list` returns as an argument list. -/
def pq_operand_or_arg_list.list? : Option pq_operand_or_arg_list → Option Ptr
  | some (.arg_list l) => some l
  | _ => none

/-! # Theorems -/

/-! ## Arithmetic on `size_t` and ASCII buffers -/


theorem size_dec_pos {x : Nat} (h : 0 < x) : size_dec x = x - 1 := by
  unfold size_dec; split <;> omega

theorem size_add_nat (x k : Nat) : size_add x (k : Int) = x + k := by
  unfold size_add; simp

theorem size_add_one (x : Nat) : size_add x 1 = x + 1 := by
  have := size_add_nat x 1; simpa using this

theorem size_sub_le {a b : Nat} (h : b ≤ a) : size_sub a b = a - b := by
  unfold size_sub; simp [h]

theorem IsAscii.getD_lt {buf : Bytes} (h : IsAscii buf) (i : Nat) : buf.getD i 0 < 128 := by
  by_cases hi : i < buf.length
  · rw [List.getD_eq_getElem _ _ hi]; exact (h _ (List.getElem_mem hi)).2
  · rw [List.getD_eq_default _ _ (by omega)]; omega

theorem IsAscii.getD_pos {buf : Bytes} (h : IsAscii buf) {i : Nat} (hi : i < buf.length) :
    0 < buf.getD i 0 := by
  rw [List.getD_eq_getElem _ _ hi]; exact (h _ (List.getElem_mem hi)).1

theorem IsAscii.drop {buf : Bytes} (h : IsAscii buf) (n : Nat) : IsAscii (buf.drop n) :=
  fun b hb => h b (List.mem_of_mem_drop hb)

theorem IsAscii.takeWhile_ne_zero {buf : Bytes} (h : IsAscii buf) :
    buf.takeWhile (fun b => b != 0) = buf := by
  rw [List.takeWhile_eq_self_iff]
  intro b hb
  have := (h b hb).1
  simp; omega

theorem IsAscii.cstr_at {buf : Bytes} (h : IsAscii buf) (off : Nat) :
    cstr_at buf off = buf.drop off := by
  unfold Poqer.cstr_at
  exact (h.drop off).takeWhile_ne_zero

theorem IsAscii.strlen {buf : Bytes} (h : IsAscii buf) : strlen buf = buf.length := by
  unfold Poqer.strlen; rw [h.cstr_at]; simp

theorem IsAscii.decode {buf : Bytes} (h : IsAscii buf) (i : Nat) :
    pq_utf8_to_cp buf i = some (buf.getD i 0, 1) := by
  have := h.getD_lt i
  unfold pq_utf8_to_cp
  simp only []
  rw [if_pos (by omega)]

theorem IsAscii.first_byte {buf : Bytes} (h : IsAscii buf) (i : Nat) :
    pq_is_utf8_1st_byte (buf.getD i 0) = true := by
  have := h.getD_lt i
  generalize buf.getD i 0 = x at this
  unfold pq_is_utf8_1st_byte
  simp; omega


theorem set_buffer_ascii (s : pq_scanner) {buf : Bytes} (h : IsAscii buf) :
    pq_scanner_set_buffer s buf =
      { s with buffer := buf, buffer_sz := buf.length, beg := 0, end_ := 0, ln := 1, col := 1,
               cp := buf.getD 0 0, cp_bytes := 1 } := by
  simp [pq_scanner_set_buffer, pq_scanner_decode, h.decode, h.strlen]

theorem forward_one_ascii (s : pq_scanner) (h : IsAscii s.buffer)
    (hlt : s.end_ < s.buffer_sz) (hk : s.cp_bytes = 1) :
    pq_scanner_forward s 1 =
      { s with ln := if s.cp = 10 then s.ln + 1 else s.ln, end_ := s.end_ + 1,
               cp := s.buffer.getD (s.end_ + 1) 0, cp_bytes := 1, col := s.col + 1 } := by
  rcases s with ⟨buffer, sz, ln, col, beg, e, cp, cpb, qn, qe, qm⟩
  simp only at hlt hk h
  subst hk
  have h1 : e ≤ size_dec sz := by rw [size_dec_pos (by omega)]; omega
  by_cases h10 : cp = 10 <;>
    simp [pq_scanner_forward, h1, h10, size_add_one, pq_scanner_decode, h.decode]

theorem rewind_end_ascii {buf : Bytes} (h : IsAscii buf) (e : Nat) :
    pq_scanner_rewind_end buf (e + 1) = e := by
  unfold pq_scanner_rewind_end; rw [if_pos (h.first_byte e)]

theorem rewind_one_ascii (s : pq_scanner) (h : IsAscii s.buffer) (hpos : 0 < s.end_) :
    pq_scanner_rewind s 1 =
      { s with ln := if s.cp = 10 then size_dec s.ln else s.ln, end_ := s.end_ - 1,
               cp := s.buffer.getD (s.end_ - 1) 0, cp_bytes := 1, col := size_dec s.col } := by
  rcases s with ⟨buffer, sz, ln, col, beg, e, cp, cpb, qn, qe, qm⟩
  simp only at hpos h
  obtain ⟨e, rfl⟩ : ∃ e', e = e' + 1 := ⟨e - 1, by omega⟩
  by_cases h10 : cp = 10 <;>
    simp [pq_scanner_rewind, pq_scanner_rewind_loop, h10, pq_scanner_decode, h.decode,
      rewind_end_ascii h]

theorem next_lexeme_ascii (s : pq_scanner) (h : IsAscii s.buffer)
    (hlt : s.end_ < s.buffer_sz) (hk : s.cp_bytes = 1) :
    pq_scanner_next_lexeme s =
      { s with end_ := s.end_ + 1, beg := s.end_ + 1, col := s.col + 1,
               cp := s.buffer.getD (s.end_ + 1) 0, cp_bytes := 1 } := by
  rcases s with ⟨buffer, sz, ln, col, beg, e, cp, cpb, qn, qe, qm⟩
  simp only at hlt hk h
  subst hk
  simp [pq_scanner_next_lexeme, hlt, size_add_one, pq_scanner_decode, h.decode]

theorem get_lexeme_ascii (s : pq_scanner) (h : IsAscii s.buffer)
    (hle : s.beg ≤ s.end_) (hk : s.cp_bytes = 1) :
    pq_scanner_get_lexeme s = (s.buffer.drop s.beg).take (s.end_ - s.beg + 1) := by
  simp [pq_scanner_get_lexeme, hk, size_add_one, size_sub_le hle, h.cstr_at]


theorem loop_succ (W : WCtype) (entry : pq_scanner) (fuel : Nat) (S : pq_scanner_state)
    (s : pq_scanner) :
    pq_scanner_loop W entry (fuel + 1) S s =
      match pq_scanner_switch W S s with
      | .ret tok scanner => some ⟨tok, none, scanner⟩
      | .next _ (some err) scanner =>
        some ⟨none, some err,
          { scanner with ln := entry.ln, col := entry.col, beg := entry.beg, end_ := entry.end_ }⟩
      | .next state none scanner => pq_scanner_loop W entry fuel state (pq_scanner_forward scanner 1) := rfl

theorem loop_run (W : WCtype) (entry : pq_scanner) (S : pq_scanner_state) (P : Nat → Bool)
    (hstep : ∀ s : pq_scanner, P s.cp = true → pq_scanner_switch W S s = .next S none s)
    (hnl : P 10 = false) :
    ∀ (k : Nat) (s : pq_scanner) (fuel : Nat), IsAscii s.buffer → s.buffer_sz = s.buffer.length →
      s.cp_bytes = 1 → s.cp = s.buffer.getD s.end_ 0 →
      (∀ j, j < k → P (s.buffer.getD (s.end_ + j) 0) = true) → s.end_ + k ≤ s.buffer.length →
      pq_scanner_loop W entry (fuel + k) S s =
        pq_scanner_loop W entry fuel S
          { s with end_ := s.end_ + k, cp := s.buffer.getD (s.end_ + k) 0, col := s.col + k } := by
  intro k
  induction k with
  | zero =>
    intro s fuel _ _ _ hcp _ _
    rcases s with ⟨buffer, sz, ln, col, beg, e, cp, cpb, qn, qe, qm⟩
    simp only at hcp
    simp [hcp]
  | succ k ih =>
    intro s fuel hascii hsz hk hcp hP hlen
    have hP0 : P s.cp = true := by
      have := hP 0 (by omega)
      simpa [hcp] using this
    have hne : s.cp ≠ 10 := by
      intro h10; rw [h10, hnl] at hP0; exact absurd hP0 (by simp)
    rw [show fuel + (k + 1) = (fuel + k) + 1 by omega, loop_succ, hstep s hP0]
    simp only []
    rw [forward_one_ascii s hascii (by omega) hk, if_neg hne]
    rw [ih _ fuel (by simpa using hascii) (by simpa using hsz) (by simp) (by simp)
      (by
        intro j hj
        have := hP (j + 1) (by omega)
        simpa [Nat.add_assoc, Nat.add_comm 1 j] using this)
      (by simp; omega)]
    rcases s with ⟨buffer, sz, ln, col, beg, e, cp, cpb, qn, qe, qm⟩
    simp only at hk
    subst hk
    simp [Nat.add_assoc, Nat.add_comm 1 k]

theorem emit_lexeme_ascii (s : pq_scanner) (mk : Bytes → pq_tok) (h : IsAscii s.buffer)
    (hsz : s.buffer_sz = s.buffer.length) (hk : s.cp_bytes = 1) (hbeg : s.beg < s.end_)
    (hend : s.end_ ≤ s.buffer.length) (hcp : s.cp = s.buffer.getD s.end_ 0) :
    pq_scan_emit_lexeme s 1 mk =
      .ret (some (mk ((s.buffer.drop s.beg).take (s.end_ - s.beg))))
        { s with beg := s.end_, ln := if s.cp = 10 then size_dec s.ln else s.ln,
                 col := size_dec s.col + 1 } := by
  unfold pq_scan_emit_lexeme
  simp only []
  rw [rewind_one_ascii s h (by omega)]
  rw [get_lexeme_ascii _ (by simpa using h) (by simp; omega) (by simp)]
  rw [next_lexeme_ascii _ (by simpa using h) (by simp; omega) (by simp)]
  rcases s with ⟨buffer, sz, ln, col, beg, e, cp, cpb, qn, qe, qm⟩
  simp only at hbeg hend hcp hsz
  obtain ⟨e, rfl⟩ : ∃ e', e = e' + 1 := ⟨e - 1, by omega⟩
  simp only at hk
  subst hk
  simp [hcp]
  rw [show e - beg + 1 = e + 1 - beg by omega]


/-! ### Character classes under a classification that agrees with ISO C on ASCII -/

theorem WCtype.IsoAscii.alnum {W : WCtype} (hW : W.IsoAscii) {c : Nat} (hc : c < 128) :
    pq_is_unicode_alnum_char W c = pq_is_unicode_alnum_char asciiW c := by
  simp [pq_is_unicode_alnum_char, (hW c hc).2.2.2.1]

theorem WCtype.IsoAscii.lower {W : WCtype} (hW : W.IsoAscii) {c : Nat} (hc : c < 128) :
    pq_is_unicode_lower_char W c = pq_is_unicode_lower_char asciiW c := by
  simp [pq_is_unicode_lower_char, (hW c hc).2.2.2.2.1, (hW c hc).2.2.2.2.2]

theorem WCtype.IsoAscii.layout {W : WCtype} (hW : W.IsoAscii) {c : Nat} (hc : c < 128) :
    pq_is_unicode_layout_char W c = pq_is_unicode_layout_char asciiW c := by
  simp [pq_is_unicode_layout_char, (hW c hc).2.2.1]

theorem WCtype.IsoAscii.graphic_token {W : WCtype} (hW : W.IsoAscii) {c : Nat} (hc : c < 128) :
    pq_is_unicode_graphic_token_char W c = pq_is_unicode_graphic_token_char asciiW c := by
  simp [pq_is_unicode_graphic_token_char, pq_is_unicode_graphic_char, hW.alnum hc, (hW c hc).2.1]

theorem asciiW_isoAscii : asciiW.IsoAscii := fun _ _ => ⟨rfl, rfl, rfl, rfl, rfl, rfl⟩

theorem alnum_ascii_iff (c : Nat) :
    pq_is_unicode_alnum_char asciiW c = true ↔
      (48 ≤ c ∧ c ≤ 57) ∨ (65 ≤ c ∧ c ≤ 90) ∨ (97 ≤ c ∧ c ≤ 122) ∨ c = 95 := by
  simp [pq_is_unicode_alnum_char, asciiW]
  omega

theorem begin_lower {W : WCtype} (hW : W.IsoAscii) (s : pq_scanner)
    (hc : 97 ≤ s.cp ∧ s.cp ≤ 122) :
    pq_scanner_switch W .BEGIN s = .next .A_NAME none s := by
  have h128 : s.cp < 128 := by omega
  have hl : pq_is_unicode_layout_char W s.cp = false := by
    rw [hW.layout h128]; simp [pq_is_unicode_layout_char, asciiW]; omega
  have hlo : pq_is_unicode_lower_char W s.cp = true := by
    rw [hW.lower h128]; simp [pq_is_unicode_lower_char, asciiW]; omega
  unfold pq_scanner_switch
  simp only []
  iterate 16 rw [if_neg (by omega)]
  simp [hl, hlo]

theorem begin_upper {W : WCtype} (hW : W.IsoAscii) (s : pq_scanner)
    (hc : (65 ≤ s.cp ∧ s.cp ≤ 90) ∨ s.cp = 95) :
    pq_scanner_switch W .BEGIN s = .next .VAR none s := by
  have h128 : s.cp < 128 := by omega
  have hl : pq_is_unicode_layout_char W s.cp = false := by
    rw [hW.layout h128]; simp [pq_is_unicode_layout_char, asciiW]; omega
  have hlo : pq_is_unicode_lower_char W s.cp = false := by
    rw [hW.lower h128]; simp [pq_is_unicode_lower_char, asciiW]; omega
  have hd : pq_is_unicode_dec_char s.cp = false := by
    simp [pq_is_unicode_dec_char]; omega
  have hg : pq_is_unicode_graphic_token_char W s.cp = false := by
    rw [hW.graphic_token h128]
    simp [pq_is_unicode_graphic_token_char, pq_is_unicode_graphic_char, pq_is_unicode_alnum_char,
      asciiW]
    omega
  have ha : pq_is_unicode_alnum_char W s.cp = true := by
    rw [hW.alnum h128, alnum_ascii_iff]; omega
  unfold pq_scanner_switch
  simp only []
  iterate 16 rw [if_neg (by omega)]
  simp [hl, hlo, hd, hg, ha]


theorem alnum_ascii_zero : pq_is_unicode_alnum_char asciiW 0 = false := by decide

theorem alnum_ascii_newline : pq_is_unicode_alnum_char asciiW 10 = false := by decide

theorem getD_lt_length_of_alnum {buf : Bytes} {i : Nat}
    (h : pq_is_unicode_alnum_char asciiW (buf.getD i 0) = true) : i < buf.length := by
  by_contra hge
  rw [List.getD_eq_default _ _ (by omega), alnum_ascii_zero] at h
  exact absurd h (by simp)

theorem scan_alnum_run {W : WCtype} (hW : W.IsoAscii) (entry : pq_scanner)
    (S : pq_scanner_state) (tag : pq_tag)
    (h1 : ∀ s : pq_scanner, pq_is_unicode_alnum_char W s.cp = true →
      pq_scanner_switch W S s = .next S none s)
    (h2 : ∀ s : pq_scanner, pq_is_unicode_alnum_char W s.cp = false →
      pq_scanner_switch W S s
        = pq_scan_emit_lexeme s 1 (fun lexeme => pq_new_str_token tag lexeme 0))
    (s : pq_scanner) (hascii : IsAscii s.buffer) (hsz : s.buffer_sz = s.buffer.length)
    (hk : s.cp_bytes = 1) (hcp : s.cp = s.buffer.getD s.end_ 0) (hbeg : s.beg < s.end_)
    (hend : s.end_ ≤ s.buffer.length) (k : Nat)
    (hrun : ∀ j, j < k → pq_is_unicode_alnum_char asciiW (s.buffer.getD (s.end_ + j) 0) = true)
    (hstop : pq_is_unicode_alnum_char asciiW (s.buffer.getD (s.end_ + k) 0) = false) (m : Nat) :
    ∃ s', pq_scanner_loop W entry (m + 1 + k) S s
        = some ⟨some (pq_new_str_token tag ((s.buffer.drop s.beg).take (s.end_ + k - s.beg)) 0),
            none, s'⟩
      ∧ s'.beg = s.end_ + k ∧ s'.end_ = s.end_ + k := by
  have hlen : s.end_ + k ≤ s.buffer.length := by
    rcases Nat.eq_zero_or_pos k with h0 | hpos
    · omega
    · have := getD_lt_length_of_alnum (hrun (k - 1) (by omega))
      omega
  have hnl : pq_is_unicode_alnum_char W 10 = false := by
    rw [hW.alnum (by omega)]; exact alnum_ascii_newline
  rw [loop_run W entry S (pq_is_unicode_alnum_char W) h1 hnl k s (m + 1) hascii hsz hk hcp
    (by
      intro j hj
      rw [hW.alnum (hascii.getD_lt _)]
      exact hrun j hj) hlen]
  rw [loop_succ, h2 _ (by
    simp only []
    rw [hW.alnum (hascii.getD_lt _)]
    exact hstop)]
  rw [emit_lexeme_ascii _ _ (by simpa using hascii) (by simpa using hsz) (by simpa using hk)
    (by simp; omega) (by simpa using hlen) (by simp)]
  exact ⟨_, rfl, rfl, rfl⟩


theorem takeWhile_getD_true (p : Nat → Bool) (d : Nat) :
    ∀ (l : List Nat) (i : Nat), i < (l.takeWhile p).length → p (l.getD i d) = true
  | [], i, h => by simp at h
  | a :: l, i, h => by
    by_cases ha : p a = true
    · rw [List.takeWhile_cons_of_pos ha] at h
      cases i with
      | zero => simpa using ha
      | succ i =>
        have := takeWhile_getD_true p d l i (by simpa using h)
        simpa using this
    · rw [List.takeWhile_cons_of_neg ha] at h
      simp at h

theorem takeWhile_getD_false (p : Nat → Bool) (d : Nat) (hd : p d = false) :
    ∀ (l : List Nat), p (l.getD (l.takeWhile p).length d) = false
  | [] => by simpa using hd
  | a :: l => by
    by_cases ha : p a = true
    · rw [List.takeWhile_cons_of_pos ha]
      have := takeWhile_getD_false p d hd l
      simpa using this
    · rw [List.takeWhile_cons_of_neg ha]
      simpa using ha

theorem take_length_takeWhile (p : Nat → Bool) :
    ∀ (l : List Nat), l.take (l.takeWhile p).length = l.takeWhile p
  | [] => by simp
  | a :: l => by
    by_cases ha : p a = true
    · rw [List.takeWhile_cons_of_pos ha]
      simp [take_length_takeWhile p l]
    · rw [List.takeWhile_cons_of_neg ha]
      simp


/-- C8: for every ASCII buffer whose first character `c` is a lower-case letter, and for a
classification that agrees with ISO C on ASCII, `pq_scanner_next_token` returns a NAME token
whose text is the maximal run of alphanumeric or underscore characters from offset 0 on, and
afterwards `beg` and `end` are both the byte length of that run; for a first character that is
an upper-case letter or `_` the same holds with a VARIABLE token. The run is a prefix of the
buffer, so the consumed lexeme is the input prefix. Any fuel above the length of the run
suffices. -/
theorem C8_alnum_run_is_the_lexeme (W : WCtype) (hW : W.IsoAscii) (s0 : pq_scanner)
    (buf : Bytes) (c : Nat) (hascii : IsAscii buf) (hhead : buf.head? = some c) (fuel : Nat)
    (hfuel : (buf.takeWhile (pq_is_unicode_alnum_char asciiW)).length + 1 ≤ fuel) :
    ((97 ≤ c ∧ c ≤ 122) →
      ∃ s', pq_scanner_next_token W fuel (pq_scanner_set_buffer s0 buf)
          = some ⟨some (pq_new_str_token .PQ_NAME_TOK
              (buf.takeWhile (pq_is_unicode_alnum_char asciiW)) 0), none, s'⟩
        ∧ s'.beg = (buf.takeWhile (pq_is_unicode_alnum_char asciiW)).length
        ∧ s'.end_ = (buf.takeWhile (pq_is_unicode_alnum_char asciiW)).length)
    ∧ (((65 ≤ c ∧ c ≤ 90) ∨ c = 95) →
      ∃ s', pq_scanner_next_token W fuel (pq_scanner_set_buffer s0 buf)
          = some ⟨some (pq_new_str_token .PQ_VAR_TOK
              (buf.takeWhile (pq_is_unicode_alnum_char asciiW)) 0), none, s'⟩
        ∧ s'.beg = (buf.takeWhile (pq_is_unicode_alnum_char asciiW)).length
        ∧ s'.end_ = (buf.takeWhile (pq_is_unicode_alnum_char asciiW)).length)
    ∧ buf.takeWhile (pq_is_unicode_alnum_char asciiW) <+: buf := by
  obtain ⟨rest, rfl⟩ : ∃ rest, buf = c :: rest := by
    cases buf with
    | nil => simp at hhead
    | cons a l => simp at hhead; exact ⟨l, by rw [hhead]⟩
  -- the shared part: both states run over the alphanumeric characters
  have key : ∀ (S : pq_scanner_state) (tag : pq_tag),
      pq_is_unicode_alnum_char asciiW c = true →
      pq_scanner_switch W .BEGIN (pq_scanner_set_buffer s0 (c :: rest)) = .next S none
        (pq_scanner_set_buffer s0 (c :: rest)) →
      (∀ s : pq_scanner, pq_is_unicode_alnum_char W s.cp = true →
        pq_scanner_switch W S s = .next S none s) →
      (∀ s : pq_scanner, pq_is_unicode_alnum_char W s.cp = false →
        pq_scanner_switch W S s
          = pq_scan_emit_lexeme s 1 (fun lexeme => pq_new_str_token tag lexeme 0)) →
      ∃ s', pq_scanner_next_token W fuel (pq_scanner_set_buffer s0 (c :: rest))
          = some ⟨some (pq_new_str_token tag
              ((c :: rest).takeWhile (pq_is_unicode_alnum_char asciiW)) 0), none, s'⟩
        ∧ s'.beg = ((c :: rest).takeWhile (pq_is_unicode_alnum_char asciiW)).length
        ∧ s'.end_ = ((c :: rest).takeWhile (pq_is_unicode_alnum_char asciiW)).length := by
    intro S tag hc hbegin h1 h2
    set p := pq_is_unicode_alnum_char asciiW with hp
    have hk1 : 1 ≤ ((c :: rest).takeWhile p).length := by
      rw [List.takeWhile_cons_of_pos hc]; simp
    obtain ⟨m, rfl⟩ : ∃ m, fuel = (m + 1 + (((c :: rest).takeWhile p).length - 1)) + 1 :=
      ⟨fuel - (((c :: rest).takeWhile p).length + 1), by omega⟩
    unfold pq_scanner_next_token
    rw [loop_succ, hbegin]
    simp only []
    rw [set_buffer_ascii s0 hascii]
    rw [forward_one_ascii _ (by simpa using hascii) (by simp) (by simp)]
    have hne : (c :: rest).getD 0 0 ≠ 10 := by
      intro h10
      simp at h10
      rw [h10] at hc
      exact absurd hc (by rw [hp, alnum_ascii_newline]; simp)
    obtain ⟨s', hs', hb, he⟩ := scan_alnum_run hW
      { s0 with buffer := c :: rest, buffer_sz := (c :: rest).length, beg := 0, end_ := 0, ln := 1,
                col := 1, cp := (c :: rest).getD 0 0, cp_bytes := 1 } S tag h1 h2
      { s0 with buffer := c :: rest, buffer_sz := (c :: rest).length, beg := 0, end_ := 0 + 1,
                ln := 1, col := 1 + 1, cp := (c :: rest).getD (0 + 1) 0, cp_bytes := 1 }
      (by simpa using hascii) (by simp) (by simp) (by simp) (by simp) (by simp)
      (((c :: rest).takeWhile p).length - 1)
      (by
        intro j hj
        have := takeWhile_getD_true p 0 (c :: rest) (1 + j) (by omega)
        simpa [Nat.add_comm] using this)
      (by
        have := takeWhile_getD_false p 0 alnum_ascii_zero (c :: rest)
        simp only []
        rw [show 0 + 1 + (((c :: rest).takeWhile p).length - 1)
          = ((c :: rest).takeWhile p).length by omega]
        exact this) m
    refine ⟨s', ?_, ?_, ?_⟩
    · simp only [if_neg hne] at hs' ⊢
      rw [hs']
      simp only [List.drop_zero, Nat.sub_zero]
      rw [show 0 + 1 + (((c :: rest).takeWhile p).length - 1)
          = ((c :: rest).takeWhile p).length by omega, take_length_takeWhile]
    · rw [hb]; simp only []; omega
    · rw [he]; simp only []; omega
  have hc128 : c < 128 := (hascii c (by simp)).2
  have hcp0 : (pq_scanner_set_buffer s0 (c :: rest)).cp = c := by
    rw [set_buffer_ascii s0 hascii]; simp
  refine ⟨fun hc => ?_, fun hc => ?_, List.takeWhile_prefix _⟩
  · exact key .A_NAME .PQ_NAME_TOK (by rw [alnum_ascii_iff]; omega)
      (begin_lower hW _ (by rw [hcp0]; exact hc))
      (fun s hs => by simp [pq_scanner_switch, hs])
      (fun s hs => by simp [pq_scanner_switch, hs])
  · exact key .VAR .PQ_VAR_TOK (by rw [alnum_ascii_iff]; omega)
      (begin_upper hW _ (by rw [hcp0]; exact hc))
      (fun s hs => by simp [pq_scanner_switch, hs])
      (fun s hs => by simp [pq_scanner_switch, hs])

/-- C8 (witness): in `foo(` the NAME token is `foo`. -/
theorem C8_witness :
    asciiW.IsoAscii ∧ IsAscii [102, 111, 111, 40]
    ∧ [102, 111, 111, 40].takeWhile (pq_is_unicode_alnum_char asciiW) = [102, 111, 111]
    ∧ ∃ s', pq_scanner_next_token asciiW 4 (pq_scanner_set_buffer pq_new_scanner [102, 111, 111, 40])
          = some ⟨some (pq_new_str_token .PQ_NAME_TOK
              ([102, 111, 111, 40].takeWhile (pq_is_unicode_alnum_char asciiW)) 0), none, s'⟩
        ∧ s'.beg = ([102, 111, 111, 40].takeWhile (pq_is_unicode_alnum_char asciiW)).length
        ∧ s'.end_ = ([102, 111, 111, 40].takeWhile (pq_is_unicode_alnum_char asciiW)).length :=
  ⟨asciiW_isoAscii, by decide, by decide,
    (C8_alnum_run_is_the_lexeme asciiW asciiW_isoAscii pq_new_scanner [102, 111, 111, 40] 102
      (by decide) rfl 4 (by decide)).1 (by decide)⟩

/-- One `pq_scanner_forward` over a character of `k` bytes that is followed by a code point
that decodes. -/
theorem forward_one_valid (s : pq_scanner) (k c n : Nat)
    (hlt : s.end_ < s.buffer_sz) (hk : s.cp_bytes = (k : Int))
    (hd : pq_utf8_to_cp s.buffer (s.end_ + k) = some (c, n)) :
    pq_scanner_forward s 1 =
      { s with ln := if s.cp = 10 then s.ln + 1 else s.ln, end_ := s.end_ + k,
               cp := c, cp_bytes := (n : Int), col := s.col + 1 } := by
  rcases s with ⟨buffer, sz, ln, col, beg, e, cp, cpb, qn, qe, qm⟩
  simp only at hlt hk hd
  subst hk
  have h1 : e ≤ size_dec sz := by rw [size_dec_pos (by omega)]; omega
  by_cases h10 : cp = 10 <;>
    simp [pq_scanner_forward, h1, h10, size_add_nat, pq_scanner_decode, hd]

theorem decode_of_lt (buf : Bytes) (i : Nat) (h : buf.getD i 0 < 128) :
    pq_utf8_to_cp buf i = some (buf.getD i 0, 1) := by
  unfold pq_utf8_to_cp
  simp only []
  rw [if_pos (by omega)]

/-- What `pq_scan_emit_literal scanner 1 tok` does right after the `.` was passed. -/
theorem emit_literal_after_period (s : pq_scanner) (c n : Nat) (tok : pq_tok)
    (hbyte : s.buffer.getD s.end_ 0 = 46) (hlt : s.end_ < s.buffer_sz)
    (hnext : pq_utf8_to_cp s.buffer (s.end_ + 1) = some (c, n)) (c1 : Nat) (n1 : Int)
    (ln1 col1 : Nat) :
    ∃ s', pq_scan_emit_literal
        { s with end_ := s.end_ + 1, cp := c1, cp_bytes := n1, ln := ln1, col := col1 } 1 tok
        = .ret (some tok) s'
      ∧ s'.beg = s.end_ + 1 ∧ s'.end_ = s.end_ + 1 ∧ s'.cp = c ∧ s'.cp_bytes = n := by
  rcases s with ⟨buffer, sz, ln, col, beg, e, cp, cpb, qn, qe, qm⟩
  simp only at hbyte hlt hnext
  have hfb : pq_is_utf8_1st_byte (buffer.getD e 0) = true := by rw [hbyte]; decide
  have hdec : pq_utf8_to_cp buffer e = some (46, 1) := by
    have := decode_of_lt buffer e (by omega)
    rw [hbyte] at this; exact this
  by_cases h10 : c1 = 10 <;>
    simp [-List.getD_eq_getElem?_getD, pq_scan_emit_literal, pq_scanner_rewind, pq_scanner_rewind_loop, pq_scanner_rewind_end,
      hfb, h10, pq_scanner_decode, hdec, pq_scanner_next_lexeme, hlt, size_add_one, hnext]


theorem begin_period (W : WCtype) (s : pq_scanner) (hcp : s.cp = 46) :
    pq_scanner_switch W .BEGIN s = .next .POT_END none s := by
  unfold pq_scanner_switch
  simp [hcp]

theorem digits_value_eq (base : Nat) :
    ∀ (d : Bytes) (acc : Nat), (∀ c ∈ d, is_digit_of base c = true) →
      digits_value base d acc = acc * base ^ d.length + literal_value base d
  | [], acc, _ => by simp [digits_value, literal_value]
  | c :: d, acc, h => by
    have hc := h c (by simp)
    have hd : ∀ x ∈ d, is_digit_of base x = true := fun x hx => h x (by simp [hx])
    unfold is_digit_of at hc
    cases hv : digit_val c with
    | none => rw [hv] at hc; simp at hc
    | some v =>
      rw [hv] at hc
      have hlt : v < base := by simpa using hc
      rw [digits_value, hv]
      simp only [hlt, if_true]
      rw [digits_value_eq base d _ hd]
      simp only [literal_value, List.map_cons, List.reverse_cons, Nat.ofDigits_append,
        List.length_reverse, List.length_map, hv, Option.getD_some, Nat.ofDigits_singleton,
        List.length_cons]
      ring

theorem strtoll_digits (base : Nat) (d : Bytes) (h : ∀ c ∈ d, is_digit_of base c = true)
    (hv : literal_value base d < 2 ^ 63) : strtoll d base = (literal_value base d : Int) := by
  unfold strtoll
  simp only [digits_value_eq base d 0 h, Nat.zero_mul, Nat.zero_add]
  rw [if_pos (by omega)]

theorem is_digit_2 (c : Nat) : is_digit_of 2 c = pq_is_unicode_bin_char c := by
  unfold is_digit_of digit_val pq_is_unicode_bin_char
  by_cases h1 : 48 ≤ c ∧ c ≤ 57
  · rw [if_pos h1]
    by_cases h48 : c = 48
    · subst h48; decide
    · by_cases h49 : c = 49
      · subst h49; decide
      · have : ¬ (c - 48 < 2) := by omega
        simp [this, h48, h49]
  · rw [if_neg h1]
    have h48 : c ≠ 48 := by omega
    have h49 : c ≠ 49 := by omega
    by_cases h2 : 97 ≤ c ∧ c ≤ 102
    · rw [if_pos h2]
      have : ¬ (c - 97 + 10 < 2) := by omega
      simp [this, h48, h49]
    · rw [if_neg h2]
      by_cases h3 : 65 ≤ c ∧ c ≤ 70
      · rw [if_pos h3]
        have : ¬ (c - 65 + 10 < 2) := by omega
        simp [this, h48, h49]
      · rw [if_neg h3]
        simp [h48, h49]

theorem is_digit_8 (c : Nat) : is_digit_of 8 c = pq_is_unicode_oct_char c := by
  unfold is_digit_of digit_val pq_is_unicode_oct_char
  by_cases h1 : 48 ≤ c ∧ c ≤ 57
  · rw [if_pos h1]
    by_cases h : c ≤ 55
    · have : c - 48 < 8 := by omega
      simp [this, h, h1.1]
    · have : ¬ (c - 48 < 8) := by omega
      simp [this, h]
  · rw [if_neg h1]
    have hr : ¬ (48 ≤ c ∧ c ≤ 55) := by omega
    by_cases h2 : 97 ≤ c ∧ c ≤ 102
    · rw [if_pos h2]
      have : ¬ (c - 97 + 10 < 8) := by omega
      simp [this]
      omega
    · rw [if_neg h2]
      by_cases h3 : 65 ≤ c ∧ c ≤ 70
      · rw [if_pos h3]
        have : ¬ (c - 65 + 10 < 8) := by omega
        simp [this]
        omega
      · rw [if_neg h3]
        simp
        omega

theorem is_digit_10 (c : Nat) : is_digit_of 10 c = pq_is_unicode_dec_char c := by
  unfold is_digit_of digit_val pq_is_unicode_dec_char
  by_cases h1 : 48 ≤ c ∧ c ≤ 57
  · rw [if_pos h1]
    have : c - 48 < 10 := by omega
    simp [this, h1.1, h1.2]
  · rw [if_neg h1]
    by_cases h2 : 97 ≤ c ∧ c ≤ 102
    · rw [if_pos h2]
      have : ¬ (c - 97 + 10 < 10) := by omega
      simp [this]
      omega
    · rw [if_neg h2]
      by_cases h3 : 65 ≤ c ∧ c ≤ 70
      · rw [if_pos h3]
        have : ¬ (c - 65 + 10 < 10) := by omega
        simp [this]
        omega
      · rw [if_neg h3]
        simp
        omega

theorem is_digit_16 (c : Nat) : is_digit_of 16 c = pq_is_unicode_hex_char c := by
  unfold is_digit_of digit_val pq_is_unicode_hex_char
  by_cases h1 : 48 ≤ c ∧ c ≤ 57
  · rw [if_pos h1]
    have : c - 48 < 16 := by omega
    simp [this, h1.1, h1.2]
  · rw [if_neg h1]
    by_cases h2 : 97 ≤ c ∧ c ≤ 102
    · rw [if_pos h2]
      have : c - 97 + 10 < 16 := by omega
      simp [this, h2.1, h2.2]
    · rw [if_neg h2]
      by_cases h3 : 65 ≤ c ∧ c ≤ 70
      · rw [if_pos h3]
        have : c - 65 + 10 < 16 := by omega
        simp [this, h3.1, h3.2]
      · rw [if_neg h3]
        simp
        omega


theorem ScanPos.set_buffer (s0 : pq_scanner) {buf : Bytes} (h : IsAscii buf) :
    ScanPos buf 0 0 (pq_scanner_set_buffer s0 buf) := by
  rw [set_buffer_ascii s0 h]
  exact ⟨rfl, rfl, rfl, rfl, rfl, rfl⟩

theorem ScanPos.forward {buf : Bytes} {b e : Nat} {s : pq_scanner} (h : IsAscii buf)
    (hp : ScanPos buf b e s) (he : e < buf.length) :
    ScanPos buf b (e + 1) (pq_scanner_forward s 1) := by
  obtain ⟨h1, h2, h3, h4, h5, h6⟩ := hp
  rw [forward_one_ascii s (by rw [h1]; exact h) (by omega) h6]
  exact ⟨h1, h2, h3, by simp [h4], by simp [h1, h4], rfl⟩

theorem loop_next (W : WCtype) (entry : pq_scanner) (fuel : Nat) (S S' : pq_scanner_state)
    (s : pq_scanner) (h : pq_scanner_switch W S s = .next S' none s) :
    pq_scanner_loop W entry (fuel + 1) S s
      = pq_scanner_loop W entry fuel S' (pq_scanner_forward s 1) := by
  rw [loop_succ, h]

/-- A state that stays put on the characters of class `P` and ends the token with its lexeme on
the first other character. -/
theorem scan_run (W : WCtype) (entry : pq_scanner) (S : pq_scanner_state) (P : Nat → Bool)
    (mk : Bytes → pq_tok)
    (h1 : ∀ s : pq_scanner, P s.cp = true → pq_scanner_switch W S s = .next S none s)
    (hnl : P 10 = false) (h0 : P 0 = false)
    {buf : Bytes} {b e : Nat} {s : pq_scanner} (hascii : IsAscii buf) (hp : ScanPos buf b e s)
    (hbeg : b < e) (hend : e ≤ buf.length) (k : Nat)
    (hrun : ∀ j, j < k → P (buf.getD (e + j) 0) = true)
    (h2 : ∀ s' : pq_scanner, s'.cp = buf.getD (e + k) 0 →
      pq_scanner_switch W S s' = pq_scan_emit_lexeme s' 1 mk) (m : Nat) :
    ∃ s', pq_scanner_loop W entry (m + 1 + k) S s
        = some ⟨some (mk ((buf.drop b).take (e + k - b))), none, s'⟩
      ∧ ScanPos buf (e + k) (e + k) s' := by
  obtain ⟨hb1, hb2, hb3, hb4, hb5, hb6⟩ := hp
  subst hb1 hb3 hb4
  have hlen : s.end_ + k ≤ s.buffer.length := by
    rcases Nat.eq_zero_or_pos k with hk0 | hpos
    · omega
    · have hk1 := hrun (k - 1) (by omega)
      by_contra hge
      rw [List.getD_eq_default _ _ (by omega), h0] at hk1
      exact absurd hk1 (by simp)
  rw [loop_run W entry S P h1 hnl k s (m + 1) hascii hb2 hb6 hb5 hrun hlen]
  rw [loop_succ, h2 _ rfl]
  rw [emit_lexeme_ascii _ _ (by simpa using hascii) (by simpa using hb2) (by simpa using hb6)
    (by simp; omega) (by simpa using hlen) (by simp)]
  exact ⟨_, rfl, rfl, hb2, rfl, rfl, rfl, hb6⟩

theorem getD_append_mid (a r rest : Bytes) (j : Nat) (hj : j < r.length) :
    (a ++ r ++ rest).getD (a.length + j) 0 = r.getD j 0 := by
  rw [List.append_assoc, List.getD_append_right _ _ _ _ (by omega)]
  rw [Nat.add_sub_cancel_left, List.getD_append _ _ _ _ hj]

theorem getD_append_end (a r rest : Bytes) :
    (a ++ r ++ rest).getD (a.length + r.length) 0 = rest.headD 0 := by
  rw [List.getD_append_right _ _ _ _ (by simp)]
  simp only [List.length_append, Nat.sub_self]
  cases rest <;> simp

theorem getD_mem_of_lt {r : Bytes} {j : Nat} (hj : j < r.length) : r.getD j 0 ∈ r := by
  rw [List.getD_eq_getElem _ _ hj]; exact List.getElem_mem hj

/-- The shared tail of the integer literals: `a` is what was read so far, `r` the digits still
to read, `rest` what follows. -/
theorem scan_literal_tail (W : WCtype) (entry : pq_scanner) (S : pq_scanner_state)
    (P : Nat → Bool) (mk : Bytes → pq_tok)
    (h1 : ∀ s : pq_scanner, P s.cp = true → pq_scanner_switch W S s = .next S none s)
    (hnl : P 10 = false) (h0 : P 0 = false)
    (a r rest : Bytes) (s : pq_scanner) (hascii : IsAscii (a ++ r ++ rest))
    (hp : ScanPos (a ++ r ++ rest) 0 a.length s) (ha : a ≠ [])
    (hr : ∀ c ∈ r, P c = true)
    (h2 : ∀ s' : pq_scanner, s'.cp = rest.headD 0 →
      pq_scanner_switch W S s' = pq_scan_emit_lexeme s' 1 mk) (m : Nat) :
    ∃ s', pq_scanner_loop W entry (m + 1 + r.length) S s = some ⟨some (mk (a ++ r)), none, s'⟩
      ∧ ScanPos (a ++ r ++ rest) (a.length + r.length) (a.length + r.length) s' := by
  have hapos : 0 < a.length := List.length_pos.mpr ha
  obtain ⟨s', hs', hpos⟩ := scan_run W entry S P mk h1 hnl h0 hascii hp hapos (by simp)
    r.length
    (fun j hj => by rw [getD_append_mid a r rest j hj]; exact hr _ (getD_mem_of_lt hj))
    (fun s' hs' => h2 s' (by rw [hs', getD_append_end])) m
  refine ⟨s', ?_, hpos⟩
  rw [hs']
  simp only [List.drop_zero, Nat.sub_zero]
  rw [show a.length + r.length = (a ++ r).length by simp, List.take_left']
  simp


theorem begin_zero (W : WCtype) (s : pq_scanner) (hcp : s.cp = 48) :
    pq_scanner_switch W .BEGIN s = .next .POT_RAD_INT none s := by
  unfold pq_scanner_switch
  simp [hcp]

theorem begin_nonzero_digit {W : WCtype} (hW : W.IsoAscii) (s : pq_scanner)
    (hc : 49 ≤ s.cp ∧ s.cp ≤ 57) :
    pq_scanner_switch W .BEGIN s = .next .POT_DEC_INT none s := by
  have h128 : s.cp < 128 := by omega
  have hl : pq_is_unicode_layout_char W s.cp = false := by
    rw [hW.layout h128]; simp [pq_is_unicode_layout_char, asciiW]; omega
  have hlo : pq_is_unicode_lower_char W s.cp = false := by
    rw [hW.lower h128]; simp [pq_is_unicode_lower_char, asciiW]; omega
  have hd : pq_is_unicode_dec_char s.cp = true := by
    simp [pq_is_unicode_dec_char]; omega
  unfold pq_scanner_switch
  simp only []
  iterate 16 rw [if_neg (by omega)]
  simp [hl, hlo, hd]

theorem emit_literal_ascii (s : pq_scanner) (tok : pq_tok) {buf : Bytes} {b e : Nat}
    (h : IsAscii buf) (hp : ScanPos buf b e s) (hpos : 0 < e) (hend : e ≤ buf.length) :
    ∃ s', pq_scan_emit_literal s 1 tok = .ret (some tok) s' ∧ ScanPos buf e e s' := by
  obtain ⟨h1, h2, h3, h4, h5, h6⟩ := hp
  subst h1 h4
  unfold pq_scan_emit_literal
  rw [rewind_one_ascii s h hpos]
  rw [next_lexeme_ascii _ (by simpa using h) (by simp; omega) (by simp)]
  refine ⟨_, rfl, rfl, h2, ?_, ?_, ?_, rfl⟩
  · simp; omega
  · simp; omega
  · simp only []
    rw [show s.end_ - 1 + 1 = s.end_ by omega]

/-- The literals `0b`, `0o` and `0x` followed by digits. -/
theorem scan_radix_literal (W : WCtype) (s0 : pq_scanner) (base L : Nat)
    (PS RS : pq_scanner_state) (P : Nat → Bool) (hP : ∀ c, is_digit_of base c = P c)
    (hnl : P 10 = false) (h0 : P 0 = false)
    (hrad : ∀ s : pq_scanner, s.cp = L → pq_scanner_switch W .POT_RAD_INT s = .next PS none s)
    (hpot : ∀ s : pq_scanner, P s.cp = true → pq_scanner_switch W PS s = .next RS none s)
    (h1 : ∀ s : pq_scanner, P s.cp = true → pq_scanner_switch W RS s = .next RS none s)
    (h2 : ∀ s : pq_scanner, P s.cp = false → pq_scanner_switch W RS s
      = pq_scan_emit_lexeme s 1
          (fun lexeme => pq_new_int_token .PQ_INT_TOK (strtoll (lexeme.drop 2) base) 0))
    (d rest : Bytes) (hd : d ≠ []) (hdig : ∀ c ∈ d, is_digit_of base c = true)
    (hascii : IsAscii ([48, L] ++ d ++ rest)) (hstop : is_digit_of base (rest.headD 0) = false)
    (m : Nat) :
    ∃ s', pq_scanner_next_token W (m + d.length + 3) (pq_scanner_set_buffer s0 ([48, L] ++ d ++ rest))
        = some ⟨some (pq_new_int_token .PQ_INT_TOK (strtoll d base) 0), none, s'⟩
      ∧ ScanPos ([48, L] ++ d ++ rest) (2 + d.length) (2 + d.length) s' := by
  obtain ⟨c0, d', rfl⟩ : ∃ c0 d', d = c0 :: d' := by
    cases d with
    | nil => exact absurd rfl hd
    | cons a l => exact ⟨a, l, rfl⟩
  have hbuf : [48, L] ++ c0 :: d' ++ rest = [48, L, c0] ++ d' ++ rest := by simp
  rw [hbuf] at hascii ⊢
  have p0 := ScanPos.set_buffer s0 hascii
  have p1 := ScanPos.forward hascii p0 (by simp)
  have p2 := ScanPos.forward hascii p1 (by simp)
  have p3 := ScanPos.forward hascii p2 (by simp)
  have hc0 : P c0 = true := by rw [← hP]; exact hdig c0 (by simp)
  obtain ⟨s', hs', hpos⟩ := scan_literal_tail W (pq_scanner_set_buffer s0 ([48, L, c0] ++ d' ++ rest))
    RS P _ h1 hnl h0 [48, L, c0] d' rest _ hascii p3 (by simp)
    (fun c hc => by rw [← hP]; exact hdig c (by simp [hc]))
    (fun s' hs' => h2 s' (by rw [hs', ← hP]; exact hstop)) m
  refine ⟨s', ?_, ?_⟩
  · unfold pq_scanner_next_token
    rw [show m + (c0 :: d').length + 3 = (m + 1 + d'.length) + 1 + 1 + 1 by simp; omega]
    rw [loop_next W _ _ .BEGIN .POT_RAD_INT _ (begin_zero W _ (by rw [p0.cp]; simp))]
    rw [loop_next W _ _ .POT_RAD_INT PS _ (hrad _ (by rw [p1.cp]; simp))]
    rw [loop_next W _ _ PS RS _ (hpot _ (by rw [p2.cp]; simpa using hc0))]
    rw [hs']
    simp
  · simpa [Nat.add_comm, Nat.add_left_comm, Nat.add_assoc] using hpos


theorem dec_range {c : Nat} (h : pq_is_unicode_dec_char c = true) : 48 ≤ c ∧ c ≤ 57 := by
  simpa [pq_is_unicode_dec_char] using h

theorem pot_dec_run (W : WCtype) (s : pq_scanner) (h : pq_is_unicode_dec_char s.cp = true) :
    pq_scanner_switch W .POT_DEC_INT s = .next .POT_DEC_INT none s := by
  have := dec_range h
  have h46' : ¬ (46 = s.cp) := by omega
  simp [pq_scanner_switch, h, h46']

theorem pot_dec_stop (W : WCtype) (s : pq_scanner) (h : pq_is_unicode_dec_char s.cp = false)
    (h46 : s.cp ≠ 46) :
    pq_scanner_switch W .POT_DEC_INT s = pq_scan_emit_lexeme s 1
      (fun lexeme => pq_new_int_token .PQ_INT_TOK (strtoll lexeme 10) 0) := by
  have h46' : ¬ (46 = s.cp) := fun h => h46 h.symm
  simp [pq_scanner_switch, h, h46']

theorem pot_rad_dec (W : WCtype) (s : pq_scanner) (h : pq_is_unicode_dec_char s.cp = true) :
    pq_scanner_switch W .POT_RAD_INT s = .next .POT_DEC_INT none s := by
  have := dec_range h
  have e1 : s.cp ≠ 98 := by omega
  have e2 : s.cp ≠ 111 := by omega
  have e3 : s.cp ≠ 120 := by omega
  simp [pq_scanner_switch, e1, e2, e3, h]

theorem pot_rad_stop (W : WCtype) (s : pq_scanner) (h : pq_is_unicode_dec_char s.cp = false)
    (h46 : s.cp ≠ 46) (e1 : s.cp ≠ 98) (e2 : s.cp ≠ 111) (e3 : s.cp ≠ 120) :
    pq_scanner_switch W .POT_RAD_INT s
      = pq_scan_emit_literal s 1 (pq_new_int_token .PQ_INT_TOK 0 0) := by
  have h46' : ¬ (46 = s.cp) := fun h => h46 h.symm
  simp [pq_scanner_switch, e1, e2, e3, h, h46']

theorem getD_one_singleton_append (c : Nat) (rest : Bytes) :
    ([c] ++ rest).getD (0 + 1) 0 = rest.headD 0 := by
  cases rest <;> rfl

/-- A decimal literal. -/
theorem scan_decimal_literal {W : WCtype} (hW : W.IsoAscii) (s0 : pq_scanner)
    (d rest : Bytes) (hd : d ≠ []) (hdig : ∀ c ∈ d, is_digit_of 10 c = true)
    (hascii : IsAscii (d ++ rest)) (hstop : ends_literal 10 d (rest.headD 0)) (m : Nat) :
    ∃ s', pq_scanner_next_token W (m + d.length + 1) (pq_scanner_set_buffer s0 (d ++ rest))
        = some ⟨some (pq_new_int_token .PQ_INT_TOK (strtoll d 10) 0), none, s'⟩
      ∧ ScanPos (d ++ rest) d.length d.length s' := by
  obtain ⟨hstop1, hstop2⟩ := hstop
  obtain ⟨h46, hrad⟩ := hstop2 rfl
  rw [is_digit_10] at hstop1
  have hdec : ∀ c ∈ d, pq_is_unicode_dec_char c = true := fun c hc => by
    rw [← is_digit_10]; exact hdig c hc
  have hrange : ∀ c, pq_is_unicode_dec_char c = true → 48 ≤ c ∧ c ≤ 57 := fun c hc => dec_range hc
  -- the state POT_DEC_INT
  have h1 : ∀ s : pq_scanner, pq_is_unicode_dec_char s.cp = true →
      pq_scanner_switch W .POT_DEC_INT s = .next .POT_DEC_INT none s := pot_dec_run W
  have h2 : ∀ s : pq_scanner, s.cp = rest.headD 0 →
      pq_scanner_switch W .POT_DEC_INT s = pq_scan_emit_lexeme s 1
        (fun lexeme => pq_new_int_token .PQ_INT_TOK (strtoll lexeme 10) 0) :=
    fun s hs => pot_dec_stop W s (by rw [hs]; exact hstop1) (by rw [hs]; exact h46)
  obtain ⟨c0, d', rfl⟩ : ∃ c0 d', d = c0 :: d' := by
    cases d with
    | nil => exact absurd rfl hd
    | cons a l => exact ⟨a, l, rfl⟩
  have hc0 := hrange c0 (hdec c0 (by simp))
  by_cases hz : c0 = 48
  · subst hz
    cases d' with
    | nil =>
      -- the single digit 0
      obtain ⟨hr1, hr2, hr3⟩ := hrad rfl
      have p0 := ScanPos.set_buffer s0 hascii
      have p1 := ScanPos.forward hascii p0 (by simp)
      have hcp : (pq_scanner_forward (pq_scanner_set_buffer s0 ([48] ++ rest)) 1).cp
          = rest.headD 0 := by
        rw [p1.cp]; exact getD_one_singleton_append 48 rest
      have hsw := pot_rad_stop W (pq_scanner_forward (pq_scanner_set_buffer s0 ([48] ++ rest)) 1)
        (by rw [hcp]; exact hstop1) (by rw [hcp]; exact h46) (by rw [hcp]; exact hr1)
        (by rw [hcp]; exact hr2) (by rw [hcp]; exact hr3)
      obtain ⟨s', hs', hpos⟩ := emit_literal_ascii _ (pq_new_int_token .PQ_INT_TOK 0 0) hascii p1
        (by omega) (by simp)
      refine ⟨s', ?_, by simpa using hpos⟩
      unfold pq_scanner_next_token
      rw [show m + [48].length + 1 = m + 1 + 1 by simp]
      rw [loop_next W _ _ .BEGIN .POT_RAD_INT _ (begin_zero W _ (by rw [p0.cp]; simp))]
      rw [loop_succ, hsw, hs']
      rfl
    | cons c1 d'' =>
      have hc1 := hrange c1 (hdec c1 (by simp))
      have hbuf : 48 :: c1 :: d'' ++ rest = [48, c1] ++ d'' ++ rest := by simp
      rw [hbuf] at hascii ⊢
      have p0 := ScanPos.set_buffer s0 hascii
      have p1 := ScanPos.forward hascii p0 (by simp)
      have p2 := ScanPos.forward hascii p1 (by simp)
      have hcp : (pq_scanner_forward (pq_scanner_set_buffer s0 ([48, c1] ++ d'' ++ rest)) 1).cp
          = c1 := by rw [p1.cp]; simp
      have hsw := pot_rad_dec W
        (pq_scanner_forward (pq_scanner_set_buffer s0 ([48, c1] ++ d'' ++ rest)) 1)
        (by rw [hcp]; exact hdec c1 (by simp))
      obtain ⟨s', hs', hpos⟩ := scan_literal_tail W
        (pq_scanner_set_buffer s0 ([48, c1] ++ d'' ++ rest)) .POT_DEC_INT pq_is_unicode_dec_char _
        h1 (by decide) (by decide) [48, c1] d'' rest _ hascii p2 (by simp)
        (fun c hc => hdec c (by simp [hc])) h2 m
      refine ⟨s', ?_, by simpa [Nat.add_comm, Nat.add_left_comm, Nat.add_assoc] using hpos⟩
      unfold pq_scanner_next_token
      rw [show m + (48 :: c1 :: d'').length + 1 = (m + 1 + d''.length) + 1 + 1 by simp; omega]
      rw [loop_next W _ _ .BEGIN .POT_RAD_INT _ (begin_zero W _ (by rw [p0.cp]; simp))]
      rw [loop_next W _ _ .POT_RAD_INT .POT_DEC_INT _ hsw]
      rw [hs']
      simp
  · have hbuf : c0 :: d' ++ rest = [c0] ++ d' ++ rest := by simp
    rw [hbuf] at hascii ⊢
    have p0 := ScanPos.set_buffer s0 hascii
    have p1 := ScanPos.forward hascii p0 (by simp)
    obtain ⟨s', hs', hpos⟩ := scan_literal_tail W
      (pq_scanner_set_buffer s0 ([c0] ++ d' ++ rest)) .POT_DEC_INT pq_is_unicode_dec_char _
      h1 (by decide) (by decide) [c0] d' rest _ hascii p1 (by simp)
      (fun c hc => hdec c (by simp [hc])) h2 m
    refine ⟨s', ?_, by simpa [Nat.add_comm, Nat.add_left_comm, Nat.add_assoc] using hpos⟩
    unfold pq_scanner_next_token
    rw [show m + (c0 :: d').length + 1 = (m + 1 + d'.length) + 1 by simp; omega]
    rw [loop_next W _ _ .BEGIN .POT_DEC_INT _
      (begin_nonzero_digit hW _ (by rw [p0.cp]; simp; omega))]
    rw [hs']
    simp


theorem literal_value_append (base : Nat) (x y : Bytes) :
    literal_value base (x ++ y)
      = literal_value base x * base ^ y.length + literal_value base y := by
  simp only [literal_value, List.map_append, List.reverse_append, Nat.ofDigits_append,
    List.length_reverse, List.length_map]
  ring

theorem is_digit_10_add (k : Nat) (hk : k < 10) : is_digit_of 10 (48 + k) = true := by
  rw [is_digit_10]; simp [pq_is_unicode_dec_char]; omega

theorem literal_value_digit (k : Nat) (hk : k < 10) : literal_value 10 [48 + k] = k := by
  have h : digit_val (48 + k) = some k := by
    unfold digit_val
    rw [if_pos (by omega)]
    simp
  simp [literal_value, h]

theorem sprintf_lu_aux_append :
    ∀ (fuel n : Nat) (acc : Bytes), sprintf_lu_aux fuel n acc = sprintf_lu_aux fuel n [] ++ acc
  | 0, n, acc => by simp [sprintf_lu_aux]
  | fuel + 1, n, acc => by
    by_cases h : n < 10
    · simp [sprintf_lu_aux, h]
    · simp only [sprintf_lu_aux, h, if_false]
      rw [sprintf_lu_aux_append fuel (n / 10) ((48 + n % 10) :: acc),
        sprintf_lu_aux_append fuel (n / 10) [48 + n % 10]]
      simp

theorem sprintf_lu_aux_spec :
    ∀ (fuel n : Nat), 1 ≤ fuel → n < 10 ^ fuel →
      sprintf_lu_aux fuel n [] ≠ []
      ∧ (∀ c ∈ sprintf_lu_aux fuel n [], is_digit_of 10 c = true)
      ∧ literal_value 10 (sprintf_lu_aux fuel n []) = n
  | 0, n, h, _ => by omega
  | fuel + 1, n, _, hn => by
    by_cases h : n < 10
    · simp only [sprintf_lu_aux, h, if_true]
      refine ⟨by simp, ?_, literal_value_digit n h⟩
      intro c hc
      simp only [List.mem_singleton] at hc
      subst hc
      exact is_digit_10_add n h
    · simp only [sprintf_lu_aux, h, if_false]
      rw [sprintf_lu_aux_append]
      have hf : 1 ≤ fuel := by
        by_contra hf0
        have : fuel = 0 := by omega
        subst this
        simp at hn
        omega
      have hq : n / 10 < 10 ^ fuel := by
        rw [Nat.div_lt_iff_lt_mul (by omega)]
        rw [pow_succ] at hn
        exact hn
      obtain ⟨h1, h2, h3⟩ := sprintf_lu_aux_spec fuel (n / 10) hf hq
      refine ⟨by simp [h1], ?_, ?_⟩
      · intro c hc
        rcases List.mem_append.mp hc with hc | hc
        · exact h2 c hc
        · simp only [List.mem_singleton] at hc
          subst hc
          exact is_digit_10_add _ (Nat.mod_lt _ (by omega))
      · rw [literal_value_append, h3, literal_value_digit _ (Nat.mod_lt _ (by omega))]
        simp only [List.length_singleton, pow_one]
        omega

theorem sprintf_lu_spec (v : Nat) (hv : v < 2 ^ 63) :
    sprintf_lu v ≠ [] ∧ (∀ c ∈ sprintf_lu v, is_digit_of 10 c = true)
      ∧ literal_value 10 (sprintf_lu v) = v :=
  sprintf_lu_aux_spec 20 v (by omega) (by omega)

theorem is_digit_ascii {base c : Nat} (h : is_digit_of base c = true) : 0 < c ∧ c < 128 := by
  unfold is_digit_of at h
  cases hv : digit_val c with
  | none => rw [hv] at h; simp at h
  | some v =>
    unfold digit_val at hv
    split_ifs at hv <;> omega

theorem IsAscii.append {a b : Bytes} (ha : IsAscii a) (hb : IsAscii b) : IsAscii (a ++ b) := by
  intro c hc
  rcases List.mem_append.mp hc with h | h
  · exact ha c h
  · exact hb c h

/-- C6: for every base among 2, 8, 10 and 16 and every non-empty string `d` of digits of that
base whose value is below `2 ^ 63`, scanning `d` behind the introducer of the base (`0b`, `0o`,
`0x`, nothing for decimal), followed by end of input or by an ASCII character that cannot
continue the literal, yields an INTEGER token with the value of `d`, and the lexeme consumed is
the literal. Hence scanning the decimal rendering (`%lu`) of any value below `2 ^ 63` yields
an INTEGER token with that value again. -/
theorem C6_integer_literal_value (W : WCtype) (hW : W.IsoAscii) (s0 : pq_scanner) :
    (∀ (base : Nat) (d rest : Bytes) (fuel : Nat),
      (base = 2 ∨ base = 8 ∨ base = 10 ∨ base = 16) → d ≠ [] →
      (∀ c ∈ d, is_digit_of base c = true) → literal_value base d < 2 ^ 63 →
      IsAscii rest → ends_literal base d (rest.headD 0) →
      (radix_intro base).length + d.length + 1 ≤ fuel →
      ∃ s', pq_scanner_next_token W fuel
            (pq_scanner_set_buffer s0 (radix_intro base ++ d ++ rest))
          = some ⟨some (pq_new_int_token .PQ_INT_TOK (literal_value base d) 0), none, s'⟩
        ∧ s'.beg = (radix_intro base).length + d.length
        ∧ s'.end_ = (radix_intro base).length + d.length)
    ∧ (∀ (v : Nat) (rest : Bytes) (fuel : Nat),
      v < 2 ^ 63 → IsAscii rest → ends_literal 10 (sprintf_lu v) (rest.headD 0) →
      (sprintf_lu v).length + 1 ≤ fuel →
      ∃ s', pq_scanner_next_token W fuel (pq_scanner_set_buffer s0 (sprintf_lu v ++ rest))
          = some ⟨some (pq_new_int_token .PQ_INT_TOK v 0), none, s'⟩) := by
  have main : ∀ (base : Nat) (d rest : Bytes) (fuel : Nat),
      (base = 2 ∨ base = 8 ∨ base = 10 ∨ base = 16) → d ≠ [] →
      (∀ c ∈ d, is_digit_of base c = true) → literal_value base d < 2 ^ 63 →
      IsAscii rest → ends_literal base d (rest.headD 0) →
      (radix_intro base).length + d.length + 1 ≤ fuel →
      ∃ s', pq_scanner_next_token W fuel
            (pq_scanner_set_buffer s0 (radix_intro base ++ d ++ rest))
          = some ⟨some (pq_new_int_token .PQ_INT_TOK (literal_value base d) 0), none, s'⟩
        ∧ s'.beg = (radix_intro base).length + d.length
        ∧ s'.end_ = (radix_intro base).length + d.length := by
    intro base d rest fuel hbase hd hdig hv hrest hstop hfuel
    have hdascii : IsAscii d := fun c hc => is_digit_ascii (hdig c hc)
    have hval := strtoll_digits base d hdig hv
    rcases hbase with rfl | rfl | rfl | rfl
    · -- binary
      have hfuel' : 2 + d.length + 1 ≤ fuel := by simpa [radix_intro] using hfuel
      obtain ⟨m, rfl⟩ : ∃ m, fuel = m + d.length + 3 := ⟨fuel - (d.length + 3), by omega⟩
      obtain ⟨s', hs', hpos⟩ := scan_radix_literal W s0 2 98 .POT_BIN_INT .BIN_INT
        pq_is_unicode_bin_char is_digit_2 (by decide) (by decide)
        (fun s hs => by simp [pq_scanner_switch, hs])
        (fun s hs => by simp [pq_scanner_switch, hs])
        (fun s hs => by simp [pq_scanner_switch, hs])
        (fun s hs => by simp [pq_scanner_switch, hs])
        d rest hd hdig
        (((show IsAscii [48, 98] by decide).append hdascii).append hrest) hstop.1 m
      refine ⟨s', ?_, ?_, ?_⟩
      · rw [show radix_intro 2 = [48, 98] by rfl, hs', hval]
      · rw [hpos.beg]; simp [radix_intro]
      · rw [hpos.end_]; simp [radix_intro]
    · -- octal
      have hfuel' : 2 + d.length + 1 ≤ fuel := by simpa [radix_intro] using hfuel
      obtain ⟨m, rfl⟩ : ∃ m, fuel = m + d.length + 3 := ⟨fuel - (d.length + 3), by omega⟩
      obtain ⟨s', hs', hpos⟩ := scan_radix_literal W s0 8 111 .POT_OCT_INT .OCT_INT
        pq_is_unicode_oct_char is_digit_8 (by decide) (by decide)
        (fun s hs => by simp [pq_scanner_switch, hs])
        (fun s hs => by simp [pq_scanner_switch, hs])
        (fun s hs => by simp [pq_scanner_switch, hs])
        (fun s hs => by simp [pq_scanner_switch, hs])
        d rest hd hdig
        (((show IsAscii [48, 111] by decide).append hdascii).append hrest) hstop.1 m
      refine ⟨s', ?_, ?_, ?_⟩
      · rw [show radix_intro 8 = [48, 111] by rfl, hs', hval]
      · rw [hpos.beg]; simp [radix_intro]
      · rw [hpos.end_]; simp [radix_intro]
    · -- decimal
      have hfuel' : d.length + 1 ≤ fuel := by simpa [radix_intro] using hfuel
      obtain ⟨m, rfl⟩ : ∃ m, fuel = m + d.length + 1 := ⟨fuel - (d.length + 1), by omega⟩
      obtain ⟨s', hs', hpos⟩ := scan_decimal_literal hW s0 d rest hd hdig
        (hdascii.append hrest) hstop m
      refine ⟨s', ?_, ?_, ?_⟩
      · rw [show radix_intro 10 = [] by rfl, List.nil_append, hs', hval]
      · rw [hpos.beg]; simp [radix_intro]
      · rw [hpos.end_]; simp [radix_intro]
    · -- hexadecimal
      have hfuel' : 2 + d.length + 1 ≤ fuel := by simpa [radix_intro] using hfuel
      obtain ⟨m, rfl⟩ : ∃ m, fuel = m + d.length + 3 := ⟨fuel - (d.length + 3), by omega⟩
      obtain ⟨s', hs', hpos⟩ := scan_radix_literal W s0 16 120 .POT_HEX_INT .HEX_INT
        pq_is_unicode_hex_char is_digit_16 (by decide) (by decide)
        (fun s hs => by simp [pq_scanner_switch, hs])
        (fun s hs => by simp [pq_scanner_switch, hs])
        (fun s hs => by simp [pq_scanner_switch, hs])
        (fun s hs => by simp [pq_scanner_switch, hs])
        d rest hd hdig
        (((show IsAscii [48, 120] by decide).append hdascii).append hrest) hstop.1 m
      refine ⟨s', ?_, ?_, ?_⟩
      · rw [show radix_intro 16 = [48, 120] by rfl, hs', hval]
      · rw [hpos.beg]; simp [radix_intro]
      · rw [hpos.end_]; simp [radix_intro]
  refine ⟨main, ?_⟩
  intro v rest fuel hv hrest hstop hfuel
  obtain ⟨h1, h2, h3⟩ := sprintf_lu_spec v hv
  obtain ⟨s', hs', _⟩ := main 10 (sprintf_lu v) rest fuel (by simp) h1 h2 (by rw [h3]; exact hv)
    hrest hstop (by simpa [radix_intro] using hfuel)
  refine ⟨s', ?_⟩
  rw [show radix_intro 10 = [] by rfl, List.nil_append, h3] at hs'
  exact hs'

theorem drop_eq_cons_getD {buf : Bytes} {e x : Nat} {tl : Bytes} (h : buf.drop e = x :: tl) :
    buf.getD e 0 = x ∧ e < buf.length ∧ buf.drop (e + 1) = tl := by
  have hlt : e < buf.length := by
    by_contra hge
    rw [List.drop_eq_nil_of_le (by omega)] at h
    simp at h
  refine ⟨?_, hlt, ?_⟩
  · rw [List.getD_eq_getElem _ _ hlt]
    rw [List.drop_eq_getElem_cons hlt] at h
    exact (List.cons.inj h).1
  · rw [List.drop_eq_getElem_cons hlt] at h
    exact (List.cons.inj h).2


/-- C6 (witness): `0xFF` gives 255, and the decimal rendering of 255 gives 255 again. -/
theorem C6_witness :
    asciiW.IsoAscii ∧ literal_value 16 [70, 70] = 255
    ∧ (∃ s', pq_scanner_next_token asciiW 5
          (pq_scanner_set_buffer pq_new_scanner (radix_intro 16 ++ [70, 70] ++ []))
        = some ⟨some (pq_new_int_token .PQ_INT_TOK (literal_value 16 [70, 70]) 0), none, s'⟩
      ∧ s'.beg = (radix_intro 16).length + [70, 70].length
      ∧ s'.end_ = (radix_intro 16).length + [70, 70].length)
    ∧ sprintf_lu 255 = [50, 53, 53]
    ∧ (∃ s', pq_scanner_next_token asciiW 4
          (pq_scanner_set_buffer pq_new_scanner (sprintf_lu 255 ++ []))
        = some ⟨some (pq_new_int_token .PQ_INT_TOK 255 0), none, s'⟩) :=
  ⟨asciiW_isoAscii, by decide,
    (C6_integer_literal_value asciiW asciiW_isoAscii pq_new_scanner).1 16 [70, 70] [] 5
      (by decide) (by decide) (by decide) (by decide) (by decide)
      (by unfold ends_literal; decide) (by decide),
    by decide,
    (C6_integer_literal_value asciiW asciiW_isoAscii pq_new_scanner).2 255 [] 4
      (by decide) (by decide) (by unfold ends_literal; decide) (by decide)⟩

/-- C1: the parse of `foo(1, 2.5, X).` ends without an error and returns node 5, which holds
the functor `foo` with the argument list 0. That list has the recorded size 1: its only item,
read through the `prev` links, is the integer 1, and the `next` link of its sentinel still
points to the sentinel. The `,` behind the argument `1` was read as the infix operator `,`, so
that the float 2.5 is a sibling of the first argument in the syntax tree. For `foo(a, b, c).`,
whose arguments are names, the argument list has size 3 and holds the atoms `a`, `b`, `c` in
source order. -/
theorem C1_functor_arguments_behind_a_number :
    (pq_parse_buffer asciiW 32 32 (cstr "foo(1, 2.5, X).")).val? = some (some 5)
    ∧ (pq_parse_buffer asciiW 32 32 (cstr "foo(1, 2.5, X).")).err? = some none
    ∧ (pq_parse_buffer asciiW 32 32 (cstr "foo(1, 2.5, X).")).heap?.bind
        (fun h => h.node_term 5)
      = some ⟨.fun_data (cstr "foo") (some 0), 0, PQ_TERM_ATOM_TYPE ||| PQ_TERM_FUNCTOR_TYPE⟩
    ∧ (pq_parse_buffer asciiW 32 32 (cstr "foo(1, 2.5, X).")).heap?.bind
        (fun h => h.list_size 0) = some 1
    ∧ (pq_parse_buffer asciiW 32 32 (cstr "foo(1, 2.5, X).")).heap?.map
        (fun h => h.item_terms (h.list_items_by_prev 0))
      = some [some ⟨.int_val 1, 0, PQ_TERM_NUMERIC_TYPE ||| PQ_TERM_INTEGER_TYPE⟩]
    ∧ (pq_parse_buffer asciiW 32 32 (cstr "foo(1, 2.5, X).")).heap?.map
        (fun h => h.list_items_by_next 0) = some []
    ∧ (pq_parse_buffer asciiW 32 32 (cstr "foo(1, 2.5, X).")).heap?.map
        (fun h => h.chain_terms (some 0))
      = some [some ⟨.int_val 1, 0, PQ_TERM_NUMERIC_TYPE ||| PQ_TERM_INTEGER_TYPE⟩,
          some ⟨.op_data (cstr ",") .PQ_OP_XFY, 1201,
            PQ_TERM_ATOM_TYPE ||| PQ_TERM_OPERATOR_TYPE⟩,
          some ⟨.float_val ⟨false, cstr "2.5"⟩, 0,
            PQ_TERM_NUMERIC_TYPE ||| PQ_TERM_FLOAT_TYPE⟩]
    ∧ (pq_parse_buffer asciiW 32 32 (cstr "foo(a, b, c).")).err? = some none
    ∧ (pq_parse_buffer asciiW 32 32 (cstr "foo(a, b, c).")).heap?.bind
        (fun h => h.list_size 0) = some 3
    ∧ (pq_parse_buffer asciiW 32 32 (cstr "foo(a, b, c).")).heap?.map
        (fun h => h.item_terms (h.list_items_by_prev 0))
      = some [some ⟨.atom_id (cstr "a") , 1201, PQ_TERM_ATOM_TYPE⟩,
          some ⟨.atom_id (cstr "b") , 1201, PQ_TERM_ATOM_TYPE⟩,
          some ⟨.atom_id (cstr "c") , 1201, PQ_TERM_ATOM_TYPE⟩] := by
  decide!

theorem getElem?_append_length {α : Type} (l : List α) (x : α) :
    (l ++ [x]).get? l.length = some x := by
  simp

set_option maxHeartbeats 4000000 in
/-- With the priority 0 and an INTEGER token, `pq_parse_prolog_term` makes the term and its node
and reads the next token. -/
theorem term_zero_int (W : WCtype) (sf fuel : Nat) (st : pq_state) (n pri : Int) (d : Nat)
    (r : pq_scan_result) (hcur : st.parser.curr_tok = some ⟨.PQ_INT_TOK, .i n, pri, d⟩)
    (hnext : pq_scanner_next_token W sf st.parser.scanner = some r) :
    pq_parse_prolog_term W sf (fuel + 1) 0 st
      = .ok (some st.heap.nodes.length)
          ⟨⟨r.scanner, r.tok, r.err⟩,
            { st.heap with
              terms := st.heap.terms
                ++ [⟨.int_val n, 0, PQ_TERM_NUMERIC_TYPE ||| PQ_TERM_INTEGER_TYPE⟩],
              nodes := st.heap.nodes ++ [⟨some st.heap.terms.length, none, none, none⟩] }⟩ := by
  rw [pq_parse_prolog_term]
  simp only [hcur, gt_iff_lt, lt_self_iff_false, if_false, pq_state.alloc, pq_new_integer_term,
    pq_heap.new_term, pq_new_syntax_tree_node, pq_parser_next_token, hnext, pq_res.bind]

/-- With the priority 0 and a FLOAT token, `pq_parse_prolog_term` makes the term and its node
and reads the next token. -/
theorem term_zero_flt (W : WCtype) (sf fuel : Nat) (st : pq_state) (v : PQflt) (pri : Int)
    (d : Nat) (r : pq_scan_result)
    (hcur : st.parser.curr_tok = some ⟨.PQ_FLT_TOK, .f v, pri, d⟩)
    (hnext : pq_scanner_next_token W sf st.parser.scanner = some r) :
    pq_parse_prolog_term W sf (fuel + 1) 0 st
      = .ok (some st.heap.nodes.length)
          ⟨⟨r.scanner, r.tok, r.err⟩,
            { st.heap with
              terms := st.heap.terms
                ++ [⟨.float_val v, 0, PQ_TERM_NUMERIC_TYPE ||| PQ_TERM_FLOAT_TYPE⟩],
              nodes := st.heap.nodes ++ [⟨some st.heap.terms.length, none, none, none⟩] }⟩ := by
  rw [pq_parse_prolog_term]
  simp only [hcur, gt_iff_lt, lt_self_iff_false, if_false, pq_state.alloc, pq_new_float_term,
    pq_heap.new_term, pq_new_syntax_tree_node, pq_parser_next_token, hnext, pq_res.bind]

/-- With a priority above 0 and a token that is no prefix operator, a term of priority 0 that
is followed by the END token is the result. -/
theorem term_pos_before_end (W : WCtype) (sf fuel priority : Nat) (st st1 : pq_state)
    (tok tend : pq_tok) (left : Option Ptr) (hp : 0 < priority)
    (hcur : st.parser.curr_tok = some tok) (hpre : tok.is_prefix_operator_name = some false)
    (hleft : pq_parse_prolog_term W sf fuel 0 st = .ok left st1)
    (herr : st1.parser.err = none) (hend : st1.parser.curr_tok = some tend)
    (htag : tend.tag = .PQ_END_TOK) :
    pq_parse_prolog_term W sf (fuel + 1) priority st = .ok left st1 := by
  rw [pq_parse_prolog_term]
  have hp' : priority > 0 := hp
  simp only [hcur, hp', if_true, hpre, hleft, pq_res.bind, pq_state.has_err, herr,
    Option.isSome_none, Bool.false_eq_true, if_false, hend, htag]

/-- The prefix operator `-` before a numeric token: the operand is parsed, and its term is
negated in place. -/
theorem prefix_minus_operand (W : WCtype) (sf fuel priority : Nat) (st st2 : pq_state)
    (minus tok : pq_tok) (r : pq_scan_result) (right : Option Ptr) (h2 : pq_heap)
    (hcur : st.parser.curr_tok = some minus) (hminus : minus.tag = .PQ_NAME_TOK)
    (hname : minus.str = some (cstr "-"))
    (hnext : pq_scanner_next_token W sf st.parser.scanner = some r)
    (herr : r.err = none) (htok : r.tok = some tok)
    (htag : tok.tag = .PQ_INT_TOK ∨ tok.tag = .PQ_FLT_TOK)
    (hright : pq_parse_prolog_term W sf fuel priority
      { st with parser := ⟨r.scanner, some tok, none⟩ } = .ok right st2)
    (herr2 : st2.parser.err = none)
    (hneg : st2.heap.negate_item right = some h2) :
    pq_parse_prolog_prefix_op_or_functor_or_atom W sf (fuel + 1) priority st
      = .ok right { st2 with heap := h2 } := by
  rw [pq_parse_prolog_prefix_op_or_functor_or_atom]
  have hpre : pq_syntax_name_is_prefix_operator (cstr "-") = true := by decide
  have hfx : pq_syntax_name_is_spec_operator (cstr "-") .PQ_OP_FX = false := by decide
  have hitem : ∃ i, st2.heap.node_item right = some i := by
    unfold pq_heap.negate_item at hneg
    unfold pq_heap.node_item
    cases right with
    | none => simp at hneg
    | some nd =>
      simp only at hneg ⊢
      cases hn : st2.heap.nodes.get? nd with
      | none => rw [hn] at hneg; simp at hneg
      | some n => exact ⟨_, rfl⟩
  obtain ⟨i, hi⟩ := hitem
  simp only [hcur, pq_tok.is_prefix_operator_name, hminus, if_true, hname, Option.map_some', hpre,
    hfx, Bool.false_eq_true, if_false, pq_parser_next_token, hnext, pq_res.bind,
    pq_state.has_err, herr, Option.isSome_none, htok]
  rcases htag with htag | htag
  · simp only [htag, hright, pq_res.bind, pq_state.has_err, herr2, Option.isSome_none,
      Bool.false_eq_true, if_false, pq_parse_link_prefix_operand, hi, if_true, hneg,
      pq_state.with_heap]
  · simp only [htag, hright, pq_res.bind, pq_state.has_err, herr2, Option.isSome_none,
      Bool.false_eq_true, if_false, pq_parse_link_prefix_operand, hi, if_true, hneg,
      pq_state.with_heap]

/-- With a priority above 0 and a prefix operator as the current token,
`pq_parse_prolog_term` is `pq_parse_prolog_prefix_op_or_functor_or_atom`. -/
theorem term_pos_prefix (W : WCtype) (sf fuel priority : Nat) (st : pq_state) (tok : pq_tok)
    (hp : 0 < priority) (hcur : st.parser.curr_tok = some tok)
    (hpre : tok.is_prefix_operator_name = some true) :
    pq_parse_prolog_term W sf (fuel + 1) priority st
      = pq_parse_prolog_prefix_op_or_functor_or_atom W sf fuel priority st := by
  rw [pq_parse_prolog_term]
  have hp' : priority > 0 := hp
  simp only [hcur, hp', if_true, hpre]

/-- C9: the current token is the name `-`, the scanner then yields an INTEGER token with the
value `n` and after it an END token. Then `pq_parse_prolog_term`, called with any priority above
0 and enough fuel, returns one new node whose term is the integer `-n`: this term is the only
term added to the heap, so there is no operator term for `-`, and the parser stands at the END
token. With a FLOAT token in place of the INTEGER token the one new term is the float with its
sign flipped. -/
theorem C9_negative_literal_fold (W : WCtype) (sf fuel priority : Nat) (st : pq_state)
    (minus tend : pq_tok) (s1 s2 : pq_scanner)
    (hcur : st.parser.curr_tok = some minus) (hminus : minus.tag = .PQ_NAME_TOK)
    (hname : minus.str = some (cstr "-")) (hp : 0 < priority)
    (hend_tag : tend.tag = .PQ_END_TOK)
    (hend : pq_scanner_next_token W sf s1 = some ⟨some tend, none, s2⟩) :
    (∀ (n pri : Int) (d : Nat),
      pq_scanner_next_token W sf st.parser.scanner
        = some ⟨some ⟨.PQ_INT_TOK, .i n, pri, d⟩, none, s1⟩ →
      pq_parse_prolog_term W sf (fuel + 4) priority st
        = .ok (some st.heap.nodes.length)
            ⟨⟨s2, some tend, none⟩,
              { st.heap with
                terms := st.heap.terms
                  ++ [⟨.int_val (-n), 0, PQ_TERM_NUMERIC_TYPE ||| PQ_TERM_INTEGER_TYPE⟩],
                nodes := st.heap.nodes ++ [⟨some st.heap.terms.length, none, none, none⟩] }⟩)
    ∧ (∀ (v : PQflt) (pri : Int) (d : Nat),
      pq_scanner_next_token W sf st.parser.scanner
        = some ⟨some ⟨.PQ_FLT_TOK, .f v, pri, d⟩, none, s1⟩ →
      pq_parse_prolog_term W sf (fuel + 4) priority st
        = .ok (some st.heap.nodes.length)
            ⟨⟨s2, some tend, none⟩,
              { st.heap with
                terms := st.heap.terms
                  ++ [⟨.float_val { v with neg := !v.neg }, 0,
                    PQ_TERM_NUMERIC_TYPE ||| PQ_TERM_FLOAT_TYPE⟩],
                nodes := st.heap.nodes ++ [⟨some st.heap.terms.length, none, none, none⟩] }⟩) := by
  have hpre : minus.is_prefix_operator_name = some true := by
    unfold pq_tok.is_prefix_operator_name
    rw [if_pos hminus, hname]
    decide
  constructor
  · intro n pri d hint
    rw [show fuel + 4 = (fuel + 3) + 1 by omega, term_pos_prefix W sf _ priority st minus hp hcur hpre]
    have h0 := term_zero_int W sf fuel
      { st with parser := ⟨s1, some ⟨.PQ_INT_TOK, .i n, pri, d⟩, none⟩ } n pri d _ rfl hend
    have h1 := term_pos_before_end W sf (fuel + 1) priority
      { st with parser := ⟨s1, some ⟨.PQ_INT_TOK, .i n, pri, d⟩, none⟩ } _ _ tend _ hp rfl
      (by simp [pq_tok.is_prefix_operator_name]) h0 rfl rfl hend_tag
    rw [prefix_minus_operand W sf (fuel + 2) priority st _ minus _ _ _ _ hcur hminus hname hint
      rfl rfl (Or.inl rfl) h1 rfl (by
        simp only [pq_heap.negate_item, getElem?_append_length]
        rfl)]
    simp [pq_term.negate, PQ_TERM_NUMERIC_TYPE, PQ_TERM_INTEGER_TYPE]
  · intro v pri d hflt
    rw [show fuel + 4 = (fuel + 3) + 1 by omega, term_pos_prefix W sf _ priority st minus hp hcur hpre]
    have h0 := term_zero_flt W sf fuel
      { st with parser := ⟨s1, some ⟨.PQ_FLT_TOK, .f v, pri, d⟩, none⟩ } v pri d _ rfl hend
    have h1 := term_pos_before_end W sf (fuel + 1) priority
      { st with parser := ⟨s1, some ⟨.PQ_FLT_TOK, .f v, pri, d⟩, none⟩ } _ _ tend _ hp rfl
      (by simp [pq_tok.is_prefix_operator_name]) h0 rfl rfl hend_tag
    rw [prefix_minus_operand W sf (fuel + 2) priority st _ minus _ _ _ _ hcur hminus hname hflt
      rfl rfl (Or.inr rfl) h1 rfl (by
        simp only [pq_heap.negate_item, getElem?_append_length]
        rfl)]
    have h52 : (5 &&& 2 : Nat) = 0 := by decide
    have h54 : (5 &&& 4 : Nat) = 4 := by decide
    simp [pq_term.negate, PQ_TERM_NUMERIC_TYPE, PQ_TERM_INTEGER_TYPE, PQ_TERM_FLOAT_TYPE, h52, h54]

/-- C9 (witness): the clause `- 5 .`, from the point where the parser has read the name `-`. -/
theorem C9_witness :
    ∃ st s2 tend,
      st.parser.curr_tok = some (pq_new_str_token .PQ_NAME_TOK (cstr "-") 0)
      ∧ (pq_parser_next_token asciiW 8 (pq_state.init (cstr "- 5 ."))).val? = some ()
      ∧ (pq_parser_next_token asciiW 8 (pq_state.init (cstr "- 5 ."))).heap? = some st.heap
      ∧ (pq_parser_next_token asciiW 8 (pq_state.init (cstr "- 5 ."))).curr_tok?
          = some st.parser.curr_tok
      ∧ tend.tag = .PQ_END_TOK
      ∧ pq_parse_prolog_term asciiW 8 (0 + 4) 1200 st
        = .ok (some 0)
            ⟨⟨s2, some tend, none⟩,
              ⟨[⟨.int_val (-5), 0, PQ_TERM_NUMERIC_TYPE ||| PQ_TERM_INTEGER_TYPE⟩],
                [⟨some 0, none, none, none⟩], [], []⟩⟩ :=
  ⟨⟨⟨((pq_scanner_next_token asciiW 8
        (pq_scanner_set_buffer pq_new_scanner (cstr "- 5 ."))).map (fun r => r.scanner)).getD
          pq_new_scanner,
      some (pq_new_str_token .PQ_NAME_TOK (cstr "-") 0), none⟩, pq_heap.empty⟩,
    _, pq_new_str_literal_token .PQ_END_TOK (cstr ".") 0,
    rfl, by decide!, by decide!, by decide!, rfl,
    (C9_negative_literal_fold asciiW 8 0 1200 _ (pq_new_str_token .PQ_NAME_TOK (cstr "-") 0)
      (pq_new_str_literal_token .PQ_END_TOK (cstr ".") 0)
      (((pq_scanner_next_token asciiW 8
        (((pq_scanner_next_token asciiW 8
          (pq_scanner_set_buffer pq_new_scanner (cstr "- 5 ."))).map (fun r => r.scanner)).getD
            pq_new_scanner)).map (fun r => r.scanner)).getD pq_new_scanner)
      (((pq_scanner_next_token asciiW 8
        (((pq_scanner_next_token asciiW 8
        (((pq_scanner_next_token asciiW 8
          (pq_scanner_set_buffer pq_new_scanner (cstr "- 5 ."))).map (fun r => r.scanner)).getD
            pq_new_scanner)).map (fun r => r.scanner)).getD pq_new_scanner)).map
              (fun r => r.scanner)).getD pq_new_scanner)
      rfl rfl rfl (by decide) rfl (by decide!)).1 5 0 0 (by decide!)⟩

/-- C4 (amended): in the loop of `pq_parse_prolog_items`, at a `|` token the parser reads the
next token, parses one argument and pushes it at the back of the same list `items` that holds
the items parsed so far, and returns that list: no tail is kept apart from the items. When the
argument is followed by a token that is neither `,` nor `|`, the result is the one that the
loop gives in the same state with a `,` token in place of the `|` token. -/
theorem C4_tail_is_pushed_as_last_item (W : WCtype) (sf fuel : Nat) (items : Ptr)
    (st : pq_state) (bar comma : pq_tok)
    (hcur : st.parser.curr_tok = some bar) (hbar : bar.tag = .PQ_HT_SEP_TOK)
    (hcomma : comma.tag = .PQ_COMMA_TOK)
    (herr : (pq_parse_prolog_items_loop W sf (fuel + 2) items st).err? = some none) :
    (pq_parse_prolog_items_loop W sf (fuel + 2) items st).val? = some (some items)
    ∧ (∃ s1 arg st_a, pq_parser_next_token W sf st = .ok () s1
        ∧ pq_parse_prolog_arg W sf (fuel + 1) s1 = .ok arg st_a
        ∧ (pq_parse_prolog_items_loop W sf (fuel + 2) items st).heap?
            = pq_list_push_back st_a.heap items arg
        ∧ (pq_parse_prolog_items_loop W sf (fuel + 2) items st).curr_tok?
            = some st_a.parser.curr_tok)
    ∧ ((∀ tok, (pq_parse_prolog_items_loop W sf (fuel + 2) items st).curr_tok? = some (some tok) →
          tok.tag ≠ .PQ_COMMA_TOK ∧ tok.tag ≠ .PQ_HT_SEP_TOK) →
        pq_parse_prolog_items_loop W sf (fuel + 2) items
            { st with parser := { st.parser with curr_tok := some comma } }
          = pq_parse_prolog_items_loop W sf (fuel + 2) items st) := by
  have hnt : pq_parser_next_token W sf
      { st with parser := { st.parser with curr_tok := some comma } }
      = pq_parser_next_token W sf st := rfl
  rw [pq_parse_prolog_items_loop] at herr ⊢
  rw [pq_parse_prolog_items_loop]
  simp only [hcur, hbar, hcomma, hnt] at herr ⊢
  cases h1 : pq_parser_next_token W sf st with
  | fault e => rw [h1] at herr; simp [pq_res.bind, pq_res.err?] at herr
  | ok u s1 =>
    rw [h1] at herr
    simp only [pq_res.bind] at herr ⊢
    cases h2 : pq_parse_prolog_arg W sf (fuel + 1) s1 with
    | fault e => rw [h2] at herr; simp [pq_res.bind, pq_res.err?] at herr
    | ok arg st_a =>
      rw [h2] at herr
      simp only [pq_res.bind] at herr ⊢
      by_cases he : st_a.has_err = true
      · rw [if_pos he] at herr
        simp only [pq_res.err?, Option.some.injEq] at herr
        simp [pq_state.has_err, herr] at he
      · rw [if_neg he] at herr ⊢
        rw [if_neg he]
        cases h3 : pq_list_push_back st_a.heap items arg with
        | none => rw [h3] at herr; simp [pq_state.with_heap, pq_res.err?] at herr
        | some h' =>
          simp only [pq_state.with_heap, pq_res.val?, pq_res.heap?, pq_res.curr_tok?, true_and]
          refine ⟨⟨s1, arg, st_a, rfl, h2, h3.symm, rfl⟩, ?_⟩
          intro hstop
          rw [pq_parse_prolog_items_loop]
          simp only
          cases hc : st_a.parser.curr_tok with
          | none => rfl
          | some tok =>
            have := hstop tok (by rw [hc])
            simp only
            split <;> simp_all


/-- C4 (witness): the loop at a `|` token with the rest `T].` of the input and an empty list. -/
theorem C4_witness :
    (pq_parse_prolog_items_loop asciiW 8 (2 + 2) 0
        ⟨⟨pq_scanner_set_buffer pq_new_scanner (cstr "T]."),
          some (pq_new_str_literal_token .PQ_HT_SEP_TOK (cstr "|") 0), none⟩,
          (pq_new_list pq_heap.empty).1⟩).val? = some (some 0)
    ∧ (pq_parse_prolog_items_loop asciiW 8 (2 + 2) 0
        ⟨⟨pq_scanner_set_buffer pq_new_scanner (cstr "T]."),
          some (pq_new_str_literal_token .PQ_HT_SEP_TOK (cstr "|") 0), none⟩,
          (pq_new_list pq_heap.empty).1⟩).heap?.map
        (fun h => h.item_terms (h.list_items_by_prev 0))
      = some [some ⟨.var_id (cstr "T"), 1201, PQ_TERM_VARIABLE_TYPE⟩]
    ∧ pq_parse_prolog_items_loop asciiW 8 (2 + 2) 0
        ⟨⟨pq_scanner_set_buffer pq_new_scanner (cstr "T]."),
          some (pq_new_str_literal_token .PQ_COMMA_TOK (cstr ",") 0), none⟩,
          (pq_new_list pq_heap.empty).1⟩
      = pq_parse_prolog_items_loop asciiW 8 (2 + 2) 0
        ⟨⟨pq_scanner_set_buffer pq_new_scanner (cstr "T]."),
          some (pq_new_str_literal_token .PQ_HT_SEP_TOK (cstr "|") 0), none⟩,
          (pq_new_list pq_heap.empty).1⟩ :=
  ⟨(C4_tail_is_pushed_as_last_item asciiW 8 2 0
      ⟨⟨pq_scanner_set_buffer pq_new_scanner (cstr "T]."),
        some (pq_new_str_literal_token .PQ_HT_SEP_TOK (cstr "|") 0), none⟩,
        (pq_new_list pq_heap.empty).1⟩
      (pq_new_str_literal_token .PQ_HT_SEP_TOK (cstr "|") 0)
      (pq_new_str_literal_token .PQ_COMMA_TOK (cstr ",") 0) rfl rfl rfl (by decide!)).1,
    by decide!,
    (C4_tail_is_pushed_as_last_item asciiW 8 2 0
      ⟨⟨pq_scanner_set_buffer pq_new_scanner (cstr "T]."),
        some (pq_new_str_literal_token .PQ_HT_SEP_TOK (cstr "|") 0), none⟩,
        (pq_new_list pq_heap.empty).1⟩
      (pq_new_str_literal_token .PQ_HT_SEP_TOK (cstr "|") 0)
      (pq_new_str_literal_token .PQ_COMMA_TOK (cstr ",") 0) rfl rfl rfl (by decide!)).2.2
      (by
        intro tok htok
        have e : (pq_parse_prolog_items_loop asciiW 8 (2 + 2) 0
            ⟨⟨pq_scanner_set_buffer pq_new_scanner (cstr "T]."),
              some (pq_new_str_literal_token .PQ_HT_SEP_TOK (cstr "|") 0), none⟩,
              (pq_new_list pq_heap.empty).1⟩).curr_tok?
            = some (some (pq_new_str_literal_token .PQ_RLIST_TOK (cstr "]") 0)) := by decide!
        rw [e] at htok
        cases htok
        decide)⟩

/-- C4 (counterexample): the parses of `[a, b | T].` and of `[a, b, T].` end without an error
with the same heap and return the same node 1. Its term is a list term that points to list 0
and to nothing else, and list 0 has the recorded size 3 and holds the atoms `a` and `b` and the
variable `T`: the tail is the third item. -/
theorem C4_counterexample_tail_among_items :
    (pq_parse_buffer asciiW 32 32 (cstr "[a, b | T].")).heap?
      = (pq_parse_buffer asciiW 32 32 (cstr "[a, b, T].")).heap?
    ∧ (pq_parse_buffer asciiW 32 32 (cstr "[a, b | T].")).val? = some (some 1)
    ∧ (pq_parse_buffer asciiW 32 32 (cstr "[a, b, T].")).val? = some (some 1)
    ∧ (pq_parse_buffer asciiW 32 32 (cstr "[a, b | T].")).err? = some none
    ∧ (pq_parse_buffer asciiW 32 32 (cstr "[a, b, T].")).err? = some none
    ∧ (pq_parse_buffer asciiW 32 32 (cstr "[a, b | T].")).heap?.bind (fun h => h.node_term 1)
      = some ⟨.list_items (some 0), 0, PQ_TERM_ATOM_TYPE ||| PQ_TERM_LIST_TYPE⟩
    ∧ (pq_parse_buffer asciiW 32 32 (cstr "[a, b | T].")).heap?.bind (fun h => h.list_size 0)
      = some 3
    ∧ (pq_parse_buffer asciiW 32 32 (cstr "[a, b | T].")).heap?.map
        (fun h => h.item_terms (h.list_items_by_prev 0))
      = some [some ⟨.atom_id (cstr "a"), 1201, PQ_TERM_ATOM_TYPE⟩,
          some ⟨.atom_id (cstr "b"), 1201, PQ_TERM_ATOM_TYPE⟩,
          some ⟨.var_id (cstr "T"), 1201, PQ_TERM_VARIABLE_TYPE⟩] := by
  decide!

theorem pq_heap.operand_node_none (h : pq_heap) : h.operand_node none := by
  intro nd hnd; cases hnd

theorem pq_heap.ok_with_of {h : pq_heap} {G G' : List (Option Ptr)} (hG : h.ok_with G')
    (hsub : G ⊆ none :: G') : h.ok_with G := by
  refine ⟨hG.1, fun nd hnd => ?_⟩
  rcases List.mem_cons.mp (hsub hnd) with h0 | h1
  · subst h0; exact h.operand_node_none
  · exact hG.2 nd h1

theorem pq_res.holds_mono {α : Type} {r : pq_res α} {Q Q' : α → pq_state → Prop}
    (h : r.holds Q) (hQ : ∀ v st, Q v st → Q' v st) : r.holds Q' := by
  cases r with
  | ok v st => exact hQ v st h
  | fault e => trivial

theorem pq_res.holds_bind {α β : Type} {r : pq_res α} {f : α → pq_state → pq_res β}
    {Q : α → pq_state → Prop} {Q' : β → pq_state → Prop}
    (h : r.holds Q) (hf : ∀ a st, Q a st → (f a st).holds Q') : (r.bind f).holds Q' := by
  cases r with
  | ok v st => exact hf v st h
  | fault e => trivial

theorem holds_next_token {β : Type} (W : WCtype) (sf : Nat) (st : pq_state)
    {f : Unit → pq_state → pq_res β} {Q' : β → pq_state → Prop} {G : List (Option Ptr)}
    (hG : st.heap.ok_with G)
    (hf : ∀ st1 : pq_state, st1.heap.ok_with G → (f () st1).holds Q') :
    ((pq_parser_next_token W sf st).bind f).holds Q' := by
  unfold pq_parser_next_token
  cases pq_scanner_next_token W sf st.parser.scanner with
  | none => trivial
  | some r => exact hf _ hG

/-! ### The heap operations keep the priorities in order -/

theorem pq_heap.operand_node_of_ext (h h' : pq_heap)
    (hn : ∀ nd n, h.nodes.get? nd = some n → ∃ n', h'.nodes.get? nd = some n' ∧ n'.item = n.item)
    (ht : ∀ ti t, h.terms.get? ti = some t →
      ∃ t', h'.terms.get? ti = some t' ∧ t'.is_infix_op = t.is_infix_op)
    {node : Option Ptr} (hop : h.operand_node node) : h'.operand_node node := by
  intro nd hnd
  obtain ⟨n, ti, t, h1, h2, h3, h4⟩ := hop nd hnd
  obtain ⟨n', hn1, hn2⟩ := hn nd n h1
  obtain ⟨t', ht1, ht2⟩ := ht ti t h3
  exact ⟨n', ti, t', hn1, by rw [hn2, h2], ht1, by rw [ht2, h4]⟩

theorem pq_heap.ok_with_same {h h' : pq_heap} {G : List (Option Ptr)} (hG : h.ok_with G)
    (ht : h'.terms = h.terms)
    (hn : ∀ nd n, h.nodes.get? nd = some n → ∃ n', h'.nodes.get? nd = some n' ∧ n'.item = n.item) :
    h'.ok_with G := by
  refine ⟨?_, fun nd hnd => ?_⟩
  · intro t htm; rw [ht] at htm; exact hG.1 t htm
  · exact pq_heap.operand_node_of_ext h h' hn (fun ti t h1 => ⟨t, by rw [ht]; exact h1, rfl⟩)
      (hG.2 nd hnd)

theorem get?_append_of_some {α : Type} {l : List α} {i : Nat} {x : α} (y : α)
    (h : l.get? i = some x) : (l ++ [y]).get? i = some x := by
  have hlt : i < l.length := by
    by_contra hc
    rw [List.get?_eq_none.mpr (by omega)] at h
    cases h
  simp only [List.get?_eq_getElem?] at h ⊢
  rw [List.getElem?_append_left hlt]; exact h

theorem pq_heap.ok_with_new_term {h : pq_heap} {G : List (Option Ptr)} (hG : h.ok_with G)
    (tm : pq_term) (hp : tm.priority ≤ 1201) (hi : tm.is_infix_op = true → tm.priority = 1201) :
    (h.new_term tm).1.ok_with G := by
  refine ⟨?_, fun nd hnd => ?_⟩
  · intro t htm
    simp only [pq_heap.new_term, List.mem_append, List.mem_singleton] at htm
    rcases htm with h1 | h1
    · exact hG.1 t h1
    · subst h1; exact ⟨hp, hi⟩
  · refine pq_heap.operand_node_of_ext h _ ?_ ?_ (hG.2 nd hnd)
    · exact fun nd n h1 => ⟨n, h1, rfl⟩
    · exact fun ti t h1 => ⟨t, get?_append_of_some tm h1, rfl⟩

theorem pq_heap.ok_with_new_node {h : pq_heap} {G : List (Option Ptr)} (hG : h.ok_with G)
    (item : Option Ptr) : (pq_new_syntax_tree_node h item).1.ok_with G := by
  refine ⟨hG.1, fun nd hnd => ?_⟩
  refine pq_heap.operand_node_of_ext h _ ?_ ?_ (hG.2 nd hnd)
  · exact fun nd n h1 => ⟨n, get?_append_of_some _ h1, rfl⟩
  · exact fun ti t h1 => ⟨t, h1, rfl⟩

theorem pq_heap.ok_with_new_term_node {h : pq_heap} {G : List (Option Ptr)} (hG : h.ok_with G)
    (tm : pq_term) (hp : tm.priority ≤ 1201) (hi : tm.is_infix_op = false) :
    (pq_new_syntax_tree_node (h.new_term tm).1 (some (h.new_term tm).2)).1.ok_with
      (some (pq_new_syntax_tree_node (h.new_term tm).1 (some (h.new_term tm).2)).2 :: G) := by
  have h1 := pq_heap.ok_with_new_node
    (pq_heap.ok_with_new_term hG tm hp (by rw [hi]; intro hc; cases hc)) (some (h.new_term tm).2)
  refine ⟨h1.1, fun nd hnd => ?_⟩
  rcases List.mem_cons.mp hnd with h0 | h0
  · subst h0
    intro nd hnd
    cases hnd
    refine ⟨⟨some h.terms.length, none, none, none⟩, h.terms.length, tm, ?_, rfl, ?_, hi⟩
    · simp [pq_new_syntax_tree_node, pq_heap.new_term]
    · simp [pq_new_syntax_tree_node, pq_heap.new_term]
  · exact h1.2 nd h0

theorem get?_set_item {α : Type} (l : List α) (i j : Nat) (x y : α)
    (h : l.get? j = some x) : ∃ z, (l.set i y).get? j = some z ∧ (j ≠ i → z = x) ∧ (j = i → z = y) := by
  simp only [List.get?_eq_getElem?] at h ⊢
  have hlt : j < l.length := by
    by_contra hc
    rw [List.getElem?_eq_none (by omega)] at h
    cases h
  by_cases hij : j = i
  · subst hij
    exact ⟨y, by simp [hlt], fun hc => absurd rfl hc, fun _ => rfl⟩
  · refine ⟨x, ?_, fun _ => rfl, fun hc => absurd hc hij⟩
    rw [List.getElem?_set_ne (Ne.symm hij)]; exact h

theorem pq_heap.ok_with_set_item_priority {h h' : pq_heap} {G : List (Option Ptr)}
    (hG : h.ok_with G) {node : Option Ptr} (hnode : node ∈ G) {p : Nat} (hp : p ≤ 1201)
    (hset : h.set_item_priority node p = some h') : h'.ok_with G := by
  unfold pq_heap.set_item_priority at hset
  cases node with
  | none => simp at hset
  | some nd =>
    obtain ⟨n, ti, t, h1, h2, h3, h4⟩ := hG.2 _ hnode nd rfl
    simp only [h1, h2, h3, Option.some.injEq] at hset
    subst hset
    refine ⟨?_, fun x hx => ?_⟩
    · intro t' ht'
      simp only at ht'
      rcases List.mem_or_eq_of_mem_set ht' with h5 | h5
      · exact hG.1 t' h5
      · subst h5
        refine ⟨hp, fun hc => ?_⟩
        have : t.is_infix_op = true := hc
        rw [h4] at this; cases this
    · refine pq_heap.operand_node_of_ext h _ ?_ ?_ (hG.2 x hx)
      · exact fun nd n h1 => ⟨n, h1, rfl⟩
      intro tj tt htt
      obtain ⟨z, hz1, hz2, hz3⟩ := get?_set_item h.terms ti tj tt { t with priority := p } htt
      refine ⟨z, hz1, ?_⟩
      by_cases hij : tj = ti
      · rw [hz3 hij]
        subst hij
        rw [h3] at htt
        cases htt
        rfl
      · rw [hz2 hij]

theorem pq_term.negate_is_infix_op (t : pq_term) : t.negate.is_infix_op = t.is_infix_op := by
  unfold pq_term.negate
  split
  · split <;> simp_all [pq_term.is_infix_op]
  · split
    · split <;> simp_all [pq_term.is_infix_op]
    · rfl

theorem pq_term.negate_priority (t : pq_term) : t.negate.priority = t.priority := by
  unfold pq_term.negate
  split
  · split <;> rfl
  · split
    · split <;> rfl
    · rfl

theorem pq_heap.ok_with_negate_item {h h' : pq_heap} {G : List (Option Ptr)}
    (hG : h.ok_with G) {node : Option Ptr} (hset : h.negate_item node = some h') :
    h'.ok_with G := by
  unfold pq_heap.negate_item at hset
  cases node with
  | none => simp at hset
  | some nd =>
    simp only at hset
    cases h1 : h.nodes.get? nd with
    | none => rw [h1] at hset; simp at hset
    | some n =>
      rw [h1] at hset
      simp only at hset
      cases h2 : n.item with
      | none => rw [h2] at hset; simp at hset
      | some ti =>
        rw [h2] at hset
        simp only at hset
        cases h3 : h.terms.get? ti with
        | none => rw [h3] at hset; simp at hset
        | some t =>
          rw [h3] at hset
          simp only [Option.some.injEq] at hset
          subst hset
          refine ⟨?_, fun x hx => ?_⟩
          · intro t' ht'
            simp only at ht'
            rcases List.mem_or_eq_of_mem_set ht' with h5 | h5
            · exact hG.1 t' h5
            · subst h5
              rw [pq_term.negate_is_infix_op, pq_term.negate_priority]
              exact hG.1 t (List.mem_iff_get?.mpr ⟨ti, h3⟩)
          · refine pq_heap.operand_node_of_ext h _ ?_ ?_ (hG.2 x hx)
            · exact fun nd n h1 => ⟨n, h1, rfl⟩
            intro tj tt htt
            obtain ⟨z, hz1, hz2, hz3⟩ := get?_set_item h.terms ti tj tt t.negate htt
            refine ⟨z, hz1, ?_⟩
            by_cases hij : tj = ti
            · rw [hz3 hij]
              subst hij
              rw [h3] at htt
              cases htt
              exact pq_term.negate_is_infix_op _
            · rw [hz2 hij]

theorem pq_heap.ok_with_new_list {h : pq_heap} {G : List (Option Ptr)} (hG : h.ok_with G) :
    (pq_new_list h).1.ok_with G :=
  pq_heap.ok_with_same hG rfl (fun _ n h1 => ⟨n, h1, rfl⟩)

theorem pq_heap.ok_with_push_back {h h' : pq_heap} {G : List (Option Ptr)} (hG : h.ok_with G)
    {list : Ptr} {item : Option Ptr} (hpush : pq_list_push_back h list item = some h') :
    h'.ok_with G := by
  unfold pq_list_push_back at hpush
  split at hpush
  · cases hpush
  · split at hpush
    · cases hpush
    · simp only [Option.some.injEq] at hpush
      subst hpush
      exact pq_heap.ok_with_same hG rfl (fun _ n h1 => ⟨n, h1, rfl⟩)

theorem nodes_ext_refl (l : List pq_syntax_tree_node) : nodes_ext l l :=
  fun _ n h => ⟨n, h, rfl⟩

theorem nodes_ext_trans {l1 l2 l3 : List pq_syntax_tree_node} (h12 : nodes_ext l1 l2)
    (h23 : nodes_ext l2 l3) : nodes_ext l1 l3 := by
  intro nd n h
  obtain ⟨n2, h2, e2⟩ := h12 nd n h
  obtain ⟨n3, h3, e3⟩ := h23 nd n2 h2
  exact ⟨n3, h3, by rw [e3, e2]⟩

theorem nodes_ext_set (l : List pq_syntax_tree_node) (i : Nat) (x y : pq_syntax_tree_node)
    (hx : l.get? i = some x) (hy : y.item = x.item) : nodes_ext l (l.set i y) := by
  intro nd n h
  obtain ⟨z, hz1, hz2, hz3⟩ := get?_set_item l i nd n y h
  refine ⟨z, hz1, ?_⟩
  by_cases hij : nd = i
  · rw [hz3 hij, hy]
    subst hij
    rw [hx] at h
    cases h
    rfl
  · rw [hz2 hij]

theorem add_right_sibling_nodes_ext {h h2 : pq_heap} {node sibling : Option Ptr}
    (hadd : pq_syntax_tree_add_right_sibling_node h node sibling = some h2) :
    h2.terms = h.terms ∧ nodes_ext h.nodes h2.nodes := by
  unfold pq_syntax_tree_add_right_sibling_node at hadd
  cases sibling with
  | none =>
    simp only [Option.some.injEq] at hadd
    subst hadd
    exact ⟨rfl, nodes_ext_refl _⟩
  | some sib =>
    cases node with
    | none => simp at hadd
    | some nd =>
      simp only at hadd
      cases hs : h.nodes.get? sib with
      | none => rw [hs] at hadd; simp at hadd
      | some s =>
        cases hn : h.nodes.get? nd with
        | none => rw [hs, hn] at hadd; simp at hadd
        | some n =>
          rw [hs, hn] at hadd
          simp only at hadd
          have e1 := nodes_ext_set h.nodes sib s { s with prev := some nd, next := n.next } hs rfl
          cases hnx : n.next with
          | none =>
            rw [hnx] at hadd e1
            simp only at hadd
            cases h1 : (h.nodes.set sib { s with prev := some nd, next := none }).get? nd with
            | none => rw [h1] at hadd; simp at hadd
            | some n1 =>
              rw [h1] at hadd
              simp only [Option.some.injEq] at hadd
              subst hadd
              exact ⟨rfl, nodes_ext_trans e1 (nodes_ext_set _ nd n1 _ h1 rfl)⟩
          | some nx =>
            rw [hnx] at hadd e1
            simp only at hadd
            cases h0 : (h.nodes.set sib { s with prev := some nd, next := some nx }).get? nx with
            | none => rw [h0] at hadd; simp at hadd
            | some x =>
              rw [h0] at hadd
              simp only at hadd
              have e2 := nodes_ext_set _ nx x { x with prev := some sib } h0 rfl
              cases h1 : ((h.nodes.set sib { s with prev := some nd, next := some nx }).set nx
                  { x with prev := some sib }).get? nd with
              | none => rw [h1] at hadd; simp at hadd
              | some n1 =>
                rw [h1] at hadd
                simp only [Option.some.injEq] at hadd
                subst hadd
                exact ⟨rfl, nodes_ext_trans e1 (nodes_ext_trans e2 (nodes_ext_set _ nd n1 _ h1 rfl))⟩

theorem pq_heap.ok_with_add_right_sibling {h h2 : pq_heap} {G : List (Option Ptr)}
    (hG : h.ok_with G) {node sibling : Option Ptr}
    (hadd : pq_syntax_tree_add_right_sibling_node h node sibling = some h2) : h2.ok_with G :=
  pq_heap.ok_with_same hG (add_right_sibling_nodes_ext hadd).1 (add_right_sibling_nodes_ext hadd).2

/-! ### The steps of the parser keep the priorities in order -/

theorem holds_set_item_priority {α : Type} (st : pq_state) {G : List (Option Ptr)}
    {node : Option Ptr} {p : Nat} {k : pq_state → pq_res α} {Q : α → pq_state → Prop}
    (hG : st.heap.ok_with G) (hnode : node ∈ G) (hp : p ≤ 1201)
    (hk : ∀ st1 : pq_state, st1.heap.ok_with G → (k st1).holds Q) :
    (st.with_heap (st.heap.set_item_priority node p) k).holds Q := by
  unfold pq_state.with_heap
  cases hset : st.heap.set_item_priority node p with
  | none => trivial
  | some h2 => exact hk _ (pq_heap.ok_with_set_item_priority hG hnode hp hset)

theorem holds_push_back {α : Type} (st : pq_state) {G : List (Option Ptr)}
    {list : Ptr} {item : Option Ptr} {k : pq_state → pq_res α} {Q : α → pq_state → Prop}
    (hG : st.heap.ok_with G)
    (hk : ∀ st1 : pq_state, st1.heap.ok_with G → (k st1).holds Q) :
    (st.with_heap (pq_list_push_back st.heap list item) k).holds Q := by
  unfold pq_state.with_heap
  cases hset : pq_list_push_back st.heap list item with
  | none => trivial
  | some h2 => exact hk _ (pq_heap.ok_with_push_back hG hset)

theorem holds_add_right_sibling {α : Type} (st : pq_state) {G : List (Option Ptr)}
    {node sibling : Option Ptr} {k : pq_state → pq_res α} {Q : α → pq_state → Prop}
    (hG : st.heap.ok_with G)
    (hk : ∀ st1 : pq_state, st1.heap.ok_with G → (k st1).holds Q) :
    (st.with_heap (pq_syntax_tree_add_right_sibling_node st.heap node sibling) k).holds Q := by
  unfold pq_state.with_heap
  cases hset : pq_syntax_tree_add_right_sibling_node st.heap node sibling with
  | none => trivial
  | some h2 => exact hk _ (pq_heap.ok_with_add_right_sibling hG hset)

theorem holds_negate_item {α : Type} (st : pq_state) {G : List (Option Ptr)}
    {node : Option Ptr} {k : pq_state → pq_res α} {Q : α → pq_state → Prop}
    (hG : st.heap.ok_with G)
    (hk : ∀ st1 : pq_state, st1.heap.ok_with G → (k st1).holds Q) :
    (st.with_heap (st.heap.negate_item node) k).holds Q := by
  unfold pq_state.with_heap
  cases hset : st.heap.negate_item node with
  | none => trivial
  | some h2 => exact hk _ (pq_heap.ok_with_negate_item hG hset)

theorem holds_new_list {α : Type} (st : pq_state) {G : List (Option Ptr)}
    {k : Ptr → pq_state → pq_res α} {Q : α → pq_state → Prop}
    (hG : st.heap.ok_with G)
    (hk : ∀ (l : Ptr) (st1 : pq_state), st1.heap.ok_with G → (k l st1).holds Q) :
    (st.alloc pq_new_list k).holds Q :=
  hk _ _ (pq_heap.ok_with_new_list hG)

theorem holds_new_term_node {α : Type} (st : pq_state) {G : List (Option Ptr)} (tm : pq_term)
    {k : Ptr → pq_state → pq_res α} {Q : α → pq_state → Prop}
    (hG : st.heap.ok_with G) (hp : tm.priority ≤ 1201) (hi : tm.is_infix_op = false)
    (hk : ∀ (nd : Ptr) (st1 : pq_state), st1.heap.ok_with (some nd :: G) → (k nd st1).holds Q) :
    (st.alloc (fun h => h.new_term tm) fun t st =>
      st.alloc (fun h => pq_new_syntax_tree_node h (some t)) k).holds Q :=
  hk _ _ (pq_heap.ok_with_new_term_node hG tm hp hi)

theorem holds_new_term {α : Type} (st : pq_state) {G : List (Option Ptr)} (tm : pq_term)
    {k : Ptr → pq_state → pq_res α} {Q : α → pq_state → Prop}
    (hG : st.heap.ok_with G) (hp : tm.priority ≤ 1201) (hi : tm.is_infix_op = false)
    (hk : ∀ (t : Ptr) (st1 : pq_state), st1.heap.ok_with G → (k t st1).holds Q) :
    (st.alloc (fun h => h.new_term tm) k).holds Q :=
  hk _ _ (pq_heap.ok_with_new_term hG tm hp (by rw [hi]; intro hc; cases hc))

theorem holds_new_term_then_node {α : Type} (st : pq_state) {G : List (Option Ptr)}
    (tm : pq_term) {k : Ptr → pq_state → pq_res α} {Q : α → pq_state → Prop}
    (hG : st.heap.ok_with G) (hp : tm.priority ≤ 1201)
    (hi : tm.is_infix_op = true → tm.priority = 1201)
    (hk : ∀ (nd : Ptr) (st1 : pq_state), st1.heap.ok_with G → (k nd st1).holds Q) :
    (st.alloc (fun h => h.new_term tm) fun t st =>
      st.alloc (fun h => pq_new_syntax_tree_node h (some t)) k).holds Q :=
  hk _ _ (pq_heap.ok_with_new_node (pq_heap.ok_with_new_term hG tm hp hi) _)

theorem holds_link_infix_op (st : pq_state) {G : List (Option Ptr)} (left right : Option Ptr)
    (op_name : Bytes) (spec : pq_op_specifier) (hG : st.heap.ok_with G) :
    (pq_parse_link_infix_op st left right op_name spec).holds
      (fun v st1 => v = left ∧ st1.heap.ok_with G) := by
  unfold pq_parse_link_infix_op
  refine holds_new_term_then_node st
    ⟨.op_data op_name spec, 1201, PQ_TERM_ATOM_TYPE ||| PQ_TERM_OPERATOR_TYPE⟩ hG
    (Nat.le_refl _) (fun _ => rfl) fun nd st1 h1 => ?_
  refine holds_add_right_sibling _ h1 fun st2 h2 => ?_
  refine holds_add_right_sibling _ h2 fun st3 h3 => ?_
  exact ⟨rfl, h3⟩

theorem holds_link_postfix_op (st : pq_state) {G : List (Option Ptr)} (left : Option Ptr)
    (op_name : Bytes) (spec : pq_op_specifier) (hG : st.heap.ok_with G) :
    (pq_parse_link_postfix_op st left op_name spec).holds
      (fun v st1 => v = left ∧ st1.heap.ok_with G) := by
  unfold pq_parse_link_postfix_op
  refine holds_new_term_then_node st
    ⟨.op_data op_name spec, 1201, PQ_TERM_ATOM_TYPE ||| PQ_TERM_OPERATOR_TYPE⟩ hG
    (Nat.le_refl _) (fun _ => rfl) fun nd st1 h1 => ?_
  refine holds_add_right_sibling _ h1 fun st2 h2 => ?_
  exact ⟨rfl, h2⟩

theorem holds_link_prefix_operand (st : pq_state) {G : List (Option Ptr)} (right : Option Ptr)
    (op_name : Bytes) (spec : pq_op_specifier) (hG : st.heap.ok_with G)
    (hspec : spec = .PQ_OP_FX ∨ spec = .PQ_OP_FY) (hright : right ∈ G) :
    (pq_parse_link_prefix_operand st right op_name spec).holds
      (fun v st1 => st1.heap.ok_with (v :: G)) := by
  unfold pq_parse_link_prefix_operand
  split
  · trivial
  · split
    · refine holds_negate_item _ hG fun st1 h1 => ?_
      exact pq_heap.ok_with_of h1 (by
        intro x hx
        rcases List.mem_cons.mp hx with h0 | h0
        · exact List.mem_cons_of_mem _ (by rw [h0]; exact hright)
        · exact List.mem_cons_of_mem _ h0)
    · refine holds_new_term_node st ⟨.op_data op_name spec, 1201,
        PQ_TERM_ATOM_TYPE ||| PQ_TERM_OPERATOR_TYPE⟩ hG (Nat.le_refl _)
        (by rcases hspec with h0 | h0 <;> subst h0 <;> rfl) fun nd st1 h1 => ?_
      refine holds_add_right_sibling _ h1 fun st2 h2 => ?_
      exact h2

theorem pq_priority_dec_le {p : Nat} (h0 : 0 < p) (hp : p ≤ 1201) : pq_priority_dec p ≤ 1201 := by
  unfold pq_priority_dec
  omega

theorem set_err_heap (st : pq_state) (msg : String) : (st.set_err msg).heap = st.heap := rfl

theorem holds_ok {α : Type} (v : α) (st : pq_state) (Q : α → pq_state → Prop) :
    (pq_res.ok v st).holds Q = Q v st := rfl

theorem node?_map_arg_list (r : Option Ptr) :
    pq_operand_or_arg_list.node? (r.map fun l => .arg_list l) = none := by
  cases r <;> rfl

theorem node?_operand (n : Option Ptr) :
    pq_operand_or_arg_list.node? (some (.operand n)) = n := rfl

theorem node?_none : pq_operand_or_arg_list.node? none = none := rfl

theorem ok_arg_step (W : WCtype) (sf fuel : Nat)
    (ih1 : ∀ p st G, p ≤ 1201 → st.heap.ok_with G →
      (pq_parse_prolog_term W sf fuel p st).holds (fun v st1 => st1.heap.ok_with (v :: G)))
    (st : pq_state) (G : List (Option Ptr))
    (hG : st.heap.ok_with G) :
    (pq_parse_prolog_arg W sf (fuel + 1) st).holds
      (fun _ st1 => st1.heap.ok_with G) := by
  rw [pq_parse_prolog_arg]
  try simp only [pq_new_atom_term, pq_new_integer_term, pq_new_float_term, pq_new_variable_term,
    pq_new_functor_term, pq_new_list_term]
  repeat' first
    | exact trivial
    | assumption
    | omega
    | exact Nat.le_refl _
    | exact Nat.zero_le _
    | rfl
    | exact Or.inl rfl
    | exact Or.inr rfl
    | exact List.mem_cons_self _ _
    | exact List.mem_cons_of_mem _ (List.mem_cons_self _ _)
    | ((try simp only [holds_ok, set_err_heap, node?_map_arg_list, node?_operand, node?_none])
       apply pq_heap.ok_with_of <;>
         first
         | assumption
         | ((try simp only [List.cons_subset, List.mem_cons, eq_self_iff_true, true_or, or_true,
              true_and])
            (repeat' first
              | exact List.Subset.refl _
              | exact List.nil_subset _
              | apply List.subset_cons_of_subset)
            done))
    | (apply pq_res.holds_mono; apply holds_link_infix_op)
    | (apply pq_res.holds_mono; apply holds_link_postfix_op)
    | (apply pq_res.holds_mono; apply holds_link_prefix_operand)
    | apply holds_new_list
    | apply holds_new_term_node
    | apply holds_new_term
    | apply holds_set_item_priority
    | apply holds_push_back
    | apply holds_next_token W sf
    | (apply pq_res.holds_mono; apply ih1)
    | (apply pq_res.holds_mono; apply ih2)
    | (apply pq_res.holds_mono; apply ih4)
    | (apply pq_res.holds_mono; apply ih8)
    | (apply pq_res.holds_bind; apply ih1)
    | (apply pq_res.holds_bind; apply ih2)
    | (apply pq_res.holds_bind; apply ih3)
    | (apply pq_res.holds_bind; apply ih4)
    | (apply pq_res.holds_bind; apply ih5)
    | (apply pq_res.holds_bind; apply ih6)
    | (apply pq_res.holds_bind; apply ih7)
    | (apply pq_res.holds_bind; apply ih8)
    | rintro _ _ ⟨rfl, _⟩
    | intro _
    | split

theorem ok_arg_list_step (W : WCtype) (sf fuel : Nat)
    (ih4 : ∀ l st G, st.heap.ok_with G →
      (pq_parse_prolog_arg_list_loop W sf fuel l st).holds (fun _ st1 => st1.heap.ok_with G))
    (ih6 : ∀ st G, st.heap.ok_with G →
      (pq_parse_prolog_arg W sf fuel st).holds (fun _ st1 => st1.heap.ok_with G))
    (st : pq_state) (G : List (Option Ptr))
    (hG : st.heap.ok_with G) :
    (pq_parse_prolog_arg_list W sf (fuel + 1) st).holds
      (fun _ st1 => st1.heap.ok_with G) := by
  rw [pq_parse_prolog_arg_list]
  try simp only [pq_new_atom_term, pq_new_integer_term, pq_new_float_term, pq_new_variable_term,
    pq_new_functor_term, pq_new_list_term]
  repeat' first
    | exact trivial
    | assumption
    | omega
    | exact Nat.le_refl _
    | exact Nat.zero_le _
    | rfl
    | exact Or.inl rfl
    | exact Or.inr rfl
    | exact List.mem_cons_self _ _
    | exact List.mem_cons_of_mem _ (List.mem_cons_self _ _)
    | ((try simp only [holds_ok, set_err_heap, node?_map_arg_list, node?_operand, node?_none])
       apply pq_heap.ok_with_of <;>
         first
         | assumption
         | ((try simp only [List.cons_subset, List.mem_cons, eq_self_iff_true, true_or, or_true,
              true_and])
            (repeat' first
              | exact List.Subset.refl _
              | exact List.nil_subset _
              | apply List.subset_cons_of_subset)
            done))
    | (apply pq_res.holds_mono; apply holds_link_infix_op)
    | (apply pq_res.holds_mono; apply holds_link_postfix_op)
    | (apply pq_res.holds_mono; apply holds_link_prefix_operand)
    | apply holds_new_list
    | apply holds_new_term_node
    | apply holds_new_term
    | apply holds_set_item_priority
    | apply holds_push_back
    | apply holds_next_token W sf
    | (apply pq_res.holds_mono; apply ih1)
    | (apply pq_res.holds_mono; apply ih2)
    | (apply pq_res.holds_mono; apply ih4)
    | (apply pq_res.holds_mono; apply ih8)
    | (apply pq_res.holds_bind; apply ih1)
    | (apply pq_res.holds_bind; apply ih2)
    | (apply pq_res.holds_bind; apply ih3)
    | (apply pq_res.holds_bind; apply ih4)
    | (apply pq_res.holds_bind; apply ih5)
    | (apply pq_res.holds_bind; apply ih6)
    | (apply pq_res.holds_bind; apply ih7)
    | (apply pq_res.holds_bind; apply ih8)
    | rintro _ _ ⟨rfl, _⟩
    | intro _
    | split

theorem ok_arg_list_loop_step (W : WCtype) (sf fuel : Nat)
    (ih4 : ∀ l st G, st.heap.ok_with G →
      (pq_parse_prolog_arg_list_loop W sf fuel l st).holds (fun _ st1 => st1.heap.ok_with G))
    (ih6 : ∀ st G, st.heap.ok_with G →
      (pq_parse_prolog_arg W sf fuel st).holds (fun _ st1 => st1.heap.ok_with G))
    (l : Ptr) (st : pq_state) (G : List (Option Ptr))
    (hG : st.heap.ok_with G) :
    (pq_parse_prolog_arg_list_loop W sf (fuel + 1) l st).holds
      (fun _ st1 => st1.heap.ok_with G) := by
  rw [pq_parse_prolog_arg_list_loop]
  try simp only [pq_new_atom_term, pq_new_integer_term, pq_new_float_term, pq_new_variable_term,
    pq_new_functor_term, pq_new_list_term]
  repeat' first
    | exact trivial
    | assumption
    | omega
    | exact Nat.le_refl _
    | exact Nat.zero_le _
    | rfl
    | exact Or.inl rfl
    | exact Or.inr rfl
    | exact List.mem_cons_self _ _
    | exact List.mem_cons_of_mem _ (List.mem_cons_self _ _)
    | ((try simp only [holds_ok, set_err_heap, node?_map_arg_list, node?_operand, node?_none])
       apply pq_heap.ok_with_of <;>
         first
         | assumption
         | ((try simp only [List.cons_subset, List.mem_cons, eq_self_iff_true, true_or, or_true,
              true_and])
            (repeat' first
              | exact List.Subset.refl _
              | exact List.nil_subset _
              | apply List.subset_cons_of_subset)
            done))
    | (apply pq_res.holds_mono; apply holds_link_infix_op)
    | (apply pq_res.holds_mono; apply holds_link_postfix_op)
    | (apply pq_res.holds_mono; apply holds_link_prefix_operand)
    | apply holds_new_list
    | apply holds_new_term_node
    | apply holds_new_term
    | apply holds_set_item_priority
    | apply holds_push_back
    | apply holds_next_token W sf
    | (apply pq_res.holds_mono; apply ih1)
    | (apply pq_res.holds_mono; apply ih2)
    | (apply pq_res.holds_mono; apply ih4)
    | (apply pq_res.holds_mono; apply ih8)
    | (apply pq_res.holds_bind; apply ih1)
    | (apply pq_res.holds_bind; apply ih2)
    | (apply pq_res.holds_bind; apply ih3)
    | (apply pq_res.holds_bind; apply ih4)
    | (apply pq_res.holds_bind; apply ih5)
    | (apply pq_res.holds_bind; apply ih6)
    | (apply pq_res.holds_bind; apply ih7)
    | (apply pq_res.holds_bind; apply ih8)
    | rintro _ _ ⟨rfl, _⟩
    | intro _
    | split

theorem ok_items_step (W : WCtype) (sf fuel : Nat)
    (ih6 : ∀ st G, st.heap.ok_with G →
      (pq_parse_prolog_arg W sf fuel st).holds (fun _ st1 => st1.heap.ok_with G))
    (ih8 : ∀ l st G, st.heap.ok_with G →
      (pq_parse_prolog_items_loop W sf fuel l st).holds (fun _ st1 => st1.heap.ok_with G))
    (st : pq_state) (G : List (Option Ptr))
    (hG : st.heap.ok_with G) :
    (pq_parse_prolog_items W sf (fuel + 1) st).holds
      (fun _ st1 => st1.heap.ok_with G) := by
  rw [pq_parse_prolog_items]
  try simp only [pq_new_atom_term, pq_new_integer_term, pq_new_float_term, pq_new_variable_term,
    pq_new_functor_term, pq_new_list_term]
  repeat' first
    | exact trivial
    | assumption
    | omega
    | exact Nat.le_refl _
    | exact Nat.zero_le _
    | rfl
    | exact Or.inl rfl
    | exact Or.inr rfl
    | exact List.mem_cons_self _ _
    | exact List.mem_cons_of_mem _ (List.mem_cons_self _ _)
    | ((try simp only [holds_ok, set_err_heap, node?_map_arg_list, node?_operand, node?_none])
       apply pq_heap.ok_with_of <;>
         first
         | assumption
         | ((try simp only [List.cons_subset, List.mem_cons, eq_self_iff_true, true_or, or_true,
              true_and])
            (repeat' first
              | exact List.Subset.refl _
              | exact List.nil_subset _
              | apply List.subset_cons_of_subset)
            done))
    | (apply pq_res.holds_mono; apply holds_link_infix_op)
    | (apply pq_res.holds_mono; apply holds_link_postfix_op)
    | (apply pq_res.holds_mono; apply holds_link_prefix_operand)
    | apply holds_new_list
    | apply holds_new_term_node
    | apply holds_new_term
    | apply holds_set_item_priority
    | apply holds_push_back
    | apply holds_next_token W sf
    | (apply pq_res.holds_mono; apply ih1)
    | (apply pq_res.holds_mono; apply ih2)
    | (apply pq_res.holds_mono; apply ih4)
    | (apply pq_res.holds_mono; apply ih8)
    | (apply pq_res.holds_bind; apply ih1)
    | (apply pq_res.holds_bind; apply ih2)
    | (apply pq_res.holds_bind; apply ih3)
    | (apply pq_res.holds_bind; apply ih4)
    | (apply pq_res.holds_bind; apply ih5)
    | (apply pq_res.holds_bind; apply ih6)
    | (apply pq_res.holds_bind; apply ih7)
    | (apply pq_res.holds_bind; apply ih8)
    | rintro _ _ ⟨rfl, _⟩
    | intro _
    | split

theorem ok_items_loop_step (W : WCtype) (sf fuel : Nat)
    (ih6 : ∀ st G, st.heap.ok_with G →
      (pq_parse_prolog_arg W sf fuel st).holds (fun _ st1 => st1.heap.ok_with G))
    (ih8 : ∀ l st G, st.heap.ok_with G →
      (pq_parse_prolog_items_loop W sf fuel l st).holds (fun _ st1 => st1.heap.ok_with G))
    (l : Ptr) (st : pq_state) (G : List (Option Ptr))
    (hG : st.heap.ok_with G) :
    (pq_parse_prolog_items_loop W sf (fuel + 1) l st).holds
      (fun _ st1 => st1.heap.ok_with G) := by
  rw [pq_parse_prolog_items_loop]
  try simp only [pq_new_atom_term, pq_new_integer_term, pq_new_float_term, pq_new_variable_term,
    pq_new_functor_term, pq_new_list_term]
  repeat' first
    | exact trivial
    | assumption
    | omega
    | exact Nat.le_refl _
    | exact Nat.zero_le _
    | rfl
    | exact Or.inl rfl
    | exact Or.inr rfl
    | exact List.mem_cons_self _ _
    | exact List.mem_cons_of_mem _ (List.mem_cons_self _ _)
    | ((try simp only [holds_ok, set_err_heap, node?_map_arg_list, node?_operand, node?_none])
       apply pq_heap.ok_with_of <;>
         first
         | assumption
         | ((try simp only [List.cons_subset, List.mem_cons, eq_self_iff_true, true_or, or_true,
              true_and])
            (repeat' first
              | exact List.Subset.refl _
              | exact List.nil_subset _
              | apply List.subset_cons_of_subset)
            done))
    | (apply pq_res.holds_mono; apply holds_link_infix_op)
    | (apply pq_res.holds_mono; apply holds_link_postfix_op)
    | (apply pq_res.holds_mono; apply holds_link_prefix_operand)
    | apply holds_new_list
    | apply holds_new_term_node
    | apply holds_new_term
    | apply holds_set_item_priority
    | apply holds_push_back
    | apply holds_next_token W sf
    | (apply pq_res.holds_mono; apply ih1)
    | (apply pq_res.holds_mono; apply ih2)
    | (apply pq_res.holds_mono; apply ih4)
    | (apply pq_res.holds_mono; apply ih8)
    | (apply pq_res.holds_bind; apply ih1)
    | (apply pq_res.holds_bind; apply ih2)
    | (apply pq_res.holds_bind; apply ih3)
    | (apply pq_res.holds_bind; apply ih4)
    | (apply pq_res.holds_bind; apply ih5)
    | (apply pq_res.holds_bind; apply ih6)
    | (apply pq_res.holds_bind; apply ih7)
    | (apply pq_res.holds_bind; apply ih8)
    | rintro _ _ ⟨rfl, _⟩
    | intro _
    | split

theorem ok_operand_or_arg_list_step (W : WCtype) (sf fuel : Nat)
    (ih1 : ∀ p st G, p ≤ 1201 → st.heap.ok_with G →
      (pq_parse_prolog_term W sf fuel p st).holds (fun v st1 => st1.heap.ok_with (v :: G)))
    (ih4 : ∀ l st G, st.heap.ok_with G →
      (pq_parse_prolog_arg_list_loop W sf fuel l st).holds (fun _ st1 => st1.heap.ok_with G))
    (p : Nat) (st : pq_state) (G : List (Option Ptr))
    (hp : p ≤ 1201) (hG : st.heap.ok_with G) :
    (pq_parse_prolog_operand_or_arg_list W sf (fuel + 1) p st).holds
      (fun v st1 => st1.heap.ok_with (pq_operand_or_arg_list.node? v :: G)) := by
  rw [pq_parse_prolog_operand_or_arg_list]
  try simp only [pq_new_atom_term, pq_new_integer_term, pq_new_float_term, pq_new_variable_term,
    pq_new_functor_term, pq_new_list_term]
  repeat' first
    | exact trivial
    | assumption
    | omega
    | exact Nat.le_refl _
    | exact Nat.zero_le _
    | rfl
    | exact Or.inl rfl
    | exact Or.inr rfl
    | exact List.mem_cons_self _ _
    | exact List.mem_cons_of_mem _ (List.mem_cons_self _ _)
    | ((try simp only [holds_ok, set_err_heap, node?_map_arg_list, node?_operand, node?_none])
       apply pq_heap.ok_with_of <;>
         first
         | assumption
         | ((try simp only [List.cons_subset, List.mem_cons, eq_self_iff_true, true_or, or_true,
              true_and])
            (repeat' first
              | exact List.Subset.refl _
              | exact List.nil_subset _
              | apply List.subset_cons_of_subset)
            done))
    | (apply pq_res.holds_mono; apply holds_link_infix_op)
    | (apply pq_res.holds_mono; apply holds_link_postfix_op)
    | (apply pq_res.holds_mono; apply holds_link_prefix_operand)
    | apply holds_new_list
    | apply holds_new_term_node
    | apply holds_new_term
    | apply holds_set_item_priority
    | apply holds_push_back
    | apply holds_next_token W sf
    | (apply pq_res.holds_mono; apply ih1)
    | (apply pq_res.holds_mono; apply ih2)
    | (apply pq_res.holds_mono; apply ih4)
    | (apply pq_res.holds_mono; apply ih8)
    | (apply pq_res.holds_bind; apply ih1)
    | (apply pq_res.holds_bind; apply ih2)
    | (apply pq_res.holds_bind; apply ih3)
    | (apply pq_res.holds_bind; apply ih4)
    | (apply pq_res.holds_bind; apply ih5)
    | (apply pq_res.holds_bind; apply ih6)
    | (apply pq_res.holds_bind; apply ih7)
    | (apply pq_res.holds_bind; apply ih8)
    | rintro _ _ ⟨rfl, _⟩
    | intro _
    | split

set_option maxHeartbeats 2000000 in
theorem ok_prefix_step (W : WCtype) (sf fuel : Nat)
    (ih1 : ∀ p st G, p ≤ 1201 → st.heap.ok_with G →
      (pq_parse_prolog_term W sf fuel p st).holds (fun v st1 => st1.heap.ok_with (v :: G)))
    (ih3 : ∀ p st G, p ≤ 1201 → st.heap.ok_with G →
      (pq_parse_prolog_operand_or_arg_list W sf fuel p st).holds
        (fun v st1 => st1.heap.ok_with (pq_operand_or_arg_list.node? v :: G)))
    (p : Nat) (st : pq_state) (G : List (Option Ptr))
    (hp0 : 0 < p) (hp : p ≤ 1201) (hG : st.heap.ok_with G) :
    (pq_parse_prolog_prefix_op_or_functor_or_atom W sf (fuel + 1) p st).holds
      (fun v st1 => st1.heap.ok_with (v :: G)) := by
  rw [pq_parse_prolog_prefix_op_or_functor_or_atom]
  try simp only [pq_new_atom_term, pq_new_integer_term, pq_new_float_term, pq_new_variable_term,
    pq_new_functor_term, pq_new_list_term]
  have hdec : pq_priority_dec p ≤ 1201 := pq_priority_dec_le hp0 hp
  generalize pq_priority_dec p = q at hdec ⊢
  repeat' first
    | exact trivial
    | assumption
    | omega
    | exact Nat.le_refl _
    | exact Nat.zero_le _
    | rfl
    | exact Or.inl rfl
    | exact Or.inr rfl
    | exact List.mem_cons_self _ _
    | exact List.mem_cons_of_mem _ (List.mem_cons_self _ _)
    | ((try simp only [holds_ok, set_err_heap, node?_map_arg_list, node?_operand, node?_none])
       apply pq_heap.ok_with_of <;>
         first
         | assumption
         | ((try simp only [List.cons_subset, List.mem_cons, eq_self_iff_true, true_or, or_true,
              true_and])
            (repeat' first
              | exact List.Subset.refl _
              | exact List.nil_subset _
              | apply List.subset_cons_of_subset)
            done))
    | (apply pq_res.holds_mono; apply holds_link_infix_op)
    | (apply pq_res.holds_mono; apply holds_link_postfix_op)
    | (apply pq_res.holds_mono; apply holds_link_prefix_operand)
    | apply holds_new_list
    | apply holds_new_term_node
    | apply holds_new_term
    | apply holds_set_item_priority
    | apply holds_push_back
    | apply holds_next_token W sf
    | (apply pq_res.holds_mono; apply ih1)
    | (apply pq_res.holds_mono; apply ih2)
    | (apply pq_res.holds_mono; apply ih4)
    | (apply pq_res.holds_mono; apply ih8)
    | (apply pq_res.holds_bind; apply ih1)
    | (apply pq_res.holds_bind; apply ih2)
    | (apply pq_res.holds_bind; apply ih3)
    | (apply pq_res.holds_bind; apply ih4)
    | (apply pq_res.holds_bind; apply ih5)
    | (apply pq_res.holds_bind; apply ih6)
    | (apply pq_res.holds_bind; apply ih7)
    | (apply pq_res.holds_bind; apply ih8)
    | rintro _ _ ⟨rfl, _⟩
    | intro _
    | split

set_option maxHeartbeats 8000000 in
theorem ok_term_step (W : WCtype) (sf fuel : Nat)
    (ih1 : ∀ p st G, p ≤ 1201 → st.heap.ok_with G →
      (pq_parse_prolog_term W sf fuel p st).holds (fun v st1 => st1.heap.ok_with (v :: G)))
    (ih2 : ∀ p st G, 0 < p → p ≤ 1201 → st.heap.ok_with G →
      (pq_parse_prolog_prefix_op_or_functor_or_atom W sf fuel p st).holds
        (fun v st1 => st1.heap.ok_with (v :: G)))
    (ih5 : ∀ st G, st.heap.ok_with G →
      (pq_parse_prolog_arg_list W sf fuel st).holds (fun _ st1 => st1.heap.ok_with G))
    (ih7 : ∀ st G, st.heap.ok_with G →
      (pq_parse_prolog_items W sf fuel st).holds (fun _ st1 => st1.heap.ok_with G))
    (p : Nat) (st : pq_state) (G : List (Option Ptr))
    (hp : p ≤ 1201) (hG : st.heap.ok_with G) :
    (pq_parse_prolog_term W sf (fuel + 1) p st).holds
      (fun v st1 => st1.heap.ok_with (v :: G)) := by
  rw [pq_parse_prolog_term]
  try simp only [pq_new_atom_term, pq_new_integer_term, pq_new_float_term, pq_new_variable_term,
    pq_new_functor_term, pq_new_list_term]
  repeat' first
    | exact trivial
    | assumption
    | omega
    | exact Nat.le_refl _
    | exact Nat.zero_le _
    | rfl
    | exact Or.inl rfl
    | exact Or.inr rfl
    | exact List.mem_cons_self _ _
    | exact List.mem_cons_of_mem _ (List.mem_cons_self _ _)
    | ((try simp only [holds_ok, set_err_heap, node?_map_arg_list, node?_operand, node?_none])
       apply pq_heap.ok_with_of <;>
         first
         | assumption
         | ((try simp only [List.cons_subset, List.mem_cons, eq_self_iff_true, true_or, or_true,
              true_and])
            (repeat' first
              | exact List.Subset.refl _
              | exact List.nil_subset _
              | apply List.subset_cons_of_subset)
            done))
    | (apply pq_res.holds_mono; apply holds_link_infix_op)
    | (apply pq_res.holds_mono; apply holds_link_postfix_op)
    | (apply pq_res.holds_mono; apply holds_link_prefix_operand)
    | apply holds_new_list
    | apply holds_new_term_node
    | apply holds_new_term
    | apply holds_set_item_priority
    | apply holds_push_back
    | apply holds_next_token W sf
    | (apply pq_res.holds_mono; apply ih1)
    | (apply pq_res.holds_mono; apply ih2)
    | (apply pq_res.holds_mono; apply ih4)
    | (apply pq_res.holds_mono; apply ih8)
    | (apply pq_res.holds_bind; apply ih1)
    | (apply pq_res.holds_bind; apply ih2)
    | (apply pq_res.holds_bind; apply ih3)
    | (apply pq_res.holds_bind; apply ih4)
    | (apply pq_res.holds_bind; apply ih5)
    | (apply pq_res.holds_bind; apply ih6)
    | (apply pq_res.holds_bind; apply ih7)
    | (apply pq_res.holds_bind; apply ih8)
    | rintro _ _ ⟨rfl, _⟩
    | intro _
    | split

/-- The parser keeps the priorities of the heap in order, and the nodes it returns hold no
infix operator. -/
theorem parse_priorities_ok (W : WCtype) (sf : Nat) : ∀ fuel : Nat,
    (∀ p st G, p ≤ 1201 → st.heap.ok_with G →
      (pq_parse_prolog_term W sf fuel p st).holds (fun v st1 => st1.heap.ok_with (v :: G)))
    ∧ (∀ p st G, 0 < p → p ≤ 1201 → st.heap.ok_with G →
      (pq_parse_prolog_prefix_op_or_functor_or_atom W sf fuel p st).holds
        (fun v st1 => st1.heap.ok_with (v :: G)))
    ∧ (∀ p st G, p ≤ 1201 → st.heap.ok_with G →
      (pq_parse_prolog_operand_or_arg_list W sf fuel p st).holds
        (fun v st1 => st1.heap.ok_with (pq_operand_or_arg_list.node? v :: G)))
    ∧ (∀ l st G, st.heap.ok_with G →
      (pq_parse_prolog_arg_list_loop W sf fuel l st).holds (fun _ st1 => st1.heap.ok_with G))
    ∧ (∀ st G, st.heap.ok_with G →
      (pq_parse_prolog_arg_list W sf fuel st).holds (fun _ st1 => st1.heap.ok_with G))
    ∧ (∀ st G, st.heap.ok_with G →
      (pq_parse_prolog_arg W sf fuel st).holds (fun _ st1 => st1.heap.ok_with G))
    ∧ (∀ st G, st.heap.ok_with G →
      (pq_parse_prolog_items W sf fuel st).holds (fun _ st1 => st1.heap.ok_with G))
    ∧ (∀ l st G, st.heap.ok_with G →
      (pq_parse_prolog_items_loop W sf fuel l st).holds (fun _ st1 => st1.heap.ok_with G))
  | 0 => by
    refine ⟨?_, ?_, ?_, ?_, ?_, ?_, ?_, ?_⟩
    · intro p st G _ _; rw [pq_parse_prolog_term]; exact trivial
    · intro p st G _ _ _; rw [pq_parse_prolog_prefix_op_or_functor_or_atom]; exact trivial
    · intro p st G _ _; rw [pq_parse_prolog_operand_or_arg_list]; exact trivial
    · intro l st G _; rw [pq_parse_prolog_arg_list_loop]; exact trivial
    · intro st G _; rw [pq_parse_prolog_arg_list]; exact trivial
    · intro st G _; rw [pq_parse_prolog_arg]; exact trivial
    · intro st G _; rw [pq_parse_prolog_items]; exact trivial
    · intro l st G _; rw [pq_parse_prolog_items_loop]; exact trivial
  | fuel + 1 => by
    obtain ⟨ih1, ih2, ih3, ih4, ih5, ih6, ih7, ih8⟩ := parse_priorities_ok W sf fuel
    exact ⟨fun p st G hp hG => ok_term_step W sf fuel ih1 ih2 ih5 ih7 p st G hp hG,
      fun p st G hp0 hp hG => ok_prefix_step W sf fuel ih1 ih3 p st G hp0 hp hG,
      fun p st G hp hG => ok_operand_or_arg_list_step W sf fuel ih1 ih4 p st G hp hG,
      fun l st G hG => ok_arg_list_loop_step W sf fuel ih4 ih6 l st G hG,
      fun st G hG => ok_arg_list_step W sf fuel ih4 ih6 st G hG,
      fun st G hG => ok_arg_step W sf fuel ih1 st G hG,
      fun st G hG => ok_items_step W sf fuel ih6 ih8 st G hG,
      fun l st G hG => ok_items_loop_step W sf fuel ih6 ih8 l st G hG⟩

theorem text_priorities_ok (W : WCtype) (sf : Nat) : ∀ (fuel : Nat) (st : pq_state)
    (G : List (Option Ptr)), st.heap.ok_with G →
      (pq_parse_prolog_text W sf fuel st).holds (fun _ st1 => st1.heap.ok_with G)
  | 0, st, G, _ => by rw [pq_parse_prolog_text]; exact trivial
  | fuel + 1, st, G, hG => by
    have ih1 := (parse_priorities_ok W sf fuel).1
    have iht := text_priorities_ok W sf fuel
    rw [pq_parse_prolog_text]
    repeat' first
      | exact trivial
      | assumption
      | omega
      | ((try simp only [holds_ok, set_err_heap])
         apply pq_heap.ok_with_of <;>
           first
           | assumption
           | ((try simp only [List.cons_subset, List.mem_cons, eq_self_iff_true, true_or, or_true,
                true_and])
              (repeat' first
                | exact List.Subset.refl _
                | exact List.nil_subset _
                | apply List.subset_cons_of_subset)
              done))
      | apply holds_add_right_sibling
      | apply holds_next_token W sf
      | (apply pq_res.holds_bind; apply ih1)
      | (apply pq_res.holds_bind; apply iht)
      | intro _
      | split

theorem empty_ok_with : pq_heap.empty.ok_with [] :=
  ⟨fun t ht => (by cases ht), fun nd hnd => (by cases hnd)⟩

/-- C3 (amended): whatever the buffer, in the heap that the parser leaves no term has a priority
above 1201, and every operator term with an infix specifier (xfx, xfy, yfx) has the
priority 1201. So for every infix operator application the priority of an operand, like that of
any term, is at most the priority of the operator; an `x` operand is not kept below it. -/
theorem C3_operand_priority_at_most_operator_priority (W : WCtype) (sf fuel : Nat)
    (buffer : Bytes) (h : pq_heap)
    (hh : (pq_parse_buffer W sf fuel buffer).heap? = some h) :
    (∀ t ∈ h.terms, t.priority ≤ 1201)
    ∧ (∀ t ∈ h.terms, ∀ id spec, t.data = .op_data id spec →
        spec = .PQ_OP_XFX ∨ spec = .PQ_OP_XFY ∨ spec = .PQ_OP_YFX → t.priority = 1201)
    ∧ (∀ op ∈ h.terms, ∀ operand ∈ h.terms, ∀ id spec, op.data = .op_data id spec →
        spec = .PQ_OP_XFX ∨ spec = .PQ_OP_XFY ∨ spec = .PQ_OP_YFX →
        operand.priority ≤ op.priority) := by
  have key : (pq_parse_buffer W sf fuel buffer).holds (fun _ st1 => st1.heap.ok_with []) := by
    unfold pq_parse_buffer
    apply holds_next_token W sf _ (G := [])
    · exact empty_ok_with
    · intro st1 h1
      exact text_priorities_ok W sf fuel st1 [] h1
  cases hr : pq_parse_buffer W sf fuel buffer with
  | fault e => rw [hr] at hh; cases hh
  | ok v st =>
    rw [hr] at hh key
    simp only [pq_res.heap?, Option.some.injEq] at hh
    subst hh
    have hok : st.heap.priorities_ok := key.1
    have hinf : ∀ t ∈ st.heap.terms, ∀ id spec, t.data = .op_data id spec →
        spec = .PQ_OP_XFX ∨ spec = .PQ_OP_XFY ∨ spec = .PQ_OP_YFX → t.priority = 1201 := by
      intro t ht id spec hd hs
      refine (hok t ht).2 ?_
      unfold pq_term.is_infix_op
      rw [hd]
      rcases hs with h0 | h0 | h0 <;> subst h0 <;> rfl
    refine ⟨fun t ht => (hok t ht).1, hinf, ?_⟩
    intro op hop operand hopd id spec hd hs
    rw [hinf op hop id spec hd hs]
    exact (hok operand hopd).1

/-- C3 (witness): the heap that the parse of `(1 = 2).` leaves. -/
theorem C3_witness :
    (pq_parse_buffer asciiW 32 32 (cstr "(1 = 2).")).heap?
      = some ⟨[⟨.int_val 1, 0, PQ_TERM_NUMERIC_TYPE ||| PQ_TERM_INTEGER_TYPE⟩,
          ⟨.int_val 2, 1201, PQ_TERM_NUMERIC_TYPE ||| PQ_TERM_INTEGER_TYPE⟩,
          ⟨.op_data (cstr "=") .PQ_OP_XFX, 1201, PQ_TERM_ATOM_TYPE ||| PQ_TERM_OPERATOR_TYPE⟩],
        [⟨some 0, some 2, none, none⟩, ⟨some 1, none, some 2, none⟩,
          ⟨some 2, some 1, some 0, none⟩], [], []⟩
    ∧ ∀ op ∈ [(⟨.int_val 1, 0, PQ_TERM_NUMERIC_TYPE ||| PQ_TERM_INTEGER_TYPE⟩ : pq_term),
          ⟨.int_val 2, 1201, PQ_TERM_NUMERIC_TYPE ||| PQ_TERM_INTEGER_TYPE⟩,
          ⟨.op_data (cstr "=") .PQ_OP_XFX, 1201, PQ_TERM_ATOM_TYPE ||| PQ_TERM_OPERATOR_TYPE⟩],
        ∀ operand ∈ [(⟨.int_val 1, 0, PQ_TERM_NUMERIC_TYPE ||| PQ_TERM_INTEGER_TYPE⟩ : pq_term),
          ⟨.int_val 2, 1201, PQ_TERM_NUMERIC_TYPE ||| PQ_TERM_INTEGER_TYPE⟩,
          ⟨.op_data (cstr "=") .PQ_OP_XFX, 1201, PQ_TERM_ATOM_TYPE ||| PQ_TERM_OPERATOR_TYPE⟩],
        ∀ id spec, op.data = .op_data id spec →
          spec = .PQ_OP_XFX ∨ spec = .PQ_OP_XFY ∨ spec = .PQ_OP_YFX →
          operand.priority ≤ op.priority :=
  ⟨by decide!,
    (C3_operand_priority_at_most_operator_priority asciiW 32 32 (cstr "(1 = 2).")
      ⟨[⟨.int_val 1, 0, PQ_TERM_NUMERIC_TYPE ||| PQ_TERM_INTEGER_TYPE⟩,
          ⟨.int_val 2, 1201, PQ_TERM_NUMERIC_TYPE ||| PQ_TERM_INTEGER_TYPE⟩,
          ⟨.op_data (cstr "=") .PQ_OP_XFX, 1201, PQ_TERM_ATOM_TYPE ||| PQ_TERM_OPERATOR_TYPE⟩],
        [⟨some 0, some 2, none, none⟩, ⟨some 1, none, some 2, none⟩,
          ⟨some 2, some 1, some 0, none⟩], [], []⟩ (by decide!)).2.2⟩

/-- C3 (counterexample): after the parse of `(1 = 2).` node 2 holds the operator `=` with the
specifier xfx and the priority 1201, and its right operand, an `x` operand, is the integer 2
with the priority 1201, which is not below 1201. After the parse of `(\+ a).` node 1 holds the
prefix operator `\+` with the specifier fy and the priority 0, and its operand, a `y` operand,
is the atom `a` with the priority 1201, which is above 0. -/
theorem C3_counterexample_operand_not_below :
    (pq_parse_buffer asciiW 32 32 (cstr "(1 = 2).")).err? = some none
    ∧ (pq_parse_buffer asciiW 32 32 (cstr "(1 = 2).")).heap?.bind (fun h => h.node_term 2)
      = some ⟨.op_data (cstr "=") .PQ_OP_XFX, 1201, PQ_TERM_ATOM_TYPE ||| PQ_TERM_OPERATOR_TYPE⟩
    ∧ (pq_parse_buffer asciiW 32 32 (cstr "(1 = 2).")).heap?.bind (fun h => h.nodes.get? 2)
      = some ⟨some 2, some 1, some 0, none⟩
    ∧ (pq_parse_buffer asciiW 32 32 (cstr "(1 = 2).")).heap?.bind (fun h => h.node_term 1)
      = some ⟨.int_val 2, 1201, PQ_TERM_NUMERIC_TYPE ||| PQ_TERM_INTEGER_TYPE⟩
    ∧ (pq_parse_buffer asciiW 32 32 (cstr "(1 = 2).")).heap?.bind
        (fun h => h.right_operand_rule 2) = some false
    ∧ (pq_parse_buffer asciiW 32 32 (cstr "(\\+ a).")).err? = some none
    ∧ (pq_parse_buffer asciiW 32 32 (cstr "(\\+ a).")).heap?.bind (fun h => h.node_term 1)
      = some ⟨.op_data (cstr "\\+") .PQ_OP_FY, 0, PQ_TERM_ATOM_TYPE ||| PQ_TERM_OPERATOR_TYPE⟩
    ∧ (pq_parse_buffer asciiW 32 32 (cstr "(\\+ a).")).heap?.bind (fun h => h.nodes.get? 1)
      = some ⟨some 1, some 0, none, none⟩
    ∧ (pq_parse_buffer asciiW 32 32 (cstr "(\\+ a).")).heap?.bind (fun h => h.node_term 0)
      = some ⟨.atom_id (cstr "a"), 1201, PQ_TERM_ATOM_TYPE⟩
    ∧ (pq_parse_buffer asciiW 32 32 (cstr "(\\+ a).")).heap?.bind
        (fun h => h.right_operand_rule 1) = some false := by
  decide!

/-! ## Parenthesised terms: a parse without an error returns a node -/

theorem pq_res.gives_true {α : Type} (r : pq_res α) : r.gives (fun _ => True) := by
  cases r with
  | ok v st => exact fun _ => trivial
  | fault e => trivial

theorem pq_res.gives_ok {α : Type} {v : α} {st : pq_state} {P : α → Prop} (h : P v) :
    (pq_res.ok v st).gives P := fun _ => h

theorem pq_res.gives_err {α : Type} {v : α} {st : pq_state} {msg : String} {P : α → Prop} :
    (pq_res.ok v (st.set_err msg)).gives P := by
  intro h
  cases h

theorem pq_res.gives_fault {α : Type} {e : pq_fault} {P : α → Prop} :
    (pq_res.fault e : pq_res α).gives P := trivial

theorem pq_res.gives_chk {α : Type} {st : pq_state} {K : pq_res (Option α)}
    {P : Option α → Prop} (h : K.gives P) :
    (if st.has_err = true then pq_res.ok none st else K).gives P := by
  split
  · rename_i h1
    intro h2
    rw [h1] at h2
    cases h2
  · exact h

theorem pq_res.gives_bind_chk {α β : Type} {r : pq_res α} {K : α → pq_state → pq_res (Option β)}
    {P0 : α → Prop} {P : Option β → Prop} (h : r.gives P0)
    (hK : ∀ v st, P0 v → (K v st).gives P) :
    (r.bind fun v st => if st.has_err = true then pq_res.ok none st else K v st).gives P := by
  cases r with
  | fault e => trivial
  | ok v st =>
    show (if st.has_err = true then pq_res.ok none st else K v st).gives P
    split
    · rename_i h1
      intro h2
      rw [h1] at h2
      cases h2
    · rename_i h1
      exact hK v st (h (by simpa using h1))

theorem pq_res.gives_bind_any {α β : Type} {r : pq_res α} {f : α → pq_state → pq_res β}
    {P : β → Prop} (hf : ∀ v st, (f v st).gives P) : (r.bind f).gives P := by
  cases r with
  | fault e => trivial
  | ok v st => exact hf v st

theorem gives_next_token {β : Type} (W : WCtype) (sf : Nat) (st : pq_state)
    {f : Unit → pq_state → pq_res β} {P : β → Prop}
    (hf : ∀ st1 : pq_state, (f () st1).gives P) :
    ((pq_parser_next_token W sf st).bind f).gives P :=
  pq_res.gives_bind_any fun _ st1 => hf st1

theorem gives_alloc {β : Type} (st : pq_state) {mk : pq_heap → pq_heap × Ptr}
    {k : Ptr → pq_state → pq_res β} {P : β → Prop}
    (hk : ∀ (p : Ptr) (st1 : pq_state), (k p st1).gives P) : (st.alloc mk k).gives P :=
  hk _ _

theorem gives_with_heap {β : Type} (st : pq_state) {h : Option pq_heap}
    {k : pq_state → pq_res β} {P : β → Prop}
    (hk : ∀ st1 : pq_state, (k st1).gives P) : (st.with_heap h k).gives P := by
  unfold pq_state.with_heap
  cases h with
  | none => trivial
  | some h1 => exact hk _

theorem gives_link_infix_op (st : pq_state) (left right : Option Ptr) (op_name : Bytes)
    (spec : pq_op_specifier) {P : Option Ptr → Prop} (h : P left) :
    (pq_parse_link_infix_op st left right op_name spec).gives P := by
  unfold pq_parse_link_infix_op
  refine gives_alloc _ fun _ _ => gives_alloc _ fun _ _ => gives_with_heap _ fun _ =>
    gives_with_heap _ fun _ => pq_res.gives_ok h

theorem gives_link_postfix_op (st : pq_state) (left : Option Ptr) (op_name : Bytes)
    (spec : pq_op_specifier) {P : Option Ptr → Prop} (h : P left) :
    (pq_parse_link_postfix_op st left op_name spec).gives P := by
  unfold pq_parse_link_postfix_op
  refine gives_alloc _ fun _ _ => gives_alloc _ fun _ _ => gives_with_heap _ fun _ =>
    pq_res.gives_ok h

theorem gives_link_prefix_operand (st : pq_state) (right : Option Ptr) (op_name : Bytes)
    (spec : pq_op_specifier) (h : right.isSome = true) :
    (pq_parse_link_prefix_operand st right op_name spec).gives (fun v => v.isSome = true) := by
  unfold pq_parse_link_prefix_operand
  split
  · trivial
  · split
    · exact gives_with_heap _ fun _ => pq_res.gives_ok h
    · exact gives_alloc _ fun _ _ => gives_alloc _ fun _ _ => gives_with_heap _ fun _ =>
        pq_res.gives_ok rfl

theorem map_arg_list_ne_operand (r : Option Ptr) (n : Option Ptr) :
    r.map (fun l => pq_operand_or_arg_list.arg_list l) ≠ some (.operand n) := by
  cases r <;> simp

set_option maxHeartbeats 4000000 in
theorem gives_term_step (W : WCtype) (sf fuel : Nat)
    (ih1 : ∀ p st, (pq_parse_prolog_term W sf fuel p st).gives (fun v => v.isSome = true))
    (ih2 : ∀ p st, (pq_parse_prolog_prefix_op_or_functor_or_atom W sf fuel p st).gives
      (fun v => v.isSome = true))
    (ih3 : ∀ p st, (pq_parse_prolog_operand_or_arg_list W sf fuel p st).gives
      (fun v => ∀ n, v = some (.operand n) → n.isSome = true))
    (p : Nat) (st : pq_state) :
    (pq_parse_prolog_term W sf (fuel + 1) p st).gives
      (fun v => v.isSome = true) := by
  rw [pq_parse_prolog_term]
  repeat' first
    | exact trivial
    | exact pq_res.gives_fault
    | exact pq_res.gives_err
    | (apply pq_res.gives_ok
       first
       | rfl
       | assumption
       | (intro n hn; cases hn; assumption)
       | exact fun n hn => absurd hn (map_arg_list_ne_operand _ n))
    | (apply gives_link_infix_op; assumption)
    | (apply gives_link_postfix_op; assumption)
    | (apply gives_link_prefix_operand
       first
       | assumption
       | (apply_assumption; rfl))
    | exact ih1 _ _
    | exact ih2 _ _
    | apply gives_alloc
    | apply gives_with_heap
    | apply gives_next_token
    | (apply pq_res.gives_bind_chk; apply ih1)
    | (apply pq_res.gives_bind_chk; apply ih2)
    | (apply pq_res.gives_bind_chk; apply ih3)
    | (apply pq_res.gives_bind_chk; apply pq_res.gives_true)
    | (apply pq_res.gives_bind_any; intro _ _)
    | apply pq_res.gives_chk
    | intro _
    | split

theorem gives_prefix_step (W : WCtype) (sf fuel : Nat)
    (ih1 : ∀ p st, (pq_parse_prolog_term W sf fuel p st).gives (fun v => v.isSome = true))
    (ih2 : ∀ p st, (pq_parse_prolog_prefix_op_or_functor_or_atom W sf fuel p st).gives
      (fun v => v.isSome = true))
    (ih3 : ∀ p st, (pq_parse_prolog_operand_or_arg_list W sf fuel p st).gives
      (fun v => ∀ n, v = some (.operand n) → n.isSome = true))
    (p : Nat) (st : pq_state) :
    (pq_parse_prolog_prefix_op_or_functor_or_atom W sf (fuel + 1) p st).gives
      (fun v => v.isSome = true) := by
  rw [pq_parse_prolog_prefix_op_or_functor_or_atom]
  repeat' first
    | exact trivial
    | exact pq_res.gives_fault
    | exact pq_res.gives_err
    | (apply pq_res.gives_ok
       first
       | rfl
       | assumption
       | (intro n hn; cases hn; assumption)
       | exact fun n hn => absurd hn (map_arg_list_ne_operand _ n))
    | (apply gives_link_infix_op; assumption)
    | (apply gives_link_postfix_op; assumption)
    | (apply gives_link_prefix_operand
       first
       | assumption
       | (apply_assumption; rfl))
    | exact ih1 _ _
    | exact ih2 _ _
    | apply gives_alloc
    | apply gives_with_heap
    | apply gives_next_token
    | (apply pq_res.gives_bind_chk; apply ih1)
    | (apply pq_res.gives_bind_chk; apply ih2)
    | (apply pq_res.gives_bind_chk; apply ih3)
    | (apply pq_res.gives_bind_chk; apply pq_res.gives_true)
    | (apply pq_res.gives_bind_any; intro _ _)
    | apply pq_res.gives_chk
    | intro _
    | split

theorem gives_operand_or_arg_list_step (W : WCtype) (sf fuel : Nat)
    (ih1 : ∀ p st, (pq_parse_prolog_term W sf fuel p st).gives (fun v => v.isSome = true))
    (ih2 : ∀ p st, (pq_parse_prolog_prefix_op_or_functor_or_atom W sf fuel p st).gives
      (fun v => v.isSome = true))
    (ih3 : ∀ p st, (pq_parse_prolog_operand_or_arg_list W sf fuel p st).gives
      (fun v => ∀ n, v = some (.operand n) → n.isSome = true))
    (p : Nat) (st : pq_state) :
    (pq_parse_prolog_operand_or_arg_list W sf (fuel + 1) p st).gives
      (fun v => ∀ n, v = some (.operand n) → n.isSome = true) := by
  rw [pq_parse_prolog_operand_or_arg_list]
  repeat' first
    | exact trivial
    | exact pq_res.gives_fault
    | exact pq_res.gives_err
    | (apply pq_res.gives_ok
       first
       | rfl
       | assumption
       | (intro n hn; cases hn; assumption)
       | exact fun n hn => absurd hn (map_arg_list_ne_operand _ n))
    | (apply gives_link_infix_op; assumption)
    | (apply gives_link_postfix_op; assumption)
    | (apply gives_link_prefix_operand
       first
       | assumption
       | (apply_assumption; rfl))
    | exact ih1 _ _
    | exact ih2 _ _
    | apply gives_alloc
    | apply gives_with_heap
    | apply gives_next_token
    | (apply pq_res.gives_bind_chk; apply ih1)
    | (apply pq_res.gives_bind_chk; apply ih2)
    | (apply pq_res.gives_bind_chk; apply ih3)
    | (apply pq_res.gives_bind_chk; apply pq_res.gives_true)
    | (apply pq_res.gives_bind_any; intro _ _)
    | apply pq_res.gives_chk
    | intro _
    | split

theorem parse_gives (W : WCtype) (sf : Nat) : ∀ fuel : Nat,
    (∀ p st, (pq_parse_prolog_term W sf fuel p st).gives (fun v => v.isSome = true))
    ∧ (∀ p st, (pq_parse_prolog_prefix_op_or_functor_or_atom W sf fuel p st).gives
      (fun v => v.isSome = true))
    ∧ (∀ p st, (pq_parse_prolog_operand_or_arg_list W sf fuel p st).gives
      (fun v => ∀ n, v = some (.operand n) → n.isSome = true))
  | 0 => by
    refine ⟨?_, ?_, ?_⟩
    · intro p st; rw [pq_parse_prolog_term]; exact trivial
    · intro p st; rw [pq_parse_prolog_prefix_op_or_functor_or_atom]; exact trivial
    · intro p st; rw [pq_parse_prolog_operand_or_arg_list]; exact trivial
  | fuel + 1 => by
    obtain ⟨ih1, ih2, ih3⟩ := parse_gives W sf fuel
    exact ⟨fun p st => gives_term_step W sf fuel ih1 ih2 ih3 p st,
      fun p st => gives_prefix_step W sf fuel ih1 ih2 ih3 p st,
      fun p st => gives_operand_or_arg_list_step W sf fuel ih1 ih2 ih3 p st⟩

/-! ## Parenthesised terms: heaps up to the priority fields -/

theorem pq_heap.erase_eq_iff (h1 h2 : pq_heap) :
    h1.erase_priorities = h2.erase_priorities ↔
      h1.terms.map pq_term.erase_priority = h2.terms.map pq_term.erase_priority
      ∧ h1.nodes = h2.nodes ∧ h1.lists = h2.lists ∧ h1.list_nodes = h2.list_nodes := by
  cases h1; cases h2; simp [pq_heap.erase_priorities]

theorem pq_heap.erase_terms_length {h1 h2 : pq_heap}
    (hE : h1.erase_priorities = h2.erase_priorities) : h2.terms.length = h1.terms.length := by
  have h := congrArg List.length ((pq_heap.erase_eq_iff h1 h2).mp hE).1
  simpa using h.symm

theorem pq_heap.erase_new_term {h1 h2 : pq_heap}
    (hE : h1.erase_priorities = h2.erase_priorities) (tm1 tm2 : pq_term)
    (htm : tm1.erase_priority = tm2.erase_priority) :
    (h1.new_term tm1).1.erase_priorities = (h2.new_term tm2).1.erase_priorities
      ∧ (h2.new_term tm2).2 = (h1.new_term tm1).2 := by
  refine ⟨?_, pq_heap.erase_terms_length hE⟩
  rw [pq_heap.erase_eq_iff] at hE ⊢
  obtain ⟨e1, e2, e3, e4⟩ := hE
  refine ⟨?_, e2, e3, e4⟩
  simp only [pq_heap.new_term, List.map_append, e1, List.map_cons, htm, List.map_nil]

theorem pq_heap.erase_new_node {h1 h2 : pq_heap}
    (hE : h1.erase_priorities = h2.erase_priorities) (item : Option Ptr) :
    (pq_new_syntax_tree_node h1 item).1.erase_priorities
        = (pq_new_syntax_tree_node h2 item).1.erase_priorities
      ∧ (pq_new_syntax_tree_node h2 item).2 = (pq_new_syntax_tree_node h1 item).2 := by
  rw [pq_heap.erase_eq_iff] at hE ⊢
  obtain ⟨e1, e2, e3, e4⟩ := hE
  exact ⟨⟨e1, by simp only [pq_new_syntax_tree_node, e2], e3, e4⟩,
    by simp only [pq_new_syntax_tree_node, e2]⟩

theorem pq_heap.erase_new_list {h1 h2 : pq_heap}
    (hE : h1.erase_priorities = h2.erase_priorities) :
    (pq_new_list h1).1.erase_priorities = (pq_new_list h2).1.erase_priorities
      ∧ (pq_new_list h2).2 = (pq_new_list h1).2 := by
  rw [pq_heap.erase_eq_iff] at hE ⊢
  obtain ⟨e1, e2, e3, e4⟩ := hE
  exact ⟨⟨e1, e2, by simp only [pq_new_list, e3, e4], by simp only [pq_new_list, e4]⟩,
    by simp only [pq_new_list, e3]⟩

theorem pq_heap.erase_push_back {h1 h2 h3 : pq_heap}
    (hE : h1.erase_priorities = h2.erase_priorities) {list : Ptr} {item : Option Ptr}
    (hpush : pq_list_push_back h1 list item = some h3) :
    ∃ h4, pq_list_push_back h2 list item = some h4
      ∧ h3.erase_priorities = h4.erase_priorities := by
  rw [pq_heap.erase_eq_iff] at hE
  obtain ⟨e1, e2, e3, e4⟩ := hE
  unfold pq_list_push_back at hpush ⊢
  rw [← e3, ← e4]
  split at hpush
  · cases hpush
  · rename_i l hl
    split at hpush
    · cases hpush
    · rename_i nil hnil
      simp only [Option.some.injEq] at hpush
      subst hpush
      simp only [hl, hnil]
      refine ⟨_, rfl, ?_⟩
      rw [pq_heap.erase_eq_iff]
      exact ⟨e1, e2, rfl, rfl⟩

theorem pq_heap.node_item_erase {h1 h2 : pq_heap}
    (hE : h1.erase_priorities = h2.erase_priorities) (node : Option Ptr) :
    h2.node_item node = h1.node_item node := by
  rw [pq_heap.erase_eq_iff] at hE
  unfold pq_heap.node_item
  rw [hE.2.1]

theorem pq_heap.add_right_sibling_nodes (h : pq_heap) (ts : List pq_term)
    (node sibling : Option Ptr) :
    pq_syntax_tree_add_right_sibling_node { h with terms := ts } node sibling
      = (pq_syntax_tree_add_right_sibling_node h node sibling).map
          (fun h3 => { h3 with terms := ts }) := by
  unfold pq_syntax_tree_add_right_sibling_node
  repeat' first
    | rfl
    | contradiction
    | split
    | simp_all

theorem pq_heap.eq_with_terms {h1 h2 : pq_heap}
    (hE : h1.erase_priorities = h2.erase_priorities) : h2 = { h1 with terms := h2.terms } := by
  rw [pq_heap.erase_eq_iff] at hE
  obtain ⟨_, e2, e3, e4⟩ := hE
  cases h1; cases h2
  simp only at e2 e3 e4
  subst e2 e3 e4
  rfl

theorem pq_heap.erase_add_right_sibling {h1 h2 h3 : pq_heap}
    (hE : h1.erase_priorities = h2.erase_priorities) {node sibling : Option Ptr}
    (hadd : pq_syntax_tree_add_right_sibling_node h1 node sibling = some h3) :
    ∃ h4, pq_syntax_tree_add_right_sibling_node h2 node sibling = some h4
      ∧ h3.erase_priorities = h4.erase_priorities := by
  rw [pq_heap.eq_with_terms hE, pq_heap.add_right_sibling_nodes, hadd]
  refine ⟨_, rfl, ?_⟩
  rw [pq_heap.erase_eq_iff] at hE ⊢
  exact ⟨by rw [(add_right_sibling_nodes_ext hadd).1]; exact hE.1, rfl, rfl, rfl⟩

theorem erase_get? {l1 l2 : List pq_term}
    (h : l1.map pq_term.erase_priority = l2.map pq_term.erase_priority) {i : Nat} {t1 : pq_term}
    (h1 : l1.get? i = some t1) :
    ∃ t2, l2.get? i = some t2 ∧ t1.erase_priority = t2.erase_priority := by
  have h2 := congrArg (fun l => l.get? i) h
  simp only [List.get?_map, h1, Option.map_some'] at h2
  cases h3 : l2.get? i with
  | none => rw [h3] at h2; cases h2
  | some t2 =>
    rw [h3] at h2
    exact ⟨t2, rfl, by simpa using h2⟩

theorem erase_set_self {l : List pq_term} {i : Nat} {t u : pq_term} (h1 : l.get? i = some t)
    (h2 : u.erase_priority = t.erase_priority) :
    (l.set i u).map pq_term.erase_priority = l.map pq_term.erase_priority := by
  apply List.ext_get?
  intro j
  simp only [List.get?_map]
  by_cases hij : j = i
  · subst hij
    have hlt : j < l.length := by
      by_contra hc
      rw [List.get?_eq_none.mpr (by omega)] at h1
      cases h1
    rw [h1]
    simp only [List.get?_eq_getElem?, List.getElem?_set_self hlt, Option.map_some', h2]
  · simp only [List.get?_eq_getElem?, List.getElem?_set_ne (Ne.symm hij)]

theorem pq_heap.set_item_priority_eq_some {h h3 : pq_heap} {node : Option Ptr} {p : Nat}
    (hset : h.set_item_priority node p = some h3) :
    ∃ nd n ti t, node = some nd ∧ h.nodes.get? nd = some n ∧ n.item = some ti
      ∧ h.terms.get? ti = some t
      ∧ h3 = { h with terms := h.terms.set ti { t with priority := p } } := by
  unfold pq_heap.set_item_priority at hset
  cases node with
  | none => simp at hset
  | some nd =>
    simp only at hset
    cases h1 : h.nodes.get? nd with
    | none => rw [h1] at hset; simp at hset
    | some n =>
      rw [h1] at hset
      simp only at hset
      cases h2 : n.item with
      | none => rw [h2] at hset; simp at hset
      | some ti =>
        rw [h2] at hset
        simp only at hset
        cases h3 : h.terms.get? ti with
        | none => rw [h3] at hset; simp at hset
        | some t =>
          rw [h3] at hset
          simp only [Option.some.injEq] at hset
          exact ⟨nd, n, ti, t, rfl, h1, h2, h3, hset.symm⟩

theorem pq_heap.set_item_priority_of {h : pq_heap} {nd : Ptr} {n : pq_syntax_tree_node}
    {ti : Ptr} {t : pq_term} (p : Nat) (h1 : h.nodes.get? nd = some n) (h2 : n.item = some ti)
    (h3 : h.terms.get? ti = some t) :
    h.set_item_priority (some nd) p
      = some { h with terms := h.terms.set ti { t with priority := p } } := by
  unfold pq_heap.set_item_priority
  simp only [h1, h2, h3]

theorem pq_heap.erase_set_item_priority_self {h h3 : pq_heap} {node : Option Ptr} {p : Nat}
    (hset : h.set_item_priority node p = some h3) :
    h.erase_priorities = h3.erase_priorities := by
  obtain ⟨nd, n, ti, t, _, _, _, hterm, rfl⟩ := pq_heap.set_item_priority_eq_some hset
  rw [pq_heap.erase_eq_iff]
  exact ⟨(erase_set_self (u := { t with priority := p }) hterm rfl).symm, rfl, rfl, rfl⟩

theorem pq_heap.set_item_priority_isSome {h1 h2 : pq_heap}
    (hE : h1.erase_priorities = h2.erase_priorities) {node : Option Ptr} {p1 q : Nat}
    (hset : (h1.set_item_priority node p1).isSome = true) :
    (h2.set_item_priority node q).isSome = true := by
  cases hs : h1.set_item_priority node p1 with
  | none => rw [hs] at hset; cases hset
  | some h3 =>
    obtain ⟨nd, n, ti, t1, rfl, hn, hti, ht1, _⟩ := pq_heap.set_item_priority_eq_some hs
    rw [pq_heap.erase_eq_iff] at hE
    obtain ⟨e1, e2, e3, e4⟩ := hE
    obtain ⟨t2, ht2, _⟩ := erase_get? e1 ht1
    rw [pq_heap.set_item_priority_of q (by rw [← e2]; exact hn) hti ht2]
    rfl

theorem pq_heap.erase_set_item_priority {h1 h2 h3 : pq_heap}
    (hE : h1.erase_priorities = h2.erase_priorities) {node : Option Ptr} {p1 : Nat} (p2 : Nat)
    (hset : h1.set_item_priority node p1 = some h3) :
    ∃ h4, h2.set_item_priority node p2 = some h4
      ∧ h3.erase_priorities = h4.erase_priorities := by
  have h0 := pq_heap.set_item_priority_isSome (q := p2) hE (by rw [hset]; rfl)
  cases h4 : h2.set_item_priority node p2 with
  | none => rw [h4] at h0; cases h0
  | some h5 =>
    refine ⟨h5, rfl, ?_⟩
    rw [← pq_heap.erase_set_item_priority_self hset, hE,
      pq_heap.erase_set_item_priority_self h4]

theorem pq_term.erase_negate (t : pq_term) :
    t.negate.erase_priority = t.erase_priority.negate := by
  unfold pq_term.negate pq_term.erase_priority
  dsimp only
  split
  · split <;> rfl
  · split
    · split <;> rfl
    · rfl

theorem pq_heap.erase_negate_item {h1 h2 h3 : pq_heap}
    (hE : h1.erase_priorities = h2.erase_priorities) {node : Option Ptr}
    (hneg : h1.negate_item node = some h3) :
    ∃ h4, h2.negate_item node = some h4 ∧ h3.erase_priorities = h4.erase_priorities := by
  rw [pq_heap.erase_eq_iff] at hE
  obtain ⟨e1, e2, e3, e4⟩ := hE
  unfold pq_heap.negate_item at hneg ⊢
  rw [← e2]
  cases node with
  | none => simp at hneg
  | some nd =>
    simp only at hneg ⊢
    cases hn : h1.nodes.get? nd with
    | none => rw [hn] at hneg; simp at hneg
    | some n =>
      rw [hn] at hneg
      simp only at hneg ⊢
      cases hti : n.item with
      | none => rw [hti] at hneg; simp at hneg
      | some ti =>
        rw [hti] at hneg
        simp only at hneg ⊢
        cases ht1 : h1.terms.get? ti with
        | none => rw [ht1] at hneg; simp at hneg
        | some t1 =>
          rw [ht1] at hneg
          obtain ⟨t2, ht2, het⟩ := erase_get? e1 ht1
          simp only [Option.some.injEq] at hneg
          subst hneg
          simp only [ht2]
          refine ⟨_, rfl, ?_⟩
          rw [pq_heap.erase_eq_iff]
          refine ⟨?_, rfl, e3, e4⟩
          simp only [List.map_set, e1, pq_term.erase_negate, het]

/-! ## Parenthesised terms: the parse of `T.` beside the parse of `(T).` -/

theorem pq_scanner_yields_cons {W : WCtype} {sf : Nat} {s : pq_scanner} {tok : pq_tok}
    {toks : List pq_tok} (h : pq_scanner_yields W sf s (tok :: toks) = true) :
    ∃ s1, pq_scanner_next_token W sf s = some ⟨some tok, none, s1⟩
      ∧ pq_scanner_yields W sf s1 toks = true := by
  unfold pq_scanner_yields at h
  split at h
  · rename_i t s1 heq
    simp only [Bool.and_eq_true, decide_eq_true_eq] at h
    exact ⟨s1, by rw [heq, h.1], h.2⟩
  · cases h

theorem pq_scanner_yields_nil {W : WCtype} {sf : Nat} {s : pq_scanner}
    (h : pq_scanner_yields W sf s [] = true) :
    ∃ s1, pq_scanner_next_token W sf s = some ⟨none, none, s1⟩ := by
  unfold pq_scanner_yields at h
  split at h
  · rename_i s1 heq
    exact ⟨s1, heq⟩
  · cases h

theorem pq_parser_next_token_eq {W : WCtype} {sf : Nat} {sc s1 : pq_scanner}
    {tok : Option pq_tok} (cur : Option pq_tok) (err : Option Bytes) (h : pq_heap)
    (hs : pq_scanner_next_token W sf sc = some ⟨tok, none, s1⟩) :
    pq_parser_next_token W sf ⟨⟨sc, cur, err⟩, h⟩ = .ok () ⟨⟨s1, tok, none⟩, h⟩ := by
  unfold pq_parser_next_token
  simp only [hs]

theorem pq_sim_A {W : WCtype} {sf : Nat} {dot rpar : pq_tok} {c : pq_tok} {r : List pq_tok}
    {sc1 sc2 : pq_scanner} {h1 h2 : pq_heap}
    (hy1 : pq_scanner_yields W sf sc1 (r ++ [dot]) = true)
    (hy2 : pq_scanner_yields W sf sc2 (r ++ [rpar, dot]) = true)
    (hE : h1.erase_priorities = h2.erase_priorities)
    (hne : ∀ t ∈ c :: r, t.tag ≠ .PQ_END_TOK) :
    pq_sim W sf dot rpar (c :: r) ⟨⟨sc1, some c, none⟩, h1⟩ ⟨⟨sc2, some c, none⟩, h2⟩ :=
  ⟨rfl, rfl, rfl, rfl, hy1, hy2, hE, hne⟩

theorem pq_sim_B {W : WCtype} {sf : Nat} {dot rpar : pq_tok}
    {sc1 sc2 : pq_scanner} {h1 h2 : pq_heap}
    (hy1 : pq_scanner_yields W sf sc1 [] = true)
    (hy2 : pq_scanner_yields W sf sc2 [dot] = true)
    (hE : h1.erase_priorities = h2.erase_priorities) :
    pq_sim W sf dot rpar [] ⟨⟨sc1, some dot, none⟩, h1⟩ ⟨⟨sc2, some rpar, none⟩, h2⟩ :=
  ⟨rfl, rfl, rfl, rfl, hy1, hy2, hE, fun _ ht => (by cases ht)⟩

/-- Every state related by `pq_sim` has one of the two shapes. -/
theorem pq_sim.shape {W : WCtype} {sf : Nat} {dot rpar : pq_tok} {rest : List pq_tok}
    {st1 st2 : pq_state} (hs : pq_sim W sf dot rpar rest st1 st2) :
    (∃ c r sc1 sc2 h1 h2, rest = c :: r
        ∧ st1 = ⟨⟨sc1, some c, none⟩, h1⟩ ∧ st2 = ⟨⟨sc2, some c, none⟩, h2⟩
        ∧ pq_scanner_yields W sf sc1 (r ++ [dot]) = true
        ∧ pq_scanner_yields W sf sc2 (r ++ [rpar, dot]) = true
        ∧ h1.erase_priorities = h2.erase_priorities
        ∧ ∀ t ∈ c :: r, t.tag ≠ .PQ_END_TOK)
    ∨ (∃ sc1 sc2 h1 h2, rest = []
        ∧ st1 = ⟨⟨sc1, some dot, none⟩, h1⟩ ∧ st2 = ⟨⟨sc2, some rpar, none⟩, h2⟩
        ∧ pq_scanner_yields W sf sc1 [] = true
        ∧ pq_scanner_yields W sf sc2 [dot] = true
        ∧ h1.erase_priorities = h2.erase_priorities) := by
  obtain ⟨e1, e2, c1, c2, y1, y2, hE, hne⟩ := hs
  obtain ⟨⟨sc1, cur1, err1⟩, h1⟩ := st1
  obtain ⟨⟨sc2, cur2, err2⟩, h2⟩ := st2
  simp only at e1 e2 c1 c2 y1 y2 hE
  subst e1 e2 c1 c2
  cases rest with
  | nil => exact Or.inr ⟨sc1, sc2, h1, h2, rfl, rfl, rfl, y1, y2, hE⟩
  | cons c r => exact Or.inl ⟨c, r, sc1, sc2, h1, h2, rfl, rfl, rfl, y1, y2, hE, hne⟩

theorem pq_res.sim_fault {W : WCtype} {sf : Nat} {dot rpar : pq_tok} {α : Type} {e : pq_fault}
    {r2 : pq_res α} : pq_res.sim W sf dot rpar (pq_res.fault e) r2 := by
  refine ⟨fun v st1 h => ?_⟩
  cases h

theorem pq_res.sim_of_errs {W : WCtype} {sf : Nat} {dot rpar : pq_tok} {α : Type}
    {r1 r2 : pq_res α} (h : r1.holds (fun _ st => st.has_err = true)) :
    pq_res.sim W sf dot rpar r1 r2 := by
  refine ⟨fun v st1 h1 h2 => ?_⟩
  subst h1
  have h3 : st1.has_err = true := h
  rw [h3] at h2
  cases h2

theorem pq_res.sim_err {W : WCtype} {sf : Nat} {dot rpar : pq_tok} {α : Type} {v : α}
    {st : pq_state} {msg : String} {r2 : pq_res α} :
    pq_res.sim W sf dot rpar (pq_res.ok v (st.set_err msg)) r2 :=
  pq_res.sim_of_errs rfl

theorem pq_res.sim_ok {W : WCtype} {sf : Nat} {dot rpar : pq_tok} {α : Type} {v : α}
    {rest : List pq_tok} {st1 st2 : pq_state} (hs : pq_sim W sf dot rpar rest st1 st2) :
    pq_res.sim W sf dot rpar (pq_res.ok v st1) (pq_res.ok v st2) := by
  refine ⟨fun v1 st h _ => ?_⟩
  cases h
  exact ⟨st2, rest, rfl, hs⟩

theorem pq_res.sim_bind_chk {W : WCtype} {sf : Nat} {dot rpar : pq_tok} {α γ : Type}
    {r1 r2 : pq_res α} {K1 K2 : α → pq_state → pq_res (Option γ)} {F : α → pq_heap → Prop}
    (hsim : pq_res.sim W sf dot rpar r1 r2)
    (hU : r1.holds (fun v st => st.has_err = false → F v st.heap))
    (hA : ∀ v c r sc1 sc2 h1 h2, F v h1 →
      pq_scanner_yields W sf sc1 (r ++ [dot]) = true →
      pq_scanner_yields W sf sc2 (r ++ [rpar, dot]) = true →
      h1.erase_priorities = h2.erase_priorities →
      (∀ t ∈ c :: r, t.tag ≠ .PQ_END_TOK) →
      pq_res.sim W sf dot rpar (K1 v ⟨⟨sc1, some c, none⟩, h1⟩)
        (K2 v ⟨⟨sc2, some c, none⟩, h2⟩))
    (hB : ∀ v sc1 sc2 h1 h2, F v h1 →
      pq_scanner_yields W sf sc1 [] = true →
      pq_scanner_yields W sf sc2 [dot] = true →
      h1.erase_priorities = h2.erase_priorities →
      pq_res.sim W sf dot rpar (K1 v ⟨⟨sc1, some dot, none⟩, h1⟩)
        (K2 v ⟨⟨sc2, some rpar, none⟩, h2⟩)) :
    pq_res.sim W sf dot rpar
      (r1.bind fun v st => if st.has_err = true then pq_res.ok none st else K1 v st)
      (r2.bind fun v st => if st.has_err = true then pq_res.ok none st else K2 v st) := by
  cases r1 with
  | fault e => exact pq_res.sim_fault
  | ok v st1 =>
    by_cases he : st1.has_err = true
    · apply pq_res.sim_of_errs
      show (if st1.has_err = true then pq_res.ok none st1 else K1 v st1).holds _
      rw [if_pos he]
      exact he
    · obtain ⟨st2, rest, h2, hs⟩ := hsim.out v st1 rfl (by simpa using he)
      subst h2
      have hF : F v st1.heap := hU (by simpa using he)
      rcases hs.shape with ⟨c, r, sc1, sc2, h1, h2, _, e1, e2, y1, y2, hE, hne⟩
        | ⟨sc1, sc2, h1, h2, _, e1, e2, y1, y2, hE⟩
      · subst e1 e2
        exact hA v c r sc1 sc2 h1 h2 hF y1 y2 hE hne
      · subst e1 e2
        exact hB v sc1 sc2 h1 h2 hF y1 y2 hE

theorem pq_res.holds_and {α : Type} {r : pq_res α} {Q1 Q2 : α → pq_state → Prop}
    (h1 : r.holds Q1) (h2 : r.holds Q2) : r.holds (fun v st => Q1 v st ∧ Q2 v st) := by
  cases r with
  | ok v st => exact ⟨h1, h2⟩
  | fault e => trivial

theorem pq_heap.ok_with_nil {h : pq_heap} {G : List (Option Ptr)} (hG : h.ok_with G) :
    h.ok_with [] :=
  pq_heap.ok_with_of hG (List.nil_subset _)

theorem sim_with_heap {W : WCtype} {sf : Nat} {dot rpar : pq_tok} {β : Type}
    {P1 P2 : pq_parser_rec} {h1 h2 : pq_heap} {o1 o2 : Option pq_heap}
    {k1 k2 : pq_state → pq_res β}
    (h : ∀ h3, o1 = some h3 →
      ∃ h4, o2 = some h4 ∧ pq_res.sim W sf dot rpar (k1 ⟨P1, h3⟩) (k2 ⟨P2, h4⟩)) :
    pq_res.sim W sf dot rpar (pq_state.with_heap ⟨P1, h1⟩ o1 k1)
      (pq_state.with_heap ⟨P2, h2⟩ o2 k2) := by
  cases o1 with
  | none => exact pq_res.sim_fault
  | some h3 =>
    obtain ⟨h4, e, hk⟩ := h h3 rfl
    subst e
    exact hk

theorem sim_push_back {W : WCtype} {sf : Nat} {dot rpar : pq_tok} {β : Type}
    {P1 P2 : pq_parser_rec} {h1 h2 : pq_heap} {G : List (Option Ptr)} {list : Ptr}
    {item : Option Ptr} {k1 k2 : pq_state → pq_res β}
    (hE : h1.erase_priorities = h2.erase_priorities) (hok : h1.ok_with G)
    (hk : ∀ h3 h4 : pq_heap, h3.erase_priorities = h4.erase_priorities → h3.ok_with G →
      pq_res.sim W sf dot rpar (k1 ⟨P1, h3⟩) (k2 ⟨P2, h4⟩)) :
    pq_res.sim W sf dot rpar
      (pq_state.with_heap ⟨P1, h1⟩ (pq_list_push_back h1 list item) k1)
      (pq_state.with_heap ⟨P2, h2⟩ (pq_list_push_back h2 list item) k2) := by
  refine sim_with_heap fun h3 e3 => ?_
  obtain ⟨h4, e4, hE4⟩ := pq_heap.erase_push_back hE e3
  exact ⟨h4, e4, hk h3 h4 hE4 (pq_heap.ok_with_push_back hok e3)⟩

theorem sim_set_item_priority {W : WCtype} {sf : Nat} {dot rpar : pq_tok} {β : Type}
    {P1 P2 : pq_parser_rec} {h1 h2 : pq_heap} {G : List (Option Ptr)} {node : Option Ptr}
    {p1 p2 : Nat} {k1 k2 : pq_state → pq_res β}
    (hE : h1.erase_priorities = h2.erase_priorities) (hok : h1.ok_with G)
    (hnode : node ∈ G) (hp : p1 ≤ 1201)
    (hk : ∀ h3 h4 : pq_heap, h3.erase_priorities = h4.erase_priorities → h3.ok_with G →
      pq_res.sim W sf dot rpar (k1 ⟨P1, h3⟩) (k2 ⟨P2, h4⟩)) :
    pq_res.sim W sf dot rpar
      (pq_state.with_heap ⟨P1, h1⟩ (h1.set_item_priority node p1) k1)
      (pq_state.with_heap ⟨P2, h2⟩ (h2.set_item_priority node p2) k2) := by
  refine sim_with_heap fun h3 e3 => ?_
  obtain ⟨h4, e4, hE4⟩ := pq_heap.erase_set_item_priority hE p2 e3
  exact ⟨h4, e4, hk h3 h4 hE4 (pq_heap.ok_with_set_item_priority hok hnode hp e3)⟩

theorem sim_alloc {W : WCtype} {sf : Nat} {dot rpar : pq_tok} {β : Type}
    {P1 P2 : pq_parser_rec} {h1 h2 : pq_heap} {mk : pq_heap → pq_heap × Ptr}
    {k1 k2 : Ptr → pq_state → pq_res β}
    (hp : (mk h2).2 = (mk h1).2)
    (hk : pq_res.sim W sf dot rpar (k1 (mk h1).2 ⟨P1, (mk h1).1⟩)
      (k2 (mk h1).2 ⟨P2, (mk h2).1⟩)) :
    pq_res.sim W sf dot rpar (pq_state.alloc ⟨P1, h1⟩ mk k1) (pq_state.alloc ⟨P2, h2⟩ mk k2) := by
  unfold pq_state.alloc
  simp only [hp]
  exact hk

theorem sim_new_term {W : WCtype} {sf : Nat} {dot rpar : pq_tok} {β : Type}
    {P1 P2 : pq_parser_rec} {h1 h2 : pq_heap} {G : List (Option Ptr)} (tm : pq_term)
    {k1 k2 : Ptr → pq_state → pq_res β}
    (hE : h1.erase_priorities = h2.erase_priorities) (hok : h1.ok_with G)
    (hp : tm.priority ≤ 1201) (hi : tm.is_infix_op = false)
    (hk : ∀ (t : Ptr) (h3 h4 : pq_heap), h3.erase_priorities = h4.erase_priorities →
      h3.ok_with G → pq_res.sim W sf dot rpar (k1 t ⟨P1, h3⟩) (k2 t ⟨P2, h4⟩)) :
    pq_res.sim W sf dot rpar (pq_state.alloc ⟨P1, h1⟩ (fun h => h.new_term tm) k1)
      (pq_state.alloc ⟨P2, h2⟩ (fun h => h.new_term tm) k2) :=
  sim_alloc (pq_heap.erase_new_term hE tm tm rfl).2
    (hk _ _ _ (pq_heap.erase_new_term hE tm tm rfl).1
      (pq_heap.ok_with_new_term hok tm hp (by rw [hi]; intro hc; cases hc)))

theorem sim_new_node {W : WCtype} {sf : Nat} {dot rpar : pq_tok} {β : Type}
    {P1 P2 : pq_parser_rec} {h1 h2 : pq_heap} {G : List (Option Ptr)} (item : Option Ptr)
    {k1 k2 : Ptr → pq_state → pq_res β}
    (hE : h1.erase_priorities = h2.erase_priorities) (hok : h1.ok_with G)
    (hk : ∀ (nd : Ptr) (h3 h4 : pq_heap), h3.erase_priorities = h4.erase_priorities →
      h3.ok_with G → pq_res.sim W sf dot rpar (k1 nd ⟨P1, h3⟩) (k2 nd ⟨P2, h4⟩)) :
    pq_res.sim W sf dot rpar
      (pq_state.alloc ⟨P1, h1⟩ (fun h => pq_new_syntax_tree_node h item) k1)
      (pq_state.alloc ⟨P2, h2⟩ (fun h => pq_new_syntax_tree_node h item) k2) :=
  sim_alloc (pq_heap.erase_new_node hE item).2
    (hk _ _ _ (pq_heap.erase_new_node hE item).1 (pq_heap.ok_with_new_node hok item))

theorem sim_new_list {W : WCtype} {sf : Nat} {dot rpar : pq_tok} {β : Type}
    {P1 P2 : pq_parser_rec} {h1 h2 : pq_heap} {G : List (Option Ptr)}
    {k1 k2 : Ptr → pq_state → pq_res β}
    (hE : h1.erase_priorities = h2.erase_priorities) (hok : h1.ok_with G)
    (hk : ∀ (l : Ptr) (h3 h4 : pq_heap), h3.erase_priorities = h4.erase_priorities →
      h3.ok_with G → pq_res.sim W sf dot rpar (k1 l ⟨P1, h3⟩) (k2 l ⟨P2, h4⟩)) :
    pq_res.sim W sf dot rpar (pq_state.alloc ⟨P1, h1⟩ pq_new_list k1)
      (pq_state.alloc ⟨P2, h2⟩ pq_new_list k2) :=
  sim_alloc (pq_heap.erase_new_list hE).2
    (hk _ _ _ (pq_heap.erase_new_list hE).1 (pq_heap.ok_with_new_list hok))

theorem sim_next_token {W : WCtype} {sf : Nat} {dot rpar : pq_tok} {β : Type}
    {K1 K2 : Unit → pq_state → pq_res β} {c : pq_tok} {r : List pq_tok}
    {sc1 sc2 : pq_scanner} {h1 h2 : pq_heap}
    (hy1 : pq_scanner_yields W sf sc1 (r ++ [dot]) = true)
    (hy2 : pq_scanner_yields W sf sc2 (r ++ [rpar, dot]) = true)
    (hne : ∀ t ∈ c :: r, t.tag ≠ .PQ_END_TOK)
    (hA : ∀ c1 r1 s1 s2, r = c1 :: r1 →
      pq_scanner_yields W sf s1 (r1 ++ [dot]) = true →
      pq_scanner_yields W sf s2 (r1 ++ [rpar, dot]) = true →
      (∀ t ∈ c1 :: r1, t.tag ≠ .PQ_END_TOK) →
      pq_res.sim W sf dot rpar (K1 () ⟨⟨s1, some c1, none⟩, h1⟩)
        (K2 () ⟨⟨s2, some c1, none⟩, h2⟩))
    (hB : ∀ s1 s2, r = [] →
      pq_scanner_yields W sf s1 [] = true →
      pq_scanner_yields W sf s2 [dot] = true →
      pq_res.sim W sf dot rpar (K1 () ⟨⟨s1, some dot, none⟩, h1⟩)
        (K2 () ⟨⟨s2, some rpar, none⟩, h2⟩)) :
    pq_res.sim W sf dot rpar
      ((pq_parser_next_token W sf ⟨⟨sc1, some c, none⟩, h1⟩).bind K1)
      ((pq_parser_next_token W sf ⟨⟨sc2, some c, none⟩, h2⟩).bind K2) := by
  cases r with
  | nil =>
    obtain ⟨s1, e1, y1⟩ := pq_scanner_yields_cons hy1
    obtain ⟨s2, e2, y2⟩ := pq_scanner_yields_cons hy2
    rw [pq_parser_next_token_eq _ _ _ e1, pq_parser_next_token_eq _ _ _ e2]
    exact hB s1 s2 rfl y1 y2
  | cons c1 r1 =>
    obtain ⟨s1, e1, y1⟩ := pq_scanner_yields_cons hy1
    obtain ⟨s2, e2, y2⟩ := pq_scanner_yields_cons hy2
    rw [pq_parser_next_token_eq _ _ _ e1, pq_parser_next_token_eq _ _ _ e2]
    exact hA c1 r1 s1 s2 rfl y1 y2 (fun t ht => hne t (List.mem_cons_of_mem _ ht))

theorem pq_sim.with_heaps {W : WCtype} {sf : Nat} {dot rpar : pq_tok} {rest : List pq_tok}
    {P1 P2 : pq_parser_rec} {h1 h2 : pq_heap}
    (hs : pq_sim W sf dot rpar rest ⟨P1, h1⟩ ⟨P2, h2⟩) {h3 h4 : pq_heap}
    (hE : h3.erase_priorities = h4.erase_priorities) :
    pq_sim W sf dot rpar rest ⟨P1, h3⟩ ⟨P2, h4⟩ :=
  ⟨hs.err1, hs.err2, hs.cur1, hs.cur2, hs.sc1, hs.sc2, hE, hs.noend⟩

theorem sim_add_right_sibling {W : WCtype} {sf : Nat} {dot rpar : pq_tok} {β : Type}
    {P1 P2 : pq_parser_rec} {h1 h2 : pq_heap} {node sibling : Option Ptr}
    {k1 k2 : pq_state → pq_res β}
    (hE : h1.erase_priorities = h2.erase_priorities)
    (hk : ∀ h3 h4 : pq_heap, h3.erase_priorities = h4.erase_priorities →
      pq_res.sim W sf dot rpar (k1 ⟨P1, h3⟩) (k2 ⟨P2, h4⟩)) :
    pq_res.sim W sf dot rpar
      (pq_state.with_heap ⟨P1, h1⟩ (pq_syntax_tree_add_right_sibling_node h1 node sibling) k1)
      (pq_state.with_heap ⟨P2, h2⟩ (pq_syntax_tree_add_right_sibling_node h2 node sibling) k2) := by
  refine sim_with_heap fun h3 e3 => ?_
  obtain ⟨h4, e4, hE4⟩ := pq_heap.erase_add_right_sibling hE e3
  exact ⟨h4, e4, hk h3 h4 hE4⟩

theorem sim_negate_item {W : WCtype} {sf : Nat} {dot rpar : pq_tok} {β : Type}
    {P1 P2 : pq_parser_rec} {h1 h2 : pq_heap} {node : Option Ptr}
    {k1 k2 : pq_state → pq_res β}
    (hE : h1.erase_priorities = h2.erase_priorities)
    (hk : ∀ h3 h4 : pq_heap, h3.erase_priorities = h4.erase_priorities →
      pq_res.sim W sf dot rpar (k1 ⟨P1, h3⟩) (k2 ⟨P2, h4⟩)) :
    pq_res.sim W sf dot rpar
      (pq_state.with_heap ⟨P1, h1⟩ (h1.negate_item node) k1)
      (pq_state.with_heap ⟨P2, h2⟩ (h2.negate_item node) k2) := by
  refine sim_with_heap fun h3 e3 => ?_
  obtain ⟨h4, e4, hE4⟩ := pq_heap.erase_negate_item hE e3
  exact ⟨h4, e4, hk h3 h4 hE4⟩

theorem sim_new_op_node {W : WCtype} {sf : Nat} {dot rpar : pq_tok} {β : Type}
    {P1 P2 : pq_parser_rec} {h1 h2 : pq_heap} (tm : pq_term)
    {k1 k2 : Ptr → pq_state → pq_res β}
    (hE : h1.erase_priorities = h2.erase_priorities)
    (hk : ∀ (nd : Ptr) (h3 h4 : pq_heap), h3.erase_priorities = h4.erase_priorities →
      pq_res.sim W sf dot rpar (k1 nd ⟨P1, h3⟩) (k2 nd ⟨P2, h4⟩)) :
    pq_res.sim W sf dot rpar
      (pq_state.alloc ⟨P1, h1⟩ (fun h => h.new_term tm) fun t st =>
        st.alloc (fun h => pq_new_syntax_tree_node h (some t)) k1)
      (pq_state.alloc ⟨P2, h2⟩ (fun h => h.new_term tm) fun t st =>
        st.alloc (fun h => pq_new_syntax_tree_node h (some t)) k2) := by
  have e1 := pq_heap.erase_new_term hE tm tm rfl
  refine sim_alloc e1.2 ?_
  have e2 := pq_heap.erase_new_node e1.1 (some (h1.new_term tm).2)
  refine sim_alloc e2.2 ?_
  exact hk _ _ _ e2.1

theorem sim_link_infix_op {W : WCtype} {sf : Nat} {dot rpar : pq_tok} {rest : List pq_tok}
    {P1 P2 : pq_parser_rec} {h1 h2 : pq_heap}
    (hs : pq_sim W sf dot rpar rest ⟨P1, h1⟩ ⟨P2, h2⟩)
    (left right : Option Ptr) (op_name : Bytes) (spec : pq_op_specifier) :
    pq_res.sim W sf dot rpar (pq_parse_link_infix_op ⟨P1, h1⟩ left right op_name spec)
      (pq_parse_link_infix_op ⟨P2, h2⟩ left right op_name spec) := by
  unfold pq_parse_link_infix_op pq_new_operator_term
  refine sim_new_op_node _ hs.heap fun nd h3 h4 e3 => ?_
  refine sim_add_right_sibling e3 fun h5 h6 e5 => ?_
  refine sim_add_right_sibling e5 fun h7 h8 e7 => ?_
  exact pq_res.sim_ok (hs.with_heaps e7)

theorem sim_link_postfix_op {W : WCtype} {sf : Nat} {dot rpar : pq_tok} {rest : List pq_tok}
    {P1 P2 : pq_parser_rec} {h1 h2 : pq_heap}
    (hs : pq_sim W sf dot rpar rest ⟨P1, h1⟩ ⟨P2, h2⟩)
    (left : Option Ptr) (op_name : Bytes) (spec : pq_op_specifier) :
    pq_res.sim W sf dot rpar (pq_parse_link_postfix_op ⟨P1, h1⟩ left op_name spec)
      (pq_parse_link_postfix_op ⟨P2, h2⟩ left op_name spec) := by
  unfold pq_parse_link_postfix_op pq_new_operator_term
  refine sim_new_op_node _ hs.heap fun nd h3 h4 e3 => ?_
  refine sim_add_right_sibling e3 fun h5 h6 e5 => ?_
  exact pq_res.sim_ok (hs.with_heaps e5)

theorem sim_link_prefix_operand {W : WCtype} {sf : Nat} {dot rpar : pq_tok} {rest : List pq_tok}
    {P1 P2 : pq_parser_rec} {h1 h2 : pq_heap}
    (hs : pq_sim W sf dot rpar rest ⟨P1, h1⟩ ⟨P2, h2⟩)
    (right : Option Ptr) (op_name : Bytes) (spec : pq_op_specifier) :
    pq_res.sim W sf dot rpar (pq_parse_link_prefix_operand ⟨P1, h1⟩ right op_name spec)
      (pq_parse_link_prefix_operand ⟨P2, h2⟩ right op_name spec) := by
  unfold pq_parse_link_prefix_operand pq_new_operator_term
  simp only [pq_heap.node_item_erase hs.heap]
  split
  · exact pq_res.sim_fault
  · split
    · refine sim_negate_item hs.heap fun h3 h4 e3 => ?_
      exact pq_res.sim_ok (hs.with_heaps e3)
    · refine sim_new_op_node _ hs.heap fun nd h3 h4 e3 => ?_
      refine sim_add_right_sibling e3 fun h5 h6 e5 => ?_
      exact pq_res.sim_ok (hs.with_heaps e5)

theorem has_err_mk (sc : pq_scanner) (cur : Option pq_tok) (h : pq_heap) :
    pq_state.has_err ⟨⟨sc, cur, none⟩, h⟩ = false := rfl

theorem curr_tag_is_mk (sc : pq_scanner) (c : pq_tok) (e : Option Bytes) (h : pq_heap)
    (tag : pq_tag) : pq_state.curr_tag_is ⟨⟨sc, some c, e⟩, h⟩ tag = decide (c.tag = tag) := rfl

theorem has_err_set_err (st : pq_state) (msg : String) : (st.set_err msg).has_err = true := rfl

theorem is_prefix_operator_name_of_tag {tok : pq_tok} (h : tok.tag ≠ .PQ_NAME_TOK) :
    tok.is_prefix_operator_name = some false := by
  unfold pq_tok.is_prefix_operator_name
  rw [if_neg h]

theorem pq_res.errs_bind_chk {α β : Type} {r : pq_res α} {K : α → pq_state → pq_res (Option β)}
    (h : r.holds (fun _ st => st.has_err = true)) :
    (r.bind fun v st => if st.has_err = true then pq_res.ok none st else K v st).holds
      (fun _ st => st.has_err = true) := by
  cases r with
  | fault e => trivial
  | ok v st =>
    have h1 : st.has_err = true := h
    show (if st.has_err = true then pq_res.ok none st else K v st).holds _
    rw [if_pos h1]
    exact h1

set_option maxHeartbeats 4000000 in
theorem errs_term_zero {W : WCtype} {sf : Nat} {tok : pq_tok} (htag : tok.tag = .PQ_END_TOK
      ∨ tok.tag = .PQ_RPAR_TOK)
    (fuel : Nat) (sc : pq_scanner) (e : Option Bytes) (h : pq_heap) :
    (pq_parse_prolog_term W sf fuel 0 ⟨⟨sc, some tok, e⟩, h⟩).holds
      (fun _ st => st.has_err = true) := by
  cases fuel with
  | zero => rw [pq_parse_prolog_term]; trivial
  | succ fuel =>
    rw [pq_parse_prolog_term]
    rcases htag with h1 | h1 <;> simp only [h1, gt_iff_lt, Nat.lt_irrefl, if_false] <;> rfl

theorem errs_term_end {W : WCtype} {s : Nat} {tok : pq_tok} (htag : tok.tag = .PQ_END_TOK
      ∨ tok.tag = .PQ_RPAR_TOK)
    (fuel p : Nat) (sc : pq_scanner) (e : Option Bytes) (h : pq_heap) :
    (pq_parse_prolog_term W s fuel p ⟨⟨sc, some tok, e⟩, h⟩).holds
      (fun _ st => st.has_err = true) := by
  cases fuel with
  | zero => rw [pq_parse_prolog_term]; trivial
  | succ fuel =>
    by_cases hp : p > 0
    · rw [pq_parse_prolog_term]
      have h1 : tok.is_prefix_operator_name = some false :=
        is_prefix_operator_name_of_tag (by rcases htag with h1 | h1 <;> rw [h1] <;> decide)
      simp only [hp, if_true, h1]
      exact pq_res.errs_bind_chk (errs_term_zero htag fuel sc e h)
    · have h0 : p = 0 := by omega
      subst h0
      exact errs_term_zero htag (fuel + 1) sc e h

theorem errs_term_none {W : WCtype} {sf : Nat}
    (fuel p : Nat) (sc : pq_scanner) (e : Option Bytes) (h : pq_heap) :
    (pq_parse_prolog_term W sf fuel p ⟨⟨sc, none, e⟩, h⟩).holds
      (fun _ st => st.has_err = true) := by
  cases fuel with
  | zero => rw [pq_parse_prolog_term]; trivial
  | succ fuel => rw [pq_parse_prolog_term]; rfl

theorem errs_prefix_end {W : WCtype} {sf : Nat} {tok : pq_tok} (htag : tok.tag = .PQ_END_TOK)
    (fuel p : Nat) (sc : pq_scanner) (e : Option Bytes) (h : pq_heap) :
    (pq_parse_prolog_prefix_op_or_functor_or_atom W sf fuel p ⟨⟨sc, some tok, e⟩, h⟩).holds
      (fun _ st => st.has_err = true) := by
  cases fuel with
  | zero => rw [pq_parse_prolog_prefix_op_or_functor_or_atom]; trivial
  | succ fuel =>
    rw [pq_parse_prolog_prefix_op_or_functor_or_atom]
    have h1 : tok.is_prefix_operator_name = some false :=
      is_prefix_operator_name_of_tag (by rw [htag]; decide)
    simp only [h1]
    rfl

theorem errs_operand_or_arg_list_end {W : WCtype} {sf : Nat} {tok : pq_tok}
    (htag : tok.tag = .PQ_END_TOK)
    (fuel p : Nat) (sc : pq_scanner) (e : Option Bytes) (h : pq_heap) :
    (pq_parse_prolog_operand_or_arg_list W sf fuel p ⟨⟨sc, some tok, e⟩, h⟩).holds
      (fun _ st => st.has_err = true) := by
  cases fuel with
  | zero => rw [pq_parse_prolog_operand_or_arg_list]; trivial
  | succ fuel =>
    rw [pq_parse_prolog_operand_or_arg_list]
    exact pq_res.errs_bind_chk (errs_term_end (Or.inl htag) fuel 1201 sc e h)

theorem errs_arg_end {W : WCtype} {sf : Nat} {tok : pq_tok}
    (htag : tok.tag = .PQ_END_TOK)
    (fuel : Nat) (sc : pq_scanner) (e : Option Bytes) (h : pq_heap) :
    (pq_parse_prolog_arg W sf fuel ⟨⟨sc, some tok, e⟩, h⟩).holds
      (fun _ st => st.has_err = true) := by
  cases fuel with
  | zero => rw [pq_parse_prolog_arg]; trivial
  | succ fuel =>
    rw [pq_parse_prolog_arg]
    simp only [htag, reduceCtorEq, false_and, if_false]
    exact pq_res.errs_bind_chk (errs_term_end (Or.inl htag) fuel 999 sc e h)

theorem errs_arg_list_end {W : WCtype} {sf : Nat} {tok : pq_tok}
    (htag : tok.tag = .PQ_END_TOK)
    (fuel : Nat) (sc : pq_scanner) (e : Option Bytes) (h : pq_heap) :
    (pq_parse_prolog_arg_list W sf fuel ⟨⟨sc, some tok, e⟩, h⟩).holds
      (fun _ st => st.has_err = true) := by
  cases fuel with
  | zero => rw [pq_parse_prolog_arg_list]; trivial
  | succ fuel =>
    rw [pq_parse_prolog_arg_list]
    exact pq_res.errs_bind_chk (errs_arg_end htag fuel sc e h)

theorem errs_items_end {W : WCtype} {sf : Nat} {tok : pq_tok}
    (htag : tok.tag = .PQ_END_TOK)
    (fuel : Nat) (sc : pq_scanner) (e : Option Bytes) (h : pq_heap) :
    (pq_parse_prolog_items W sf fuel ⟨⟨sc, some tok, e⟩, h⟩).holds
      (fun _ st => st.has_err = true) := by
  cases fuel with
  | zero => rw [pq_parse_prolog_items]; trivial
  | succ fuel =>
    rw [pq_parse_prolog_items]
    exact pq_res.errs_bind_chk (errs_arg_end htag fuel sc e h)

theorem sim_arg_list_loop_end {W : WCtype} {sf : Nat} {dot rpar : pq_tok}
    (hc : pq_closing dot rpar) (fuel : Nat) (l : Ptr) {st1 st2 : pq_state}
    (hs : pq_sim W sf dot rpar [] st1 st2) :
    pq_res.sim W sf dot rpar (pq_parse_prolog_arg_list_loop W sf fuel l st1)
      (pq_parse_prolog_arg_list_loop W sf fuel l st2) := by
  cases fuel with
  | zero => rw [pq_parse_prolog_arg_list_loop]; exact pq_res.sim_fault
  | succ fuel =>
    rw [pq_parse_prolog_arg_list_loop, pq_parse_prolog_arg_list_loop]
    have h1 : st1.curr_tag_is .PQ_COMMA_TOK = false := by
      unfold pq_state.curr_tag_is
      rw [hs.cur1]
      simp [hc.dot_tag]
    have h2 : st2.curr_tag_is .PQ_COMMA_TOK = false := by
      unfold pq_state.curr_tag_is
      rw [hs.cur2]
      simp [hc.rpar_tag]
    simp only [h1, h2, Bool.false_eq_true, if_false]
    exact pq_res.sim_ok hs

theorem sim_items_loop_end {W : WCtype} {sf : Nat} {dot rpar : pq_tok}
    (hc : pq_closing dot rpar) (fuel : Nat) (l : Ptr) {st1 st2 : pq_state}
    (hs : pq_sim W sf dot rpar [] st1 st2) :
    pq_res.sim W sf dot rpar (pq_parse_prolog_items_loop W sf fuel l st1)
      (pq_parse_prolog_items_loop W sf fuel l st2) := by
  cases fuel with
  | zero => rw [pq_parse_prolog_items_loop]; exact pq_res.sim_fault
  | succ fuel =>
    rw [pq_parse_prolog_items_loop, pq_parse_prolog_items_loop]
    have h1 := hs.cur1
    have h2 := hs.cur2
    simp only [List.nil_append, List.head?_cons] at h1 h2
    simp only [h1, h2, hc.dot_tag, hc.rpar_tag]
    exact pq_res.sim_ok hs

theorem pq_res.sim_bind_map {W : WCtype} {sf : Nat} {dot rpar : pq_tok} {α β : Type}
    {r1 r2 : pq_res α} (f : α → β) (hsim : pq_res.sim W sf dot rpar r1 r2) :
    pq_res.sim W sf dot rpar (r1.bind fun r st => pq_res.ok (f r) st)
      (r2.bind fun r st => pq_res.ok (f r) st) := by
  cases r1 with
  | fault e => exact pq_res.sim_fault
  | ok v st1 =>
    refine ⟨fun w st h he => ?_⟩
    cases h
    obtain ⟨st2, rest, h2, hs⟩ := hsim.out v st1 rfl he
    subst h2
    exact ⟨st2, rest, rfl, hs⟩

theorem sim_bind_term {W : WCtype} {sf : Nat} {dot rpar : pq_tok} {γ : Type} {fuel : Nat}
    (ih1 : ∀ (rest : List pq_tok) (p1 p2 : Nat) (st1 st2 : pq_state),
      pq_sim W sf dot rpar rest st1 st2 → st1.heap.ok_with [] → p1 ≤ 1201 →
      pq_priority_rel rest p1 p2 →
      pq_res.sim W sf dot rpar (pq_parse_prolog_term W sf fuel p1 st1)
        (pq_parse_prolog_term W sf fuel p2 st2))
    {rest : List pq_tok} {p1 p2 : Nat} {st1 st2 : pq_state} {G : List (Option Ptr)}
    {K1 K2 : Option Ptr → pq_state → pq_res (Option γ)}
    (hs : pq_sim W sf dot rpar rest st1 st2) (hok : st1.heap.ok_with G) (hp1 : p1 ≤ 1201)
    (hpr : pq_priority_rel rest p1 p2)
    (hA : ∀ v c r sc1 sc2 h1 h2, v.isSome = true → h1.ok_with [v] →
      pq_scanner_yields W sf sc1 (r ++ [dot]) = true →
      pq_scanner_yields W sf sc2 (r ++ [rpar, dot]) = true →
      h1.erase_priorities = h2.erase_priorities →
      (∀ t ∈ c :: r, t.tag ≠ .PQ_END_TOK) →
      pq_res.sim W sf dot rpar (K1 v ⟨⟨sc1, some c, none⟩, h1⟩)
        (K2 v ⟨⟨sc2, some c, none⟩, h2⟩))
    (hB : ∀ v sc1 sc2 h1 h2, v.isSome = true → h1.ok_with [v] →
      pq_scanner_yields W sf sc1 [] = true →
      pq_scanner_yields W sf sc2 [dot] = true →
      h1.erase_priorities = h2.erase_priorities →
      pq_res.sim W sf dot rpar (K1 v ⟨⟨sc1, some dot, none⟩, h1⟩)
        (K2 v ⟨⟨sc2, some rpar, none⟩, h2⟩)) :
    pq_res.sim W sf dot rpar
      ((pq_parse_prolog_term W sf fuel p1 st1).bind fun v st =>
        if st.has_err = true then pq_res.ok none st else K1 v st)
      ((pq_parse_prolog_term W sf fuel p2 st2).bind fun v st =>
        if st.has_err = true then pq_res.ok none st else K2 v st) :=
  pq_res.sim_bind_chk (F := fun v h => v.isSome = true ∧ h.ok_with [v])
    (ih1 rest p1 p2 st1 st2 hs (pq_heap.ok_with_nil hok) hp1 hpr)
    (pq_res.holds_mono (pq_res.holds_and ((parse_gives W sf fuel).1 p1 st1)
      ((parse_priorities_ok W sf fuel).1 p1 st1 [] hp1 (pq_heap.ok_with_nil hok)))
      (fun _ _ h he => ⟨h.1 he, h.2⟩))
    (fun v c r sc1 sc2 h1 h2 hF => hA v c r sc1 sc2 h1 h2 hF.1 hF.2)
    (fun v sc1 sc2 h1 h2 hF => hB v sc1 sc2 h1 h2 hF.1 hF.2)

theorem sim_bind_operand_or_arg_list {W : WCtype} {sf : Nat} {dot rpar : pq_tok} {γ : Type} {fuel : Nat}
    (ih3 : ∀ (rest : List pq_tok) (p1 p2 : Nat) (st1 st2 : pq_state),
      pq_sim W sf dot rpar rest st1 st2 → st1.heap.ok_with [] → p1 ≤ 1201 →
      pq_res.sim W sf dot rpar (pq_parse_prolog_operand_or_arg_list W sf fuel p1 st1)
        (pq_parse_prolog_operand_or_arg_list W sf fuel p2 st2))
    {rest : List pq_tok} {p1 p2 : Nat} {st1 st2 : pq_state} {G : List (Option Ptr)}
    {K1 K2 : Option pq_operand_or_arg_list → pq_state → pq_res (Option γ)}
    (hs : pq_sim W sf dot rpar rest st1 st2) (hok : st1.heap.ok_with G) (hp1 : p1 ≤ 1201)
    (hA : ∀ v c r sc1 sc2 h1 h2, h1.ok_with [pq_operand_or_arg_list.node? v] →
      pq_scanner_yields W sf sc1 (r ++ [dot]) = true →
      pq_scanner_yields W sf sc2 (r ++ [rpar, dot]) = true →
      h1.erase_priorities = h2.erase_priorities →
      (∀ t ∈ c :: r, t.tag ≠ .PQ_END_TOK) →
      pq_res.sim W sf dot rpar (K1 v ⟨⟨sc1, some c, none⟩, h1⟩)
        (K2 v ⟨⟨sc2, some c, none⟩, h2⟩))
    (hB : ∀ v sc1 sc2 h1 h2, h1.ok_with [pq_operand_or_arg_list.node? v] →
      pq_scanner_yields W sf sc1 [] = true →
      pq_scanner_yields W sf sc2 [dot] = true →
      h1.erase_priorities = h2.erase_priorities →
      pq_res.sim W sf dot rpar (K1 v ⟨⟨sc1, some dot, none⟩, h1⟩)
        (K2 v ⟨⟨sc2, some rpar, none⟩, h2⟩)) :
    pq_res.sim W sf dot rpar
      ((pq_parse_prolog_operand_or_arg_list W sf fuel p1 st1).bind fun v st =>
        if st.has_err = true then pq_res.ok none st else K1 v st)
      ((pq_parse_prolog_operand_or_arg_list W sf fuel p2 st2).bind fun v st =>
        if st.has_err = true then pq_res.ok none st else K2 v st) :=
  pq_res.sim_bind_chk (F := fun v h => h.ok_with [pq_operand_or_arg_list.node? v])
    (ih3 rest p1 p2 st1 st2 hs (pq_heap.ok_with_nil hok) hp1)
    (pq_res.holds_mono ((parse_priorities_ok W sf fuel).2.2.1 p1 st1 [] hp1
      (pq_heap.ok_with_nil hok)) (fun _ _ h _ => h))
    (fun v c r sc1 sc2 h1 h2 hF => hA v c r sc1 sc2 h1 h2 hF)
    (fun v sc1 sc2 h1 h2 hF => hB v sc1 sc2 h1 h2 hF)

theorem sim_bind_arg_list {W : WCtype} {sf : Nat} {dot rpar : pq_tok} {γ : Type} {fuel : Nat}
    (ih5 : ∀ (rest : List pq_tok) (st1 st2 : pq_state),
      pq_sim W sf dot rpar rest st1 st2 → st1.heap.ok_with [] →
      pq_res.sim W sf dot rpar (pq_parse_prolog_arg_list W sf fuel st1)
        (pq_parse_prolog_arg_list W sf fuel st2))
    {rest : List pq_tok}  {st1 st2 : pq_state} {G : List (Option Ptr)}
    {K1 K2 : Option Ptr → pq_state → pq_res (Option γ)}
    (hs : pq_sim W sf dot rpar rest st1 st2) (hok : st1.heap.ok_with G)
    (hA : ∀ v c r sc1 sc2 h1 h2, h1.ok_with [] →
      pq_scanner_yields W sf sc1 (r ++ [dot]) = true →
      pq_scanner_yields W sf sc2 (r ++ [rpar, dot]) = true →
      h1.erase_priorities = h2.erase_priorities →
      (∀ t ∈ c :: r, t.tag ≠ .PQ_END_TOK) →
      pq_res.sim W sf dot rpar (K1 v ⟨⟨sc1, some c, none⟩, h1⟩)
        (K2 v ⟨⟨sc2, some c, none⟩, h2⟩))
    (hB : ∀ v sc1 sc2 h1 h2, h1.ok_with [] →
      pq_scanner_yields W sf sc1 [] = true →
      pq_scanner_yields W sf sc2 [dot] = true →
      h1.erase_priorities = h2.erase_priorities →
      pq_res.sim W sf dot rpar (K1 v ⟨⟨sc1, some dot, none⟩, h1⟩)
        (K2 v ⟨⟨sc2, some rpar, none⟩, h2⟩)) :
    pq_res.sim W sf dot rpar
      ((pq_parse_prolog_arg_list W sf fuel st1).bind fun v st =>
        if st.has_err = true then pq_res.ok none st else K1 v st)
      ((pq_parse_prolog_arg_list W sf fuel st2).bind fun v st =>
        if st.has_err = true then pq_res.ok none st else K2 v st) :=
  pq_res.sim_bind_chk (F := fun _ h => h.ok_with [])
    (ih5 rest st1 st2 hs (pq_heap.ok_with_nil hok))
    (pq_res.holds_mono ((parse_priorities_ok W sf fuel).2.2.2.2.1 st1 []
      (pq_heap.ok_with_nil hok)) (fun _ _ h _ => h))
    (fun v c r sc1 sc2 h1 h2 hF => hA v c r sc1 sc2 h1 h2 hF)
    (fun v sc1 sc2 h1 h2 hF => hB v sc1 sc2 h1 h2 hF)

theorem sim_bind_arg {W : WCtype} {sf : Nat} {dot rpar : pq_tok} {γ : Type} {fuel : Nat}
    (ih6 : ∀ (rest : List pq_tok) (st1 st2 : pq_state),
      pq_sim W sf dot rpar rest st1 st2 → st1.heap.ok_with [] →
      pq_res.sim W sf dot rpar (pq_parse_prolog_arg W sf fuel st1)
        (pq_parse_prolog_arg W sf fuel st2))
    {rest : List pq_tok}  {st1 st2 : pq_state} {G : List (Option Ptr)}
    {K1 K2 : Option Ptr → pq_state → pq_res (Option γ)}
    (hs : pq_sim W sf dot rpar rest st1 st2) (hok : st1.heap.ok_with G)
    (hA : ∀ v c r sc1 sc2 h1 h2, h1.ok_with [] →
      pq_scanner_yields W sf sc1 (r ++ [dot]) = true →
      pq_scanner_yields W sf sc2 (r ++ [rpar, dot]) = true →
      h1.erase_priorities = h2.erase_priorities →
      (∀ t ∈ c :: r, t.tag ≠ .PQ_END_TOK) →
      pq_res.sim W sf dot rpar (K1 v ⟨⟨sc1, some c, none⟩, h1⟩)
        (K2 v ⟨⟨sc2, some c, none⟩, h2⟩))
    (hB : ∀ v sc1 sc2 h1 h2, h1.ok_with [] →
      pq_scanner_yields W sf sc1 [] = true →
      pq_scanner_yields W sf sc2 [dot] = true →
      h1.erase_priorities = h2.erase_priorities →
      pq_res.sim W sf dot rpar (K1 v ⟨⟨sc1, some dot, none⟩, h1⟩)
        (K2 v ⟨⟨sc2, some rpar, none⟩, h2⟩)) :
    pq_res.sim W sf dot rpar
      ((pq_parse_prolog_arg W sf fuel st1).bind fun v st =>
        if st.has_err = true then pq_res.ok none st else K1 v st)
      ((pq_parse_prolog_arg W sf fuel st2).bind fun v st =>
        if st.has_err = true then pq_res.ok none st else K2 v st) :=
  pq_res.sim_bind_chk (F := fun _ h => h.ok_with [])
    (ih6 rest st1 st2 hs (pq_heap.ok_with_nil hok))
    (pq_res.holds_mono ((parse_priorities_ok W sf fuel).2.2.2.2.2.1 st1 []
      (pq_heap.ok_with_nil hok)) (fun _ _ h _ => h))
    (fun v c r sc1 sc2 h1 h2 hF => hA v c r sc1 sc2 h1 h2 hF)
    (fun v sc1 sc2 h1 h2 hF => hB v sc1 sc2 h1 h2 hF)

theorem sim_bind_items {W : WCtype} {sf : Nat} {dot rpar : pq_tok} {γ : Type} {fuel : Nat}
    (ih7 : ∀ (rest : List pq_tok) (st1 st2 : pq_state),
      pq_sim W sf dot rpar rest st1 st2 → st1.heap.ok_with [] →
      pq_res.sim W sf dot rpar (pq_parse_prolog_items W sf fuel st1)
        (pq_parse_prolog_items W sf fuel st2))
    {rest : List pq_tok}  {st1 st2 : pq_state} {G : List (Option Ptr)}
    {K1 K2 : Option Ptr → pq_state → pq_res (Option γ)}
    (hs : pq_sim W sf dot rpar rest st1 st2) (hok : st1.heap.ok_with G)
    (hA : ∀ v c r sc1 sc2 h1 h2, h1.ok_with [] →
      pq_scanner_yields W sf sc1 (r ++ [dot]) = true →
      pq_scanner_yields W sf sc2 (r ++ [rpar, dot]) = true →
      h1.erase_priorities = h2.erase_priorities →
      (∀ t ∈ c :: r, t.tag ≠ .PQ_END_TOK) →
      pq_res.sim W sf dot rpar (K1 v ⟨⟨sc1, some c, none⟩, h1⟩)
        (K2 v ⟨⟨sc2, some c, none⟩, h2⟩))
    (hB : ∀ v sc1 sc2 h1 h2, h1.ok_with [] →
      pq_scanner_yields W sf sc1 [] = true →
      pq_scanner_yields W sf sc2 [dot] = true →
      h1.erase_priorities = h2.erase_priorities →
      pq_res.sim W sf dot rpar (K1 v ⟨⟨sc1, some dot, none⟩, h1⟩)
        (K2 v ⟨⟨sc2, some rpar, none⟩, h2⟩)) :
    pq_res.sim W sf dot rpar
      ((pq_parse_prolog_items W sf fuel st1).bind fun v st =>
        if st.has_err = true then pq_res.ok none st else K1 v st)
      ((pq_parse_prolog_items W sf fuel st2).bind fun v st =>
        if st.has_err = true then pq_res.ok none st else K2 v st) :=
  pq_res.sim_bind_chk (F := fun _ h => h.ok_with [])
    (ih7 rest st1 st2 hs (pq_heap.ok_with_nil hok))
    (pq_res.holds_mono ((parse_priorities_ok W sf fuel).2.2.2.2.2.2.1 st1 []
      (pq_heap.ok_with_nil hok)) (fun _ _ h _ => h))
    (fun v c r sc1 sc2 h1 h2 hF => hA v c r sc1 sc2 h1 h2 hF)
    (fun v sc1 sc2 h1 h2 hF => hB v sc1 sc2 h1 h2 hF)

theorem pq_priority_rel_pos {rest : List pq_tok} {p1 p2 : Nat}
    (h : pq_priority_rel rest p1 p2) : p1 > 0 ↔ p2 > 0 := by
  rcases h with h | ⟨h1, h2, _, _⟩
  · rw [h]
  · exact ⟨fun _ => by omega, fun _ => by omega⟩

theorem pq_priority_rel_operand {c : pq_tok} {r rest : List pq_tok} {p1 p2 : Nat}
    {op_name : Bytes} (hpr : pq_priority_rel (c :: r) p1 p2)
    (hpo : c.is_prefix_operator_name = some true) (hstr : c.str = some op_name)
    (hr : r = rest) :
    pq_priority_rel rest
      (if pq_syntax_name_is_spec_operator op_name .PQ_OP_FX = true then p1 - 1 else p1)
      (if pq_syntax_name_is_spec_operator op_name .PQ_OP_FX = true then p2 - 1 else p2) := by
  subst hr
  rcases hpr with h | ⟨h1, h2, h3, h4⟩
  · subst h
    exact Or.inl rfl
  · right
    have hl : pq_leading_fx (c :: r)
        = (if pq_syntax_name_is_spec_operator op_name .PQ_OP_FX = true then 1 else 0)
          + pq_leading_fx r := by
      simp only [pq_leading_fx, hpo, hstr]
    rw [hl] at h1 h2
    split
    · rename_i hfx
      rw [if_pos hfx] at h1 h2
      omega
    · rename_i hfx
      rw [if_neg hfx] at h1 h2
      omega

theorem pq_priority_dec_eq {p : Nat} (h0 : 0 < p) (h1 : p ≤ 1201) :
    pq_priority_dec p = p - 1 := by
  unfold pq_priority_dec
  omega

theorem pq_priority_rel_bounds {rest : List pq_tok} {p1 p2 : Nat}
    (h : pq_priority_rel rest p1 p2) (h0 : 0 < p1) (h1 : p1 ≤ 1201) : 0 < p2 ∧ p2 ≤ 1201 := by
  rcases h with h | ⟨_, h2, _, h4⟩
  · subst h
    exact ⟨h0, h1⟩
  · exact ⟨by omega, h4⟩

theorem sim_ret_set_end {W : WCtype} {sf : Nat} {dot rpar : pq_tok} {v : Option Ptr}
    {sc1 sc2 : pq_scanner} {h1 h2 : pq_heap} (p : Nat)
    (hv : v.isSome = true) (hok : h1.ok_with [v])
    (hy1 : pq_scanner_yields W sf sc1 [] = true)
    (hy2 : pq_scanner_yields W sf sc2 [dot] = true)
    (hE : h1.erase_priorities = h2.erase_priorities) :
    pq_res.sim W sf dot rpar (pq_res.ok v ⟨⟨sc1, some dot, none⟩, h1⟩)
      (pq_state.with_heap ⟨⟨sc2, some rpar, none⟩, h2⟩ (h2.set_item_priority v p)
        fun st => pq_res.ok v st) := by
  cases v with
  | none => cases hv
  | some nd =>
    obtain ⟨n, ti, t, e1, e2, e3, _⟩ := hok.2 (some nd) (List.mem_cons_self _ _) nd rfl
    have hset := pq_heap.set_item_priority_of p e1 e2 e3
    obtain ⟨h4, e4, hE4⟩ := pq_heap.erase_set_item_priority hE p hset
    unfold pq_state.with_heap
    rw [e4]
    exact pq_res.sim_ok (pq_sim_B hy1 hy2
      ((pq_heap.erase_set_item_priority_self hset).trans hE4))

theorem errs_next_token_eof {W : WCtype} {sf : Nat} {β : Type} {sc : pq_scanner}
    {cur : Option pq_tok} {e : Option Bytes} {h : pq_heap} {K : Unit → pq_state → pq_res β}
    (hy : pq_scanner_yields W sf sc [] = true)
    (hK : ∀ s1, (K () ⟨⟨s1, none, none⟩, h⟩).holds (fun _ st => st.has_err = true)) :
    ((pq_parser_next_token W sf ⟨⟨sc, cur, e⟩, h⟩).bind K).holds
      (fun _ st => st.has_err = true) := by
  obtain ⟨s1, e1⟩ := pq_scanner_yields_nil hy
  rw [pq_parser_next_token_eq _ _ _ e1]
  exact hK s1

theorem pq_closing.not_spec {dot rpar : pq_tok} (hc : pq_closing dot rpar) :
    ∃ name, rpar.str = some name
      ∧ pq_syntax_name_is_spec_operator name .PQ_OP_XFX = false
      ∧ pq_syntax_name_is_spec_operator name .PQ_OP_XFY = false
      ∧ pq_syntax_name_is_spec_operator name .PQ_OP_YFX = false
      ∧ pq_syntax_name_is_spec_operator name .PQ_OP_XF = false
      ∧ pq_syntax_name_is_spec_operator name .PQ_OP_YF = false := by
  obtain ⟨name, h1, h2⟩ := hc.rpar_str
  unfold pq_syntax_name_is_operator at h2
  simp only [Bool.or_eq_false_iff] at h2
  exact ⟨name, h1, h2.1.1.1.1.2, h2.1.1.1.2, h2.1.1.2, h2.1.2, h2.2⟩

set_option maxHeartbeats 4000000 in
theorem sim_arg_list_loop_step {W : WCtype} {sf : Nat} {dot rpar : pq_tok} (hc : pq_closing dot rpar) (fuel : Nat)
    (ih4 : ∀ (rest : List pq_tok) (l : Ptr) (st1 st2 : pq_state),
      pq_sim W sf dot rpar rest st1 st2 → st1.heap.ok_with [] →
      pq_res.sim W sf dot rpar (pq_parse_prolog_arg_list_loop W sf fuel l st1)
        (pq_parse_prolog_arg_list_loop W sf fuel l st2))
    (ih6 : ∀ (rest : List pq_tok) (st1 st2 : pq_state),
      pq_sim W sf dot rpar rest st1 st2 → st1.heap.ok_with [] →
      pq_res.sim W sf dot rpar (pq_parse_prolog_arg W sf fuel st1)
        (pq_parse_prolog_arg W sf fuel st2))
    : ∀ (rest : List pq_tok) (l : Ptr) (st1 st2 : pq_state),
      pq_sim W sf dot rpar rest st1 st2 → st1.heap.ok_with [] →
      pq_res.sim W sf dot rpar (pq_parse_prolog_arg_list_loop W sf (fuel + 1) l st1)
        (pq_parse_prolog_arg_list_loop W sf (fuel + 1) l st2) := by
  intro rest l st1 st2 hs hok
  rcases hs.shape with ⟨c, r, sc1, sc2, h1, h2, rfl, rfl, rfl, hy1, hy2, hE, hne⟩
    | ⟨sc1, sc2, h1, h2, rfl, rfl, rfl, hy1, hy2, hE⟩
  rotate_left
  · exact sim_arg_list_loop_end hc _ _ hs
  have hok1 : h1.ok_with [] := hok
  clear hok hs
  rw [pq_parse_prolog_arg_list_loop, pq_parse_prolog_arg_list_loop]
  try simp only [pq_new_atom_term, pq_new_integer_term, pq_new_float_term, pq_new_variable_term,
    pq_new_functor_term, pq_new_list_term]
  repeat' first
    | exact pq_res.sim_fault
    | exact pq_res.sim_err
    | assumption
    | omega
    | rfl
    | exact Or.inl rfl
    | exact List.mem_cons_self _ _
    | exact pq_heap.ok_with_nil (by assumption)
    | (apply pq_sim_A <;> assumption)
    | (apply pq_sim_B <;> assumption)
    | (apply pq_res.sim_ok
       first
       | (apply pq_sim_A <;> assumption)
       | (apply pq_sim_B <;> assumption))
    | (apply sim_link_infix_op
       first
       | (apply pq_sim_A <;> assumption)
       | (apply pq_sim_B <;> assumption))
    | (apply sim_link_postfix_op
       first
       | (apply pq_sim_A <;> assumption)
       | (apply pq_sim_B <;> assumption))
    | (apply sim_link_prefix_operand
       first
       | (apply pq_sim_A <;> assumption)
       | (apply pq_sim_B <;> assumption))
    | apply sim_new_term
    | apply sim_new_node
    | apply sim_new_list
    | apply sim_push_back
    | apply sim_set_item_priority
    | apply sim_next_token
    | apply sim_bind_arg ih6
    | (apply pq_res.sim_bind_map; apply ih4)
    | apply ih4
    | simp only [has_err_mk, curr_tag_is_mk, hc.dot_tag, hc.rpar_tag, reduceCtorEq, if_true,
        if_false, Bool.false_eq_true, decide_eq_true_eq, Bool.not_eq_true',
        decide_eq_false_iff_not, decide_False, decide_True, Bool.not_false, Bool.not_true,
        false_and, and_false]
    | rw [pq_heap.node_item_erase (by assumption)]
    | simp only [(by assumption : _ = _)]
    | intro _
    | split

theorem sim_arg_list_step {W : WCtype} {sf : Nat} {dot rpar : pq_tok} (hc : pq_closing dot rpar) (fuel : Nat)
    (ih4 : ∀ (rest : List pq_tok) (l : Ptr) (st1 st2 : pq_state),
      pq_sim W sf dot rpar rest st1 st2 → st1.heap.ok_with [] →
      pq_res.sim W sf dot rpar (pq_parse_prolog_arg_list_loop W sf fuel l st1)
        (pq_parse_prolog_arg_list_loop W sf fuel l st2))
    (ih6 : ∀ (rest : List pq_tok) (st1 st2 : pq_state),
      pq_sim W sf dot rpar rest st1 st2 → st1.heap.ok_with [] →
      pq_res.sim W sf dot rpar (pq_parse_prolog_arg W sf fuel st1)
        (pq_parse_prolog_arg W sf fuel st2))
    : ∀ (rest : List pq_tok) (st1 st2 : pq_state),
      pq_sim W sf dot rpar rest st1 st2 → st1.heap.ok_with [] →
      pq_res.sim W sf dot rpar (pq_parse_prolog_arg_list W sf (fuel + 1) st1)
        (pq_parse_prolog_arg_list W sf (fuel + 1) st2) := by
  intro rest st1 st2 hs hok
  rcases hs.shape with ⟨c, r, sc1, sc2, h1, h2, rfl, rfl, rfl, hy1, hy2, hE, hne⟩
    | ⟨sc1, sc2, h1, h2, rfl, rfl, rfl, hy1, hy2, hE⟩
  rotate_left
  · exact pq_res.sim_of_errs (errs_arg_list_end hc.dot_tag _ _ _ _)
  have hok1 : h1.ok_with [] := hok
  clear hok hs
  rw [pq_parse_prolog_arg_list, pq_parse_prolog_arg_list]
  try simp only [pq_new_atom_term, pq_new_integer_term, pq_new_float_term, pq_new_variable_term,
    pq_new_functor_term, pq_new_list_term]
  repeat' first
    | exact pq_res.sim_fault
    | exact pq_res.sim_err
    | assumption
    | omega
    | rfl
    | exact Or.inl rfl
    | exact List.mem_cons_self _ _
    | exact pq_heap.ok_with_nil (by assumption)
    | (apply pq_sim_A <;> assumption)
    | (apply pq_sim_B <;> assumption)
    | (apply pq_res.sim_ok
       first
       | (apply pq_sim_A <;> assumption)
       | (apply pq_sim_B <;> assumption))
    | (apply sim_link_infix_op
       first
       | (apply pq_sim_A <;> assumption)
       | (apply pq_sim_B <;> assumption))
    | (apply sim_link_postfix_op
       first
       | (apply pq_sim_A <;> assumption)
       | (apply pq_sim_B <;> assumption))
    | (apply sim_link_prefix_operand
       first
       | (apply pq_sim_A <;> assumption)
       | (apply pq_sim_B <;> assumption))
    | apply sim_new_term
    | apply sim_new_node
    | apply sim_new_list
    | apply sim_push_back
    | apply sim_set_item_priority
    | apply sim_next_token
    | apply sim_bind_arg ih6
    | (apply pq_res.sim_bind_map; apply ih4)
    | apply ih4
    | simp only [has_err_mk, curr_tag_is_mk, hc.dot_tag, hc.rpar_tag, reduceCtorEq, if_true,
        if_false, Bool.false_eq_true, decide_eq_true_eq, Bool.not_eq_true',
        decide_eq_false_iff_not, decide_False, decide_True, Bool.not_false, Bool.not_true,
        false_and, and_false]
    | rw [pq_heap.node_item_erase (by assumption)]
    | simp only [(by assumption : _ = _)]
    | intro _
    | split

theorem sim_arg_step {W : WCtype} {sf : Nat} {dot rpar : pq_tok} (hc : pq_closing dot rpar) (fuel : Nat)
    (ih1 : ∀ (rest : List pq_tok) (p1 p2 : Nat) (st1 st2 : pq_state),
      pq_sim W sf dot rpar rest st1 st2 → st1.heap.ok_with [] → p1 ≤ 1201 →
      pq_priority_rel rest p1 p2 →
      pq_res.sim W sf dot rpar (pq_parse_prolog_term W sf fuel p1 st1)
        (pq_parse_prolog_term W sf fuel p2 st2))
    : ∀ (rest : List pq_tok) (st1 st2 : pq_state),
      pq_sim W sf dot rpar rest st1 st2 → st1.heap.ok_with [] →
      pq_res.sim W sf dot rpar (pq_parse_prolog_arg W sf (fuel + 1) st1)
        (pq_parse_prolog_arg W sf (fuel + 1) st2) := by
  intro rest st1 st2 hs hok
  rcases hs.shape with ⟨c, r, sc1, sc2, h1, h2, rfl, rfl, rfl, hy1, hy2, hE, hne⟩
    | ⟨sc1, sc2, h1, h2, rfl, rfl, rfl, hy1, hy2, hE⟩
  rotate_left
  · exact pq_res.sim_of_errs (errs_arg_end hc.dot_tag _ _ _ _)
  have hok1 : h1.ok_with [] := hok
  clear hok hs
  rw [pq_parse_prolog_arg, pq_parse_prolog_arg]
  try simp only [pq_new_atom_term, pq_new_integer_term, pq_new_float_term, pq_new_variable_term,
    pq_new_functor_term, pq_new_list_term]
  repeat' first
    | exact pq_res.sim_fault
    | exact pq_res.sim_err
    | assumption
    | omega
    | rfl
    | exact Or.inl rfl
    | exact List.mem_cons_self _ _
    | exact pq_heap.ok_with_nil (by assumption)
    | (apply pq_sim_A <;> assumption)
    | (apply pq_sim_B <;> assumption)
    | (apply pq_res.sim_ok
       first
       | (apply pq_sim_A <;> assumption)
       | (apply pq_sim_B <;> assumption))
    | (apply sim_link_infix_op
       first
       | (apply pq_sim_A <;> assumption)
       | (apply pq_sim_B <;> assumption))
    | (apply sim_link_postfix_op
       first
       | (apply pq_sim_A <;> assumption)
       | (apply pq_sim_B <;> assumption))
    | (apply sim_link_prefix_operand
       first
       | (apply pq_sim_A <;> assumption)
       | (apply pq_sim_B <;> assumption))
    | apply sim_new_term
    | apply sim_new_node
    | apply sim_new_list
    | apply sim_push_back
    | apply sim_set_item_priority
    | apply sim_next_token
    | apply sim_bind_term ih1
    | apply ih1
    | simp only [has_err_mk, curr_tag_is_mk, hc.dot_tag, hc.rpar_tag, reduceCtorEq, if_true,
        if_false, Bool.false_eq_true, decide_eq_true_eq, Bool.not_eq_true',
        decide_eq_false_iff_not, decide_False, decide_True, Bool.not_false, Bool.not_true,
        false_and, and_false]
    | rw [pq_heap.node_item_erase (by assumption)]
    | simp only [(by assumption : _ = _)]
    | intro _
    | split

theorem sim_items_step {W : WCtype} {sf : Nat} {dot rpar : pq_tok} (hc : pq_closing dot rpar) (fuel : Nat)
    (ih6 : ∀ (rest : List pq_tok) (st1 st2 : pq_state),
      pq_sim W sf dot rpar rest st1 st2 → st1.heap.ok_with [] →
      pq_res.sim W sf dot rpar (pq_parse_prolog_arg W sf fuel st1)
        (pq_parse_prolog_arg W sf fuel st2))
    (ih8 : ∀ (rest : List pq_tok) (l : Ptr) (st1 st2 : pq_state),
      pq_sim W sf dot rpar rest st1 st2 → st1.heap.ok_with [] →
      pq_res.sim W sf dot rpar (pq_parse_prolog_items_loop W sf fuel l st1)
        (pq_parse_prolog_items_loop W sf fuel l st2))
    : ∀ (rest : List pq_tok) (st1 st2 : pq_state),
      pq_sim W sf dot rpar rest st1 st2 → st1.heap.ok_with [] →
      pq_res.sim W sf dot rpar (pq_parse_prolog_items W sf (fuel + 1) st1)
        (pq_parse_prolog_items W sf (fuel + 1) st2) := by
  intro rest st1 st2 hs hok
  rcases hs.shape with ⟨c, r, sc1, sc2, h1, h2, rfl, rfl, rfl, hy1, hy2, hE, hne⟩
    | ⟨sc1, sc2, h1, h2, rfl, rfl, rfl, hy1, hy2, hE⟩
  rotate_left
  · exact pq_res.sim_of_errs (errs_items_end hc.dot_tag _ _ _ _)
  have hok1 : h1.ok_with [] := hok
  clear hok hs
  rw [pq_parse_prolog_items, pq_parse_prolog_items]
  try simp only [pq_new_atom_term, pq_new_integer_term, pq_new_float_term, pq_new_variable_term,
    pq_new_functor_term, pq_new_list_term]
  repeat' first
    | exact pq_res.sim_fault
    | exact pq_res.sim_err
    | assumption
    | omega
    | rfl
    | exact Or.inl rfl
    | exact List.mem_cons_self _ _
    | exact pq_heap.ok_with_nil (by assumption)
    | (apply pq_sim_A <;> assumption)
    | (apply pq_sim_B <;> assumption)
    | (apply pq_res.sim_ok
       first
       | (apply pq_sim_A <;> assumption)
       | (apply pq_sim_B <;> assumption))
    | (apply sim_link_infix_op
       first
       | (apply pq_sim_A <;> assumption)
       | (apply pq_sim_B <;> assumption))
    | (apply sim_link_postfix_op
       first
       | (apply pq_sim_A <;> assumption)
       | (apply pq_sim_B <;> assumption))
    | (apply sim_link_prefix_operand
       first
       | (apply pq_sim_A <;> assumption)
       | (apply pq_sim_B <;> assumption))
    | apply sim_new_term
    | apply sim_new_node
    | apply sim_new_list
    | apply sim_push_back
    | apply sim_set_item_priority
    | apply sim_next_token
    | apply sim_bind_arg ih6
    | apply ih8
    | simp only [has_err_mk, curr_tag_is_mk, hc.dot_tag, hc.rpar_tag, reduceCtorEq, if_true,
        if_false, Bool.false_eq_true, decide_eq_true_eq, Bool.not_eq_true',
        decide_eq_false_iff_not, decide_False, decide_True, Bool.not_false, Bool.not_true,
        false_and, and_false]
    | rw [pq_heap.node_item_erase (by assumption)]
    | simp only [(by assumption : _ = _)]
    | intro _
    | split

theorem sim_items_loop_step {W : WCtype} {sf : Nat} {dot rpar : pq_tok} (hc : pq_closing dot rpar) (fuel : Nat)
    (ih6 : ∀ (rest : List pq_tok) (st1 st2 : pq_state),
      pq_sim W sf dot rpar rest st1 st2 → st1.heap.ok_with [] →
      pq_res.sim W sf dot rpar (pq_parse_prolog_arg W sf fuel st1)
        (pq_parse_prolog_arg W sf fuel st2))
    (ih8 : ∀ (rest : List pq_tok) (l : Ptr) (st1 st2 : pq_state),
      pq_sim W sf dot rpar rest st1 st2 → st1.heap.ok_with [] →
      pq_res.sim W sf dot rpar (pq_parse_prolog_items_loop W sf fuel l st1)
        (pq_parse_prolog_items_loop W sf fuel l st2))
    : ∀ (rest : List pq_tok) (l : Ptr) (st1 st2 : pq_state),
      pq_sim W sf dot rpar rest st1 st2 → st1.heap.ok_with [] →
      pq_res.sim W sf dot rpar (pq_parse_prolog_items_loop W sf (fuel + 1) l st1)
        (pq_parse_prolog_items_loop W sf (fuel + 1) l st2) := by
  intro rest l st1 st2 hs hok
  rcases hs.shape with ⟨c, r, sc1, sc2, h1, h2, rfl, rfl, rfl, hy1, hy2, hE, hne⟩
    | ⟨sc1, sc2, h1, h2, rfl, rfl, rfl, hy1, hy2, hE⟩
  rotate_left
  · exact sim_items_loop_end hc _ _ hs
  have hok1 : h1.ok_with [] := hok
  clear hok hs
  rw [pq_parse_prolog_items_loop, pq_parse_prolog_items_loop]
  try simp only [pq_new_atom_term, pq_new_integer_term, pq_new_float_term, pq_new_variable_term,
    pq_new_functor_term, pq_new_list_term]
  repeat' first
    | exact pq_res.sim_fault
    | exact pq_res.sim_err
    | assumption
    | omega
    | rfl
    | exact Or.inl rfl
    | exact List.mem_cons_self _ _
    | exact pq_heap.ok_with_nil (by assumption)
    | (apply pq_sim_A <;> assumption)
    | (apply pq_sim_B <;> assumption)
    | (apply pq_res.sim_ok
       first
       | (apply pq_sim_A <;> assumption)
       | (apply pq_sim_B <;> assumption))
    | (apply sim_link_infix_op
       first
       | (apply pq_sim_A <;> assumption)
       | (apply pq_sim_B <;> assumption))
    | (apply sim_link_postfix_op
       first
       | (apply pq_sim_A <;> assumption)
       | (apply pq_sim_B <;> assumption))
    | (apply sim_link_prefix_operand
       first
       | (apply pq_sim_A <;> assumption)
       | (apply pq_sim_B <;> assumption))
    | apply sim_new_term
    | apply sim_new_node
    | apply sim_new_list
    | apply sim_push_back
    | apply sim_set_item_priority
    | apply sim_next_token
    | apply sim_bind_arg ih6
    | apply ih8
    | simp only [has_err_mk, curr_tag_is_mk, hc.dot_tag, hc.rpar_tag, reduceCtorEq, if_true,
        if_false, Bool.false_eq_true, decide_eq_true_eq, Bool.not_eq_true',
        decide_eq_false_iff_not, decide_False, decide_True, Bool.not_false, Bool.not_true,
        false_and, and_false]
    | rw [pq_heap.node_item_erase (by assumption)]
    | simp only [(by assumption : _ = _)]
    | intro _
    | split

theorem sim_operand_or_arg_list_step {W : WCtype} {sf : Nat} {dot rpar : pq_tok} (hc : pq_closing dot rpar) (fuel : Nat)
    (ih1 : ∀ (rest : List pq_tok) (p1 p2 : Nat) (st1 st2 : pq_state),
      pq_sim W sf dot rpar rest st1 st2 → st1.heap.ok_with [] → p1 ≤ 1201 →
      pq_priority_rel rest p1 p2 →
      pq_res.sim W sf dot rpar (pq_parse_prolog_term W sf fuel p1 st1)
        (pq_parse_prolog_term W sf fuel p2 st2))
    (ih4 : ∀ (rest : List pq_tok) (l : Ptr) (st1 st2 : pq_state),
      pq_sim W sf dot rpar rest st1 st2 → st1.heap.ok_with [] →
      pq_res.sim W sf dot rpar (pq_parse_prolog_arg_list_loop W sf fuel l st1)
        (pq_parse_prolog_arg_list_loop W sf fuel l st2))
    : ∀ (rest : List pq_tok) (p1 p2 : Nat) (st1 st2 : pq_state),
      pq_sim W sf dot rpar rest st1 st2 → st1.heap.ok_with [] → p1 ≤ 1201 →
      pq_res.sim W sf dot rpar (pq_parse_prolog_operand_or_arg_list W sf (fuel + 1) p1 st1)
        (pq_parse_prolog_operand_or_arg_list W sf (fuel + 1) p2 st2) := by
  intro rest p1 p2 st1 st2 hs hok hp1
  rcases hs.shape with ⟨c, r, sc1, sc2, h1, h2, rfl, rfl, rfl, hy1, hy2, hE, hne⟩
    | ⟨sc1, sc2, h1, h2, rfl, rfl, rfl, hy1, hy2, hE⟩
  rotate_left
  · exact pq_res.sim_of_errs (errs_operand_or_arg_list_end hc.dot_tag _ _ _ _ _)
  have hok1 : h1.ok_with [] := hok
  clear hok hs
  rw [pq_parse_prolog_operand_or_arg_list, pq_parse_prolog_operand_or_arg_list]
  try simp only [pq_new_atom_term, pq_new_integer_term, pq_new_float_term, pq_new_variable_term,
    pq_new_functor_term, pq_new_list_term]
  repeat' first
    | exact pq_res.sim_fault
    | exact pq_res.sim_err
    | assumption
    | omega
    | rfl
    | exact Or.inl rfl
    | exact List.mem_cons_self _ _
    | exact pq_heap.ok_with_nil (by assumption)
    | (apply pq_sim_A <;> assumption)
    | (apply pq_sim_B <;> assumption)
    | (apply pq_res.sim_ok
       first
       | (apply pq_sim_A <;> assumption)
       | (apply pq_sim_B <;> assumption))
    | (apply sim_link_infix_op
       first
       | (apply pq_sim_A <;> assumption)
       | (apply pq_sim_B <;> assumption))
    | (apply sim_link_postfix_op
       first
       | (apply pq_sim_A <;> assumption)
       | (apply pq_sim_B <;> assumption))
    | (apply sim_link_prefix_operand
       first
       | (apply pq_sim_A <;> assumption)
       | (apply pq_sim_B <;> assumption))
    | apply sim_new_term
    | apply sim_new_node
    | apply sim_new_list
    | apply sim_push_back
    | apply sim_set_item_priority
    | apply sim_next_token
    | apply sim_bind_term ih1
    | (apply pq_res.sim_bind_map; apply ih4)
    | apply ih1
    | apply ih4
    | simp only [has_err_mk, curr_tag_is_mk, hc.dot_tag, hc.rpar_tag, reduceCtorEq, if_true,
        if_false, Bool.false_eq_true, decide_eq_true_eq, Bool.not_eq_true',
        decide_eq_false_iff_not, decide_False, decide_True, Bool.not_false, Bool.not_true,
        false_and, and_false]
    | rw [pq_heap.node_item_erase (by assumption)]
    | simp only [(by assumption : _ = _)]
    | intro _
    | split

theorem sim_prefix_step {W : WCtype} {sf : Nat} {dot rpar : pq_tok} (hc : pq_closing dot rpar) (fuel : Nat)
    (ih1 : ∀ (rest : List pq_tok) (p1 p2 : Nat) (st1 st2 : pq_state),
      pq_sim W sf dot rpar rest st1 st2 → st1.heap.ok_with [] → p1 ≤ 1201 →
      pq_priority_rel rest p1 p2 →
      pq_res.sim W sf dot rpar (pq_parse_prolog_term W sf fuel p1 st1)
        (pq_parse_prolog_term W sf fuel p2 st2))
    (ih3 : ∀ (rest : List pq_tok) (p1 p2 : Nat) (st1 st2 : pq_state),
      pq_sim W sf dot rpar rest st1 st2 → st1.heap.ok_with [] → p1 ≤ 1201 →
      pq_res.sim W sf dot rpar (pq_parse_prolog_operand_or_arg_list W sf fuel p1 st1)
        (pq_parse_prolog_operand_or_arg_list W sf fuel p2 st2))
    : ∀ (rest : List pq_tok) (p1 p2 : Nat) (st1 st2 : pq_state),
      pq_sim W sf dot rpar rest st1 st2 → st1.heap.ok_with [] → 0 < p1 → p1 ≤ 1201 →
      pq_priority_rel rest p1 p2 →
      pq_res.sim W sf dot rpar (pq_parse_prolog_prefix_op_or_functor_or_atom W sf (fuel + 1) p1 st1)
        (pq_parse_prolog_prefix_op_or_functor_or_atom W sf (fuel + 1) p2 st2) := by
  intro rest p1 p2 st1 st2 hs hok hp0 hp1 hpr
  rcases hs.shape with ⟨c, r, sc1, sc2, h1, h2, rfl, rfl, rfl, hy1, hy2, hE, hne⟩
    | ⟨sc1, sc2, h1, h2, rfl, rfl, rfl, hy1, hy2, hE⟩
  rotate_left
  · exact pq_res.sim_of_errs (errs_prefix_end hc.dot_tag _ _ _ _ _)
  have hok1 : h1.ok_with [] := hok
  clear hok hs
  rw [pq_parse_prolog_prefix_op_or_functor_or_atom, pq_parse_prolog_prefix_op_or_functor_or_atom]
  try simp only [pq_new_atom_term, pq_new_integer_term, pq_new_float_term, pq_new_variable_term,
    pq_new_functor_term, pq_new_list_term]
  try dsimp only
  rcases hpo : c.is_prefix_operator_name with _ | _ | _
  · exact pq_res.sim_fault
  · exact pq_res.sim_err
  rcases hstr : c.str with _ | op_name
  · exact pq_res.sim_err
  try dsimp only
  rw [pq_priority_dec_eq hp0 hp1, pq_priority_dec_eq (pq_priority_rel_bounds hpr hp0 hp1).1
    (pq_priority_rel_bounds hpr hp0 hp1).2]
  repeat' first
    | exact pq_priority_rel_operand hpr hpo hstr (by assumption)
    | exact pq_res.sim_fault
    | exact pq_res.sim_err
    | assumption
    | omega
    | rfl
    | exact Or.inl rfl
    | exact List.mem_cons_self _ _
    | exact pq_heap.ok_with_nil (by assumption)
    | (apply pq_sim_A <;> assumption)
    | (apply pq_sim_B <;> assumption)
    | (apply pq_res.sim_ok
       first
       | (apply pq_sim_A <;> assumption)
       | (apply pq_sim_B <;> assumption))
    | (apply sim_link_infix_op
       first
       | (apply pq_sim_A <;> assumption)
       | (apply pq_sim_B <;> assumption))
    | (apply sim_link_postfix_op
       first
       | (apply pq_sim_A <;> assumption)
       | (apply pq_sim_B <;> assumption))
    | (apply sim_link_prefix_operand
       first
       | (apply pq_sim_A <;> assumption)
       | (apply pq_sim_B <;> assumption))
    | apply sim_new_term
    | apply sim_new_node
    | apply sim_new_list
    | apply sim_push_back
    | apply sim_set_item_priority
    | apply sim_next_token
    | apply sim_bind_term ih1
    | apply sim_bind_operand_or_arg_list ih3
    | apply ih1
    | simp only [has_err_mk, curr_tag_is_mk, hc.dot_tag, hc.rpar_tag, reduceCtorEq, if_true,
        if_false, Bool.false_eq_true, decide_eq_true_eq, Bool.not_eq_true',
        decide_eq_false_iff_not, decide_False, decide_True, Bool.not_false, Bool.not_true,
        false_and, and_false]
    | rw [pq_heap.node_item_erase (by assumption)]
    | simp only [(by assumption : _ = _)]
    | intro _
    | split

set_option maxHeartbeats 4000000 in
theorem sim_term_step {W : WCtype} {sf : Nat} {dot rpar : pq_tok} (hc : pq_closing dot rpar) (fuel : Nat)
    (ih1 : ∀ (rest : List pq_tok) (p1 p2 : Nat) (st1 st2 : pq_state),
      pq_sim W sf dot rpar rest st1 st2 → st1.heap.ok_with [] → p1 ≤ 1201 →
      pq_priority_rel rest p1 p2 →
      pq_res.sim W sf dot rpar (pq_parse_prolog_term W sf fuel p1 st1)
        (pq_parse_prolog_term W sf fuel p2 st2))
    (ih2 : ∀ (rest : List pq_tok) (p1 p2 : Nat) (st1 st2 : pq_state),
      pq_sim W sf dot rpar rest st1 st2 → st1.heap.ok_with [] → 0 < p1 → p1 ≤ 1201 →
      pq_priority_rel rest p1 p2 →
      pq_res.sim W sf dot rpar (pq_parse_prolog_prefix_op_or_functor_or_atom W sf fuel p1 st1)
        (pq_parse_prolog_prefix_op_or_functor_or_atom W sf fuel p2 st2))
    (ih5 : ∀ (rest : List pq_tok) (st1 st2 : pq_state),
      pq_sim W sf dot rpar rest st1 st2 → st1.heap.ok_with [] →
      pq_res.sim W sf dot rpar (pq_parse_prolog_arg_list W sf fuel st1)
        (pq_parse_prolog_arg_list W sf fuel st2))
    (ih7 : ∀ (rest : List pq_tok) (st1 st2 : pq_state),
      pq_sim W sf dot rpar rest st1 st2 → st1.heap.ok_with [] →
      pq_res.sim W sf dot rpar (pq_parse_prolog_items W sf fuel st1)
        (pq_parse_prolog_items W sf fuel st2))
    : ∀ (rest : List pq_tok) (p1 p2 : Nat) (st1 st2 : pq_state),
      pq_sim W sf dot rpar rest st1 st2 → st1.heap.ok_with [] → p1 ≤ 1201 →
      pq_priority_rel rest p1 p2 →
      pq_res.sim W sf dot rpar (pq_parse_prolog_term W sf (fuel + 1) p1 st1)
        (pq_parse_prolog_term W sf (fuel + 1) p2 st2) := by
  intro rest p1 p2 st1 st2 hs hok hp1 hpr
  rcases hs.shape with ⟨c, r, sc1, sc2, h1, h2, rfl, rfl, rfl, hy1, hy2, hE, hne⟩
    | ⟨sc1, sc2, h1, h2, rfl, rfl, rfl, hy1, hy2, hE⟩
  rotate_left
  · exact pq_res.sim_of_errs (errs_term_end (Or.inl hc.dot_tag) _ _ _ _ _)
  have hok1 : h1.ok_with [] := hok
  clear hok hs
  rw [pq_parse_prolog_term, pq_parse_prolog_term]
  try simp only [pq_new_atom_term, pq_new_integer_term, pq_new_float_term, pq_new_variable_term,
    pq_new_functor_term, pq_new_list_term]
  try dsimp only
  have hpp := pq_priority_rel_pos hpr
  obtain ⟨name, hrs, hx1, hx2, hx3, hx4, hx5⟩ := hc.not_spec
  have h0 : (p1 > 0 ∧ p2 > 0) ∨ (¬ p1 > 0 ∧ ¬ p2 > 0) := by
    by_cases h : p1 > 0
    · exact Or.inl ⟨h, hpp.mp h⟩
    · exact Or.inr ⟨h, fun h2 => h (hpp.mpr h2)⟩
  rcases h0 with ⟨h0, h0b⟩ | ⟨h0, h0b⟩ <;> simp only [h0, h0b, if_true, if_false]
  repeat' first
    | (apply sim_ret_set_end <;> assumption)
    | (apply pq_res.sim_of_errs
       apply errs_next_token_eof (by assumption)
       intro _
       apply pq_res.errs_bind_chk
       apply errs_term_none)
    | exact pq_res.sim_fault
    | exact pq_res.sim_err
    | assumption
    | omega
    | rfl
    | exact Or.inl rfl
    | exact List.mem_cons_self _ _
    | exact pq_heap.ok_with_nil (by assumption)
    | (apply pq_sim_A <;> assumption)
    | (apply pq_sim_B <;> assumption)
    | (apply pq_res.sim_ok
       first
       | (apply pq_sim_A <;> assumption)
       | (apply pq_sim_B <;> assumption))
    | (apply sim_link_infix_op
       first
       | (apply pq_sim_A <;> assumption)
       | (apply pq_sim_B <;> assumption))
    | (apply sim_link_postfix_op
       first
       | (apply pq_sim_A <;> assumption)
       | (apply pq_sim_B <;> assumption))
    | (apply sim_link_prefix_operand
       first
       | (apply pq_sim_A <;> assumption)
       | (apply pq_sim_B <;> assumption))
    | apply sim_new_term
    | apply sim_new_node
    | apply sim_new_list
    | apply sim_push_back
    | apply sim_set_item_priority
    | apply sim_next_token
    | apply sim_bind_term ih1
    | apply sim_bind_arg_list ih5
    | apply sim_bind_items ih7
    | apply ih1
    | apply ih2
    | simp only [has_err_mk, curr_tag_is_mk, hc.dot_tag, hc.rpar_tag, reduceCtorEq, if_true,
        if_false, Bool.false_eq_true, decide_eq_true_eq, Bool.not_eq_true',
        decide_eq_false_iff_not, decide_False, decide_True, Bool.not_false, Bool.not_true,
        false_and, and_false, hrs, hx1, hx2, hx3, hx4, hx5]
    | rw [pq_heap.node_item_erase (by assumption)]
    | simp only [(by assumption : _ = _)]
    | intro _
    | split

theorem parse_sim {W : WCtype} {sf : Nat} {dot rpar : pq_tok} (hc : pq_closing dot rpar) : ∀ fuel : Nat,
    (∀ (rest : List pq_tok) (p1 p2 : Nat) (st1 st2 : pq_state),
      pq_sim W sf dot rpar rest st1 st2 → st1.heap.ok_with [] → p1 ≤ 1201 →
      pq_priority_rel rest p1 p2 →
      pq_res.sim W sf dot rpar (pq_parse_prolog_term W sf fuel p1 st1)
        (pq_parse_prolog_term W sf fuel p2 st2))
    ∧ (∀ (rest : List pq_tok) (p1 p2 : Nat) (st1 st2 : pq_state),
      pq_sim W sf dot rpar rest st1 st2 → st1.heap.ok_with [] → 0 < p1 → p1 ≤ 1201 →
      pq_priority_rel rest p1 p2 →
      pq_res.sim W sf dot rpar (pq_parse_prolog_prefix_op_or_functor_or_atom W sf fuel p1 st1)
        (pq_parse_prolog_prefix_op_or_functor_or_atom W sf fuel p2 st2))
    ∧ (∀ (rest : List pq_tok) (p1 p2 : Nat) (st1 st2 : pq_state),
      pq_sim W sf dot rpar rest st1 st2 → st1.heap.ok_with [] → p1 ≤ 1201 →
      pq_res.sim W sf dot rpar (pq_parse_prolog_operand_or_arg_list W sf fuel p1 st1)
        (pq_parse_prolog_operand_or_arg_list W sf fuel p2 st2))
    ∧ (∀ (rest : List pq_tok) (l : Ptr) (st1 st2 : pq_state),
      pq_sim W sf dot rpar rest st1 st2 → st1.heap.ok_with [] →
      pq_res.sim W sf dot rpar (pq_parse_prolog_arg_list_loop W sf fuel l st1)
        (pq_parse_prolog_arg_list_loop W sf fuel l st2))
    ∧ (∀ (rest : List pq_tok) (st1 st2 : pq_state),
      pq_sim W sf dot rpar rest st1 st2 → st1.heap.ok_with [] →
      pq_res.sim W sf dot rpar (pq_parse_prolog_arg_list W sf fuel st1)
        (pq_parse_prolog_arg_list W sf fuel st2))
    ∧ (∀ (rest : List pq_tok) (st1 st2 : pq_state),
      pq_sim W sf dot rpar rest st1 st2 → st1.heap.ok_with [] →
      pq_res.sim W sf dot rpar (pq_parse_prolog_arg W sf fuel st1)
        (pq_parse_prolog_arg W sf fuel st2))
    ∧ (∀ (rest : List pq_tok) (st1 st2 : pq_state),
      pq_sim W sf dot rpar rest st1 st2 → st1.heap.ok_with [] →
      pq_res.sim W sf dot rpar (pq_parse_prolog_items W sf fuel st1)
        (pq_parse_prolog_items W sf fuel st2))
    ∧ (∀ (rest : List pq_tok) (l : Ptr) (st1 st2 : pq_state),
      pq_sim W sf dot rpar rest st1 st2 → st1.heap.ok_with [] →
      pq_res.sim W sf dot rpar (pq_parse_prolog_items_loop W sf fuel l st1)
        (pq_parse_prolog_items_loop W sf fuel l st2))
  | 0 => by
    refine ⟨?_, ?_, ?_, ?_, ?_, ?_, ?_, ?_⟩
    · intros; rw [pq_parse_prolog_term]; exact pq_res.sim_fault
    · intros; rw [pq_parse_prolog_prefix_op_or_functor_or_atom]; exact pq_res.sim_fault
    · intros; rw [pq_parse_prolog_operand_or_arg_list]; exact pq_res.sim_fault
    · intros; rw [pq_parse_prolog_arg_list_loop]; exact pq_res.sim_fault
    · intros; rw [pq_parse_prolog_arg_list]; exact pq_res.sim_fault
    · intros; rw [pq_parse_prolog_arg]; exact pq_res.sim_fault
    · intros; rw [pq_parse_prolog_items]; exact pq_res.sim_fault
    · intros; rw [pq_parse_prolog_items_loop]; exact pq_res.sim_fault
  | fuel + 1 => by
    obtain ⟨ih1, ih2, ih3, ih4, ih5, ih6, ih7, ih8⟩ := parse_sim hc fuel
    exact ⟨sim_term_step hc fuel ih1 ih2 ih5 ih7,
      sim_prefix_step hc fuel ih1 ih3,
      sim_operand_or_arg_list_step hc fuel ih1 ih4,
      sim_arg_list_loop_step hc fuel ih4 ih6,
      sim_arg_list_step hc fuel ih4 ih6,
      sim_arg_step hc fuel ih1,
      sim_items_step hc fuel ih6 ih8,
      sim_items_loop_step hc fuel ih6 ih8⟩

theorem pq_closing_tokens : pq_closing pq_end_tok pq_rpar_tok :=
  ⟨rfl, rfl, ⟨[41], rfl, by decide⟩⟩

theorem text_at_eof (W : WCtype) (sf fuel : Nat) (sc : pq_scanner) (e : Option Bytes)
    (h : pq_heap) :
    pq_parse_prolog_text W sf (fuel + 1) ⟨⟨sc, none, e⟩, h⟩ = .ok none ⟨⟨sc, none, e⟩, h⟩ := by
  rw [pq_parse_prolog_text]

theorem text_one_term_inv {W : WCtype} {sf fuel : Nat} {c : pq_tok} {sc : pq_scanner}
    {h : pq_heap} {v : Option Ptr} {st1 : pq_state}
    (hrun : pq_parse_prolog_text W sf fuel ⟨⟨sc, some c, none⟩, h⟩ = .ok v st1)
    (herr : st1.has_err = false) :
    ∃ f tn stb, fuel = f + 1
      ∧ pq_parse_prolog_term W sf f 1200 ⟨⟨sc, some c, none⟩, h⟩ = .ok tn stb
      ∧ stb.has_err = false ∧ stb.curr_tag_is .PQ_END_TOK = true
      ∧ ∃ stc, pq_parser_next_token W sf stb = .ok () stc ∧ stc.has_err = false
        ∧ ∃ rest std, pq_parse_prolog_text W sf f stc = .ok rest std
          ∧ ∃ h4, pq_syntax_tree_add_right_sibling_node std.heap tn rest = some h4
            ∧ v = tn ∧ st1 = { std with heap := h4 } := by
  cases fuel with
  | zero => rw [pq_parse_prolog_text] at hrun; cases hrun
  | succ f =>
    rw [pq_parse_prolog_text] at hrun
    dsimp only at hrun
    cases hterm : pq_parse_prolog_term W sf f 1200 ⟨⟨sc, some c, none⟩, h⟩ with
    | fault e => rw [hterm] at hrun; cases hrun
    | ok tn stb =>
      rw [hterm] at hrun
      simp only [pq_res.bind] at hrun
      by_cases he : stb.has_err = true
      · rw [if_pos he] at hrun
        cases hrun
        rw [he] at herr
        cases herr
      · rw [if_neg he] at hrun
        by_cases htag : stb.curr_tag_is .PQ_END_TOK = true
        · rw [if_pos htag] at hrun
          cases hnext : pq_parser_next_token W sf stb with
          | fault e => rw [hnext] at hrun; cases hrun
          | ok u stc =>
            rw [hnext] at hrun
            simp only [pq_res.bind] at hrun
            by_cases he2 : stc.has_err = true
            · rw [if_pos he2] at hrun
              cases hrun
              rw [he2] at herr
              cases herr
            · rw [if_neg he2] at hrun
              cases htext : pq_parse_prolog_text W sf f stc with
              | fault e => rw [htext] at hrun; cases hrun
              | ok rest std =>
                rw [htext] at hrun
                simp only [pq_res.bind, pq_state.with_heap] at hrun
                cases hadd : pq_syntax_tree_add_right_sibling_node std.heap tn rest with
                | none => rw [hadd] at hrun; cases hrun
                | some h4 =>
                  rw [hadd] at hrun
                  simp only [pq_res.ok.injEq] at hrun
                  exact ⟨f, tn, stb, rfl, hterm, by simpa using he, htag, stc, hnext,
                    by simpa using he2, rest, std, htext, h4, hadd, hrun.1.symm, hrun.2.symm⟩
        · rw [if_neg htag] at hrun
          cases hrun
          cases herr

theorem paren_zero_eval {W : WCtype} {sf f : Nat} {lpar rpar c : pq_tok}
    (hlpar : lpar.tag = .PQ_LPAR_TOK) (hrpar : rpar.tag = .PQ_RPAR_TOK)
    {sc2a s2b sc2c s2d : pq_scanner} {h0 h2 g : pq_heap} {nd : Ptr} {tokd : Option pq_tok}
    (e2b : pq_scanner_next_token W sf sc2a = some ⟨some c, none, s2b⟩)
    (hterm2 : pq_parse_prolog_term W sf f 1201 ⟨⟨s2b, some c, none⟩, h0⟩
      = .ok (some nd) ⟨⟨sc2c, some rpar, none⟩, h2⟩)
    (e2c : pq_scanner_next_token W sf sc2c = some ⟨tokd, none, s2d⟩)
    (hset : h2.set_item_priority (some nd) 0 = some g) :
    pq_parse_prolog_term W sf (f + 1) 0 ⟨⟨sc2a, some lpar, none⟩, h0⟩
      = .ok (some nd) ⟨⟨s2d, tokd, none⟩, g⟩ := by
  rw [pq_parse_prolog_term]
  simp only [gt_iff_lt, Nat.lt_irrefl, if_false, hlpar]
  rw [pq_parser_next_token_eq _ _ _ e2b]
  simp only [pq_res.bind, hterm2, has_err_mk, curr_tag_is_mk, hrpar, decide_True, Bool.not_true,
    Bool.false_eq_true, if_false]
  rw [pq_parser_next_token_eq _ _ _ e2c]
  simp only [pq_state.with_heap, hset]

theorem paren_term_eval {W : WCtype} {sf f : Nat} {lpar rpar dot c : pq_tok}
    (hlpar : lpar.tag = .PQ_LPAR_TOK) (hrpar : rpar.tag = .PQ_RPAR_TOK)
    (hdot : dot.tag = .PQ_END_TOK)
    {sc2a s2b sc2c s2d : pq_scanner} {h0 h2 h3 : pq_heap} {nd : Ptr}
    (e2b : pq_scanner_next_token W sf sc2a = some ⟨some c, none, s2b⟩)
    (hterm2 : pq_parse_prolog_term W sf f 1201 ⟨⟨s2b, some c, none⟩, h0⟩
      = .ok (some nd) ⟨⟨sc2c, some rpar, none⟩, h2⟩)
    (e2c : pq_scanner_next_token W sf sc2c = some ⟨some dot, none, s2d⟩)
    (hset : h2.set_item_priority (some nd) 0 = some h3) :
    pq_parse_prolog_term W sf (f + 2) 1200 ⟨⟨sc2a, some lpar, none⟩, h0⟩
      = .ok (some nd) ⟨⟨s2d, some dot, none⟩, h3⟩ := by
  rw [pq_parse_prolog_term]
  have h1 : lpar.is_prefix_operator_name = some false :=
    is_prefix_operator_name_of_tag (by rw [hlpar]; decide)
  simp only [h1, gt_iff_lt, Nat.lt_irrefl, if_false, Nat.zero_lt_succ, if_true]
  rw [paren_zero_eval hlpar hrpar e2b hterm2 e2c hset]
  simp only [pq_res.bind, has_err_mk, hdot, Bool.false_eq_true, if_false, if_true]

theorem paren_text_eval {W : WCtype} {sf f : Nat} {lpar rpar dot c : pq_tok}
    (hlpar : lpar.tag = .PQ_LPAR_TOK) (hrpar : rpar.tag = .PQ_RPAR_TOK)
    (hdot : dot.tag = .PQ_END_TOK)
    {sc2a s2b sc2c s2d s2e : pq_scanner} {h0 h2 h3 : pq_heap} {nd : Ptr}
    (e2b : pq_scanner_next_token W sf sc2a = some ⟨some c, none, s2b⟩)
    (hterm2 : pq_parse_prolog_term W sf f 1201 ⟨⟨s2b, some c, none⟩, h0⟩
      = .ok (some nd) ⟨⟨sc2c, some rpar, none⟩, h2⟩)
    (e2c : pq_scanner_next_token W sf sc2c = some ⟨some dot, none, s2d⟩)
    (e2d : pq_scanner_next_token W sf s2d = some ⟨none, none, s2e⟩)
    (hset : h2.set_item_priority (some nd) 0 = some h3) :
    pq_parse_prolog_text W sf (f + 3) ⟨⟨sc2a, some lpar, none⟩, h0⟩
      = .ok (some nd) ⟨⟨s2e, none, none⟩, h3⟩ := by
  rw [pq_parse_prolog_text]
  simp only [paren_term_eval hlpar hrpar hdot e2b hterm2 e2c hset, pq_res.bind, has_err_mk,
    curr_tag_is_mk, hdot, decide_True, Bool.false_eq_true, if_false, if_true]
  rw [pq_parser_next_token_eq _ _ _ e2d]
  simp only [pq_res.bind, has_err_mk, Bool.false_eq_true, if_false, text_at_eof,
    pq_state.with_heap, pq_syntax_tree_add_right_sibling_node]

theorem get?_some_lt {α : Type} {l : List α} {i : Nat} {x : α} (h : l.get? i = some x) :
    i < l.length := by
  by_contra hc
  rw [List.get?_eq_none.mpr (by omega)] at h
  cases h

theorem pq_heap.node_term_set_item_priority {h h3 : pq_heap} {nd : Ptr} {p : Nat}
    (hset : h.set_item_priority (some nd) p = some h3) :
    ∃ t, h3.node_term nd = some t ∧ t.priority = p := by
  obtain ⟨nd1, n, ti, t, e0, e1, e2, e3, rfl⟩ := pq_heap.set_item_priority_eq_some hset
  cases e0
  have hlt : ti < h.terms.length := get?_some_lt e3
  refine ⟨{ t with priority := p }, ?_, rfl⟩
  unfold pq_heap.node_term
  simp only [e1, e2, List.get?_eq_getElem?, List.getElem?_set_self hlt]

theorem paren_parse_scanner {W : WCtype} {sf fuel : Nat} {T : List pq_tok}
    {sc1 sc2 : pq_scanner} {v : Option Ptr} {st1 : pq_state}
    (hT : ∀ t ∈ T, t.tag ≠ .PQ_END_TOK) (hfx : pq_leading_fx T < 1200)
    (hy1 : pq_scanner_yields W sf sc1 (T ++ [pq_end_tok]) = true)
    (hy2 : pq_scanner_yields W sf sc2 (pq_lpar_tok :: T ++ [pq_rpar_tok, pq_end_tok]) = true)
    (hrun : ((pq_parser_next_token W sf ⟨⟨sc1, none, none⟩, pq_heap.empty⟩).bind fun _ st =>
      pq_parse_prolog_text W sf fuel st) = .ok v st1)
    (herr : st1.parser.err = none) :
    ∃ node st2 t, v = some node
      ∧ ((pq_parser_next_token W sf ⟨⟨sc2, none, none⟩, pq_heap.empty⟩).bind fun _ st =>
          pq_parse_prolog_text W sf (fuel + 2) st) = .ok (some node) st2
      ∧ st2.parser.err = none
      ∧ st2.heap.erase_priorities = st1.heap.erase_priorities
      ∧ st2.heap.node_term node = some t ∧ t.priority = 0 := by
  have hc := pq_closing_tokens
  have herr1 : st1.has_err = false := by
    unfold pq_state.has_err
    rw [herr]
    rfl
  cases T with
  | nil =>
    obtain ⟨s1, e1, _⟩ := pq_scanner_yields_cons hy1
    rw [pq_parser_next_token_eq _ _ _ e1] at hrun
    obtain ⟨f, tn, stb, _, hterm, hne, _⟩ := text_one_term_inv hrun herr1
    have h1 := errs_term_end (W := W) (s := sf) (Or.inl hc.dot_tag) f 1200 s1 none
      pq_heap.empty
    rw [hterm] at h1
    have h2 : stb.has_err = true := h1
    rw [h2] at hne
    cases hne
  | cons c r =>
    obtain ⟨s1, e1, y1⟩ := pq_scanner_yields_cons hy1
    obtain ⟨s2a, e2a, y2a⟩ := pq_scanner_yields_cons hy2
    obtain ⟨s2b, e2b, y2b⟩ := pq_scanner_yields_cons y2a
    rw [pq_parser_next_token_eq _ _ _ e1] at hrun
    obtain ⟨f, tn, stb, hf, hterm, hne, htag, stc, hnext, hne2, rest, std, htext, h4, hadd,
      hv, hst⟩ := text_one_term_inv hrun herr1
    subst hf hv
    obtain ⟨st2c, rest1, hterm2, hs1⟩ := ((parse_sim hc f).1 (c :: r) 1200 1201
      ⟨⟨s1, some c, none⟩, pq_heap.empty⟩ ⟨⟨s2b, some c, none⟩, pq_heap.empty⟩
      (pq_sim_A y1 y2b rfl hT) empty_ok_with (by omega)
      (Or.inr ⟨hfx, by omega, by omega, by omega⟩)).out v stb hterm hne
    rcases hs1.shape with ⟨c1, r1, sc3, sc4, h1, h2, e0, rfl, rfl, _, _, _, hne1⟩
      | ⟨sc3, sc4, h1, h2, _, rfl, rfl, y3, y4, hE⟩
    · exfalso
      rw [curr_tag_is_mk] at htag
      exact hne1 c1 (List.mem_cons_self _ _) (by simpa using htag)
    · obtain ⟨s1e, e1e⟩ := pq_scanner_yields_nil y3
      rw [pq_parser_next_token_eq _ _ _ e1e] at hnext
      cases hnext
      cases f with
      | zero => rw [pq_parse_prolog_text] at htext; cases htext
      | succ f1 =>
        rw [text_at_eof] at htext
        cases htext
        have hh4 : h4 = h1 := by
          have := hadd
          simp only [pq_syntax_tree_add_right_sibling_node, Option.some.injEq] at this
          exact this.symm
        subst hh4 hst
        have hg := (parse_gives W sf (f1 + 1)).1 1200 ⟨⟨s1, some c, none⟩, pq_heap.empty⟩
        rw [hterm] at hg
        have hsome : v.isSome = true := hg hne
        have hp := (parse_priorities_ok W sf (f1 + 1)).1 1200
          ⟨⟨s1, some c, none⟩, pq_heap.empty⟩ [] (by omega) empty_ok_with
        rw [hterm] at hp
        have hok : h4.ok_with [v] := hp
        cases v with
        | none => cases hsome
        | some nd =>
          obtain ⟨n, ti, t, e5, e6, e7, _⟩ := hok.2 (some nd) (List.mem_cons_self _ _) nd rfl
          have hset1 := pq_heap.set_item_priority_of 0 e5 e6 e7
          obtain ⟨h3, hset2, hE3⟩ := pq_heap.erase_set_item_priority hE 0 hset1
          obtain ⟨s2d, e2c, y2d⟩ := pq_scanner_yields_cons y4
          obtain ⟨s2e, e2d⟩ := pq_scanner_yields_nil y2d
          obtain ⟨t3, ht3, hp3⟩ := pq_heap.node_term_set_item_priority hset2
          refine ⟨nd, ⟨⟨s2e, none, none⟩, h3⟩, t3, rfl, ?_, rfl, ?_, ht3, hp3⟩
          · rw [pq_parser_next_token_eq _ _ _ e2a]
            exact paren_text_eval rfl hc.rpar_tag hc.dot_tag e2b hterm2 e2c e2d hset2
          · exact ((pq_heap.erase_set_item_priority_self hset1).trans hE3).symm

/-! ## Parenthesised terms: 1201 nested `:-` -/

theorem skip_one_ascii (s : pq_scanner) (h : IsAscii s.buffer) (hlt : s.beg < s.buffer_sz) :
    pq_scanner_skip s 1 = { s with beg := s.beg + 1 } := by
  rcases s with ⟨buffer, sz, ln, col, beg, e, cp, cpb, qn, qe, qm⟩
  simp only at hlt h
  have h1 : beg ≤ size_dec sz := by rw [size_dec_pos (by omega)]; omega
  simp [pq_scanner_skip, h1, h.decode, size_add_one]

theorem begin_layout_space (s : pq_scanner) (hcp : s.cp = 32) :
    pq_scanner_switch asciiW .BEGIN s = .next .BEGIN none (pq_scanner_skip s 1) := by
  have h1 : pq_is_unicode_layout_char asciiW 32 = true := by decide
  unfold pq_scanner_switch
  simp [hcp, h1]

theorem begin_graphic_colon (s : pq_scanner) (hcp : s.cp = 58) :
    pq_scanner_switch asciiW .BEGIN s = .next .G_NAME none s := by
  have h1 : pq_is_unicode_layout_char asciiW 58 = false := by decide
  have h2 : pq_is_unicode_lower_char asciiW 58 = false := by decide
  have h3 : pq_is_unicode_dec_char 58 = false := by decide
  have h4 : pq_is_unicode_graphic_token_char asciiW 58 = true := by decide
  unfold pq_scanner_switch
  simp [hcp, h1, h2, h3, h4]

theorem begin_lpar (s : pq_scanner) (hcp : s.cp = 40) :
    pq_scanner_switch asciiW .BEGIN s
      = .ret (some (pq_new_str_literal_token .PQ_LPAR_TOK [40] 0)) (pq_scanner_next_lexeme s) := by
  unfold pq_scanner_switch
  simp [hcp]

theorem begin_rpar (s : pq_scanner) (hcp : s.cp = 41) :
    pq_scanner_switch asciiW .BEGIN s
      = .ret (some (pq_new_str_literal_token .PQ_RPAR_TOK [41] 0)) (pq_scanner_next_lexeme s) := by
  unfold pq_scanner_switch
  simp [hcp]

theorem begin_eof (s : pq_scanner) (hcp : s.cp = 0) :
    pq_scanner_switch asciiW .BEGIN s = .ret none s := by
  unfold pq_scanner_switch
  simp [hcp]

theorem ScanPos.cp_of_drop {buf : Bytes} {b e : Nat} {s : pq_scanner} (hp : ScanPos buf b e s)
    {x : Nat} {tl : Bytes} (hd : buf.drop e = x :: tl) : s.cp = x := by
  rw [hp.cp, (drop_eq_cons_getD hd).1]

theorem scan_neck {buf : Bytes} {e : Nat} {s : pq_scanner} (hascii : IsAscii buf)
    (hp : ScanPos buf e e s) {c : Nat} {tl : Bytes}
    (hd : buf.drop e = 32 :: 58 :: 45 :: c :: tl) (hc : c = 32 ∨ c = 40) (m : Nat) :
    ∃ s', pq_scanner_next_token asciiW (m + 4) s = some ⟨some pq_neck_tok, none, s'⟩
      ∧ ScanPos buf (e + 3) (e + 3) s' := by
  obtain ⟨g0, l0, d1⟩ := drop_eq_cons_getD hd
  obtain ⟨g1, l1, d2⟩ := drop_eq_cons_getD d1
  obtain ⟨g2, l2, d3⟩ := drop_eq_cons_getD d2
  obtain ⟨g3, l3, _⟩ := drop_eq_cons_getD d3
  -- the layout character is skipped
  have hs1 : ScanPos buf (e + 1) (e + 1) (pq_scanner_forward (pq_scanner_skip s 1) 1) := by
    obtain ⟨h1, h2, h3, h4, h5, h6⟩ := hp
    rw [skip_one_ascii s (by rw [h1]; exact hascii) (by omega)]
    rw [forward_one_ascii _ (by simpa [h1] using hascii) (by simp; omega) (by simpa using h6)]
    exact ⟨h1, h2, by simp [h3], by simp [h4], by simp [h1, h4], rfl⟩
  have hs2 := ScanPos.forward hascii hs1 l1
  unfold pq_scanner_next_token
  rw [show m + 4 = (m + 3) + 1 by omega, loop_succ, begin_layout_space s (hp.cp_of_drop hd)]
  simp only []
  rw [show m + 3 = (m + 2) + 1 by omega,
    loop_next asciiW s (m + 2) .BEGIN .G_NAME _ (begin_graphic_colon _ (hs1.cp_of_drop d1))]
  obtain ⟨s', hs', hpos⟩ := scan_run asciiW s .G_NAME (pq_is_unicode_graphic_token_char asciiW)
    (fun lexeme => pq_new_str_token .PQ_NAME_TOK lexeme 0)
    (fun s hs => by simp [pq_scanner_switch, hs]) (by decide) (by decide)
    hascii hs2 (by omega) (by omega) 1
    (fun j hj => by
      obtain rfl : j = 0 := by omega
      rw [Nat.add_zero, g2]
      decide)
    (fun s1 hs1 => by
      have h4 : pq_is_unicode_graphic_token_char asciiW s1.cp = false := by
        rw [hs1, g3]
        rcases hc with rfl | rfl <;> decide
      simp [pq_scanner_switch, h4]) m
  refine ⟨s', ?_, hpos⟩
  rw [hs']
  have htake : (List.drop (e + 1) buf).take (e + 1 + 1 + 1 - (e + 1)) = [58, 45] := by
    rw [d1, show e + 1 + 1 + 1 - (e + 1) = 2 by omega]
    rfl
  rw [htake]
  rfl

theorem ScanPos.next_lexeme {buf : Bytes} {e : Nat} {s : pq_scanner} (hascii : IsAscii buf)
    (hp : ScanPos buf e e s) (he : e < buf.length) :
    ScanPos buf (e + 1) (e + 1) (pq_scanner_next_lexeme s) := by
  obtain ⟨h1, h2, h3, h4, h5, h6⟩ := hp
  rw [next_lexeme_ascii s (by rw [h1]; exact hascii) (by omega) h6]
  exact ⟨h1, h2, by simp [h4], by simp [h4], by simp [h1, h4], rfl⟩

theorem scan_lpar {buf : Bytes} {e : Nat} {s : pq_scanner} (hascii : IsAscii buf)
    (hp : ScanPos buf e e s) {t : Bytes} (hd : buf.drop e = 40 :: t) (m : Nat) :
    ∃ s', pq_scanner_next_token asciiW (m + 1) s = some ⟨some pq_lpar_tok, none, s'⟩
      ∧ ScanPos buf (e + 1) (e + 1) s' := by
  unfold pq_scanner_next_token
  rw [loop_succ, begin_lpar s (hp.cp_of_drop hd)]
  exact ⟨_, rfl, hp.next_lexeme hascii (drop_eq_cons_getD hd).2.1⟩

theorem scan_rpar {buf : Bytes} {e : Nat} {s : pq_scanner} (hascii : IsAscii buf)
    (hp : ScanPos buf e e s) {tl : Bytes} (hd : buf.drop e = 41 :: tl) (m : Nat) :
    ∃ s', pq_scanner_next_token asciiW (m + 1) s = some ⟨some pq_rpar_tok, none, s'⟩
      ∧ ScanPos buf (e + 1) (e + 1) s' := by
  unfold pq_scanner_next_token
  rw [loop_succ, begin_rpar s (hp.cp_of_drop hd)]
  exact ⟨_, rfl, hp.next_lexeme hascii (drop_eq_cons_getD hd).2.1⟩

theorem scan_a {buf : Bytes} {e : Nat} {s : pq_scanner} (hascii : IsAscii buf)
    (hp : ScanPos buf e e s) {tl : Bytes} (hd : buf.drop e = 97 :: 41 :: tl) (m : Nat) :
    ∃ s', pq_scanner_next_token asciiW (m + 2) s = some ⟨some pq_a_tok, none, s'⟩
      ∧ ScanPos buf (e + 1) (e + 1) s' := by
  obtain ⟨g0, l0, d1⟩ := drop_eq_cons_getD hd
  obtain ⟨g1, l1, _⟩ := drop_eq_cons_getD d1
  have hs1 := ScanPos.forward hascii hp l0
  unfold pq_scanner_next_token
  rw [show m + 2 = (m + 1) + 1 by omega,
    loop_next asciiW s (m + 1) .BEGIN .A_NAME _
      (begin_lower asciiW_isoAscii _ (by rw [hp.cp_of_drop hd]; omega))]
  obtain ⟨s', hs', hpos⟩ := scan_run asciiW s .A_NAME (pq_is_unicode_alnum_char asciiW)
    (fun lexeme => pq_new_str_token .PQ_NAME_TOK lexeme 0)
    (fun s hs => by simp [pq_scanner_switch, hs]) (by decide) (by decide)
    hascii hs1 (by omega) (by omega) 0
    (fun j hj => by omega)
    (fun s1 hs1 => by
      have h4 : pq_is_unicode_alnum_char asciiW s1.cp = false := by
        rw [hs1, Nat.add_zero, g1]
        decide
      simp [pq_scanner_switch, h4]) m
  refine ⟨s', ?_, hpos⟩
  rw [hs']
  have htake : (List.drop e buf).take (e + 1 + 0 - e) = [97] := by
    rw [hd, show e + 1 + 0 - e = 1 by omega]
    rfl
  rw [htake]
  rfl

theorem scan_end_eof {buf : Bytes} {e : Nat} {s : pq_scanner}
    (hp : ScanPos buf e e s) (hd : buf.drop e = [46]) (m : Nat) :
    ∃ s', pq_scanner_next_token asciiW (m + 2) s = some ⟨some pq_end_tok, none, s'⟩
      ∧ ∀ m1, pq_scanner_next_token asciiW (m1 + 1) s' = some ⟨none, none, s'⟩ := by
  obtain ⟨g0, l0, d1⟩ := drop_eq_cons_getD hd
  have hlen : buf.length = e + 1 := by
    have := congrArg List.length d1
    simp at this
    omega
  have hnext : pq_utf8_to_cp s.buffer (s.end_ + 1) = some (0, 1) := by
    rw [hp.buffer, hp.end_]
    have h0 : buf.getD (e + 1) 0 = 0 := List.getD_eq_default _ _ (by omega)
    have := decode_of_lt buf (e + 1) (by omega)
    rw [h0] at this
    exact this
  have hfwd := forward_one_valid s 1 0 1 (by rw [hp.end_, hp.buffer_sz]; omega)
    (by rw [hp.cp_bytes]; rfl) hnext
  obtain ⟨s', h1, h2, h3, h4, _⟩ := emit_literal_after_period s 0 1 pq_end_tok
    (by rw [hp.buffer, hp.end_]; exact g0) (by rw [hp.end_, hp.buffer_sz]; omega) hnext 0 1
    (if s.cp = 10 then s.ln + 1 else s.ln) (s.col + 1)
  refine ⟨s', ?_, fun m1 => ?_⟩
  · unfold pq_scanner_next_token
    rw [show m + 2 = (m + 1) + 1 by omega,
      loop_next asciiW s (m + 1) .BEGIN .POT_END _ (begin_period asciiW s (hp.cp_of_drop hd)),
      loop_succ]
    have hsw : pq_scanner_switch asciiW .POT_END (pq_scanner_forward s 1)
        = pq_scan_emit_literal (pq_scanner_forward s 1) 1 pq_end_tok := by
      have hcp : (pq_scanner_forward s 1).cp = 0 := by rw [hfwd]
      unfold pq_scanner_switch
      simp only [hcp]
      rfl
    rw [hsw, hfwd]
    simp only [Nat.cast_one] at h1 ⊢
    rw [h1]
  · unfold pq_scanner_next_token
    rw [loop_succ, begin_eof s' h4]

theorem pq_scanner_yields_cons_of {W : WCtype} {sf : Nat} {s s1 : pq_scanner} {tok : pq_tok}
    {toks : List pq_tok} (h : pq_scanner_next_token W sf s = some ⟨some tok, none, s1⟩)
    (h1 : pq_scanner_yields W sf s1 toks = true) :
    pq_scanner_yields W sf s (tok :: toks) = true := by
  unfold pq_scanner_yields
  simp only [h, h1, decide_True, Bool.and_self]

theorem pq_scanner_yields_nil_of {W : WCtype} {sf : Nat} {s s1 : pq_scanner}
    (h : pq_scanner_next_token W sf s = some ⟨none, none, s1⟩) :
    pq_scanner_yields W sf s [] = true := by
  unfold pq_scanner_yields
  simp only [h]

theorem IsAscii.neck_blocks {tl : Bytes} (h : IsAscii tl) :
    ∀ k, IsAscii (pq_neck_blocks k ++ tl)
  | 0 => h
  | k + 1 => by
    intro b hb
    simp only [pq_neck_blocks, List.cons_append, List.mem_cons] at hb
    rcases hb with rfl | rfl | rfl | hb
    · omega
    · omega
    · omega
    · exact IsAscii.neck_blocks h k b hb

theorem yields_neck_blocks {buf : Bytes} (hascii : IsAscii buf) (toks : List pq_tok)
    (tl : Bytes) :
    ∀ (k e : Nat) (s : pq_scanner), ScanPos buf e e s →
      buf.drop e = pq_neck_blocks k ++ (40 :: tl) →
      (∀ s1, ScanPos buf (e + 3 * k) (e + 3 * k) s1 →
        pq_scanner_yields asciiW 4 s1 toks = true) →
      pq_scanner_yields asciiW 4 s (List.replicate k pq_neck_tok ++ toks) = true
  | 0, e, s, hp, _, h => h s hp
  | k + 1, e, s, hp, hd, h => by
    have hd1 : ∃ c tl1, (c = 32 ∨ c = 40) ∧ pq_neck_blocks k ++ (40 :: tl) = c :: tl1 := by
      cases k with
      | zero => exact ⟨40, tl, Or.inr rfl, rfl⟩
      | succ k1 => exact ⟨32, _, Or.inl rfl, rfl⟩
    obtain ⟨c, tl1, hc, e1⟩ := hd1
    have hd2 : buf.drop e = 32 :: 58 :: 45 :: c :: tl1 := by
      rw [hd, ← e1]
      rfl
    obtain ⟨s1, hs1, hp1⟩ := scan_neck hascii hp hd2 hc 0
    obtain ⟨_, _, d1⟩ := drop_eq_cons_getD hd2
    obtain ⟨_, _, d2⟩ := drop_eq_cons_getD d1
    obtain ⟨_, _, d3⟩ := drop_eq_cons_getD d2
    rw [List.replicate_succ, List.cons_append]
    refine pq_scanner_yields_cons_of hs1 ?_
    refine yields_neck_blocks hascii toks tl k (e + 3) s1 hp1 (by rw [d3, e1]) ?_
    intro s2 hp2
    exact h s2 (by rw [show e + 3 * (k + 1) = e + 3 + 3 * k by omega]; exact hp2)

theorem yields_tail {buf : Bytes} (hascii : IsAscii buf) {e : Nat} {s : pq_scanner}
    (hp : ScanPos buf e e s) (hd : buf.drop e = [40, 97, 41, 46]) :
    pq_scanner_yields asciiW 4 s [pq_lpar_tok, pq_a_tok, pq_rpar_tok, pq_end_tok] = true := by
  obtain ⟨s1, hs1, hp1⟩ := scan_lpar hascii hp hd 3
  obtain ⟨_, _, d1⟩ := drop_eq_cons_getD hd
  obtain ⟨s2, hs2, hp2⟩ := scan_a hascii hp1 d1 2
  obtain ⟨_, _, d2⟩ := drop_eq_cons_getD d1
  obtain ⟨s3, hs3, hp3⟩ := scan_rpar hascii hp2 d2 3
  obtain ⟨_, _, d3⟩ := drop_eq_cons_getD d2
  obtain ⟨s4, hs4, heof⟩ := scan_end_eof hp3 d3 2
  exact pq_scanner_yields_cons_of hs1 (pq_scanner_yields_cons_of hs2
    (pq_scanner_yields_cons_of hs3 (pq_scanner_yields_cons_of hs4
      (pq_scanner_yields_nil_of (heof 3)))))

theorem yields_tail_paren {buf : Bytes} (hascii : IsAscii buf) {e : Nat} {s : pq_scanner}
    (hp : ScanPos buf e e s) (hd : buf.drop e = [40, 97, 41, 41, 46]) :
    pq_scanner_yields asciiW 4 s
      [pq_lpar_tok, pq_a_tok, pq_rpar_tok, pq_rpar_tok, pq_end_tok] = true := by
  obtain ⟨s1, hs1, hp1⟩ := scan_lpar hascii hp hd 3
  obtain ⟨_, _, d1⟩ := drop_eq_cons_getD hd
  obtain ⟨s2, hs2, hp2⟩ := scan_a hascii hp1 d1 2
  obtain ⟨_, _, d2⟩ := drop_eq_cons_getD d1
  obtain ⟨s3, hs3, hp3⟩ := scan_rpar hascii hp2 d2 3
  obtain ⟨_, _, d3⟩ := drop_eq_cons_getD d2
  obtain ⟨s4, hs4, hp4⟩ := scan_rpar hascii hp3 d3 3
  obtain ⟨_, _, d4⟩ := drop_eq_cons_getD d3
  obtain ⟨s5, hs5, heof⟩ := scan_end_eof hp4 d4 2
  exact pq_scanner_yields_cons_of hs1 (pq_scanner_yields_cons_of hs2
    (pq_scanner_yields_cons_of hs3 (pq_scanner_yields_cons_of hs4
      (pq_scanner_yields_cons_of hs5 (pq_scanner_yields_nil_of (heof 3))))))

theorem drop_neck_blocks (tl : Bytes) : ∀ k, (pq_neck_blocks k ++ tl).drop (3 * k) = tl
  | 0 => rfl
  | k + 1 => by
    rw [show 3 * (k + 1) = 3 * k + 3 by omega]
    simp only [pq_neck_blocks, List.cons_append, List.drop_succ_cons]
    exact drop_neck_blocks tl k

theorem neck_buffer_yields (k : Nat) :
    pq_buffer_yields asciiW 4 (pq_neck_buffer k) (pq_neck_tokens k ++ [pq_end_tok]) = true := by
  have hascii : IsAscii (pq_neck_buffer k) :=
    IsAscii.neck_blocks (by decide) k
  unfold pq_buffer_yields pq_neck_tokens
  rw [List.append_assoc]
  refine yields_neck_blocks hascii _ [97, 41, 46] k 0 _ (ScanPos.set_buffer _ hascii) rfl ?_
  intro s1 hp1
  refine yields_tail hascii hp1 ?_
  rw [Nat.zero_add]
  exact drop_neck_blocks _ k

theorem neck_buffer_paren_yields (k : Nat) :
    pq_buffer_yields asciiW 4 (pq_neck_buffer_paren k)
      (pq_lpar_tok :: pq_neck_tokens k ++ [pq_rpar_tok, pq_end_tok]) = true := by
  have hascii : IsAscii (pq_neck_buffer_paren k) := by
    have h1 : IsAscii (pq_neck_blocks k ++ [40, 97, 41, 41, 46]) :=
      IsAscii.neck_blocks (by decide) k
    intro b hb
    rcases List.mem_cons.mp hb with rfl | hb
    · omega
    · exact h1 b hb
  unfold pq_buffer_yields pq_neck_tokens
  obtain ⟨s1, hs1, hp1⟩ := scan_lpar hascii (ScanPos.set_buffer pq_new_scanner hascii)
    (t := pq_neck_blocks k ++ [40, 97, 41, 41, 46]) rfl 3
  rw [List.cons_append, List.append_assoc]
  refine pq_scanner_yields_cons_of hs1 ?_
  refine yields_neck_blocks hascii _ [97, 41, 41, 46] k (0 + 1) _ hp1 rfl ?_
  intro s2 hp2
  refine yields_tail_paren hascii hp2 ?_
  rw [Nat.zero_add, Nat.add_comm 1, pq_neck_buffer_paren, List.drop_succ_cons]
  exact drop_neck_blocks _ k

theorem add_right_sibling_frame {h h2 : pq_heap} {node sibling : Option Ptr}
    (hadd : pq_syntax_tree_add_right_sibling_node h node sibling = some h2) :
    h2.terms = h.terms ∧ h2.lists = h.lists ∧ h2.list_nodes = h.list_nodes
      ∧ h2.nodes.length = h.nodes.length := by
  unfold pq_syntax_tree_add_right_sibling_node at hadd
  repeat' first
    | (cases hadd; done)
    | (simp only [Option.some.injEq] at hadd
       subst hadd
       simp only [List.length_set, and_self]
       done)
    | split at hadd
    | dsimp only at hadd

theorem add_right_sibling_new (h : pq_heap) (item : Option Ptr) {i : Ptr}
    (hnd : i < h.nodes.length) :
    ∃ h3, pq_syntax_tree_add_right_sibling_node (pq_new_syntax_tree_node h item).1
      (some h.nodes.length) (some i) = some h3 := by
  have e1 : (h.nodes ++ [(⟨item, none, none, none⟩ : pq_syntax_tree_node)]).get? i
      = some (h.nodes.get ⟨i, hnd⟩) := by
    rw [List.get?_eq_getElem?, List.getElem?_append_left hnd, List.getElem?_eq_getElem hnd]
    rfl
  have e2 : (h.nodes ++ [(⟨item, none, none, none⟩ : pq_syntax_tree_node)]).get? h.nodes.length
      = some ⟨item, none, none, none⟩ := getElem?_append_length _ _
  unfold pq_syntax_tree_add_right_sibling_node pq_new_syntax_tree_node
  simp only [e1, e2]
  have e3 : ((h.nodes ++ [(⟨item, none, none, none⟩ : pq_syntax_tree_node)]).set i
      { item := (h.nodes.get ⟨i, hnd⟩).item, next := none, prev := some h.nodes.length,
        children_nil := (h.nodes.get ⟨i, hnd⟩).children_nil }).get? h.nodes.length
      = some ⟨item, none, none, none⟩ := by
    rw [List.get?_eq_getElem?, List.getElem?_set_ne (Nat.ne_of_lt hnd), ← List.get?_eq_getElem?]
    exact getElem?_append_length _ _
  simp only [e3]
  exact ⟨_, rfl⟩

theorem link_prefix_neck (st : pq_state) {j : Ptr} (hnd : j < st.heap.nodes.length) :
    ∃ h3, pq_parse_link_prefix_operand st (some j) [58, 45] .PQ_OP_FX
        = .ok (some st.heap.nodes.length) { st with heap := h3 }
      ∧ h3.terms = st.heap.terms ++ [pq_neck_term] ∧ h3.lists = st.heap.lists
      ∧ h3.nodes.length = st.heap.nodes.length + 1 := by
  have e1 : st.heap.node_item (some j) = some (st.heap.nodes.get ⟨j, hnd⟩).item := by
    unfold pq_heap.node_item
    simp only [List.get?_eq_getElem?, List.getElem?_eq_getElem hnd, Option.map_some']
    rfl
  have e2 : ¬ (([58, 45] : Bytes) = cstr "-") := by decide
  obtain ⟨h3, e3⟩ := add_right_sibling_new (st.heap.new_term pq_neck_term).1
    (some st.heap.terms.length) (i := j) hnd
  obtain ⟨f1, f2, _, f4⟩ := add_right_sibling_frame e3
  refine ⟨h3, ?_, f1, f2, ?_⟩
  · unfold pq_parse_link_prefix_operand
    simp only [e1, e2, if_false, pq_state.alloc, pq_new_operator_term, pq_state.with_heap]
    have e4 : pq_syntax_tree_add_right_sibling_node
        (pq_new_syntax_tree_node (st.heap.new_term pq_neck_term).1
          (some (st.heap.new_term pq_neck_term).2)).1
        (some (pq_new_syntax_tree_node (st.heap.new_term pq_neck_term).1
          (some (st.heap.new_term pq_neck_term).2)).2) (some j) = some h3 := e3
    rw [show (⟨pq_term_data.op_data [58, 45] pq_op_specifier.PQ_OP_FX, 1201,
      PQ_TERM_ATOM_TYPE ||| PQ_TERM_OPERATOR_TYPE⟩ : pq_term) = pq_neck_term from rfl]
    simp only [e4]
    rfl
  · rw [f4]
    simp [pq_new_syntax_tree_node, pq_heap.new_term]

theorem neck_is_prefix_operator : pq_neck_tok.is_prefix_operator_name = some true := by
  decide

theorem neck_str : pq_neck_tok.str = some [58, 45] := rfl

theorem neck_is_fx : pq_syntax_name_is_spec_operator [58, 45] .PQ_OP_FX = true := by decide

theorem neck_step {W : WCtype} {sf F p : Nat} {sc sc1 : pq_scanner} {h : pq_heap}
    {tok2 : pq_tok} (htag2 : tok2.tag = .PQ_NAME_TOK) (hp0 : 0 < p) (hp1 : p ≤ 1201)
    (e : pq_scanner_next_token W sf sc = some ⟨some tok2, none, sc1⟩)
    {nd : Ptr} {st2 : pq_state}
    (hin : pq_parse_prolog_term W sf F (p - 1) ⟨⟨sc1, some tok2, none⟩, h⟩
      = .ok (some nd) st2)
    (herr : st2.has_err = false) (hnd : nd < st2.heap.nodes.length) :
    ∃ h3, pq_parse_prolog_term W sf (F + 2) p ⟨⟨sc, some pq_neck_tok, none⟩, h⟩
        = .ok (some st2.heap.nodes.length) { st2 with heap := h3 }
      ∧ h3.terms = st2.heap.terms ++ [pq_neck_term] ∧ h3.lists = st2.heap.lists
      ∧ h3.nodes.length = st2.heap.nodes.length + 1 := by
  obtain ⟨h3, e3, f1, f2, f3⟩ := link_prefix_neck st2 hnd
  refine ⟨h3, ?_, f1, f2, f3⟩
  rw [pq_parse_prolog_term]
  have hgt : p > 0 := hp0
  simp only [neck_is_prefix_operator, hgt, if_true]
  rw [pq_parse_prolog_prefix_op_or_functor_or_atom]
  simp only [neck_is_prefix_operator, neck_str, neck_is_fx, if_true,
    pq_parser_next_token_eq _ _ _ e, pq_res.bind, has_err_mk, htag2,
    pq_priority_dec_eq hp0 hp1, hin, herr, e3, Bool.false_eq_true, if_false]

theorem neck_chain {W : WCtype} {sf : Nat} (Q : pq_state → Prop)
    (hQ : ∀ (st : pq_state) (h3 : pq_heap), Q st → h3.lists = st.heap.lists →
      (∃ t, h3.terms = st.heap.terms ++ [t]) → Q { st with heap := h3 })
    (toks : List pq_tok) (F : Nat) (h : pq_heap) :
    ∀ (k p : Nat) (sc : pq_scanner), k ≤ p → p ≤ 1201 →
      pq_scanner_yields W sf sc (List.replicate k pq_neck_tok ++ toks) = true →
      (∀ s, pq_scanner_yields W sf s toks = true →
        ∃ nd st, pq_parse_prolog_term W sf F (p - k) ⟨⟨s, some pq_neck_tok, none⟩, h⟩
            = .ok (some nd) st
          ∧ st.has_err = false ∧ nd < st.heap.nodes.length ∧ Q st) →
      ∃ nd st, pq_parse_prolog_term W sf (F + 2 * k) p ⟨⟨sc, some pq_neck_tok, none⟩, h⟩
          = .ok (some nd) st
        ∧ st.has_err = false ∧ nd < st.heap.nodes.length ∧ Q st
  | 0, p, sc, _, _, hy, hin => hin sc hy
  | k + 1, p, sc, hk, hp, hy, hin => by
    rw [List.replicate_succ, List.cons_append] at hy
    obtain ⟨sc1, e, y1⟩ := pq_scanner_yields_cons hy
    obtain ⟨nd, st, hterm, herr, hnd, hq⟩ := neck_chain Q hQ toks F h k (p - 1) sc1
      (by omega) (by omega) y1 (by
        rw [Nat.sub_sub, Nat.add_comm 1 k]
        exact hin)
    obtain ⟨h3, e3, f1, f2, f3⟩ := neck_step (p := p) rfl (by omega) hp e hterm herr hnd
    refine ⟨st.heap.nodes.length, { st with heap := h3 }, ?_, herr, by rw [f3]; exact Nat.lt_succ_self _,
      hQ st h3 hq f2 ⟨_, f1⟩⟩
    rw [show F + 2 * (k + 1) = F + 2 * k + 2 by omega]
    exact e3

theorem pq_res.bind_ok {α β : Type} (a : α) (st : pq_state) (f : α → pq_state → pq_res β) :
    (pq_res.ok a st).bind f = f a st := rfl

theorem neck_functor_bottom {W : WCtype} {sf : Nat} (m : Nat) {s : pq_scanner}
    (hy : pq_scanner_yields W sf s [pq_lpar_tok, pq_a_tok, pq_rpar_tok, pq_end_tok] = true) :
    ∃ st, pq_parse_prolog_term W sf (m + 3) 0 ⟨⟨s, some pq_neck_tok, none⟩, pq_heap.empty⟩
        = .ok (some 0) st
      ∧ st.has_err = false ∧ 0 < st.heap.nodes.length
      ∧ st.parser.curr_tok = some pq_end_tok
      ∧ pq_scanner_yields W sf st.parser.scanner [] = true
      ∧ st.heap.lists.length = 1
      ∧ st.heap.terms.get? 1 = some ⟨.fun_data [58, 45] (some 0), 0,
          PQ_TERM_ATOM_TYPE ||| PQ_TERM_FUNCTOR_TYPE⟩ := by
  obtain ⟨s1, e1, y1⟩ := pq_scanner_yields_cons hy
  obtain ⟨s2, e2, y2⟩ := pq_scanner_yields_cons y1
  obtain ⟨s3, e3, y3⟩ := pq_scanner_yields_cons y2
  obtain ⟨s4, e4, y4⟩ := pq_scanner_yields_cons y3
  have t1 : pq_neck_tok.tag = .PQ_NAME_TOK := rfl
  have t2 : pq_lpar_tok.tag = .PQ_LPAR_TOK := rfl
  have t3 : pq_a_tok.tag = .PQ_NAME_TOK := rfl
  have t4 : pq_rpar_tok.tag = .PQ_RPAR_TOK := rfl
  have t5 : pq_a_tok.str = some [97] := rfl
  have hpb : pq_list_push_back (pq_new_list (pq_new_atom_term pq_heap.empty [97] 1201).1).1
      (pq_new_list (pq_new_atom_term pq_heap.empty [97] 1201).1).2
      (some (pq_new_atom_term pq_heap.empty [97] 1201).2)
      = some ⟨[⟨.atom_id [97], 1201, 8⟩], [], [⟨0, 1⟩],
          [⟨none, some 1, some 0⟩, ⟨some 0, some 0, some 0⟩]⟩ := by decide
  rw [pq_parse_prolog_term]
  simp only [gt_iff_lt, Nat.lt_irrefl, if_false, t1, neck_str,
    pq_parser_next_token_eq _ _ _ e1, pq_res.bind_ok, curr_tag_is_mk, t2, decide_True, if_true,
    pq_parser_next_token_eq _ _ _ e2]
  rw [pq_parse_prolog_arg_list, pq_parse_prolog_arg]
  simp only [t3, t5, Option.isSome_some, and_self, if_true, pq_parser_next_token_eq _ _ _ e3,
    pq_res.bind_ok, pq_state.alloc, has_err_mk, Bool.false_eq_true, if_false, hpb,
    pq_state.with_heap]
  rw [pq_parse_prolog_arg_list_loop]
  simp only [curr_tag_is_mk, t4, reduceCtorEq, decide_False, decide_True, Bool.false_eq_true,
    if_false, pq_res.bind_ok, has_err_mk, Bool.not_true, pq_parser_next_token_eq _ _ _ e4]
  exact ⟨_, rfl, rfl, Nat.zero_lt_one, rfl, y4, rfl, rfl⟩

theorem term_pos_at_rpar {W : WCtype} {sf f p : Nat} {tok : pq_tok}
    (hnp : tok.is_prefix_operator_name = some false) (hp : p > 0)
    {sc0 sc : pq_scanner} {h0 h g : pq_heap} {nd : Ptr}
    (hzero : pq_parse_prolog_term W sf f 0 ⟨⟨sc0, some tok, none⟩, h0⟩
      = .ok (some nd) ⟨⟨sc, some pq_rpar_tok, none⟩, h⟩)
    (hset : h.set_item_priority (some nd) 1201 = some g) :
    pq_parse_prolog_term W sf (f + 1) p ⟨⟨sc0, some tok, none⟩, h0⟩
      = .ok (some nd) ⟨⟨sc, some pq_rpar_tok, none⟩, g⟩ := by
  have t4 : pq_rpar_tok.tag = .PQ_RPAR_TOK := rfl
  have t5 : pq_rpar_tok.str = some [41] := rfl
  have x1 : pq_syntax_name_is_spec_operator [41] .PQ_OP_XFX = false := by decide
  have x2 : pq_syntax_name_is_spec_operator [41] .PQ_OP_XFY = false := by decide
  have x3 : pq_syntax_name_is_spec_operator [41] .PQ_OP_YFX = false := by decide
  have x4 : pq_syntax_name_is_spec_operator [41] .PQ_OP_XF = false := rfl
  have x5 : pq_syntax_name_is_spec_operator [41] .PQ_OP_YF = false := rfl
  rw [pq_parse_prolog_term]
  simp only [hp, if_true, hnp, hzero, pq_res.bind_ok, has_err_mk, Bool.false_eq_true, if_false,
    t4, t5, reduceCtorEq, x1, x2, x3, x4, x5, pq_state.with_heap, hset]

theorem term_zero_a {W : WCtype} {sf m : Nat} {s2 s3 : pq_scanner}
    (e3 : pq_scanner_next_token W sf s2 = some ⟨some pq_rpar_tok, none, s3⟩) :
    pq_parse_prolog_term W sf (m + 1) 0 ⟨⟨s2, some pq_a_tok, none⟩, pq_heap.empty⟩
      = .ok (some 0) ⟨⟨s3, some pq_rpar_tok, none⟩,
          ⟨[⟨.atom_id [97], 0, 8⟩], [⟨some 0, none, none, none⟩], [], []⟩⟩ := by
  have t3 : pq_a_tok.tag = .PQ_NAME_TOK := rfl
  have t4 : pq_rpar_tok.tag = .PQ_RPAR_TOK := rfl
  have t5 : pq_a_tok.str = some [97] := rfl
  have x0 : pq_syntax_name_is_operator [97] = false := by decide
  rw [pq_parse_prolog_term]
  simp only [gt_iff_lt, Nat.lt_irrefl, if_false, t3, t5, pq_parser_next_token_eq _ _ _ e3,
    pq_res.bind_ok, curr_tag_is_mk, t4, reduceCtorEq, decide_False, Bool.false_eq_true, x0,
    pq_state.alloc]
  rfl

theorem neck_operator_bottom {W : WCtype} {sf : Nat} (m : Nat) {s : pq_scanner}
    (hy : pq_scanner_yields W sf s
      [pq_lpar_tok, pq_a_tok, pq_rpar_tok, pq_rpar_tok, pq_end_tok] = true) :
    ∃ nd st, pq_parse_prolog_term W sf (m + 7) 1 ⟨⟨s, some pq_neck_tok, none⟩, pq_heap.empty⟩
        = .ok (some nd) st
      ∧ st.has_err = false ∧ nd < st.heap.nodes.length
      ∧ st.parser.curr_tok = some pq_rpar_tok
      ∧ pq_scanner_yields W sf st.parser.scanner [pq_end_tok] = true
      ∧ st.heap.lists.length = 0
      ∧ st.heap.terms.get? 1 = some pq_neck_term := by
  obtain ⟨s1, e1, y1⟩ := pq_scanner_yields_cons hy
  obtain ⟨s2, e2, y2⟩ := pq_scanner_yields_cons y1
  obtain ⟨s3, e3, y3⟩ := pq_scanner_yields_cons y2
  obtain ⟨s4, e4, y4⟩ := pq_scanner_yields_cons y3
  have t2 : pq_lpar_tok.tag = .PQ_LPAR_TOK := rfl
  have t4 : pq_rpar_tok.tag = .PQ_RPAR_TOK := rfl
  have n2 : pq_lpar_tok.is_prefix_operator_name = some false := by decide
  have n3 : pq_a_tok.is_prefix_operator_name = some false := by decide
  -- the atom `a`, closed by the inner parenthesis
  have ha := term_pos_at_rpar (p := 1201) n3 (by omega) (term_zero_a (m := m) e3)
    (g := ⟨[⟨.atom_id [97], 1201, 8⟩], [⟨some 0, none, none, none⟩], [], []⟩) (by decide)
  -- the parenthesised operand
  have hz := paren_zero_eval (f := m + 2) t2 t4 e2 ha e4
    (g := ⟨[⟨.atom_id [97], 0, 8⟩], [⟨some 0, none, none, none⟩], [], []⟩) (by decide)
  have hpz := term_pos_at_rpar (p := 1201) n2 (by omega) hz
    (g := ⟨[⟨.atom_id [97], 1201, 8⟩], [⟨some 0, none, none, none⟩], [], []⟩) (by decide)
  have hset : (⟨[⟨.atom_id [97], 1201, 8⟩], [⟨some 0, none, none, none⟩], [], []⟩ : pq_heap
      ).set_item_priority (some 0) 0
      = some ⟨[⟨.atom_id [97], 0, 8⟩], [⟨some 0, none, none, none⟩], [], []⟩ := by decide
  obtain ⟨h3, e5, f1, f2, f3⟩ := link_prefix_neck
    ⟨⟨s4, some pq_rpar_tok, none⟩,
      ⟨[⟨.atom_id [97], 0, 8⟩], [⟨some 0, none, none, none⟩], [], []⟩⟩ (j := 0)
    Nat.zero_lt_one
  refine ⟨1, ⟨⟨s4, some pq_rpar_tok, none⟩, h3⟩, ?_, rfl, by rw [f3]; exact Nat.lt_succ_self _,
    rfl, y4, by rw [f2]; rfl, by rw [f1]; rfl⟩
  rw [pq_parse_prolog_term]
  simp only [gt_iff_lt, Nat.zero_lt_one, if_true, neck_is_prefix_operator]
  rw [pq_parse_prolog_prefix_op_or_functor_or_atom]
  simp only [neck_is_prefix_operator, neck_str, neck_is_fx, if_true,
    pq_parser_next_token_eq _ _ _ e1, pq_res.bind_ok, has_err_mk, Bool.false_eq_true, if_false,
    t2, pq_priority_dec_eq Nat.zero_lt_one (by omega : 1 ≤ 1201)]
  rw [pq_parse_prolog_operand_or_arg_list]
  simp only [hpz, pq_res.bind_ok, has_err_mk, Bool.false_eq_true, if_false, curr_tag_is_mk, t4,
    reduceCtorEq, decide_False, pq_state.with_heap, hset]
  exact e5

theorem pq_heap.term_data_erase (h : pq_heap) (i : Ptr) :
    h.erase_priorities.term_data i = h.term_data i := by
  unfold pq_heap.term_data pq_heap.erase_priorities
  simp only [List.get?_eq_getElem?, List.getElem?_map, Option.map_map]
  rfl

theorem pq_heap.term_data_append {h h3 : pq_heap} {i : Ptr} {d : pq_term_data} {t : pq_term}
    (hd : h.term_data i = some d) (ht : h3.terms = h.terms ++ [t]) :
    h3.term_data i = some d := by
  unfold pq_heap.term_data at hd ⊢
  cases hg : h.terms.get? i with
  | none => rw [hg] at hd; cases hd
  | some t1 =>
    rw [hg] at hd
    rw [ht, get?_append_of_some t hg]
    exact hd

theorem text_one_term_eval {W : WCtype} {sf f : Nat} {sc sc1 s1 : pq_scanner} {c dot : pq_tok}
    (hdot : dot.tag = .PQ_END_TOK) {h h1 : pq_heap} {tn : Option Ptr}
    (hterm : pq_parse_prolog_term W sf (f + 1) 1200 ⟨⟨sc, some c, none⟩, h⟩
      = .ok tn ⟨⟨sc1, some dot, none⟩, h1⟩)
    (e : pq_scanner_next_token W sf sc1 = some ⟨none, none, s1⟩) :
    pq_parse_prolog_text W sf (f + 2) ⟨⟨sc, some c, none⟩, h⟩
      = .ok tn ⟨⟨s1, none, none⟩, h1⟩ := by
  rw [pq_parse_prolog_text]
  simp only [hterm, pq_res.bind_ok, has_err_mk, Bool.false_eq_true, if_false, curr_tag_is_mk,
    hdot, decide_True, if_true, pq_parser_next_token_eq _ _ _ e, text_at_eof,
    pq_state.with_heap, pq_syntax_tree_add_right_sibling_node]

theorem pq_state.eq_mk_of {st : pq_state} {tok : pq_tok} (h1 : st.has_err = false)
    (h2 : st.parser.curr_tok = some tok) :
    st = ⟨⟨st.parser.scanner, some tok, none⟩, st.heap⟩ := by
  obtain ⟨⟨sc, cur, err⟩, h⟩ := st
  simp only at h2
  subst h2
  cases err with
  | none => rfl
  | some e => cases h1

theorem neck_buffer_parse (m : Nat) :
    ∃ nd st, pq_parse_buffer asciiW 4 (m + 2404) (pq_neck_buffer 1201) = .ok (some nd) st
      ∧ st.parser.err = none ∧ st.heap.lists.length = 1
      ∧ st.heap.term_data 1 = some (.fun_data [58, 45] (some 0)) := by
  have hy := neck_buffer_yields 1201
  unfold pq_buffer_yields pq_neck_tokens at hy
  rw [show (1201 : Nat) = 1200 + 1 from rfl, List.replicate_succ, List.cons_append,
    List.cons_append, List.append_assoc] at hy
  obtain ⟨sc1, e0, y0⟩ := pq_scanner_yields_cons hy
  obtain ⟨nd, st, hterm, herr, hnd, hq1, hq2, hq3, hq4⟩ := neck_chain
    (fun st => st.parser.curr_tok = some pq_end_tok
      ∧ pq_scanner_yields asciiW 4 st.parser.scanner [] = true
      ∧ st.heap.lists.length = 1
      ∧ st.heap.term_data 1 = some (.fun_data [58, 45] (some 0)))
    (fun st h3 hq hl ht => ⟨hq.1, hq.2.1, by rw [← hq.2.2.1]; exact congrArg List.length hl,
      by obtain ⟨t, ht⟩ := ht; exact pq_heap.term_data_append hq.2.2.2 ht⟩)
    [pq_lpar_tok, pq_a_tok, pq_rpar_tok, pq_end_tok] (m + 3) pq_heap.empty 1200 1200 sc1
    (Nat.le_refl _) (by omega) y0
    (fun s hs => by
      obtain ⟨st, h1, h2, h3, h4, h5, h6, h7⟩ := neck_functor_bottom m hs
      exact ⟨0, st, by rw [Nat.sub_self]; exact h1, h2, h3, h4, h5, h6, by
        unfold pq_heap.term_data
        rw [h7]
        rfl⟩)
  obtain ⟨s1, e1⟩ := pq_scanner_yields_nil hq2
  rw [pq_state.eq_mk_of herr hq1] at hterm
  refine ⟨nd, ⟨⟨s1, none, none⟩, st.heap⟩, ?_, rfl, hq3, hq4⟩
  unfold pq_parse_buffer pq_state.init pq_parser_set_buffer pq_new_parser_rec
  rw [pq_parser_next_token_eq _ _ _ e0, pq_res.bind_ok]
  rw [show m + 3 + 2 * 1200 = m + 2402 + 1 by omega] at hterm
  exact text_one_term_eval (f := m + 2402) (rfl : pq_end_tok.tag = .PQ_END_TOK) hterm e1

theorem pq_heap.term_data_set_item_priority {h h3 : pq_heap} {node : Option Ptr} {p : Nat}
    (hset : h.set_item_priority node p = some h3) (i : Ptr) :
    h3.term_data i = h.term_data i := by
  rw [← pq_heap.term_data_erase h3, ← pq_heap.term_data_erase h,
    pq_heap.erase_set_item_priority_self hset]

theorem neck_buffer_paren_parse (m : Nat) :
    ∃ nd st, pq_parse_buffer asciiW 4 (m + 2410) (pq_neck_buffer_paren 1201)
        = .ok (some nd) st
      ∧ st.parser.err = none ∧ st.heap.lists.length = 0
      ∧ st.heap.term_data 1 = some (.op_data [58, 45] .PQ_OP_FX) := by
  have hy := neck_buffer_paren_yields 1201
  unfold pq_buffer_yields pq_neck_tokens at hy
  rw [show (1201 : Nat) = 1200 + 1 from rfl, List.replicate_succ, List.cons_append,
    List.cons_append, List.cons_append, List.append_assoc] at hy
  obtain ⟨sc1, e0, y0⟩ := pq_scanner_yields_cons hy
  obtain ⟨sc2, e1, y1⟩ := pq_scanner_yields_cons y0
  obtain ⟨nd, st, hterm, herr, hnd, hq1, hq2, hq3, hq4⟩ := neck_chain
    (fun st => st.parser.curr_tok = some pq_rpar_tok
      ∧ pq_scanner_yields asciiW 4 st.parser.scanner [pq_end_tok] = true
      ∧ st.heap.lists.length = 0
      ∧ st.heap.term_data 1 = some (.op_data [58, 45] .PQ_OP_FX))
    (fun st h3 hq hl ht => ⟨hq.1, hq.2.1, by rw [← hq.2.2.1]; exact congrArg List.length hl,
      by obtain ⟨t, ht⟩ := ht; exact pq_heap.term_data_append hq.2.2.2 ht⟩)
    [pq_lpar_tok, pq_a_tok, pq_rpar_tok, pq_rpar_tok, pq_end_tok] (m + 7) pq_heap.empty
    1200 1201 sc2 (by omega) (Nat.le_refl _) y1
    (fun s hs => by
      obtain ⟨nd, st, h1, h2, h3, h4, h5, h6, h7⟩ :=
        neck_operator_bottom m hs
      exact ⟨nd, st, h1, h2, h3, h4, h5, h6, by
        unfold pq_heap.term_data
        rw [h7]
        rfl⟩)
  obtain ⟨s3, e3, y3⟩ := pq_scanner_yields_cons hq2
  obtain ⟨s4, e4⟩ := pq_scanner_yields_nil y3
  have hp := (parse_priorities_ok asciiW 4 (m + 7 + 2 * 1200)).1 1201
    ⟨⟨sc2, some pq_neck_tok, none⟩, pq_heap.empty⟩ [] (Nat.le_refl _) empty_ok_with
  rw [hterm] at hp
  have hok : st.heap.ok_with [some nd] := hp
  obtain ⟨n, ti, t, e5, e6, e7, _⟩ := hok.2 (some nd) (List.mem_cons_self _ _) nd rfl
  obtain ⟨h3, hset⟩ : ∃ h3, st.heap.set_item_priority (some nd) 0 = some h3 :=
    ⟨_, pq_heap.set_item_priority_of 0 e5 e6 e7⟩
  rw [pq_state.eq_mk_of herr hq1] at hterm
  refine ⟨nd, ⟨⟨s4, none, none⟩, h3⟩, ?_, rfl, ?_, ?_⟩
  · unfold pq_parse_buffer pq_state.init pq_parser_set_buffer pq_new_parser_rec
    rw [pq_parser_next_token_eq _ _ _ e0, pq_res.bind_ok]
    rw [show m + 7 + 2 * 1200 = m + 2407 by omega] at hterm
    exact paren_text_eval (f := m + 2407) (rfl : pq_lpar_tok.tag = .PQ_LPAR_TOK)
      (rfl : pq_rpar_tok.tag = .PQ_RPAR_TOK) (rfl : pq_end_tok.tag = .PQ_END_TOK)
      e1 hterm e3 e4 hset
  · have hl := ((pq_heap.erase_eq_iff _ _).mp (pq_heap.erase_set_item_priority_self hset)).2.2.1
    show h3.lists.length = 0
    rw [← hl]
    exact hq3
  · show h3.term_data 1 = _
    rw [pq_heap.term_data_set_item_priority hset]
    exact hq4

theorem leading_fx_neck (k : Nat) (toks : List pq_tok) :
    pq_leading_fx (List.replicate k pq_neck_tok ++ toks) = k + pq_leading_fx toks := by
  induction k with
  | zero => simp
  | succ k ih =>
    rw [List.replicate_succ, List.cons_append, pq_leading_fx]
    have h1 : pq_neck_tok.is_prefix_operator_name = some true := by decide
    have h2 : pq_neck_tok.str = some [58, 45] := by decide
    have h3 : pq_syntax_name_is_spec_operator [58, 45] .PQ_OP_FX = true := by decide
    simp only [h1, h2, h3, if_true, ih]
    omega

/-- C10 (amended): let `T` be a token sequence without an END token whose leading run of
prefix operator names holds fewer than 1200 `fx` operators, let `buffer` scan to `T` followed
by the END token and `buffer_paren` to `(`, `T`, `)` and the END token. When the parse of
`buffer` returns without an error, it returns a node, and the parse of `buffer_paren` (with
two more units of recursion depth, for the parenthesis) returns the same node without an
error, leaves a heap that is equal to the heap of the first parse once the priority field of
every term is cleared, and the priority of the term of the returned node is 0. -/
theorem C10_parenthesized_term_same_structure (W : WCtype) (sf fuel : Nat)
    (buffer buffer_paren : Bytes) (T : List pq_tok) (v : Option Ptr) (st1 : pq_state)
    (hT : ∀ t ∈ T, t.tag ≠ .PQ_END_TOK)
    (hfx : pq_leading_fx T < 1200)
    (hy1 : pq_buffer_yields W sf buffer (T ++ [pq_end_tok]) = true)
    (hy2 : pq_buffer_yields W sf buffer_paren
      (pq_lpar_tok :: T ++ [pq_rpar_tok, pq_end_tok]) = true)
    (hrun : pq_parse_buffer W sf fuel buffer = .ok v st1)
    (herr : st1.parser.err = none) :
    ∃ node st2 t, v = some node
      ∧ pq_parse_buffer W sf (fuel + 2) buffer_paren = .ok (some node) st2
      ∧ st2.parser.err = none
      ∧ st2.heap.erase_priorities = st1.heap.erase_priorities
      ∧ st2.heap.node_term node = some t ∧ t.priority = 0 :=
  paren_parse_scanner hT hfx hy1 hy2 hrun herr

/-- C10 (witness): the buffers `a.` and `(a).`, whose token sequence `T` is the name `a`. -/
theorem C10_witness :
    (∀ t ∈ [pq_a_tok], t.tag ≠ .PQ_END_TOK)
    ∧ pq_leading_fx [pq_a_tok] < 1200
    ∧ pq_buffer_yields asciiW 4 [97, 46] ([pq_a_tok] ++ [pq_end_tok]) = true
    ∧ pq_buffer_yields asciiW 4 [40, 97, 41, 46]
      (pq_lpar_tok :: [pq_a_tok] ++ [pq_rpar_tok, pq_end_tok]) = true
    ∧ (pq_parse_buffer asciiW 4 8 [97, 46]).val? = some (some 0)
    ∧ (pq_parse_buffer asciiW 4 8 [97, 46]).err? = some none
    ∧ ∃ st1 node st2 t, pq_parse_buffer asciiW 4 8 [97, 46] = .ok (some node) st1
      ∧ pq_parse_buffer asciiW 4 10 [40, 97, 41, 46] = .ok (some node) st2
      ∧ st2.parser.err = none
      ∧ st2.heap.erase_priorities = st1.heap.erase_priorities
      ∧ st2.heap.node_term node = some t ∧ t.priority = 0 := by
  have hv : (pq_parse_buffer asciiW 4 8 [97, 46]).val? = some (some 0) := by decide!
  have he : (pq_parse_buffer asciiW 4 8 [97, 46]).err? = some none := by decide!
  refine ⟨by decide, by decide, by decide!, by decide!, hv, he, ?_⟩
  cases hrun : pq_parse_buffer asciiW 4 8 [97, 46] with
  | fault e =>
    rw [hrun] at hv
    cases hv
  | ok v st1 =>
    rw [hrun] at hv he
    have herr : st1.parser.err = none := Option.some.inj he
    obtain ⟨node, st2, t, h1, h2, h3, h4, h5, h6⟩ :=
      C10_parenthesized_term_same_structure asciiW 4 8 [97, 46] [40, 97, 41, 46] [pq_a_tok]
        v st1 (by decide) (by decide) (by decide!) (by decide!) hrun herr
    exact ⟨st1, node, st2, t, by rw [h1], h2, h3, h4, h5, h6⟩

/-- C10 (counterexample): the token sequence `T` is the name `:-` 1201 times and then `(`,
`a`, `)`. The buffer of `T.` is the block ` :-` 1201 times and then `(a).`, and the buffer of
`(T).` is that buffer between `(` and `).`. Both parses return a node without an error. The
last `:-` is reached at the priority 0 without the parentheses and is the functor of the
compound term `:-(a)` there: term 1 is a compound term with the argument list 0. With the
parentheses it is reached at the priority 1 and is the prefix operator `:-` over `a`: term 1
is an operator term and there is no argument list. The two heaps differ after the priority
fields are cleared. -/
theorem C10_counterexample_nested_fx :
    (∀ t ∈ pq_neck_tokens 1201, t.tag ≠ .PQ_END_TOK)
    ∧ pq_leading_fx (pq_neck_tokens 1201) = 1201
    ∧ pq_buffer_yields asciiW 4 (pq_neck_buffer 1201) (pq_neck_tokens 1201 ++ [pq_end_tok]) = true
    ∧ pq_buffer_yields asciiW 4 (pq_neck_buffer_paren 1201)
      (pq_lpar_tok :: pq_neck_tokens 1201 ++ [pq_rpar_tok, pq_end_tok]) = true
    ∧ ∃ nd1 st1 nd2 st2,
      pq_parse_buffer asciiW 4 2500 (pq_neck_buffer 1201) = .ok (some nd1) st1
      ∧ st1.parser.err = none
      ∧ pq_parse_buffer asciiW 4 2502 (pq_neck_buffer_paren 1201) = .ok (some nd2) st2
      ∧ st2.parser.err = none
      ∧ st1.heap.term_data 1 = some (.fun_data [58, 45] (some 0))
      ∧ st1.heap.lists.length = 1
      ∧ st2.heap.term_data 1 = some (.op_data [58, 45] .PQ_OP_FX)
      ∧ st2.heap.lists.length = 0
      ∧ st2.heap.erase_priorities ≠ st1.heap.erase_priorities := by
  obtain ⟨nd1, st1, hr1, he1, hl1, hd1⟩ := neck_buffer_parse 96
  obtain ⟨nd2, st2, hr2, he2, hl2, hd2⟩ := neck_buffer_paren_parse 92
  refine ⟨?_, ?_, neck_buffer_yields 1201, neck_buffer_paren_yields 1201,
    nd1, st1, nd2, st2, hr1, he1, hr2, he2, hd1, hl1, hd2, hl2, ?_⟩
  · intro t ht
    unfold pq_neck_tokens at ht
    rcases List.mem_append.mp ht with h | h
    · rw [List.eq_of_mem_replicate h]
      decide
    · simp only [List.mem_cons, List.mem_singleton, List.not_mem_nil, or_false] at h
      rcases h with rfl | rfl | rfl <;> decide
  · unfold pq_neck_tokens
    rw [leading_fx_neck]
    decide
  · intro h
    have h2 : st2.heap.erase_priorities.lists.length = st1.heap.erase_priorities.lists.length := by
      rw [h]
    have h3 : st2.heap.lists.length = st1.heap.lists.length := h2
    omega

/-! ## Passes of the scanner loop -/

theorem run_loop (W : WCtype) (entry : pq_scanner) :
    ∀ (n : Nat) (S S1 : pq_scanner_state) (s s1 : pq_scanner) (fuel : Nat),
      pq_scanner_run W n S s = some (S1, s1) →
      pq_scanner_loop W entry (fuel + n) S s = pq_scanner_loop W entry fuel S1 s1
  | 0, S, S1, s, s1, fuel, h => by
    simp only [pq_scanner_run, Option.some.injEq, Prod.mk.injEq] at h
    rw [h.1, h.2]
    rfl
  | n + 1, S, S1, s, s1, fuel, h => by
    rw [← Nat.add_assoc, loop_succ]
    unfold pq_scanner_run at h
    cases hsw : pq_scanner_switch W S s with
    | ret tok sc => rw [hsw] at h; cases h
    | next st err sc =>
      rw [hsw] at h
      cases err with
      | some e => cases h
      | none => exact run_loop W entry n st S1 _ s1 fuel h

theorem run_add (W : WCtype) :
    ∀ (n m : Nat) (S S1 S2 : pq_scanner_state) (s s1 s2 : pq_scanner),
      pq_scanner_run W n S s = some (S1, s1) → pq_scanner_run W m S1 s1 = some (S2, s2) →
      pq_scanner_run W (m + n) S s = some (S2, s2)
  | 0, m, S, S1, S2, s, s1, s2, h, h2 => by
    simp only [pq_scanner_run, Option.some.injEq, Prod.mk.injEq] at h
    rw [h.1, h.2]
    exact h2
  | n + 1, m, S, S1, S2, s, s1, s2, h, h2 => by
    rw [← Nat.add_assoc]
    unfold pq_scanner_run at h ⊢
    cases hsw : pq_scanner_switch W S s with
    | ret tok sc => rw [hsw] at h; cases h
    | next st err sc =>
      rw [hsw] at h
      cases err with
      | some e => cases h
      | none => exact run_add W n m st S1 S2 _ s1 s2 h h2

theorem run_one (W : WCtype) {S S1 : pq_scanner_state} {s s1 : pq_scanner}
    (h : pq_scanner_switch W S s = .next S1 none s1) :
    pq_scanner_run W 1 S s = some (S1, pq_scanner_forward s1 1) := by
  unfold pq_scanner_run
  rw [h]
  rfl

theorem loop_err_restores (W : WCtype) (entry : pq_scanner) :
    ∀ (fuel : Nat) (S : pq_scanner_state) (s : pq_scanner) (r : pq_scan_result),
      pq_scanner_loop W entry fuel S s = some r → r.err.isSome = true →
      r.tok = none ∧ r.scanner.ln = entry.ln ∧ r.scanner.col = entry.col
        ∧ r.scanner.beg = entry.beg ∧ r.scanner.end_ = entry.end_
  | 0, S, s, r, h, _ => by simp [pq_scanner_loop] at h
  | fuel + 1, S, s, r, h, he => by
    rw [loop_succ] at h
    cases hsw : pq_scanner_switch W S s with
    | ret tok sc =>
      rw [hsw] at h
      simp only [Option.some.injEq] at h
      subst h
      cases he
    | next st err sc =>
      rw [hsw] at h
      cases err with
      | some e =>
        simp only [Option.some.injEq] at h
        subst h
        exact ⟨rfl, rfl, rfl, rfl, rfl⟩
      | none => exact loop_err_restores W entry fuel st _ r h he

/-! ## Texts of UTF-8 characters -/

theorem getD_drop_zero (buf : Bytes) (e i : Nat) : buf.getD (e + i) 0 = (buf.drop e).getD i 0 := by
  simp [List.getD_eq_getElem?_getD, List.getElem?_drop]

theorem decode_drop (buf : Bytes) (e : Nat) :
    pq_utf8_to_cp buf e = pq_utf8_to_cp (buf.drop e) 0 := by
  unfold pq_utf8_to_cp
  simp only [getD_drop_zero buf e, Nat.zero_add]
  rw [show e = e + 0 from rfl, getD_drop_zero buf e 0]
  simp

theorem decode_append {c : Bytes} {cp : Nat} (h : pq_utf8_to_cp c 0 = some (cp, c.length))
    (post : Bytes) : pq_utf8_to_cp (c ++ post) 0 = some (cp, c.length) := by
  rcases c with _ | ⟨b0, _ | ⟨b1, _ | ⟨b2, _ | ⟨b3, _ | ⟨b4, t⟩⟩⟩⟩⟩
  · simp [pq_utf8_to_cp] at h
  all_goals
    simp only [pq_utf8_to_cp, List.getD_eq_getElem?_getD, List.cons_append, List.nil_append,
      List.getElem?_cons_zero, List.getElem?_cons_succ, Option.getD_some, Nat.zero_add,
      List.length_cons, List.length_nil, List.getElem?_nil, Option.getD_none] at h ⊢
    split_ifs at h ⊢ <;> simp_all

theorem char_ok_bytes {c : pq_char} (h : pq_char_ok c) :
    0 < c.bytes.length ∧ ∀ b ∈ c.bytes, b ≠ 0 := by
  obtain ⟨cp, bytes⟩ := c
  obtain ⟨h0, h⟩ := h
  simp only at h0 h
  rcases bytes with _ | ⟨b0, _ | ⟨b1, _ | ⟨b2, _ | ⟨b3, _ | ⟨b4, t⟩⟩⟩⟩⟩
  · simp [pq_utf8_to_cp] at h
  all_goals
    simp only [pq_utf8_to_cp, pq_is_utf8_non_1st_byte, List.getD_eq_getElem?_getD,
      List.getElem?_cons_zero, List.getElem?_cons_succ, Option.getD_some, Nat.zero_add,
      List.length_cons, List.length_nil, List.getElem?_nil, Option.getD_none] at h
    split_ifs at h <;> simp_all <;> omega

theorem chars_bytes_nil : pq_chars_bytes [] = [] := rfl

theorem chars_bytes_cons (c : pq_char) (cs : List (pq_char)) :
    pq_chars_bytes (c :: cs) = c.bytes ++ pq_chars_bytes cs := by
  simp [pq_chars_bytes]

theorem chars_bytes_append (cs ds : List (pq_char)) :
    pq_chars_bytes (cs ++ ds) = pq_chars_bytes cs ++ pq_chars_bytes ds := by
  simp [pq_chars_bytes]

theorem chars_bytes_ne_zero {cs : List (pq_char)} (h : ∀ c ∈ cs, pq_char_ok c) :
    ∀ b ∈ pq_chars_bytes cs, b ≠ 0 := by
  intro b hb
  simp only [pq_chars_bytes, List.mem_flatMap] at hb
  obtain ⟨c, hc, hbc⟩ := hb
  exact (char_ok_bytes (h c hc)).2 b hbc

theorem strlen_of_ne_zero {buf : Bytes} (h : ∀ b ∈ buf, b ≠ 0) : strlen buf = buf.length := by
  unfold Poqer.strlen Poqer.cstr_at
  rw [List.drop_zero, List.takeWhile_eq_self_iff.mpr]
  intro b hb
  simpa using h b hb

theorem decode_chars {buf : Bytes} {e : Nat} {cs : List (pq_char)}
    (hok : ∀ c ∈ cs, pq_char_ok c) (hd : buf.drop e = pq_chars_bytes cs) :
    ∃ n : Nat, pq_utf8_to_cp buf e = some (pq_chars_cp cs, n) ∧ (n : Int) = pq_chars_cp_bytes cs := by
  rw [decode_drop, hd]
  cases cs with
  | nil => exact ⟨1, by simp [pq_chars_bytes, pq_utf8_to_cp, pq_chars_cp], rfl⟩
  | cons c cs =>
    rw [chars_bytes_cons]
    exact ⟨c.bytes.length, decode_append (hok c (List.mem_cons_self _ _)).2 _, rfl⟩

theorem drop_add_of_append {buf : Bytes} {e : Nat} {c rest : Bytes} (hd : buf.drop e = c ++ rest) :
    buf.drop (e + c.length) = rest := by
  rw [← List.drop_drop, hd, List.drop_left]

theorem lt_length_of_drop {buf : Bytes} {e : Nat} {c rest : Bytes} (hd : buf.drop e = c ++ rest)
    (hc : 0 < c.length) : e + c.length ≤ buf.length := by
  have h := congrArg List.length hd
  simp only [List.length_drop, List.length_append] at h
  omega

theorem CharPos.of_set_buffer (s0 : pq_scanner) {cs : List (pq_char)}
    (hok : ∀ c ∈ cs, pq_char_ok c) :
    CharPos (pq_chars_bytes cs) 0 0 cs (pq_scanner_set_buffer s0 (pq_chars_bytes cs)) := by
  obtain ⟨n, hdec, hn⟩ := decode_chars hok
    (rfl : (pq_chars_bytes cs).drop 0 = pq_chars_bytes cs)
  unfold pq_scanner_set_buffer pq_scanner_decode
  simp only [hdec, strlen_of_ne_zero (chars_bytes_ne_zero hok)]
  exact ⟨rfl, rfl, rfl, rfl, rfl, rfl, hn⟩

theorem CharPos.forward_char {buf : Bytes} {b e : Nat} {c : pq_char} {cs : List (pq_char)}
    {s : pq_scanner} (hp : CharPos buf b e (c :: cs) s) (hok : ∀ x ∈ c :: cs, pq_char_ok x) :
    CharPos buf b (e + c.bytes.length) cs (pq_scanner_forward s 1) := by
  obtain ⟨h1, h2, h3, h4, h5, h6, h7⟩ := hp
  rw [chars_bytes_cons] at h5
  have hc := char_ok_bytes (hok c (List.mem_cons_self _ _))
  have hle := lt_length_of_drop h5 hc.1
  have hd2 := drop_add_of_append h5
  obtain ⟨n, hdec, hn⟩ := decode_chars (fun x hx => hok x (List.mem_cons_of_mem _ hx)) hd2
  have hk : s.cp_bytes = ((c.bytes.length : Nat) : Int) := by rw [h7]; rfl
  rw [forward_one_valid s c.bytes.length _ n (by rw [h4, h2]; omega) hk (by rw [h1, h4]; exact hdec)]
  exact ⟨h1, h2, h3, by simp [h4], hd2, rfl, hn⟩

theorem skip_char {buf : Bytes} {c : pq_char} {rest : Bytes} (s : pq_scanner)
    (hbuf : s.buffer = buf) (hsz : s.buffer_sz = buf.length) (hc : pq_char_ok c)
    (hd : buf.drop s.beg = c.bytes ++ rest) (i : Nat) :
    pq_scanner_skip s (i + 1) = pq_scanner_skip { s with beg := s.beg + c.bytes.length } i := by
  have hb := char_ok_bytes hc
  have hle := lt_length_of_drop hd hb.1
  have hdec : pq_utf8_to_cp buf s.beg = some (c.cp, c.bytes.length) := by
    rw [decode_drop, hd]
    exact decode_append hc.2 _
  rcases s with ⟨buffer, sz, ln, col, beg, e, cp, cpb, qn, qe, qm⟩
  simp only at hbuf hsz hd hle hdec
  subst hbuf hsz
  have h1 : beg ≤ size_dec buffer.length := by rw [size_dec_pos (by omega)]; omega
  rw [pq_scanner_skip]
  simp only [h1, if_true, hdec, size_add_nat]

theorem skip_zero (s : pq_scanner) : pq_scanner_skip s 0 = s := rfl

theorem skip_at_end (s : pq_scanner) (hpos : 0 < s.buffer_sz) (hend : s.beg = s.buffer_sz)
    (i : Nat) : pq_scanner_skip s i = s := by
  cases i with
  | zero => rfl
  | succ i =>
    rw [pq_scanner_skip]
    have h1 : ¬ s.beg ≤ size_dec s.buffer_sz := by rw [size_dec_pos hpos]; omega
    simp only [h1, if_false]

theorem forward_at_end (s : pq_scanner) (hpos : 0 < s.buffer_sz) (hend : s.end_ = s.buffer_sz) :
    pq_scanner_forward s 1 = s := by
  rw [pq_scanner_forward]
  have h1 : ¬ s.end_ ≤ size_dec s.buffer_sz := by rw [size_dec_pos hpos]; omega
  simp only [h1, if_false]

/-- The pass over a character that is skipped: `pq_scanner_skip(scanner, 1)` in the switch and
`pq_scanner_forward(scanner, 1)` after it. -/
theorem CharPos.skip_forward {buf : Bytes} {e : Nat} {c : pq_char} {cs : List (pq_char)}
    {s : pq_scanner} (hp : CharPos buf e e (c :: cs) s) (hok : ∀ x ∈ c :: cs, pq_char_ok x) :
    CharPos buf (e + c.bytes.length) (e + c.bytes.length) cs
      (pq_scanner_forward (pq_scanner_skip s 1) 1) := by
  have h5 := hp.rest
  rw [chars_bytes_cons] at h5
  rw [skip_char s hp.buffer hp.buffer_sz (hok c (List.mem_cons_self _ _))
    (by rw [hp.beg]; exact h5) 0, skip_zero]
  have hp2 : CharPos buf (e + c.bytes.length) e (c :: cs) { s with beg := s.beg + c.bytes.length } :=
    ⟨hp.buffer, hp.buffer_sz, by simp [hp.beg], hp.end_, hp.rest, hp.cp, hp.cp_bytes⟩
  exact hp2.forward_char hok

/-! ## Layout and comments -/

theorem begin_nul (W : WCtype) (s : pq_scanner) (hcp : s.cp = 0) :
    pq_scanner_switch W .BEGIN s = .ret none s := by
  unfold pq_scanner_switch
  simp [hcp]

theorem begin_layout {W : WCtype} (hW : W.IsoAscii) (s : pq_scanner)
    (hl : pq_is_unicode_layout_char W s.cp = true) :
    pq_scanner_switch W .BEGIN s = .next .BEGIN none (pq_scanner_skip s 1) := by
  have hc : (9 ≤ s.cp ∧ s.cp ≤ 13) ∨ s.cp = 32 ∨ 128 ≤ s.cp := by
    by_cases h128 : s.cp < 128
    · rw [hW.layout h128] at hl
      simp only [pq_is_unicode_layout_char, asciiW, Bool.or_eq_true, Bool.and_eq_true,
        decide_eq_true_eq, beq_iff_eq] at hl
      omega
    · omega
  unfold pq_scanner_switch
  simp only []
  iterate 16 rw [if_neg (by omega)]
  rw [if_pos hl]

theorem begin_percent (W : WCtype) (s : pq_scanner) (hcp : s.cp = 37) :
    pq_scanner_switch W .BEGIN s = .next .S_COMMENT none (pq_scanner_skip s 1) := by
  unfold pq_scanner_switch
  simp [hcp]

theorem begin_slash (W : WCtype) (s : pq_scanner) (hcp : s.cp = 47) :
    pq_scanner_switch W .BEGIN s = .next .POT_M_COMMENT_OP none s := by
  unfold pq_scanner_switch
  simp [hcp]

theorem s_comment_step (W : WCtype) (s : pq_scanner) :
    pq_scanner_switch W .S_COMMENT s
      = .next (if pq_is_unicode_newline_char W s.cp ∨ 0 = s.cp then .BEGIN else .S_COMMENT) none
          (pq_scanner_skip s 1) := by
  unfold pq_scanner_switch
  rfl

theorem comment_open_star (W : WCtype) (s : pq_scanner) (hcp : s.cp = 42) :
    pq_scanner_switch W .POT_M_COMMENT_OP s = .next .M_COMMENT none (pq_scanner_skip s 2) := by
  unfold pq_scanner_switch
  simp [hcp]

theorem m_comment_star (W : WCtype) (s : pq_scanner) (hcp : s.cp = 42) :
    pq_scanner_switch W .M_COMMENT s = .next .POT_M_COMMENT_CL none (pq_scanner_skip s 1) := by
  unfold pq_scanner_switch
  simp [hcp]

theorem m_comment_other (W : WCtype) (s : pq_scanner) (h1 : s.cp ≠ 42) (h0 : s.cp ≠ 0) :
    pq_scanner_switch W .M_COMMENT s = .next .M_COMMENT none (pq_scanner_skip s 1) := by
  unfold pq_scanner_switch
  simp only []
  rw [if_neg (fun h => h1 h.symm), if_neg (fun h => h0 h.symm)]

theorem m_comment_nul (W : WCtype) (s : pq_scanner) (h0 : s.cp = 0) :
    pq_scanner_switch W .M_COMMENT s
      = .next .M_COMMENT
          (some (pq_scanner_make_error_from_cstr s (cstr "expected end of multi-line comment")))
          s := by
  unfold pq_scanner_switch
  simp [h0]

theorem comment_close_slash (W : WCtype) (s : pq_scanner) (hcp : s.cp = 47) :
    pq_scanner_switch W .POT_M_COMMENT_CL s = .next .BEGIN none (pq_scanner_skip s 1) := by
  unfold pq_scanner_switch
  simp [hcp]

theorem comment_close_star (W : WCtype) (s : pq_scanner) (hcp : s.cp = 42) :
    pq_scanner_switch W .POT_M_COMMENT_CL s
      = .next .POT_M_COMMENT_CL none (pq_scanner_skip s 1) := by
  unfold pq_scanner_switch
  simp [hcp]

theorem comment_close_other (W : WCtype) (s : pq_scanner) (h1 : s.cp ≠ 42) (h2 : s.cp ≠ 47)
    (h0 : s.cp ≠ 0) :
    pq_scanner_switch W .POT_M_COMMENT_CL s = .next .M_COMMENT none (pq_scanner_skip s 1) := by
  unfold pq_scanner_switch
  simp only []
  rw [if_neg h2, if_neg h0, if_neg h1]

theorem comment_close_nul (W : WCtype) (s : pq_scanner) (h0 : s.cp = 0) :
    pq_scanner_switch W .POT_M_COMMENT_CL s
      = .next .POT_M_COMMENT_CL
          (some (pq_scanner_make_error_from_cstr s (cstr "expected end of multi-line comment")))
          (pq_scanner_skip s 1) := by
  unfold pq_scanner_switch
  simp [h0]

theorem CharPos.cp_cons {buf : Bytes} {b e : Nat} {c : pq_char} {cs : List pq_char}
    {s : pq_scanner} (hp : CharPos buf b e (c :: cs) s) : s.cp = c.cp := hp.cp

theorem CharPos.cp_nil {buf : Bytes} {b e : Nat} {s : pq_scanner} (hp : CharPos buf b e [] s) :
    s.cp = 0 := hp.cp

theorem CharPos.end_eq {buf : Bytes} {b e : Nat} {s : pq_scanner} (hp : CharPos buf b e [] s) :
    buf.length ≤ e := by
  have h := congrArg List.length hp.rest
  simp only [List.length_drop, chars_bytes_nil, List.length_nil] at h
  omega

/-- One pass over a character that the switch skips. -/
theorem run_skip (W : WCtype) {S S1 : pq_scanner_state} {buf : Bytes} {e : Nat} {c : pq_char}
    {cs : List pq_char} {s : pq_scanner} (hp : CharPos buf e e (c :: cs) s)
    (hok : ∀ x ∈ c :: cs, pq_char_ok x)
    (hsw : pq_scanner_switch W S s = .next S1 none (pq_scanner_skip s 1)) :
    ∃ s1, pq_scanner_run W 1 S s = some (S1, s1)
      ∧ CharPos buf (e + c.bytes.length) (e + c.bytes.length) cs s1 :=
  ⟨_, run_one W hsw, hp.skip_forward hok⟩

theorem s_comment_run (W : WCtype) (rest : List pq_char) {buf : Bytes} :
    ∀ (body : List pq_char) (e : Nat) (s : pq_scanner),
      (∀ c ∈ body, pq_is_unicode_newline_char W c.cp = false) →
      (∀ c ∈ body ++ rest, pq_char_ok c) → CharPos buf e e (body ++ rest) s →
      ∃ s1, pq_scanner_run W body.length .S_COMMENT s = some (.S_COMMENT, s1)
        ∧ CharPos buf (e + (pq_chars_bytes body).length) (e + (pq_chars_bytes body).length)
            rest s1
  | [], e, s, _, _, hp => ⟨s, rfl, by simpa [chars_bytes_nil] using hp⟩
  | c :: body, e, s, hnl, hok, hp => by
    have hc0 : c.cp ≠ 0 := (hok c (List.mem_cons_self _ _)).1
    have hsw : pq_scanner_switch W .S_COMMENT s
        = .next .S_COMMENT none (pq_scanner_skip s 1) := by
      rw [s_comment_step, hp.cp_cons, hnl c (List.mem_cons_self _ _)]
      rw [if_neg (by simp; exact fun h => hc0 h.symm)]
    obtain ⟨s1, hr1, hp1⟩ := run_skip W hp hok hsw
    obtain ⟨s2, hr2, hp2⟩ := s_comment_run W rest body _ s1
      (fun x hx => hnl x (List.mem_cons_of_mem _ hx))
      (fun x hx => hok x (List.mem_cons_of_mem _ hx)) hp1
    refine ⟨s2, run_add W 1 body.length _ _ _ _ _ _ hr1 hr2, ?_⟩
    rw [chars_bytes_cons, List.length_append, ← Nat.add_assoc]
    exact hp2

theorem comment_closes_cons {c : Nat} {cs : List Nat} (h : pq_comment_closes (c :: cs) = false) :
    (c = 42 → cs.head? ≠ some 47) ∧ pq_comment_closes cs = false := by
  simp only [pq_comment_closes, Bool.or_eq_false_iff, Bool.and_eq_false_iff, beq_eq_false_iff_ne,
    ne_eq, beq_iff_eq] at h
  refine ⟨fun h42 h47 => ?_, h.2⟩
  rcases h.1 with h1 | h1
  · exact h1 h42
  · exact h1 h47

/-- The passes over the body of a `/*` comment that holds no `*/`. -/
theorem m_comment_run (W : WCtype) (rest : List pq_char) {buf : Bytes} :
    ∀ (body : List pq_char) (S : pq_scanner_state) (e : Nat) (s : pq_scanner),
      (S = .M_COMMENT ∨ (S = .POT_M_COMMENT_CL ∧ (body.map fun c => c.cp).head? ≠ some 47)) →
      pq_comment_closes (body.map fun c => c.cp) = false →
      (∀ c ∈ body ++ rest, pq_char_ok c) → CharPos buf e e (body ++ rest) s →
      ∃ S1 s1, pq_scanner_run W body.length S s = some (S1, s1)
        ∧ (S1 = .M_COMMENT ∨ S1 = .POT_M_COMMENT_CL)
        ∧ CharPos buf (e + (pq_chars_bytes body).length) (e + (pq_chars_bytes body).length)
            rest s1
  | [], S, e, s, hS, _, _, hp => by
    refine ⟨S, s, rfl, ?_, by simpa [chars_bytes_nil] using hp⟩
    rcases hS with h | h
    · exact Or.inl h
    · exact Or.inr h.1
  | c :: body, S, e, s, hS, hcl, hok, hp => by
    have hc0 : c.cp ≠ 0 := (hok c (List.mem_cons_self _ _)).1
    simp only [List.map_cons] at hcl hS
    obtain ⟨hhead, hcl2⟩ := comment_closes_cons hcl
    have hstep : ∃ S1, pq_scanner_switch W S s = .next S1 none (pq_scanner_skip s 1)
        ∧ (S1 = .M_COMMENT
          ∨ (S1 = .POT_M_COMMENT_CL ∧ (body.map fun c => c.cp).head? ≠ some 47)) := by
      by_cases h42 : c.cp = 42
      · refine ⟨.POT_M_COMMENT_CL, ?_, Or.inr ⟨rfl, hhead h42⟩⟩
        rcases hS with h | h
        · rw [h]; exact m_comment_star W s (by rw [hp.cp_cons]; exact h42)
        · rw [h.1]; exact comment_close_star W s (by rw [hp.cp_cons]; exact h42)
      · refine ⟨.M_COMMENT, ?_, Or.inl rfl⟩
        rcases hS with h | h
        · rw [h]
          exact m_comment_other W s (by rw [hp.cp_cons]; exact h42) (by rw [hp.cp_cons]; exact hc0)
        · rw [h.1]
          have h47 : c.cp ≠ 47 := by
            intro h47
            exact h.2 (by simp [h47])
          exact comment_close_other W s (by rw [hp.cp_cons]; exact h42)
            (by rw [hp.cp_cons]; exact h47) (by rw [hp.cp_cons]; exact hc0)
    obtain ⟨S1, hsw, hS1⟩ := hstep
    obtain ⟨s1, hr1, hp1⟩ := run_skip W hp hok hsw
    obtain ⟨S2, s2, hr2, hS2, hp2⟩ := m_comment_run W rest body S1 _ s1 hS1 hcl2
      (fun x hx => hok x (List.mem_cons_of_mem _ hx)) hp1
    refine ⟨S2, s2, run_add W 1 body.length _ _ _ _ _ _ hr1 hr2, hS2, ?_⟩
    rw [chars_bytes_cons, List.length_append, ← Nat.add_assoc]
    exact hp2

/-- The two passes over the `*/` that closes a comment. -/
theorem comment_close_run (W : WCtype) {buf : Bytes} {S : pq_scanner_state} {e : Nat}
    {q1 q2 : pq_char} {cs : List pq_char} {s : pq_scanner}
    (hS : S = .M_COMMENT ∨ S = .POT_M_COMMENT_CL) (h1 : q1.cp = 42) (h2 : q2.cp = 47)
    (hok : ∀ c ∈ q1 :: q2 :: cs, pq_char_ok c) (hp : CharPos buf e e (q1 :: q2 :: cs) s) :
    ∃ s1, pq_scanner_run W 2 S s = some (.BEGIN, s1)
      ∧ CharPos buf (e + (pq_chars_bytes [q1, q2]).length) (e + (pq_chars_bytes [q1, q2]).length)
          cs s1 := by
  have hsw : pq_scanner_switch W S s = .next .POT_M_COMMENT_CL none (pq_scanner_skip s 1) := by
    rcases hS with h | h
    · rw [h]; exact m_comment_star W s (by rw [hp.cp_cons]; exact h1)
    · rw [h]; exact comment_close_star W s (by rw [hp.cp_cons]; exact h1)
  obtain ⟨s1, hr1, hp1⟩ := run_skip W hp hok hsw
  obtain ⟨s2, hr2, hp2⟩ := run_skip W hp1 (fun x hx => hok x (List.mem_cons_of_mem _ hx))
    (comment_close_slash W s1 (by rw [hp1.cp_cons]; exact h2))
  refine ⟨s2, run_add W 1 1 _ _ _ _ _ _ hr1 hr2, ?_⟩
  simp only [chars_bytes_cons, chars_bytes_nil, List.append_nil, List.length_append,
    ← Nat.add_assoc]
  exact hp2

/-- The pass that meets the end of the buffer inside a `/*` comment. -/
theorem comment_eof_step (W : WCtype) {S : pq_scanner_state} (s : pq_scanner)
    (hS : S = .M_COMMENT ∨ S = .POT_M_COMMENT_CL) (h0 : s.cp = 0) :
    ∃ S1 s1, pq_scanner_switch W S s
      = .next S1 (some (pq_scanner_make_error_from_cstr s
          (cstr "expected end of multi-line comment"))) s1 := by
  rcases hS with h | h
  · exact ⟨_, _, by rw [h]; exact m_comment_nul W s h0⟩
  · exact ⟨_, _, by rw [h]; exact comment_close_nul W s h0⟩

/-- The passes over the opening `/*` of a comment. -/
theorem comment_open_run (W : WCtype) {buf : Bytes} {e : Nat} {p1 p2 : pq_char}
    {cs : List pq_char} {s : pq_scanner} (h1 : p1.cp = 47) (h2 : p2.cp = 42)
    (hok : ∀ c ∈ p1 :: p2 :: cs, pq_char_ok c) (hp : CharPos buf e e (p1 :: p2 :: cs) s) :
    ∃ s1, pq_scanner_run W 2 .BEGIN s = some (.M_COMMENT, s1)
      ∧ CharPos buf (e + (pq_chars_bytes [p1, p2]).length) (e + (pq_chars_bytes [p1, p2]).length)
          cs s1 := by
  have hr1 := run_one W (begin_slash W s (by rw [hp.cp_cons]; exact h1))
  have hp1 := hp.forward_char hok
  have hok1 := hok p1 (List.mem_cons_self _ _)
  have hok2 := hok p2 (List.mem_cons_of_mem _ (List.mem_cons_self _ _))
  have hrest := hp.rest
  rw [chars_bytes_cons, chars_bytes_cons] at hrest
  have hr2 := run_one W (comment_open_star W (pq_scanner_forward s 1)
    (by rw [hp1.cp_cons]; exact h2))
  refine ⟨_, run_add W 1 1 _ _ _ _ _ _ hr1 hr2, ?_⟩
  have hskip : pq_scanner_skip (pq_scanner_forward s 1) 2
      = { pq_scanner_forward s 1 with beg := e + p1.bytes.length + p2.bytes.length } := by
    rw [skip_char (pq_scanner_forward s 1) hp1.buffer hp1.buffer_sz hok1
      (by rw [hp1.beg]; exact hrest) 1]
    rw [skip_char { pq_scanner_forward s 1 with
        beg := (pq_scanner_forward s 1).beg + p1.bytes.length } hp1.buffer hp1.buffer_sz hok2
      (by
        show buf.drop ((pq_scanner_forward s 1).beg + p1.bytes.length) = _
        rw [hp1.beg]
        exact drop_add_of_append hrest) 0, skip_zero]
    simp only [hp1.beg]
  rw [hskip]
  have hp2 : CharPos buf (e + p1.bytes.length + p2.bytes.length) (e + p1.bytes.length)
      (p2 :: cs) { pq_scanner_forward s 1 with beg := e + p1.bytes.length + p2.bytes.length } :=
    ⟨hp1.buffer, hp1.buffer_sz, rfl, hp1.end_, hp1.rest, hp1.cp, hp1.cp_bytes⟩
  have hp3 := hp2.forward_char (fun x hx => hok x (List.mem_cons_of_mem _ hx))
  simp only [chars_bytes_cons, chars_bytes_nil, List.append_nil, List.length_append,
    ← Nat.add_assoc]
  exact hp3

/-- The passes over text that the scanner skips: it is in the state `BEGIN` again behind
the text. -/
theorem blank_text_run {W : WCtype} (hW : W.IsoAscii) {buf : Bytes} {cs : List pq_char}
    (hb : pq_blank_text W cs) :
    ∀ (rest : List pq_char) (e : Nat) (s : pq_scanner),
      (∀ c ∈ cs ++ rest, pq_char_ok c) → CharPos buf e e (cs ++ rest) s →
      ∃ s1, pq_scanner_run W cs.length .BEGIN s = some (.BEGIN, s1)
        ∧ CharPos buf (e + (pq_chars_bytes cs).length) (e + (pq_chars_bytes cs).length)
            rest s1 := by
  induction hb with
  | nil =>
    intro rest e s _ hp
    exact ⟨s, rfl, by simpa [chars_bytes_nil] using hp⟩
  | layout c cs hl _ ih =>
    intro rest e s hok hp
    rw [List.cons_append] at hok hp
    obtain ⟨s1, hr1, hp1⟩ := run_skip W hp hok
      (begin_layout hW s (by rw [hp.cp_cons]; exact hl))
    obtain ⟨s2, hr2, hp2⟩ := ih rest _ s1 (fun x hx => hok x (List.mem_cons_of_mem _ hx)) hp1
    refine ⟨s2, run_add W 1 cs.length _ _ _ _ _ _ hr1 hr2, ?_⟩
    rw [chars_bytes_cons, List.length_append, ← Nat.add_assoc]
    exact hp2
  | line_comment p body nl cs h37 hbody hnl _ ih =>
    intro rest e s hok hp
    rw [List.cons_append, List.append_assoc, List.cons_append] at hok hp
    obtain ⟨s1, hr1, hp1⟩ := run_skip W hp hok (begin_percent W s (by rw [hp.cp_cons]; exact h37))
    have hok1 : ∀ x ∈ body ++ nl :: (cs ++ rest), pq_char_ok x :=
      fun x hx => hok x (List.mem_cons_of_mem _ hx)
    obtain ⟨s2, hr2, hp2⟩ := s_comment_run W (nl :: (cs ++ rest)) body _ s1 hbody hok1 hp1
    have hok2 : ∀ x ∈ nl :: (cs ++ rest), pq_char_ok x :=
      fun x hx => hok1 x (List.mem_append_right _ hx)
    have hsw : pq_scanner_switch W .S_COMMENT s2 = .next .BEGIN none (pq_scanner_skip s2 1) := by
      rw [s_comment_step, hp2.cp_cons, hnl]
      simp
    obtain ⟨s3, hr3, hp3⟩ := run_skip W hp2 hok2 hsw
    obtain ⟨s4, hr4, hp4⟩ := ih rest _ s3 (fun x hx => hok2 x (List.mem_cons_of_mem _ hx)) hp3
    have hr := run_add W _ _ _ _ _ _ _ _
      (run_add W _ _ _ _ _ _ _ _ (run_add W _ _ _ _ _ _ _ _ hr1 hr2) hr3) hr4
    refine ⟨s4, ?_, ?_⟩
    · rw [← hr]
      congr 1
      simp only [List.length_cons, List.length_append]
      omega
    · simp only [chars_bytes_cons, chars_bytes_append, List.length_append, ← Nat.add_assoc]
        at hp4 ⊢
      exact hp4
  | block_comment p1 p2 body q1 q2 cs h1 h2 hcl h3 h4 _ ih =>
    intro rest e s hok hp
    simp only [List.cons_append, List.append_assoc] at hok hp
    obtain ⟨s1, hr1, hp1⟩ := comment_open_run W h1 h2 hok hp
    have hok1 : ∀ x ∈ body ++ q1 :: q2 :: (cs ++ rest), pq_char_ok x :=
      fun x hx => hok x (List.mem_cons_of_mem _ (List.mem_cons_of_mem _ hx))
    obtain ⟨S2, s2, hr2, hS2, hp2⟩ := m_comment_run W (q1 :: q2 :: (cs ++ rest)) body .M_COMMENT
      _ s1 (Or.inl rfl) hcl hok1 hp1
    have hok2 : ∀ x ∈ q1 :: q2 :: (cs ++ rest), pq_char_ok x :=
      fun x hx => hok1 x (List.mem_append_right _ hx)
    obtain ⟨s3, hr3, hp3⟩ := comment_close_run W hS2 h3 h4 hok2 hp2
    obtain ⟨s4, hr4, hp4⟩ := ih rest _ s3
      (fun x hx => hok2 x (List.mem_cons_of_mem _ (List.mem_cons_of_mem _ hx))) hp3
    have hr := run_add W _ _ _ _ _ _ _ _
      (run_add W _ _ _ _ _ _ _ _ (run_add W _ _ _ _ _ _ _ _ hr1 hr2) hr3) hr4
    refine ⟨s4, ?_, ?_⟩
    · rw [← hr]
      congr 1
      simp only [List.length_cons, List.length_append]
      omega
    · simp only [chars_bytes_cons, chars_bytes_append, chars_bytes_nil, List.append_nil,
        List.length_append, ← Nat.add_assoc] at hp4 ⊢
      exact hp4

/-! ## The text of a scanner error -/

theorem quoted_atom_append_ln_col (s : pq_scanner) (cp : Nat) :
    (pq_scanner_quoted_atom_append s cp).ln = s.ln
      ∧ (pq_scanner_quoted_atom_append s cp).col = s.col := by
  unfold pq_scanner_quoted_atom_append
  simp only []
  split_ifs <;> exact ⟨rfl, rfl⟩

theorem quoted_atom_append_escape_ln_col (s : pq_scanner) :
    (pq_scanner_quoted_atom_append_escape s).1.ln = s.ln
      ∧ (pq_scanner_quoted_atom_append_escape s).1.col = s.col := by
  unfold pq_scanner_quoted_atom_append_escape
  simp only []
  split_ifs <;> exact ⟨rfl, rfl⟩

theorem end_escape_err {scanner s2 : pq_scanner} {state S2 : pq_scanner_state} {n : Nat}
    {msg e : Bytes}
    (h : pq_scan_end_escape scanner state n msg = .next S2 (some e) s2) :
    e = pq_scanner_error_text scanner.ln scanner.col msg := by
  unfold pq_scan_end_escape at h
  simp only [] at h
  split_ifs at h
  · simp only [pq_scan_step.next.injEq, reduceCtorEq, false_and, and_false] at h
  · simp only [pq_scan_step.next.injEq, Option.some.injEq] at h
    rw [← h.2.1]
    unfold pq_scanner_make_error_from_cstr pq_scanner_error_text
    rw [(quoted_atom_append_escape_ln_col scanner).1, (quoted_atom_append_escape_ln_col scanner).2]

theorem emit_lexeme_ne_next {scanner s2 : pq_scanner} {n : Nat} {mk : Bytes → pq_tok}
    {S2 : pq_scanner_state} {e : Option Bytes}
    (h : pq_scan_emit_lexeme scanner n mk = .next S2 e s2) : False := by
  unfold pq_scan_emit_lexeme at h
  simp only [reduceCtorEq] at h

theorem emit_literal_ne_next {scanner s2 : pq_scanner} {n : Nat} {tok : pq_tok}
    {S2 : pq_scanner_state} {e : Option Bytes}
    (h : pq_scan_emit_literal scanner n tok = .next S2 e s2) : False := by
  unfold pq_scan_emit_literal at h
  simp only [reduceCtorEq] at h

theorem ite_step_cases {c : Prop} [Decidable c] {a b r : pq_scan_step} {P : Prop}
    (h1 : c → a = r → P) (h2 : ¬ c → b = r → P) : (if c then a else b) = r → P := by
  intro h
  by_cases hc : c
  · rw [if_pos hc] at h; exact h1 hc h
  · rw [if_neg hc] at h; exact h2 hc h

set_option maxHeartbeats 4000000 in
/-- An error that a pass through the switch stores is made of the line and column of the
scanner at that pass and a message. -/
theorem switch_err_text (W : WCtype) {S S2 : pq_scanner_state} {s s2 : pq_scanner} {e : Bytes}
    (h : pq_scanner_switch W S s = .next S2 (some e) s2) :
    ∃ msg, msg ∈ pq_scanner_messages ∧ e = pq_scanner_error_text s.ln s.col msg := by
  cases S <;> (unfold pq_scanner_switch at h; simp only [] at h) <;>
    repeat' first
      | exact ⟨_, by simp only [pq_scanner_messages, List.mem_cons, true_or, or_true],
          end_escape_err h⟩
      | exact (emit_lexeme_ne_next h).elim
      | exact (emit_literal_ne_next h).elim
      | (simp only [pq_scan_step.next.injEq, Option.some.injEq, reduceCtorEq, false_and,
          and_false] at h
         done)
      | (simp only [pq_scan_step.next.injEq, Option.some.injEq] at h
         exact ⟨_, by simp only [pq_scanner_messages, List.mem_cons, true_or, or_true],
           h.2.1.symm⟩)
      | (revert h; refine ite_step_cases (fun _ h => ?_) (fun _ h => ?_))

theorem loop_err_run (W : WCtype) (entry : pq_scanner) :
    ∀ (fuel : Nat) (S : pq_scanner_state) (s : pq_scanner) (r : pq_scan_result) (e : Bytes),
      pq_scanner_loop W entry fuel S s = some r → r.err = some e →
      ∃ n S1 s1 S2 s2, n < fuel ∧ pq_scanner_run W n S s = some (S1, s1)
        ∧ pq_scanner_switch W S1 s1 = .next S2 (some e) s2
  | 0, S, s, r, e, h, _ => by simp [pq_scanner_loop] at h
  | fuel + 1, S, s, r, e, h, he => by
    rw [loop_succ] at h
    cases hsw : pq_scanner_switch W S s with
    | ret tok sc =>
      rw [hsw] at h
      simp only [Option.some.injEq] at h
      subst h
      cases he
    | next st err sc =>
      rw [hsw] at h
      cases err with
      | some e1 =>
        simp only [Option.some.injEq] at h
        subst h
        simp only [Option.some.injEq] at he
        subst he
        exact ⟨0, S, s, st, sc, Nat.succ_pos _, rfl, hsw⟩
      | none =>
        obtain ⟨n, S1, s1, S2, s2, hn, hr, hs⟩ := loop_err_run W entry fuel st _ r e h he
        refine ⟨n + 1, S1, s1, S2, s2, Nat.succ_lt_succ hn, ?_, hs⟩
        unfold pq_scanner_run
        rw [hsw]
        exact hr

theorem loop_of_run_err (W : WCtype) (entry : pq_scanner) {n : Nat} {S S1 S2 : pq_scanner_state}
    {s s1 s2 : pq_scanner} {e : Bytes} (hr : pq_scanner_run W n S s = some (S1, s1))
    (hs : pq_scanner_switch W S1 s1 = .next S2 (some e) s2) (m : Nat) :
    pq_scanner_loop W entry (m + 1 + n) S s
      = some ⟨none, some e,
          { s2 with ln := entry.ln, col := entry.col, beg := entry.beg, end_ := entry.end_ }⟩ := by
  rw [run_loop W entry n S S1 s s1 (m + 1) hr, loop_succ, hs]

theorem loop_of_run_ret (W : WCtype) (entry : pq_scanner) {n : Nat} {S S1 : pq_scanner_state}
    {s s1 s2 : pq_scanner} {tok : Option pq_tok} (hr : pq_scanner_run W n S s = some (S1, s1))
    (hs : pq_scanner_switch W S1 s1 = .ret tok s2) (m : Nat) :
    pq_scanner_loop W entry (m + 1 + n) S s = some ⟨tok, none, s2⟩ := by
  rw [run_loop W entry n S S1 s s1 (m + 1) hr, loop_succ, hs]

theorem blank_text_append {W : WCtype} {cs ds : List pq_char} (h1 : pq_blank_text W cs)
    (h2 : pq_blank_text W ds) : pq_blank_text W (cs ++ ds) := by
  induction h1 with
  | nil => exact h2
  | layout c cs hl _ ih => exact pq_blank_text.layout c _ hl ih
  | line_comment p body nl cs h37 hbody hnl _ ih =>
    rw [List.cons_append, List.append_assoc, List.cons_append]
    exact pq_blank_text.line_comment p body nl _ h37 hbody hnl ih
  | block_comment p1 p2 body q1 q2 cs h1 h2 hcl h3 h4 _ ih =>
    simp only [List.cons_append, List.append_assoc]
    exact pq_blank_text.block_comment p1 p2 body q1 q2 _ h1 h2 hcl h3 h4 ih

theorem chars_bytes_length_pos {c : pq_char} {cs ds : List pq_char}
    (hok : ∀ x ∈ cs ++ c :: ds, pq_char_ok x) : 0 < (pq_chars_bytes (cs ++ c :: ds)).length := by
  have hc := (char_ok_bytes (hok c (List.mem_append_right _ (List.mem_cons_self _ _)))).1
  rw [chars_bytes_append, chars_bytes_cons]
  simp only [List.length_append]
  omega

/-- The scan of a buffer of layout characters and comments only. -/
theorem blank_buffer_scan {W : WCtype} (hW : W.IsoAscii) (s0 : pq_scanner) {cs : List pq_char}
    (hok : ∀ c ∈ cs, pq_char_ok c) (hb : pq_blank_buffer W cs) (m : Nat) :
    ∃ s1, pq_scanner_next_token W (m + (cs.length + 2))
          (pq_scanner_set_buffer s0 (pq_chars_bytes cs)) = some ⟨none, none, s1⟩
      ∧ s1.beg = (pq_chars_bytes cs).length ∧ s1.end_ = (pq_chars_bytes cs).length
      ∧ s1.buffer_sz = (pq_chars_bytes cs).length := by
  have hp0 := CharPos.of_set_buffer s0 hok
  unfold pq_scanner_next_token
  rcases hb with hb | ⟨pre, p, body, rfl, hpre, h37, hbody⟩
  · obtain ⟨s1, hr, hp1⟩ := blank_text_run hW hb [] 0 _ (by simpa using hok)
      (by simpa using hp0)
    refine ⟨s1, ?_, ?_, ?_, hp1.buffer_sz⟩
    · rw [show m + (cs.length + 2) = (m + 1) + 1 + cs.length by omega]
      exact loop_of_run_ret W _ hr (begin_nul W s1 hp1.cp_nil) (m + 1)
    · rw [hp1.beg]; omega
    · rw [hp1.end_]; omega
  · obtain ⟨s1, hr1, hp1⟩ := blank_text_run hW hpre (p :: body) 0 _ hok hp0
    have hok1 : ∀ x ∈ p :: body, pq_char_ok x := fun x hx => hok x (List.mem_append_right _ hx)
    obtain ⟨s2, hr2, hp2⟩ := run_skip W hp1 hok1
      (begin_percent W s1 (by rw [hp1.cp_cons]; exact h37))
    obtain ⟨s3, hr3, hp3⟩ := s_comment_run W [] body _ s2 hbody
      (by simpa using fun x hx => hok1 x (List.mem_cons_of_mem _ hx)) (by simpa using hp2)
    have hlen : (pq_chars_bytes (pre ++ p :: body)).length
        = 0 + (pq_chars_bytes pre).length + p.bytes.length + (pq_chars_bytes body).length := by
      rw [chars_bytes_append, chars_bytes_cons]
      simp only [List.length_append]
      omega
    have hpos := chars_bytes_length_pos hok
    have hsz : 0 < s3.buffer_sz := by rw [hp3.buffer_sz]; exact hpos
    have hsw : pq_scanner_switch W .S_COMMENT s3 = .next .BEGIN none (pq_scanner_skip s3 1) := by
      rw [s_comment_step, hp3.cp_nil]
      simp
    have hr4 : pq_scanner_run W 1 .S_COMMENT s3 = some (.BEGIN, s3) := by
      have h1 := hp3.beg
      have h2 := hp3.end_
      have h3 := hp3.buffer_sz
      rw [run_one W hsw, skip_at_end s3 hsz (by omega), forward_at_end s3 hsz (by omega)]
    have hr := run_add W _ _ _ _ _ _ _ _
      (run_add W _ _ _ _ _ _ _ _ (run_add W _ _ _ _ _ _ _ _ hr1 hr2) hr3) hr4
    refine ⟨s3, ?_, ?_, ?_, hp3.buffer_sz⟩
    · rw [show m + ((pre ++ p :: body).length + 2)
          = m + 1 + (1 + (body.length + (1 + pre.length))) by
        simp only [List.length_append, List.length_cons]; omega]
      exact loop_of_run_ret W _ hr (begin_nul W s3 hp3.cp_nil) m
    · have h1 := hp3.beg
      omega
    · have h2 := hp3.end_
      omega

/-! ## Errors and blank buffers of the scanner -/

/-- C16: when `pq_scanner_next_token` returns with an error, it returns no token, and the
fields `ln`, `col`, `beg` and `end` of the scanner have the values that they had at the
entry of the call, for every scanner (with whatever buffer it reads). -/
theorem C16_error_restores_position (W : WCtype) (fuel : Nat) (s : pq_scanner)
    (r : pq_scan_result) (h : pq_scanner_next_token W fuel s = some r)
    (herr : r.err.isSome = true) :
    r.tok = none ∧ r.scanner.ln = s.ln ∧ r.scanner.col = s.col ∧ r.scanner.beg = s.beg
      ∧ r.scanner.end_ = s.end_ :=
  loop_err_restores W s fuel .BEGIN s r h herr

/-- C16 (witness): the scan of `'a`, which ends in the quoted atom. -/
theorem C16_witness :
    ∃ r, pq_scanner_next_token asciiW 4 (pq_scanner_set_buffer pq_new_scanner [39, 97]) = some r
      ∧ r.err.isSome = true
      ∧ r.tok = none
      ∧ r.scanner.ln = (pq_scanner_set_buffer pq_new_scanner [39, 97]).ln
      ∧ r.scanner.col = (pq_scanner_set_buffer pq_new_scanner [39, 97]).col
      ∧ r.scanner.beg = (pq_scanner_set_buffer pq_new_scanner [39, 97]).beg
      ∧ r.scanner.end_ = (pq_scanner_set_buffer pq_new_scanner [39, 97]).end_ := by
  cases h : pq_scanner_next_token asciiW 4 (pq_scanner_set_buffer pq_new_scanner [39, 97]) with
  | none => exact absurd h (by decide!)
  | some r =>
    have he : r.err.isSome = true := by
      have h2 : (pq_scanner_next_token asciiW 4
          (pq_scanner_set_buffer pq_new_scanner [39, 97])).map (fun r => r.err.isSome)
          = some true := by decide!
      rw [h] at h2
      exact Option.some.inj h2
    exact ⟨r, rfl, he, C16_error_restores_position asciiW 4 _ r h he⟩

/-- C17: for every buffer that consists of layout characters, `%` comments (each ended by a
newline character, the last one possibly by the end of the buffer) and `/*` comments closed
by `*/` only, `pq_scanner_next_token` returns `NULL` without an error and leaves `beg` and
`end` at the size of the buffer. The buffer is given by its characters, each with the bytes
that the decoder reads as its code point. -/
theorem C17_blank_buffer_gives_none {W : WCtype} (hW : W.IsoAscii) (s0 : pq_scanner)
    (cs : List pq_char) (fuel : Nat) (hok : ∀ c ∈ cs, pq_char_ok c)
    (hb : pq_blank_buffer W cs) (hfuel : cs.length + 2 ≤ fuel) :
    ∃ s1, pq_scanner_next_token W fuel (pq_scanner_set_buffer s0 (pq_chars_bytes cs))
          = some ⟨none, none, s1⟩
      ∧ s1.beg = s1.buffer_sz ∧ s1.end_ = s1.buffer_sz
      ∧ s1.buffer_sz = (pq_chars_bytes cs).length := by
  obtain ⟨m, rfl⟩ := Nat.exists_eq_add_of_le hfuel
  obtain ⟨s1, h1, h2, h3, h4⟩ := blank_buffer_scan hW s0 hok hb m
  refine ⟨s1, ?_, by rw [h2, h4], by rw [h3, h4], h4⟩
  rw [Nat.add_comm]
  exact h1

/-- C17 (witness): the buffer ` %é` newline `/*x*/` tab `%`, where `é` takes two bytes. -/
theorem C17_witness :
    asciiW.IsoAscii
    ∧ (∀ c ∈ [(⟨32, [32]⟩ : pq_char), ⟨37, [37]⟩, ⟨233, [195, 169]⟩, ⟨10, [10]⟩, ⟨47, [47]⟩,
        ⟨42, [42]⟩, ⟨120, [120]⟩, ⟨42, [42]⟩, ⟨47, [47]⟩, ⟨9, [9]⟩, ⟨37, [37]⟩], pq_char_ok c)
    ∧ pq_blank_buffer asciiW [⟨32, [32]⟩, ⟨37, [37]⟩, ⟨233, [195, 169]⟩, ⟨10, [10]⟩, ⟨47, [47]⟩,
        ⟨42, [42]⟩, ⟨120, [120]⟩, ⟨42, [42]⟩, ⟨47, [47]⟩, ⟨9, [9]⟩, ⟨37, [37]⟩]
    ∧ ∃ s1, pq_scanner_next_token asciiW 13
          (pq_scanner_set_buffer pq_new_scanner [32, 37, 195, 169, 10, 47, 42, 120, 42, 47, 9, 37])
          = some ⟨none, none, s1⟩
      ∧ s1.beg = s1.buffer_sz ∧ s1.end_ = s1.buffer_sz ∧ s1.buffer_sz = 12 := by
  have hok : ∀ c ∈ [(⟨32, [32]⟩ : pq_char), ⟨37, [37]⟩, ⟨233, [195, 169]⟩, ⟨10, [10]⟩,
      ⟨47, [47]⟩, ⟨42, [42]⟩, ⟨120, [120]⟩, ⟨42, [42]⟩, ⟨47, [47]⟩, ⟨9, [9]⟩, ⟨37, [37]⟩],
      pq_char_ok c := by decide
  have hb : pq_blank_buffer asciiW [⟨32, [32]⟩, ⟨37, [37]⟩, ⟨233, [195, 169]⟩, ⟨10, [10]⟩,
      ⟨47, [47]⟩, ⟨42, [42]⟩, ⟨120, [120]⟩, ⟨42, [42]⟩, ⟨47, [47]⟩, ⟨9, [9]⟩, ⟨37, [37]⟩] :=
    Or.inr ⟨[⟨32, [32]⟩, ⟨37, [37]⟩, ⟨233, [195, 169]⟩, ⟨10, [10]⟩, ⟨47, [47]⟩,
        ⟨42, [42]⟩, ⟨120, [120]⟩, ⟨42, [42]⟩, ⟨47, [47]⟩, ⟨9, [9]⟩], ⟨37, [37]⟩, [], rfl,
      pq_blank_text.layout ⟨32, [32]⟩ _ (by decide)
        (pq_blank_text.line_comment ⟨37, [37]⟩ [⟨233, [195, 169]⟩] ⟨10, [10]⟩ _ rfl (by decide)
          (by decide)
          (pq_blank_text.block_comment ⟨47, [47]⟩ ⟨42, [42]⟩ [⟨120, [120]⟩] ⟨42, [42]⟩
            ⟨47, [47]⟩ _ rfl rfl (by decide) rfl rfl
            (pq_blank_text.layout ⟨9, [9]⟩ _ (by decide) pq_blank_text.nil))),
      rfl, by decide⟩
  exact ⟨asciiW_isoAscii, hok, hb,
    C17_blank_buffer_gives_none asciiW_isoAscii pq_new_scanner _ 13 hok hb (by decide)⟩

/-! ## The end of the buffer inside a quoted atom -/

/-- The scan from the opening of a `/*` comment that no `*/` closes to the end of the
buffer. -/
theorem open_comment_scan {W : WCtype} (hW : W.IsoAscii) (s0 : pq_scanner)
    {pre : List pq_char} {p1 p2 : pq_char} {body : List pq_char}
    (hpre : pq_blank_text W pre) (h1 : p1.cp = 47) (h2 : p2.cp = 42)
    (hcl : pq_comment_closes (body.map fun c => c.cp) = false)
    (hok : ∀ c ∈ pre ++ p1 :: p2 :: body, pq_char_ok c) (m : Nat) :
    ∃ s1 s2 : pq_scanner, pq_scanner_next_token W (m + ((pre ++ p1 :: p2 :: body).length + 1))
        (pq_scanner_set_buffer s0 (pq_chars_bytes (pre ++ p1 :: p2 :: body)))
      = some ⟨none,
          some (pq_scanner_error_text s1.ln s1.col (cstr "expected end of multi-line comment")),
          s2⟩ := by
  have hp0 := CharPos.of_set_buffer s0 hok
  obtain ⟨s1, hr1, hp1⟩ := blank_text_run hW hpre (p1 :: p2 :: body) 0 _ hok hp0
  have hok1 : ∀ x ∈ p1 :: p2 :: body, pq_char_ok x :=
    fun x hx => hok x (List.mem_append_right _ hx)
  obtain ⟨s2, hr2, hp2⟩ := comment_open_run W h1 h2 hok1 hp1
  obtain ⟨S3, s3, hr3, hS3, hp3⟩ := m_comment_run W [] body .M_COMMENT _ s2 (Or.inl rfl) hcl
    (by simpa using fun x hx => hok1 x (List.mem_cons_of_mem _ (List.mem_cons_of_mem _ hx)))
    (by simpa using hp2)
  obtain ⟨S4, s4, hsw⟩ := comment_eof_step W s3 hS3 hp3.cp_nil
  have hr := run_add W _ _ _ _ _ _ _ _ (run_add W _ _ _ _ _ _ _ _ hr1 hr2) hr3
  have key := loop_of_run_err W
    (pq_scanner_set_buffer s0 (pq_chars_bytes (pre ++ p1 :: p2 :: body))) hr hsw m
  rw [show m + 1 + (body.length + (2 + pre.length))
      = m + ((pre ++ p1 :: p2 :: body).length + 1) by
    simp only [List.length_append, List.length_cons]; omega] at key
  exact ⟨s3, _, key⟩

/-- C19: let a buffer hold, behind text that the scanner passes over, a `/*` and then a body
without `*/`. When the buffer ends there, `pq_scanner_next_token` returns no token and the
error with the message `expected end of multi-line comment`. When a `*/` follows the body,
the passes over the comment bring the scanner back to the state `BEGIN` with `beg` and `end`
right behind this first `*/` and with the character that follows as current character,
whatever follows, a further `*/` included: from there the call goes on as for any text. -/
theorem C19_block_comment_ends_at_first_close {W : WCtype} (hW : W.IsoAscii) (s0 : pq_scanner)
    (pre : List pq_char) (p1 p2 : pq_char) (body : List pq_char)
    (hpre : pq_blank_text W pre) (h1 : p1.cp = 47) (h2 : p2.cp = 42)
    (hcl : pq_comment_closes (body.map fun c => c.cp) = false) :
    (∀ fuel, (∀ c ∈ pre ++ p1 :: p2 :: body, pq_char_ok c) →
      (pre ++ p1 :: p2 :: body).length + 1 ≤ fuel →
      ∃ s1 s2 : pq_scanner, pq_scanner_next_token W fuel
          (pq_scanner_set_buffer s0 (pq_chars_bytes (pre ++ p1 :: p2 :: body)))
        = some ⟨none,
            some (pq_scanner_error_text s1.ln s1.col
              (cstr "expected end of multi-line comment")), s2⟩)
    ∧ (∀ (q1 q2 : pq_char) (rest : List pq_char), q1.cp = 42 → q2.cp = 47 →
      (∀ c ∈ (pre ++ p1 :: p2 :: (body ++ [q1, q2])) ++ rest, pq_char_ok c) →
      ∃ s1, pq_scanner_run W (pre ++ p1 :: p2 :: (body ++ [q1, q2])).length .BEGIN
            (pq_scanner_set_buffer s0
              (pq_chars_bytes ((pre ++ p1 :: p2 :: (body ++ [q1, q2])) ++ rest)))
          = some (.BEGIN, s1)
        ∧ s1.beg = (pq_chars_bytes (pre ++ p1 :: p2 :: (body ++ [q1, q2]))).length
        ∧ s1.end_ = (pq_chars_bytes (pre ++ p1 :: p2 :: (body ++ [q1, q2]))).length
        ∧ s1.cp = pq_chars_cp rest
        ∧ ∀ fuel, pq_scanner_next_token W
              (fuel + (pre ++ p1 :: p2 :: (body ++ [q1, q2])).length)
              (pq_scanner_set_buffer s0
                (pq_chars_bytes ((pre ++ p1 :: p2 :: (body ++ [q1, q2])) ++ rest)))
            = pq_scanner_loop W
                (pq_scanner_set_buffer s0
                  (pq_chars_bytes ((pre ++ p1 :: p2 :: (body ++ [q1, q2])) ++ rest)))
                fuel .BEGIN s1) := by
  constructor
  · intro fuel hok hfuel
    obtain ⟨m, rfl⟩ := Nat.exists_eq_add_of_le hfuel
    obtain ⟨s1, s2, h⟩ := open_comment_scan hW s0 hpre h1 h2 hcl hok m
    refine ⟨s1, s2, ?_⟩
    rw [Nat.add_comm]
    exact h
  · intro q1 q2 rest h3 h4 hok
    have hb : pq_blank_text W (pre ++ p1 :: p2 :: (body ++ [q1, q2])) :=
      blank_text_append hpre
        (pq_blank_text.block_comment p1 p2 body q1 q2 [] h1 h2 hcl h3 h4 pq_blank_text.nil)
    have hp0 := CharPos.of_set_buffer s0 hok
    obtain ⟨s1, hr, hp1⟩ := blank_text_run hW hb rest 0 _ hok hp0
    refine ⟨s1, hr, by rw [hp1.beg]; omega, by rw [hp1.end_]; omega, hp1.cp, ?_⟩
    intro fuel
    exact run_loop W _ _ _ _ _ _ fuel hr

/-- C19 (witness): the buffers `/* /* ` and `/* /* */ */`; in the second one the scanner is
behind the first `*/`, at offset 8, in front of a blank. -/
theorem C19_witness :
    asciiW.IsoAscii ∧ pq_blank_text asciiW []
    ∧ pq_comment_closes
        (([⟨32, [32]⟩, ⟨47, [47]⟩, ⟨42, [42]⟩, ⟨32, [32]⟩] : List pq_char).map fun c => c.cp)
      = false
    ∧ (∃ s1 s2 : pq_scanner, pq_scanner_next_token asciiW 7
          (pq_scanner_set_buffer pq_new_scanner [47, 42, 32, 47, 42, 32])
        = some ⟨none,
            some (pq_scanner_error_text s1.ln s1.col
              (cstr "expected end of multi-line comment")), s2⟩)
    ∧ ∃ s1, pq_scanner_run asciiW 8 .BEGIN
            (pq_scanner_set_buffer pq_new_scanner [47, 42, 32, 47, 42, 32, 42, 47, 32, 42, 47])
          = some (.BEGIN, s1)
        ∧ s1.beg = 8 ∧ s1.end_ = 8 ∧ s1.cp = 32 := by
  have h := C19_block_comment_ends_at_first_close asciiW_isoAscii pq_new_scanner []
    ⟨47, [47]⟩ ⟨42, [42]⟩ [⟨32, [32]⟩, ⟨47, [47]⟩, ⟨42, [42]⟩, ⟨32, [32]⟩] pq_blank_text.nil
    rfl rfl (by decide)
  refine ⟨asciiW_isoAscii, pq_blank_text.nil, by decide, h.1 7 (by decide) (by decide), ?_⟩
  obtain ⟨s1, hr, hb, he, hc, _⟩ := h.2 ⟨42, [42]⟩ ⟨47, [47]⟩
    [⟨32, [32]⟩, ⟨42, [42]⟩, ⟨47, [47]⟩] rfl rfl (by decide)
  exact ⟨s1, hr, hb, he, hc⟩

/-- C20 (amended): the scanner does not report bytes that the UTF-8 decoder rejects. When
the decoder rejects the first bytes of the buffer of a new scanner, `pq_scanner_next_token`
returns `NULL` without an error and leaves the scanner as it is; and every error that
`pq_scanner_next_token` stores is one of the lexical messages of `pq_scanner_messages`,
none of which is about the encoding, behind a line and a column. -/
theorem C20_rejected_bytes_are_not_reported (W : WCtype) :
    (∀ (buffer : Bytes) (fuel : Nat), pq_utf8_to_cp buffer 0 = none →
      pq_scanner_next_token W (fuel + 1) (pq_scanner_set_buffer pq_new_scanner buffer)
        = some ⟨none, none, pq_scanner_set_buffer pq_new_scanner buffer⟩)
    ∧ (∀ (fuel : Nat) (s : pq_scanner) (r : pq_scan_result) (e : Bytes),
      pq_scanner_next_token W fuel s = some r → r.err = some e →
      ∃ ln col msg, msg ∈ pq_scanner_messages ∧ e = pq_scanner_error_text ln col msg) := by
  constructor
  · intro buffer fuel h
    have hcp : (pq_scanner_set_buffer pq_new_scanner buffer).cp = 0 := by
      unfold pq_scanner_set_buffer pq_scanner_decode
      simp only [h]
      rfl
    unfold pq_scanner_next_token
    rw [loop_succ, begin_nul W _ hcp]
  · intro fuel s r e h he
    obtain ⟨n, S1, s1, S2, s2, _, _, hs⟩ := loop_err_run W s fuel .BEGIN s r e h he
    obtain ⟨msg, hm, hE⟩ := switch_err_text W hs
    exact ⟨_, _, msg, hm, hE⟩

/-- C20 (witness): the buffer of the single byte `0xFF`, and the error of the scan of `'a`. -/
theorem C20_witness :
    pq_utf8_to_cp [255] 0 = none
    ∧ pq_scanner_next_token asciiW 1 (pq_scanner_set_buffer pq_new_scanner [255])
        = some ⟨none, none, pq_scanner_set_buffer pq_new_scanner [255]⟩
    ∧ ∃ r e, pq_scanner_next_token asciiW 4 (pq_scanner_set_buffer pq_new_scanner [39, 97])
          = some r
        ∧ r.err = some e
        ∧ ∃ ln col msg, msg ∈ pq_scanner_messages ∧ e = pq_scanner_error_text ln col msg := by
  refine ⟨by decide, (C20_rejected_bytes_are_not_reported asciiW).1 [255] 0 (by decide), ?_⟩
  cases h : pq_scanner_next_token asciiW 4 (pq_scanner_set_buffer pq_new_scanner [39, 97]) with
  | none => exact absurd h (by decide!)
  | some r =>
    have h2 : (pq_scanner_next_token asciiW 4
        (pq_scanner_set_buffer pq_new_scanner [39, 97])).map (fun r => r.err.isSome)
        = some true := by decide!
    rw [h] at h2
    cases he : r.err with
    | none =>
      rw [Option.map_some', he] at h2
      cases h2
    | some e =>
      exact ⟨r, e, rfl, he, (C20_rejected_bytes_are_not_reported asciiW).2 4 _ r e h he⟩

/-! ## Errors of the parser -/

/-- C20 (counterexample): the decoder rejects the byte `0xFF`; on the buffer of this single
byte `pq_scanner_next_token` returns `NULL` without an error. On the buffer of `a` and
`0xFF` the decoder rejects the second byte, the code point stays `a`, `end` goes back by
one from there, and the loop has not returned after 64 passes. -/
theorem C20_counterexample_no_error_for_rejected_bytes :
    pq_utf8_to_cp [255] 0 = none
    ∧ (pq_scanner_next_token asciiW 8 (pq_scanner_set_buffer pq_new_scanner [255])).map
        (fun r => (r.tok, r.err)) = some (none, none)
    ∧ pq_utf8_to_cp [97, 255] 1 = none
    ∧ pq_scanner_next_token asciiW 64 (pq_scanner_set_buffer pq_new_scanner [97, 255]) = none := by
  decide!

/-- C15 (amended): every error that `pq_scanner_next_token` stores is the text
`[ln L col C] error, ` followed by a message, where `L` and `C` are the fields `ln` and
`col` of the scanner at the pass through the loop that stores the error. An error that
`pq_parser_next_token` leaves in the parser is such a text. An error that the parser sets
itself is the message alone. -/
theorem C15_scanner_error_carries_line_and_column (W : WCtype) :
    (∀ (fuel : Nat) (s : pq_scanner) (r : pq_scan_result) (e : Bytes),
      pq_scanner_next_token W fuel s = some r → r.err = some e →
      ∃ n S1 s1 msg, n < fuel ∧ pq_scanner_run W n .BEGIN s = some (S1, s1)
        ∧ (∃ S2 s2, pq_scanner_switch W S1 s1 = .next S2 (some e) s2)
        ∧ e = cstr "[ln " ++ sprintf_lu s1.ln ++ cstr " col " ++ sprintf_lu s1.col
            ++ cstr "] error, " ++ msg)
    ∧ (∀ (sf : Nat) (st st1 : pq_state) (e : Bytes),
      pq_parser_next_token W sf st = .ok () st1 → st1.parser.err = some e →
      ∃ ln col msg, e = cstr "[ln " ++ sprintf_lu ln ++ cstr " col " ++ sprintf_lu col
            ++ cstr "] error, " ++ msg)
    ∧ (∀ (st : pq_state) (msg : String), (st.set_err msg).parser.err = some (cstr msg)) := by
  have key : ∀ (fuel : Nat) (s : pq_scanner) (r : pq_scan_result) (e : Bytes),
      pq_scanner_next_token W fuel s = some r → r.err = some e →
      ∃ n S1 s1 msg, n < fuel ∧ pq_scanner_run W n .BEGIN s = some (S1, s1)
        ∧ (∃ S2 s2, pq_scanner_switch W S1 s1 = .next S2 (some e) s2)
        ∧ e = cstr "[ln " ++ sprintf_lu s1.ln ++ cstr " col " ++ sprintf_lu s1.col
            ++ cstr "] error, " ++ msg := by
    intro fuel s r e h he
    obtain ⟨n, S1, s1, S2, s2, hn, hr, hs⟩ := loop_err_run W s fuel .BEGIN s r e h he
    obtain ⟨msg, _, hE⟩ := switch_err_text W hs
    exact ⟨n, S1, s1, msg, hn, hr, ⟨S2, s2, hs⟩, hE⟩
  refine ⟨key, ?_, fun _ _ => rfl⟩
  intro sf st st1 e h he
  unfold pq_parser_next_token at h
  cases hsc : pq_scanner_next_token W sf st.parser.scanner with
  | none => rw [hsc] at h; cases h
  | some r =>
    rw [hsc] at h
    simp only [pq_res.ok.injEq, true_and] at h
    subst h
    obtain ⟨n, S1, s1, msg, _, _, _, hE⟩ := key sf _ r e hsc he
    exact ⟨s1.ln, s1.col, msg, hE⟩

/-- C15 (witness): the scan of `'a`, whose error is stored at line 1 and column 3, and the
fetch of the first token of `'a` by the parser. -/
theorem C15_witness :
    (∃ r e, pq_scanner_next_token asciiW 4 (pq_scanner_set_buffer pq_new_scanner [39, 97])
          = some r
      ∧ r.err = some e
      ∧ e = cstr "[ln 1 col 3] error, expected closing quotation"
      ∧ ∃ n S1 s1 msg, n < 4
        ∧ pq_scanner_run asciiW n .BEGIN (pq_scanner_set_buffer pq_new_scanner [39, 97])
          = some (S1, s1)
        ∧ (∃ S2 s2, pq_scanner_switch asciiW S1 s1 = .next S2 (some e) s2)
        ∧ e = cstr "[ln " ++ sprintf_lu s1.ln ++ cstr " col " ++ sprintf_lu s1.col
            ++ cstr "] error, " ++ msg)
    ∧ (∃ st1 e, pq_parser_next_token asciiW 4 (pq_state.init [39, 97]) = .ok () st1
      ∧ st1.parser.err = some e
      ∧ ∃ ln col msg, e = cstr "[ln " ++ sprintf_lu ln ++ cstr " col " ++ sprintf_lu col
            ++ cstr "] error, " ++ msg) := by
  constructor
  · cases h : pq_scanner_next_token asciiW 4 (pq_scanner_set_buffer pq_new_scanner [39, 97]) with
    | none => exact absurd h (by decide!)
    | some r =>
      have h2 : (pq_scanner_next_token asciiW 4
          (pq_scanner_set_buffer pq_new_scanner [39, 97])).map (fun r => r.err)
          = some (some (cstr "[ln 1 col 3] error, expected closing quotation")) := by decide!
      rw [h] at h2
      have he : r.err = some (cstr "[ln 1 col 3] error, expected closing quotation") :=
        Option.some.inj h2
      exact ⟨r, _, rfl, he, rfl,
        (C15_scanner_error_carries_line_and_column asciiW).1 4 _ r _ h he⟩
  · have h2 : (pq_parser_next_token asciiW 4 (pq_state.init [39, 97])).err?
        = some (some (cstr "[ln 1 col 3] error, expected closing quotation")) := by decide!
    cases h : pq_parser_next_token asciiW 4 (pq_state.init [39, 97]) with
    | fault f => rw [h] at h2; cases h2
    | ok u st1 =>
      rw [h] at h2
      have he : st1.parser.err = some (cstr "[ln 1 col 3] error, expected closing quotation") :=
        Option.some.inj h2
      exact ⟨st1, _, rfl, he,
        (C15_scanner_error_carries_line_and_column asciiW).2.1 4 _ st1 _ h he⟩

/-- C15 (counterexample): the parse of `foo(1, 2` ends with the error
`syntax error: expected a closing parenthesis`, the bare message: it does not start with the
`[` of a line and column, and no digit stands in it. -/
theorem C15_counterexample_parser_error_without_position :
    (pq_parse_buffer asciiW 16 8 (cstr "foo(1, 2")).err?
      = some (some (cstr "syntax error: expected a closing parenthesis"))
    ∧ (cstr "syntax error: expected a closing parenthesis").head? = some 115
    ∧ (∀ b ∈ cstr "syntax error: expected a closing parenthesis", ¬ (48 ≤ b ∧ b ≤ 57))
    ∧ ¬ ∃ ln col msg, cstr "syntax error: expected a closing parenthesis"
        = pq_scanner_error_text ln col msg := by
  refine ⟨by decide!, by decide!, by decide!, ?_⟩
  rintro ⟨ln, col, msg, h⟩
  have h1 := congrArg List.head? h
  have h2 : (cstr "syntax error: expected a closing parenthesis").head? = some 115 := by decide!
  have h3 : cstr "[ln " = [91, 108, 110, 32] := by decide!
  rw [h2] at h1
  unfold pq_scanner_error_text at h1
  rw [h3] at h1
  simp at h1

/-- C11 (evaluation at the failing input): the parse of `{}.` gives the atom `{}` with the
priority 0. The parse of `{a}.` ends with the error `syntax error: expected a term.` and
returns `NULL`: behind `{` the parser fetches a token twice, so the term is parsed from the
`}` on. The parse of `{a b}.` succeeds: the `a` is passed over, and the result is the
compound term `{}` whose single argument is the atom `b`. -/
theorem C11_curly_term_skips_first_token :
    (pq_parse_buffer asciiW 16 8 (cstr "\x7b\x7d.")).err? = some none
    ∧ (pq_parse_buffer asciiW 16 8 (cstr "\x7b\x7d.")).val? = some (some 0)
    ∧ (pq_parse_buffer asciiW 16 8 (cstr "\x7b\x7d.")).heap?.bind (fun h => h.node_term 0)
      = some ⟨.atom_id (cstr "\x7b\x7d"), 0, PQ_TERM_ATOM_TYPE⟩
    ∧ (pq_parse_buffer asciiW 16 8 (cstr "\x7ba\x7d.")).err?
      = some (some (cstr "syntax error: expected a term."))
    ∧ (pq_parse_buffer asciiW 16 8 (cstr "\x7ba\x7d.")).val? = some none
    ∧ (pq_parse_buffer asciiW 16 8 (cstr "\x7ba b\x7d.")).err? = some none
    ∧ (pq_parse_buffer asciiW 16 8 (cstr "\x7ba b\x7d.")).val? = some (some 1)
    ∧ (pq_parse_buffer asciiW 16 8 (cstr "\x7ba b\x7d.")).heap?.bind (fun h => h.node_term 1)
      = some ⟨.fun_data (cstr "\x7b\x7d") (some 0), 0,
          PQ_TERM_ATOM_TYPE ||| PQ_TERM_FUNCTOR_TYPE⟩
    ∧ (pq_parse_buffer asciiW 16 8 (cstr "\x7ba b\x7d.")).heap?.map
        (fun h => h.item_terms (h.list_items_by_prev 0))
      = some [some ⟨.atom_id (cstr "b"), 1201, PQ_TERM_ATOM_TYPE⟩] := by
  decide!

/-- C14 (evaluation at the failing input): in the parse of `('a` the token behind `(` is
fetched with the scanner error `expected closing quotation`, and the parse returns with the
parser message `syntax error: expected a term.` in the error field. For `foo('a` the same
scanner error is replaced by `syntax error: expected an argument`. -/
theorem C14_scanner_error_is_replaced :
    ((pq_parser_next_token asciiW 16 (pq_state.init (cstr "('a"))).bind fun _ st =>
        pq_parser_next_token asciiW 16 st).err?
      = some (some (cstr "[ln 1 col 4] error, expected closing quotation"))
    ∧ ((pq_parser_next_token asciiW 16 (pq_state.init (cstr "('a"))).bind fun _ st =>
        pq_parser_next_token asciiW 16 st).curr_tok? = some none
    ∧ (pq_parse_buffer asciiW 16 8 (cstr "('a")).err?
      = some (some (cstr "syntax error: expected a term."))
    ∧ (pq_parse_buffer asciiW 16 8 (cstr "foo('a")).err?
      = some (some (cstr "syntax error: expected an argument")) := by
  decide!

/-! ## The end token behind a term -/

/-- C13: in `pq_parse_prolog_term`, when the name of a functor and the `(` behind it are
passed, `pq_parse_prolog_arg_list` has returned without an error, and the current token is
not `)` (there may be no token left), the parse of the term returns `NULL` with the error
`syntax error: expected a closing parenthesis`; so do, for a name that is no prefix
operator, the calls of `pq_parse_prolog_term` with a priority above 0 and of
`pq_parse_prolog_text` that start at this name. -/
theorem C13_functor_needs_closing_parenthesis (W : WCtype) (sf fuel : Nat)
    (st st1 st2 st3 : pq_state) (tok : pq_tok) (atom_id : Bytes) (args : Option Ptr)
    (hcur : st.parser.curr_tok = some tok) (htag : tok.tag = .PQ_NAME_TOK)
    (hstr : tok.str = some atom_id)
    (h1 : pq_parser_next_token W sf st = .ok () st1)
    (hlpar : st1.curr_tag_is .PQ_LPAR_TOK = true)
    (h2 : pq_parser_next_token W sf st1 = .ok () st2)
    (hargs : pq_parse_prolog_arg_list W sf fuel st2 = .ok args st3)
    (herr : st3.parser.err = none) (hnot : st3.curr_tag_is .PQ_RPAR_TOK = false) :
    pq_parse_prolog_term W sf (fuel + 1) 0 st
        = .ok none (st3.set_err "syntax error: expected a closing parenthesis")
      ∧ (st3.set_err "syntax error: expected a closing parenthesis").parser.err
        = some (cstr "syntax error: expected a closing parenthesis")
      ∧ (tok.is_prefix_operator_name = some false →
        (∀ p, 0 < p → pq_parse_prolog_term W sf (fuel + 2) p st
          = .ok none (st3.set_err "syntax error: expected a closing parenthesis"))
        ∧ pq_parse_prolog_text W sf (fuel + 3) st
          = .ok none (st3.set_err "syntax error: expected a closing parenthesis")) := by
  have h0 : pq_parse_prolog_term W sf (fuel + 1) 0 st
      = .ok none (st3.set_err "syntax error: expected a closing parenthesis") := by
    rw [pq_parse_prolog_term]
    simp only [hcur, gt_iff_lt, lt_self_iff_false, if_false, htag, hstr, h1, pq_res.bind_ok,
      hlpar, if_true, h2, hargs, pq_state.has_err, herr, Option.isSome_none,
      Bool.false_eq_true, hnot, Bool.not_false]
  have hp : ∀ p, 0 < p → tok.is_prefix_operator_name = some false →
      pq_parse_prolog_term W sf (fuel + 2) p st
        = .ok none (st3.set_err "syntax error: expected a closing parenthesis") := by
    intro p hp hpre
    have hp2 : p > 0 := hp
    rw [pq_parse_prolog_term]
    simp only [hcur, hp2, if_true, hpre, h0, pq_res.bind_ok, has_err_set_err]
  refine ⟨h0, rfl, fun hpre => ⟨fun p hp0 => hp p hp0 hpre, ?_⟩⟩
  rw [pq_parse_prolog_text]
  simp only [hcur, hp 1200 (by decide) hpre, pq_res.bind_ok, has_err_set_err, if_true]

/-- C13 (witness): the clause `foo(1, 2`, where the buffer ends behind the arguments. -/
theorem C13_witness :
    ∃ (st st1 st2 st3 : pq_state) (tok : pq_tok),
      pq_parser_next_token asciiW 8 (pq_state.init (cstr "foo(1, 2")) = .ok () st
      ∧ st.parser.curr_tok = some tok ∧ tok.tag = .PQ_NAME_TOK ∧ tok.str = some (cstr "foo")
      ∧ pq_parser_next_token asciiW 8 st = .ok () st1 ∧ st1.curr_tag_is .PQ_LPAR_TOK = true
      ∧ pq_parser_next_token asciiW 8 st1 = .ok () st2
      ∧ pq_parse_prolog_arg_list asciiW 8 5 st2 = .ok (some 0) st3
      ∧ st3.parser.err = none ∧ st3.curr_tag_is .PQ_RPAR_TOK = false
      ∧ st3.parser.curr_tok = none
      ∧ pq_parse_prolog_term asciiW 8 (5 + 1) 0 st
        = .ok none (st3.set_err "syntax error: expected a closing parenthesis")
      ∧ (st3.set_err "syntax error: expected a closing parenthesis").parser.err
        = some (cstr "syntax error: expected a closing parenthesis")
      ∧ (tok.is_prefix_operator_name = some false →
        (∀ p, 0 < p → pq_parse_prolog_term asciiW 8 (5 + 2) p st
          = .ok none (st3.set_err "syntax error: expected a closing parenthesis"))
        ∧ pq_parse_prolog_text asciiW 8 (5 + 3) st
          = .ok none (st3.set_err "syntax error: expected a closing parenthesis")) := by
  have e0 : pq_parser_next_token asciiW 8 (pq_state.init (cstr "foo(1, 2"))
      = .ok () ((pq_state.init (cstr "foo(1, 2")).fetch asciiW 8) := by decide!
  have ec : ((pq_state.init (cstr "foo(1, 2")).fetch asciiW 8).parser.curr_tok
      = some (pq_new_str_token .PQ_NAME_TOK (cstr "foo") 0) := by decide!
  have e1 : pq_parser_next_token asciiW 8 ((pq_state.init (cstr "foo(1, 2")).fetch asciiW 8)
      = .ok () (((pq_state.init (cstr "foo(1, 2")).fetch asciiW 8).fetch asciiW 8) := by decide!
  have e2 : pq_parser_next_token asciiW 8
        (((pq_state.init (cstr "foo(1, 2")).fetch asciiW 8).fetch asciiW 8)
      = .ok () ((((pq_state.init (cstr "foo(1, 2")).fetch asciiW 8).fetch asciiW 8).fetch
          asciiW 8) := by decide!
  have e3 : pq_parse_prolog_arg_list asciiW 8 5
        ((((pq_state.init (cstr "foo(1, 2")).fetch asciiW 8).fetch asciiW 8).fetch asciiW 8)
      = .ok (some 0) (((pq_parse_prolog_arg_list asciiW 8 5
          ((((pq_state.init (cstr "foo(1, 2")).fetch asciiW 8).fetch asciiW 8).fetch
            asciiW 8)).state?).getD (pq_state.init [])) := by decide!
  exact ⟨_, _, _, _, _, e0, ec, rfl, rfl, e1, by decide!, e2, e3, by decide!, by decide!,
    by decide!,
    C13_functor_needs_closing_parenthesis asciiW 8 5 _ _ _ _ _ (cstr "foo") (some 0) ec rfl rfl
      e1 (by decide!) e2 e3 (by decide!) (by decide!)⟩

/-! ## The UTF-8 decoder and encoder -/

theorem non_1st_byte_iff (b : Nat) :
    pq_is_utf8_non_1st_byte b = true ↔ utf8_continuation b := by
  unfold pq_is_utf8_non_1st_byte utf8_continuation
  simp only [Bool.and_eq_true, decide_eq_true_eq]
  omega

theorem non_1st_byte_false_iff (b : Nat) :
    pq_is_utf8_non_1st_byte b = false ↔ ¬ utf8_continuation b := by
  rw [← non_1st_byte_iff]
  simp

/-- C24: at every offset of every byte sequence the decoder `pq_utf8_to_cp` succeeds exactly
when the first byte is below `0x80`, or is in `0xC0..0xDF` with one continuation byte behind
it, or in `0xE0..0xEF` with two, or in `0xF0..0xF7` with three, each continuation byte in
`0x80..0xBF`; the length it returns is then 1, 2, 3 or 4, and in every other case it returns
`-1` (the `none` of the model). Bytes behind the end of the sequence read as the NUL. -/
theorem C24_decoder_accepts_well_formed_sequences (buf : Bytes) (off : Nat) :
    (pq_utf8_to_cp buf off).map (fun r => r.2)
      = utf8_sequence_length (buf.getD off 0) (buf.getD (off + 1) 0) (buf.getD (off + 2) 0)
          (buf.getD (off + 3) 0) := by
  unfold pq_utf8_to_cp utf8_sequence_length
  simp only []
  by_cases h1 : pq_is_utf8_non_1st_byte (buf.getD (off + 1) 0) = true <;>
  by_cases h2 : pq_is_utf8_non_1st_byte (buf.getD (off + 2) 0) = true <;>
  by_cases h3 : pq_is_utf8_non_1st_byte (buf.getD (off + 3) 0) = true <;>
  (have c1 := non_1st_byte_iff (buf.getD (off + 1) 0)
   have c2 := non_1st_byte_iff (buf.getD (off + 2) 0)
   have c3 := non_1st_byte_iff (buf.getD (off + 3) 0)
   simp only [h1, h2, h3, true_iff, false_iff, Bool.false_eq_true] at c1 c2 c3
   simp only [h1, h2, h3, c1, c2, c3, Bool.not_true, Bool.not_false, Bool.or_false, Bool.or_true,
     Bool.false_eq_true, if_false, if_true, and_true, and_false, Bool.or_self]
   split_ifs <;> first | rfl | omega)

theorem shift_right_6 (x : Nat) : x >>> 6 = x / 64 := by
  rw [Nat.shiftRight_eq_div_pow]

theorem shift_right_12 (x : Nat) : x >>> 12 = x / 4096 := by
  rw [Nat.shiftRight_eq_div_pow]

theorem shift_left_6 (x : Nat) : x <<< 6 = x * 64 := by
  rw [Nat.shiftLeft_eq]

theorem shift_left_12 (x : Nat) : x <<< 12 = x * 4096 := by
  rw [Nat.shiftLeft_eq]

theorem shift_left_18 (x : Nat) : x <<< 18 = x * 262144 := by
  rw [Nat.shiftLeft_eq]

theorem cp_to_utf8_len1 {cp : Nat} (h : cp ≤ 0x7F) : pq_cp_to_utf8 cp = ([cp], 1) := by
  unfold pq_cp_to_utf8
  rw [if_pos h, Nat.mod_eq_of_lt (by omega)]

theorem cp_to_utf8_len2 {cp : Nat} (h1 : 0x7F < cp) (h2 : cp ≤ 0x7FF) :
    pq_cp_to_utf8 cp = ([cp / 64 + 0xC0, cp % 64 + 0x80], 2) := by
  unfold pq_cp_to_utf8
  simp only [shift_right_6, shift_left_6]
  rw [if_neg (by omega), if_pos h2]
  congr 2
  · omega
  · congr 1
    omega

theorem cp_to_utf8_len3 {cp : Nat} (h1 : 0x7FF < cp) (h2 : cp ≤ 0xFFFF) :
    pq_cp_to_utf8 cp = ([cp / 4096 + 0xE0, cp / 64 % 64 + 0x80, cp % 64 + 0x80], 3) := by
  unfold pq_cp_to_utf8
  simp only [shift_right_6, shift_left_6, shift_left_12]
  rw [if_neg (by omega), if_neg (by omega), if_pos h2]
  congr 2
  · omega
  · congr 1
    · omega
    · congr 1
      omega

theorem cp_to_utf8_len4 {cp : Nat} (h1 : 0xFFFF < cp) (h2 : cp ≤ 0x10FFFF) :
    pq_cp_to_utf8 cp
      = ([cp / 262144 + 0xF0, cp / 4096 % 64 + 0x80, cp / 64 % 64 + 0x80, cp % 64 + 0x80],
          4) := by
  unfold pq_cp_to_utf8
  simp only [shift_right_6, shift_left_6, shift_left_12, shift_left_18, shift_right_12]
  rw [if_neg (by omega), if_neg (by omega), if_neg (by omega), if_pos h2]
  congr 2
  · omega
  · congr 1
    · omega
    · congr 1
      · omega
      · congr 1
        omega

theorem cp_to_utf8_above {cp : Nat} (h : 0x10FFFF < cp) : pq_cp_to_utf8 cp = ([], -1) := by
  unfold pq_cp_to_utf8
  rw [if_neg (by omega), if_neg (by omega), if_neg (by omega), if_neg (by omega)]

/-- C25: the encoder `pq_cp_to_utf8` returns `-1` exactly for the code points above
`0x10FFFF`. For the others it writes 1, 2, 3 or 4 bytes (and returns that number) for the
code points up to `0x7F`, `0x7FF`, `0xFFFF` and `0x10FFFF`; the first byte is one that
`pq_is_utf8_1st_byte` accepts and every later byte is in `0x80..0xBF`. -/
theorem C25_encoder_lengths_and_byte_ranges (cp : Nat) :
    ((pq_cp_to_utf8 cp).2 = -1 ↔ 0x10FFFF < cp)
    ∧ (cp ≤ 0x7F → (pq_cp_to_utf8 cp).2 = 1 ∧ (pq_cp_to_utf8 cp).1.length = 1)
    ∧ (0x7F < cp → cp ≤ 0x7FF → (pq_cp_to_utf8 cp).2 = 2 ∧ (pq_cp_to_utf8 cp).1.length = 2)
    ∧ (0x7FF < cp → cp ≤ 0xFFFF → (pq_cp_to_utf8 cp).2 = 3 ∧ (pq_cp_to_utf8 cp).1.length = 3)
    ∧ (0xFFFF < cp → cp ≤ 0x10FFFF →
        (pq_cp_to_utf8 cp).2 = 4 ∧ (pq_cp_to_utf8 cp).1.length = 4)
    ∧ (cp ≤ 0x10FFFF → ∃ b0 rest, (pq_cp_to_utf8 cp).1 = b0 :: rest
        ∧ pq_is_utf8_1st_byte b0 = true ∧ ∀ b ∈ rest, utf8_continuation b) := by
  have first : ∀ b, (b ≤ 0x7F ∨ (0xC0 ≤ b ∧ b ≤ 0xF7)) → pq_is_utf8_1st_byte b = true := by
    intro b hb
    unfold pq_is_utf8_1st_byte
    simp only [Bool.or_eq_true, decide_eq_true_eq, Bool.and_eq_true]
    exact hb
  refine ⟨?_, fun h => by rw [cp_to_utf8_len1 h]; exact ⟨rfl, rfl⟩,
    fun h1 h2 => by rw [cp_to_utf8_len2 h1 h2]; exact ⟨rfl, rfl⟩,
    fun h1 h2 => by rw [cp_to_utf8_len3 h1 h2]; exact ⟨rfl, rfl⟩,
    fun h1 h2 => by rw [cp_to_utf8_len4 h1 h2]; exact ⟨rfl, rfl⟩, ?_⟩
  · constructor
    · intro h
      by_contra hc
      by_cases h1 : cp ≤ 0x7F
      · rw [cp_to_utf8_len1 h1] at h; cases h
      by_cases h2 : cp ≤ 0x7FF
      · rw [cp_to_utf8_len2 (by omega) h2] at h; cases h
      by_cases h3 : cp ≤ 0xFFFF
      · rw [cp_to_utf8_len3 (by omega) h3] at h; cases h
      · rw [cp_to_utf8_len4 (by omega) (by omega)] at h; cases h
    · intro h
      rw [cp_to_utf8_above h]
  · intro h
    unfold utf8_continuation
    by_cases h1 : cp ≤ 0x7F
    · rw [cp_to_utf8_len1 h1]
      exact ⟨_, _, rfl, first _ (by omega), by simp⟩
    by_cases h2 : cp ≤ 0x7FF
    · rw [cp_to_utf8_len2 (by omega) h2]
      refine ⟨_, _, rfl, first _ (by omega), fun b hb => ?_⟩
      simp only [List.mem_singleton] at hb
      omega
    by_cases h3 : cp ≤ 0xFFFF
    · rw [cp_to_utf8_len3 (by omega) h3]
      refine ⟨_, _, rfl, first _ (by omega), fun b hb => ?_⟩
      simp only [List.mem_cons, List.mem_singleton, List.not_mem_nil, or_false] at hb
      omega
    · rw [cp_to_utf8_len4 (by omega) h]
      refine ⟨_, _, rfl, first _ (by omega), fun b hb => ?_⟩
      simp only [List.mem_cons, List.mem_singleton, List.not_mem_nil, or_false] at hb
      omega

/-- C25 (witness): the code point `0x20AC` takes three bytes, and `0x110000` is rejected. -/
theorem C25_witness :
    ((0x7FF : Nat) < 0x20AC ∧ (0x20AC : Nat) ≤ 0xFFFF)
    ∧ ((pq_cp_to_utf8 0x20AC).2 = 3 ∧ (pq_cp_to_utf8 0x20AC).1.length = 3)
    ∧ (pq_cp_to_utf8 0x110000).2 = -1 :=
  ⟨by decide, (C25_encoder_lengths_and_byte_ranges 0x20AC).2.2.2.1 (by decide) (by decide),
    (C25_encoder_lengths_and_byte_ranges 0x110000).1.mpr (by decide)⟩

/-- C26 (evaluation at the failing input): the decoder returns the length 4 and the value
`0x110000` for the bytes `F4 90 80 80`, a value for which the encoder returns `-1`; it
returns `0x1FFFFF` for `F7 BF BF BF` and the surrogate `0xD800` for `ED A0 80`. -/
theorem C26_decoder_returns_invalid_code_points :
    pq_utf8_to_cp [0xF4, 0x90, 0x80, 0x80] 0 = some (0x110000, 4)
    ∧ (pq_cp_to_utf8 0x110000).2 = -1
    ∧ pq_utf8_to_cp [0xF7, 0xBF, 0xBF, 0xBF] 0 = some (0x1FFFFF, 4)
    ∧ pq_utf8_to_cp [0xED, 0xA0, 0x80] 0 = some (0xD800, 3) := by
  decide

theorem decode_len1 (a : Nat) (post : Bytes) (ha : a < 0x80) :
    pq_utf8_to_cp (a :: post) 0 = some (a, 1) := by
  unfold pq_utf8_to_cp
  simp only [List.getD_cons_zero]
  rw [if_pos ha]

theorem decode_len2 (a b : Nat) (post : Bytes) (ha1 : 0xC0 ≤ a) (ha2 : a < 0xE0)
    (hb : utf8_continuation b) :
    pq_utf8_to_cp (a :: b :: post) 0 = some ((a - 0xC0) * 64 + (b - 0x80), 2) := by
  have h1 : (a :: b :: post).getD 1 0 = b := rfl
  unfold pq_utf8_to_cp
  simp only [Nat.zero_add, List.getD_cons_zero, h1, (non_1st_byte_iff b).mpr hb, shift_left_6]
  rw [if_neg (by omega), if_pos (by omega), if_pos (by omega)]
  rfl

theorem decode_len3 (a b c : Nat) (post : Bytes) (ha1 : 0xE0 ≤ a) (ha2 : a < 0xF0)
    (hb : utf8_continuation b) (hc : utf8_continuation c) :
    pq_utf8_to_cp (a :: b :: c :: post) 0
      = some ((a - 0xE0) * 4096 + (b - 0x80) * 64 + (c - 0x80), 3) := by
  have h1 : (a :: b :: c :: post).getD 1 0 = b := rfl
  have h2 : (a :: b :: c :: post).getD 2 0 = c := rfl
  unfold pq_utf8_to_cp
  simp only [Nat.zero_add, List.getD_cons_zero, h1, h2, (non_1st_byte_iff b).mpr hb,
    (non_1st_byte_iff c).mpr hc, shift_left_6, shift_left_12]
  rw [if_neg (by omega), if_pos (by omega), if_neg (by omega), if_pos (by omega)]
  rfl

theorem decode_len4 (a b c d : Nat) (post : Bytes) (ha1 : 0xF0 ≤ a) (ha2 : a < 0xF8)
    (hb : utf8_continuation b) (hc : utf8_continuation c) (hd : utf8_continuation d) :
    pq_utf8_to_cp (a :: b :: c :: d :: post) 0
      = some ((a - 0xF0) * 262144 + (b - 0x80) * 4096 + (c - 0x80) * 64 + (d - 0x80), 4) := by
  have h1 : (a :: b :: c :: d :: post).getD 1 0 = b := rfl
  have h2 : (a :: b :: c :: d :: post).getD 2 0 = c := rfl
  have h3 : (a :: b :: c :: d :: post).getD 3 0 = d := rfl
  unfold pq_utf8_to_cp
  simp only [Nat.zero_add, List.getD_cons_zero, h1, h2, h3, (non_1st_byte_iff b).mpr hb,
    (non_1st_byte_iff c).mpr hc, (non_1st_byte_iff d).mpr hd, shift_left_6, shift_left_12,
    shift_left_18]
  rw [if_neg (by omega), if_pos (by omega), if_neg (by omega), if_neg (by omega),
    if_pos (by omega)]
  rfl

/-- C27: for every code point up to `0x10FFFF`, the decoder reads the bytes that the encoder
writes (whatever follows them) as that code point, and returns the length that the encoder
returned. -/
theorem C27_decode_of_encode (cp : Nat) (h : cp ≤ 0x10FFFF) (post : Bytes) :
    ∃ n : Nat, pq_utf8_to_cp ((pq_cp_to_utf8 cp).1 ++ post) 0 = some (cp, n)
      ∧ (pq_cp_to_utf8 cp).2 = (n : Int) ∧ (pq_cp_to_utf8 cp).1.length = n := by
  have cont : ∀ x, x < 64 → utf8_continuation (x + 0x80) := by
    intro x hx
    unfold utf8_continuation
    omega
  by_cases h1 : cp ≤ 0x7F
  · rw [cp_to_utf8_len1 h1]
    exact ⟨1, decode_len1 cp post (by omega), rfl, rfl⟩
  by_cases h2 : cp ≤ 0x7FF
  · rw [cp_to_utf8_len2 (by omega) h2]
    refine ⟨2, ?_, rfl, rfl⟩
    have := decode_len2 (cp / 64 + 0xC0) (cp % 64 + 0x80) post (by omega) (by omega)
      (cont _ (Nat.mod_lt cp (by decide)))
    rw [show (cp / 64 + 0xC0 - 0xC0) * 64 + (cp % 64 + 0x80 - 0x80) = cp by omega] at this
    exact this
  by_cases h3 : cp ≤ 0xFFFF
  · rw [cp_to_utf8_len3 (by omega) h3]
    refine ⟨3, ?_, rfl, rfl⟩
    have := decode_len3 (cp / 4096 + 0xE0) (cp / 64 % 64 + 0x80) (cp % 64 + 0x80) post
      (by omega) (by omega) (cont _ (Nat.mod_lt _ (by decide)))
      (cont _ (Nat.mod_lt cp (by decide)))
    rw [show (cp / 4096 + 0xE0 - 0xE0) * 4096 + (cp / 64 % 64 + 0x80 - 0x80) * 64
        + (cp % 64 + 0x80 - 0x80) = cp by omega] at this
    exact this
  · rw [cp_to_utf8_len4 (by omega) h]
    refine ⟨4, ?_, rfl, rfl⟩
    have := decode_len4 (cp / 262144 + 0xF0) (cp / 4096 % 64 + 0x80) (cp / 64 % 64 + 0x80)
      (cp % 64 + 0x80) post (by omega) (by omega) (cont _ (Nat.mod_lt _ (by decide)))
      (cont _ (Nat.mod_lt _ (by decide))) (cont _ (Nat.mod_lt cp (by decide)))
    rw [show (cp / 262144 + 0xF0 - 0xF0) * 262144 + (cp / 4096 % 64 + 0x80 - 0x80) * 4096
        + (cp / 64 % 64 + 0x80 - 0x80) * 64 + (cp % 64 + 0x80 - 0x80) = cp by omega] at this
    exact this

/-- C27 (witness): the code point `0x20AC` of the euro sign. -/
theorem C27_witness :
    (0x20AC : Nat) ≤ 0x10FFFF
    ∧ (pq_cp_to_utf8 0x20AC).1 = [0xE2, 0x82, 0xAC]
    ∧ ∃ n : Nat, pq_utf8_to_cp ((pq_cp_to_utf8 0x20AC).1 ++ [0x41]) 0 = some (0x20AC, n)
      ∧ (pq_cp_to_utf8 0x20AC).2 = (n : Int) ∧ (pq_cp_to_utf8 0x20AC).1.length = n :=
  ⟨by decide, by decide, C27_decode_of_encode 0x20AC (by decide) [0x41]⟩

/-! ## The table of the built-in operators -/

/-- C28 (amended): for every specifier and every name other than `=..` and `==..`,
`pq_syntax_name_is_spec_operator` is true exactly when the name is listed under the specifier
in `pq_operator_table`: `;` is an operator under `xfy` and not under `xfx`, and no name is an
`xf` or `yf` operator. -/
theorem C28_operator_table_without_univ (name : Bytes) (spec : pq_op_specifier)
    (h : name ≠ cstr "=.." ∧ name ≠ cstr "==..") :
    pq_syntax_name_is_spec_operator name spec = true
      ↔ name ∈ (pq_operator_table spec).map cstr := by
  cases spec <;>
    simp only [pq_syntax_name_is_spec_operator, pq_operator_table, List.map_cons, List.map_nil,
      List.mem_cons, List.not_mem_nil, or_false, Bool.or_eq_true, decide_eq_true_eq, h.2,
      Bool.false_eq_true, iff_self, or_assoc]

/-- C28 (witness): `is` is an operator under `xfx` and not under `yfx`. -/
theorem C28_witness :
    cstr "is" ≠ cstr "=.." ∧ cstr "is" ≠ cstr "==.."
    ∧ (pq_syntax_name_is_spec_operator (cstr "is") .PQ_OP_XFX = true
      ↔ cstr "is" ∈ (pq_operator_table .PQ_OP_XFX).map cstr)
    ∧ pq_syntax_name_is_spec_operator (cstr "is") .PQ_OP_XFX = true
    ∧ pq_syntax_name_is_spec_operator (cstr "is") .PQ_OP_YFX = false :=
  ⟨by decide, by decide,
    C28_operator_table_without_univ (cstr "is") .PQ_OP_XFX ⟨by decide, by decide⟩,
    by decide, by decide⟩

/-- C28 (counterexample): `;` is not an operator under `xfx`; it is one under `xfy`. The name
`=..` is no operator under `xfx` either, where the code compares with `==..`. -/
theorem C28_counterexample_semicolon_is_not_xfx :
    pq_syntax_name_is_spec_operator (cstr ";") .PQ_OP_XFX = false
    ∧ pq_syntax_name_is_spec_operator (cstr ";") .PQ_OP_XFY = true
    ∧ pq_syntax_name_is_spec_operator (cstr "=..") .PQ_OP_XFX = false
    ∧ pq_syntax_name_is_spec_operator (cstr "==..") .PQ_OP_XFX = true := by
  decide

/-! ## A name as an argument -/

set_option maxHeartbeats 4000000 in
/-- A token that a pass through the switch returns holds a string, unless it is an integer or
a float token. -/
theorem switch_ret_str (W : WCtype) {S : pq_scanner_state} {s s2 : pq_scanner} {tok : pq_tok}
    (h : pq_scanner_switch W S s = .ret (some tok) s2) :
    tok.str.isSome = true ∨ tok.tag = .PQ_INT_TOK ∨ tok.tag = .PQ_FLT_TOK := by
  cases S <;>
    (unfold pq_scanner_switch at h
     simp only [pq_scan_emit_lexeme, pq_scan_emit_literal, pq_scan_end_escape] at h) <;>
    repeat' first
      | (simp only [reduceCtorEq] at h
         done)
      | (simp only [pq_scan_step.ret.injEq, reduceCtorEq, false_and] at h
         done)
      | (simp only [pq_scan_step.ret.injEq, Option.some.injEq] at h
         rw [← h.1]
         first
           | exact Or.inl rfl
           | exact Or.inr (Or.inl rfl)
           | exact Or.inr (Or.inr rfl))
      | (revert h; refine ite_step_cases (fun _ h => ?_) (fun _ h => ?_))

theorem loop_tok_str (W : WCtype) (entry : pq_scanner) :
    ∀ (fuel : Nat) (S : pq_scanner_state) (s : pq_scanner) (r : pq_scan_result) (tok : pq_tok),
      pq_scanner_loop W entry fuel S s = some r → r.tok = some tok →
      tok.str.isSome = true ∨ tok.tag = .PQ_INT_TOK ∨ tok.tag = .PQ_FLT_TOK
  | 0, S, s, r, tok, h, _ => by simp [pq_scanner_loop] at h
  | fuel + 1, S, s, r, tok, h, ht => by
    rw [loop_succ] at h
    cases hsw : pq_scanner_switch W S s with
    | ret t sc =>
      rw [hsw] at h
      simp only [Option.some.injEq] at h
      subst h
      simp only at ht
      subst ht
      exact switch_ret_str W hsw
    | next st err sc =>
      rw [hsw] at h
      cases err with
      | some e1 =>
        simp only [Option.some.injEq] at h
        subst h
        cases ht
      | none => exact loop_tok_str W entry fuel st _ r tok h ht

/-- A NAME token that the parser fetches holds its text. -/
theorem fetched_name_str (W : WCtype) (sf : Nat) (st st1 : pq_state) (tok : pq_tok)
    (h : pq_parser_next_token W sf st = .ok () st1) (hc : st1.parser.curr_tok = some tok)
    (ht : tok.tag = .PQ_NAME_TOK) : tok.str.isSome = true := by
  unfold pq_parser_next_token at h
  cases hsc : pq_scanner_next_token W sf st.parser.scanner with
  | none => rw [hsc] at h; cases h
  | some r =>
    rw [hsc] at h
    simp only [pq_res.ok.injEq, true_and] at h
    subst h
    rcases loop_tok_str W _ sf .BEGIN _ r tok hsc hc with h1 | h1 | h1
    · exact h1
    · rw [ht] at h1; cases h1
    · rw [ht] at h1; cases h1

/-- C30: when the current token is a NAME with the text `atom_id`, operator or not,
`pq_parse_prolog_arg` fetches one token and returns a new atom term with the name `atom_id`
and the priority 1201; the parser is left as that one fetch leaves it and the heap has the
new term and no other change. Every NAME token that the parser fetches from the scanner
holds its text. So in `f(g(1)).` the argument is the atom `g` alone: the argument list holds
this one term, the `(` behind `g` is the current token when the list is done, and the parse
ends with `syntax error: expected a closing parenthesis`. -/
theorem C30_name_argument_is_one_atom (W : WCtype) (sf : Nat) :
    (∀ (fuel : Nat) (st st1 : pq_state) (tok : pq_tok) (atom_id : Bytes),
      st.parser.curr_tok = some tok → tok.tag = .PQ_NAME_TOK → tok.str = some atom_id →
      pq_parser_next_token W sf st = .ok () st1 →
      pq_parse_prolog_arg W sf (fuel + 1) st
          = .ok (some st.heap.terms.length)
              ⟨st1.parser, { st.heap with
                terms := st.heap.terms ++ [⟨.atom_id atom_id, 1201, PQ_TERM_ATOM_TYPE⟩] }⟩
        ∧ st1.heap = st.heap)
    ∧ (∀ (st st1 : pq_state) (tok : pq_tok),
      pq_parser_next_token W sf st = .ok () st1 → st1.parser.curr_tok = some tok →
      tok.tag = .PQ_NAME_TOK → ∃ atom_id, tok.str = some atom_id)
    ∧ (pq_parse_buffer asciiW 16 8 (cstr "f(g(1)).")).err?
        = some (some (cstr "syntax error: expected a closing parenthesis"))
    ∧ (pq_parse_buffer asciiW 16 8 (cstr "f(g(1)).")).heap?.map
          (fun h => (h.terms, h.lists.map (fun l => l.size)))
        = some ([⟨.atom_id (cstr "g"), 1201, PQ_TERM_ATOM_TYPE⟩], [1])
    ∧ (pq_parse_buffer asciiW 16 8 (cstr "f(g(1)).")).curr_tok?
        = some (some (pq_new_str_literal_token .PQ_LPAR_TOK [40] 0)) := by
  refine ⟨?_, ?_, by decide!, by decide!, by decide!⟩
  · intro fuel st st1 tok atom_id hcur htag hstr hnext
    have hheap : st1.heap = st.heap := by
      unfold pq_parser_next_token at hnext
      cases hsc : pq_scanner_next_token W sf st.parser.scanner with
      | none => rw [hsc] at hnext; cases hnext
      | some r =>
        rw [hsc] at hnext
        simp only [pq_res.ok.injEq, true_and] at hnext
        rw [← hnext]
    refine ⟨?_, hheap⟩
    rw [pq_parse_prolog_arg]
    simp only [hcur, htag, hstr, Option.isSome_some, and_self, if_true, hnext, pq_res.bind_ok,
      pq_state.alloc, pq_new_atom_term, pq_heap.new_term, hheap]
  · intro st st1 tok hnext hcur htag
    have h := fetched_name_str W sf st st1 tok hnext hcur htag
    cases hs : tok.str with
    | none => rw [hs] at h; cases h
    | some a => exact ⟨a, rfl⟩

/-- C30 (witness): the argument parser at the `+` of `+(1)` returns the atom `+` and leaves
the `(` as the current token. -/
theorem C30_witness :
    ∃ (st st1 : pq_state) (tok : pq_tok),
      pq_parser_next_token asciiW 8 (pq_state.init (cstr "+(1)")) = .ok () st
      ∧ st.parser.curr_tok = some tok ∧ tok.tag = .PQ_NAME_TOK ∧ tok.str = some (cstr "+")
      ∧ pq_parser_next_token asciiW 8 st = .ok () st1
      ∧ st1.parser.curr_tok = some (pq_new_str_literal_token .PQ_LPAR_TOK [40] 0)
      ∧ st.heap = pq_heap.empty
      ∧ pq_parse_prolog_arg asciiW 8 (0 + 1) st
          = .ok (some st.heap.terms.length)
              ⟨st1.parser, { st.heap with
                terms := st.heap.terms ++ [⟨.atom_id (cstr "+"), 1201, PQ_TERM_ATOM_TYPE⟩] }⟩
      ∧ st1.heap = st.heap := by
  have e0 : pq_parser_next_token asciiW 8 (pq_state.init (cstr "+(1)"))
      = .ok () ((pq_state.init (cstr "+(1)")).fetch asciiW 8) := by decide!
  have ec : ((pq_state.init (cstr "+(1)")).fetch asciiW 8).parser.curr_tok
      = some (pq_new_str_token .PQ_NAME_TOK (cstr "+") 0) := by decide!
  have e1 : pq_parser_next_token asciiW 8 ((pq_state.init (cstr "+(1)")).fetch asciiW 8)
      = .ok () (((pq_state.init (cstr "+(1)")).fetch asciiW 8).fetch asciiW 8) := by decide!
  exact ⟨_, _, _, e0, ec, rfl, rfl, e1, by decide!, by decide!,
    (C30_name_argument_is_one_atom asciiW 8).1 0 _ _ _ (cstr "+") ec rfl rfl e1⟩

/-! ## Literals whose continuation fails -/

theorem rewind_loop_ascii (buf : Bytes) (h : IsAscii buf) :
    ∀ (n : Nat) (s : pq_scanner), s.buffer = buf → n ≤ s.end_ →
      (pq_scanner_rewind_loop s n).buffer = buf
      ∧ (pq_scanner_rewind_loop s n).buffer_sz = s.buffer_sz
      ∧ (pq_scanner_rewind_loop s n).beg = s.beg
      ∧ (pq_scanner_rewind_loop s n).end_ = s.end_ - n
  | 0, s, hb, _ => ⟨hb, rfl, rfl, rfl⟩
  | n + 1, s, hb, hn => by
    rw [pq_scanner_rewind_loop, if_pos (by omega)]
    obtain ⟨e, he⟩ : ∃ e, s.end_ = e + 1 := ⟨s.end_ - 1, by omega⟩
    have hre : pq_scanner_rewind_end s.buffer s.end_ = e := by
      rw [he, hb, rewind_end_ascii h]
    by_cases h10 : s.cp = 10
    · rw [if_pos h10]
      simp only [hre]
      obtain ⟨k1, k2, k3, k4⟩ := rewind_loop_ascii buf h n
        { s with ln := size_dec s.ln, end_ := e, col := size_dec s.col } hb
        (by simp only []; omega)
      exact ⟨k1, k2, k3, by rw [k4]; simp only []; omega⟩
    · rw [if_neg h10]
      simp only [hre]
      obtain ⟨k1, k2, k3, k4⟩ := rewind_loop_ascii buf h n
        { s with end_ := e, col := size_dec s.col } hb (by simp only []; omega)
      exact ⟨k1, k2, k3, by rw [k4]; simp only []; omega⟩

/-- Giving back `n` characters of an ASCII buffer. -/
theorem ScanPos.give_back {buf : Bytes} {b e : Nat} {s : pq_scanner} (h : IsAscii buf)
    (hp : ScanPos buf b e s) {n : Nat} (hn : n ≤ e) :
    ScanPos buf b (e - n) (pq_scanner_rewind s n) := by
  unfold pq_scanner_rewind
  by_cases h0 : n > 0
  · rw [if_pos h0]
    obtain ⟨k1, k2, k3, k4⟩ := rewind_loop_ascii buf h n s hp.buffer (by rw [hp.end_]; exact hn)
    unfold pq_scanner_decode
    rw [k1, h.decode, k4, hp.end_]
    simp only []
    exact ⟨rfl, by rw [← hp.buffer_sz, ← k2], by rw [← hp.beg, ← k3], rfl, rfl, rfl⟩
  · rw [if_neg h0]
    have : n = 0 := by omega
    subst this
    exact hp

/-- The start of the next lexeme behind the current character of an ASCII buffer. -/
theorem ScanPos.to_next_lexeme {buf : Bytes} {b e : Nat} {s : pq_scanner} (h : IsAscii buf)
    (hp : ScanPos buf b e s) (he : e < buf.length) :
    ScanPos buf (e + 1) (e + 1) (pq_scanner_next_lexeme s) := by
  rw [Poqer.next_lexeme_ascii s (by rw [hp.buffer]; exact h) (by rw [hp.end_, hp.buffer_sz]; exact he)
    hp.cp_bytes]
  exact ⟨hp.buffer, hp.buffer_sz, by simp [hp.end_], by simp [hp.end_],
    by simp [hp.end_, hp.buffer], rfl⟩

theorem ScanPos.lexeme_eq {buf : Bytes} {b e : Nat} {s : pq_scanner} (h : IsAscii buf)
    (hp : ScanPos buf b e s) (hbe : b ≤ e) :
    pq_scanner_get_lexeme s = (buf.drop b).take (e - b + 1) := by
  rw [Poqer.get_lexeme_ascii s (by rw [hp.buffer]; exact h) (by rw [hp.beg, hp.end_]; exact hbe)
    hp.cp_bytes, hp.buffer, hp.beg, hp.end_]

/-- The end of a token that gives back `n` characters and takes the lexeme. -/
theorem emit_lexeme_back {buf : Bytes} {b e : Nat} {s : pq_scanner} (h : IsAscii buf)
    (hp : ScanPos buf b e s) (mk : Bytes → pq_tok) {n : Nat} (hn : n ≤ e) (hb : b + n ≤ e)
    (he : e < buf.length + n) :
    ∃ s', pq_scan_emit_lexeme s n mk = .ret (some (mk ((buf.drop b).take (e - n - b + 1)))) s'
      ∧ ScanPos buf (e - n + 1) (e - n + 1) s' := by
  have p1 := hp.give_back h hn
  unfold pq_scan_emit_lexeme
  simp only []
  rw [p1.lexeme_eq h (by omega)]
  exact ⟨_, rfl, p1.to_next_lexeme h (by omega)⟩

/-- The end of a token that gives back `n` characters and returns a literal. -/
theorem emit_literal_back {buf : Bytes} {b e : Nat} {s : pq_scanner} (h : IsAscii buf)
    (hp : ScanPos buf b e s) (tok : pq_tok) {n : Nat} (hn : n ≤ e) (he : e < buf.length + n) :
    ∃ s', pq_scan_emit_literal s n tok = .ret (some tok) s'
      ∧ ScanPos buf (e - n + 1) (e - n + 1) s' := by
  have p1 := hp.give_back h hn
  unfold pq_scan_emit_literal
  exact ⟨_, rfl, p1.to_next_lexeme h (by omega)⟩

/-- One pass over a character of an ASCII buffer that the switch keeps. -/
theorem run_keep_ascii (W : WCtype) {S S1 : pq_scanner_state} {buf : Bytes} {b e : Nat}
    {s : pq_scanner} (h : IsAscii buf) (hp : ScanPos buf b e s) (he : e < buf.length)
    (hsw : pq_scanner_switch W S s = .next S1 none s) :
    pq_scanner_run W 1 S s = some (S1, pq_scanner_forward s 1)
      ∧ ScanPos buf b (e + 1) (pq_scanner_forward s 1) :=
  ⟨run_one W hsw, ScanPos.forward h hp he⟩

/-- The passes over a run of characters on which the state `S` stays. -/
theorem run_class_ascii (W : WCtype) (S : pq_scanner_state) (P : Nat → Bool)
    (hstep : ∀ s : pq_scanner, P s.cp = true → pq_scanner_switch W S s = .next S none s)
    {buf : Bytes} (h : IsAscii buf) (b : Nat) :
    ∀ (r : Bytes) (e : Nat) (s : pq_scanner) (rest : Bytes), ScanPos buf b e s →
      buf.drop e = r ++ rest → (∀ c ∈ r, P c = true) →
      ∃ s', pq_scanner_run W r.length S s = some (S, s') ∧ ScanPos buf b (e + r.length) s'
  | [], e, s, rest, hp, _, _ => ⟨s, rfl, hp⟩
  | c :: r, e, s, rest, hp, hd, hP => by
    rw [List.cons_append] at hd
    obtain ⟨hc, hlt, hd1⟩ := drop_eq_cons_getD hd
    have hcp : s.cp = c := by rw [hp.cp, hc]
    obtain ⟨hr1, p1⟩ := run_keep_ascii W h hp hlt
      (hstep s (by rw [hcp]; exact hP c (List.mem_cons_self _ _)))
    obtain ⟨s2, hr2, p2⟩ := run_class_ascii W S P hstep h b r (e + 1) _ rest p1 hd1
      (fun x hx => hP x (List.mem_cons_of_mem _ hx))
    refine ⟨s2, run_add W 1 r.length _ _ _ _ _ _ hr1 hr2, ?_⟩
    rw [List.length_cons, show e + (r.length + 1) = e + 1 + r.length by omega]
    exact p2

theorem getD_eq_headD_drop (buf : Bytes) (e : Nat) : buf.getD e 0 = (buf.drop e).headD 0 := by
  by_cases h : e < buf.length
  · rw [List.drop_eq_getElem_cons h, List.getD_eq_getElem _ _ h]
    rfl
  · rw [List.drop_eq_nil_of_le (by omega), List.getD_eq_default _ _ (by omega)]
    rfl

theorem drop_append_length {buf r rest : Bytes} {e : Nat} (hd : buf.drop e = r ++ rest) :
    buf.drop (e + r.length) = rest ∧ (r ≠ [] → e + r.length ≤ buf.length) := by
  constructor
  · rw [← List.drop_drop, hd, List.drop_left]
  · intro hr
    have h := congrArg List.length hd
    have hpos : 0 < r.length := List.length_pos.mpr hr
    simp only [List.length_drop, List.length_append] at h
    omega

theorem pot_rad_bin (W : WCtype) (s : pq_scanner) (h : s.cp = 98) :
    pq_scanner_switch W .POT_RAD_INT s = .next .POT_BIN_INT none s := by
  simp [pq_scanner_switch, h]

theorem pot_rad_oct (W : WCtype) (s : pq_scanner) (h : s.cp = 111) :
    pq_scanner_switch W .POT_RAD_INT s = .next .POT_OCT_INT none s := by
  simp [pq_scanner_switch, h]

theorem pot_rad_hex (W : WCtype) (s : pq_scanner) (h : s.cp = 120) :
    pq_scanner_switch W .POT_RAD_INT s = .next .POT_HEX_INT none s := by
  simp [pq_scanner_switch, h]

theorem pot_bin_stop (W : WCtype) (s : pq_scanner) (h : pq_is_unicode_bin_char s.cp = false) :
    pq_scanner_switch W .POT_BIN_INT s
      = pq_scan_emit_literal s 2 (pq_new_int_token .PQ_INT_TOK 0 0) := by
  simp [pq_scanner_switch, h]

theorem pot_oct_stop (W : WCtype) (s : pq_scanner) (h : pq_is_unicode_oct_char s.cp = false) :
    pq_scanner_switch W .POT_OCT_INT s
      = pq_scan_emit_literal s 2 (pq_new_int_token .PQ_INT_TOK 0 0) := by
  simp [pq_scanner_switch, h]

theorem pot_hex_stop (W : WCtype) (s : pq_scanner) (h : pq_is_unicode_hex_char s.cp = false) :
    pq_scanner_switch W .POT_HEX_INT s
      = pq_scan_emit_literal s 2 (pq_new_int_token .PQ_INT_TOK 0 0) := by
  simp [pq_scanner_switch, h]

/-- The scan of `0` and a radix letter that no digit of the radix follows. -/
theorem radix_without_digit (W : WCtype) {buf : Bytes} {k : Nat} {s : pq_scanner} {L : Nat}
    {rest : Bytes} (h : IsAscii buf) (hp : ScanPos buf k k s)
    (hd : buf.drop k = 48 :: L :: rest) (S : pq_scanner_state)
    (hrad : ∀ s : pq_scanner, s.cp = L → pq_scanner_switch W .POT_RAD_INT s = .next S none s)
    (hstop : ∀ s : pq_scanner, s.cp = rest.headD 0 →
      pq_scanner_switch W S s = pq_scan_emit_literal s 2 (pq_new_int_token .PQ_INT_TOK 0 0))
    (m : Nat) :
    ∃ s', pq_scanner_next_token W (m + 3) s
        = some ⟨some (pq_new_int_token .PQ_INT_TOK 0 0), none, s'⟩
      ∧ ScanPos buf (k + 1) (k + 1) s' := by
  obtain ⟨hc0, hlt0, hd1⟩ := drop_eq_cons_getD hd
  obtain ⟨hc1, hlt1, hd2⟩ := drop_eq_cons_getD hd1
  obtain ⟨hr1, p1⟩ := run_keep_ascii W h hp hlt0 (begin_zero W s (by rw [hp.cp, hc0]))
  obtain ⟨hr2, p2⟩ := run_keep_ascii W h p1 hlt1 (hrad _ (by rw [p1.cp, hc1]))
  have hcp2 : (pq_scanner_forward (pq_scanner_forward s 1) 1).cp = rest.headD 0 := by
    rw [p2.cp, getD_eq_headD_drop, hd2]
  obtain ⟨s', hs', p3⟩ := emit_literal_back h p2 (pq_new_int_token .PQ_INT_TOK 0 0)
    (by omega : 2 ≤ k + 1 + 1) (by omega)
  refine ⟨s', ?_, by simpa using p3⟩
  have hr := run_add W 1 1 _ _ _ _ _ _ hr1 hr2
  have key := loop_of_run_ret W s hr ((hstop _ hcp2).trans hs') m
  unfold pq_scanner_next_token
  exact key

theorem pot_rad_period (W : WCtype) (s : pq_scanner) (h : s.cp = 46) :
    pq_scanner_switch W .POT_RAD_INT s = .next .POT_FLOAT_FRAC none s := by
  simp [pq_scanner_switch, h, pq_is_unicode_dec_char]

theorem pot_dec_period (W : WCtype) (s : pq_scanner) (h : s.cp = 46) :
    pq_scanner_switch W .POT_DEC_INT s = .next .POT_FLOAT_FRAC none s := by
  simp [pq_scanner_switch, h]

theorem pot_float_frac_digit (W : WCtype) (s : pq_scanner)
    (h : pq_is_unicode_dec_char s.cp = true) :
    pq_scanner_switch W .POT_FLOAT_FRAC s = .next .FLOAT_FRAC none s := by
  simp [pq_scanner_switch, h]

theorem pot_float_frac_stop (W : WCtype) (s : pq_scanner)
    (h : pq_is_unicode_dec_char s.cp = false) :
    pq_scanner_switch W .POT_FLOAT_FRAC s
      = pq_scan_emit_lexeme s 2
          (fun lexeme => pq_new_int_token .PQ_INT_TOK (strtoll lexeme 10) 0) := by
  simp [pq_scanner_switch, h]

theorem float_frac_digit (W : WCtype) (s : pq_scanner)
    (h : pq_is_unicode_dec_char s.cp = true) :
    pq_scanner_switch W .FLOAT_FRAC s = .next .FLOAT_FRAC none s := by
  have := dec_range h
  have e1 : ¬ (101 = s.cp ∨ 69 = s.cp) := by omega
  simp [pq_scanner_switch, h, e1]

theorem float_frac_exp (W : WCtype) (s : pq_scanner) (h : s.cp = 101 ∨ s.cp = 69) :
    pq_scanner_switch W .FLOAT_FRAC s = .next .POT_FLOAT_EXP none s := by
  have e1 : 101 = s.cp ∨ 69 = s.cp := by omega
  simp [pq_scanner_switch, e1]

theorem pot_float_exp_sign (W : WCtype) (s : pq_scanner) (h : s.cp = 43 ∨ s.cp = 45) :
    pq_scanner_switch W .POT_FLOAT_EXP s = .next .POT_FLOAT_EXP_INT none s := by
  have e1 : 43 = s.cp ∨ 45 = s.cp := by omega
  simp [pq_scanner_switch, e1]

theorem pot_float_exp_stop (W : WCtype) (s : pq_scanner)
    (h : pq_is_unicode_dec_char s.cp = false) (h1 : s.cp ≠ 43) (h2 : s.cp ≠ 45) :
    pq_scanner_switch W .POT_FLOAT_EXP s
      = pq_scan_emit_lexeme s 2
          (fun lexeme => pq_new_flt_token .PQ_FLT_TOK (strtod lexeme) 0) := by
  have e1 : ¬ (43 = s.cp ∨ 45 = s.cp) := by omega
  simp [pq_scanner_switch, h, e1]

theorem pot_float_exp_int_stop (W : WCtype) (s : pq_scanner)
    (h : pq_is_unicode_dec_char s.cp = false) :
    pq_scanner_switch W .POT_FLOAT_EXP_INT s
      = pq_scan_emit_lexeme s 3
          (fun lexeme => pq_new_flt_token .PQ_FLT_TOK (strtod lexeme) 0) := by
  simp [pq_scanner_switch, h]

/-- From the state that reads a decimal integer: the passes over digits and a period. -/
theorem dec_run_to_period (W : WCtype) {buf : Bytes} (h : IsAscii buf) {b e : Nat}
    {s : pq_scanner} {r rest : Bytes} (hp : ScanPos buf b e s)
    (hd : buf.drop e = r ++ 46 :: rest) (hr : ∀ c ∈ r, pq_is_unicode_dec_char c = true) :
    ∃ s1, pq_scanner_run W (r.length + 1) .POT_DEC_INT s = some (.POT_FLOAT_FRAC, s1)
      ∧ ScanPos buf b (e + r.length + 1) s1 := by
  obtain ⟨s1, hr1, p1⟩ := run_class_ascii W .POT_DEC_INT pq_is_unicode_dec_char (pot_dec_run W)
    h b r e s (46 :: rest) hp hd hr
  have hd1 := (drop_append_length hd).1
  obtain ⟨hc, hlt, _⟩ := drop_eq_cons_getD hd1
  obtain ⟨hr2, p2⟩ := run_keep_ascii W h p1 hlt (pot_dec_period W s1 (by rw [p1.cp, hc]))
  exact ⟨_, by rw [Nat.add_comm]; exact run_add W _ 1 _ _ _ _ _ _ hr1 hr2, p2⟩

/-- From the start of a token: the passes over the digits of a decimal integer and the
period behind them. -/
theorem digits_to_period {W : WCtype} (hW : W.IsoAscii) {buf : Bytes} (h : IsAscii buf)
    {k : Nat} {s : pq_scanner} {d rest : Bytes} (hp : ScanPos buf k k s)
    (hd : buf.drop k = d ++ 46 :: rest) (hne : d ≠ [])
    (hdig : ∀ c ∈ d, pq_is_unicode_dec_char c = true) :
    ∃ s1, pq_scanner_run W (d.length + 1) .BEGIN s = some (.POT_FLOAT_FRAC, s1)
      ∧ ScanPos buf k (k + d.length + 1) s1 := by
  obtain ⟨c0, d1, rfl⟩ : ∃ c0 d1, d = c0 :: d1 := by
    cases d with
    | nil => exact absurd rfl hne
    | cons a l => exact ⟨a, l, rfl⟩
  rw [List.cons_append] at hd
  obtain ⟨hc0, hlt0, hd1⟩ := drop_eq_cons_getD hd
  have hr0 := dec_range (hdig c0 (List.mem_cons_self _ _))
  have hcp0 : s.cp = c0 := by rw [hp.cp, hc0]
  by_cases hz : c0 = 48
  · obtain ⟨hr1, p1⟩ := run_keep_ascii W h hp hlt0 (begin_zero W s (by rw [hcp0, hz]))
    cases d1 with
    | nil =>
      rw [List.nil_append] at hd1
      obtain ⟨hc1, hlt1, _⟩ := drop_eq_cons_getD hd1
      obtain ⟨hr2, p2⟩ := run_keep_ascii W h p1 hlt1 (pot_rad_period W _ (by rw [p1.cp, hc1]))
      exact ⟨_, run_add W 1 1 _ _ _ _ _ _ hr1 hr2, p2⟩
    | cons c1 d2 =>
      rw [List.cons_append] at hd1
      obtain ⟨hc1, hlt1, hd2⟩ := drop_eq_cons_getD hd1
      obtain ⟨hr2, p2⟩ := run_keep_ascii W h p1 hlt1
        (pot_rad_dec W _ (by
          rw [p1.cp, hc1]
          exact hdig c1 (List.mem_cons_of_mem _ (List.mem_cons_self _ _))))
      obtain ⟨s3, hr3, p3⟩ := dec_run_to_period W h p2 hd2
        (fun c hc => hdig c (List.mem_cons_of_mem _ (List.mem_cons_of_mem _ hc)))
      refine ⟨s3, ?_, ?_⟩
      · have := run_add W _ _ _ _ _ _ _ _ (run_add W 1 1 _ _ _ _ _ _ hr1 hr2) hr3
        rw [show (c0 :: c1 :: d2).length + 1 = d2.length + 1 + (1 + 1) by
          simp only [List.length_cons]; try omega]
        exact this
      · rw [show k + (c0 :: c1 :: d2).length + 1 = k + 1 + 1 + d2.length + 1 by
          simp only [List.length_cons]; try omega]
        exact p3
  · obtain ⟨hr1, p1⟩ := run_keep_ascii W h hp hlt0
      (begin_nonzero_digit hW s (by rw [hcp0]; omega))
    obtain ⟨s3, hr3, p3⟩ := dec_run_to_period W h p1 hd1
      (fun c hc => hdig c (List.mem_cons_of_mem _ hc))
    refine ⟨s3, ?_, ?_⟩
    · have := run_add W _ _ _ _ _ _ _ _ hr1 hr3
      rw [show (c0 :: d1).length + 1 = d1.length + 1 + 1 by simp only [List.length_cons]]
      exact this
    · rw [show k + (c0 :: d1).length + 1 = k + 1 + d1.length + 1 by
        simp only [List.length_cons]; try omega]
      exact p3

theorem take_of_drop_append {buf r rest : Bytes} {k : Nat} (hd : buf.drop k = r ++ rest) :
    (buf.drop k).take r.length = r := by
  rw [hd, List.take_left]

/-- The scan of digits and a period that no digit follows. -/
theorem integer_before_period {W : WCtype} (hW : W.IsoAscii) {buf : Bytes} (h : IsAscii buf)
    {k : Nat} {s : pq_scanner} {d rest : Bytes} (hp : ScanPos buf k k s)
    (hd : buf.drop k = d ++ 46 :: rest) (hne : d ≠ [])
    (hdig : ∀ c ∈ d, pq_is_unicode_dec_char c = true)
    (hstop : pq_is_unicode_dec_char (rest.headD 0) = false) (m : Nat) :
    ∃ s', pq_scanner_next_token W (m + (d.length + 2)) s
        = some ⟨some (pq_new_int_token .PQ_INT_TOK (strtoll d 10) 0), none, s'⟩
      ∧ ScanPos buf (k + d.length) (k + d.length) s' := by
  obtain ⟨s1, hr1, p1⟩ := digits_to_period hW h hp hd hne hdig
  have hpos : 0 < d.length := List.length_pos.mpr hne
  have hd1 := drop_append_length hd
  obtain ⟨_, hlt, hd2⟩ := drop_eq_cons_getD hd1.1
  have hcp : s1.cp = rest.headD 0 := by
    rw [p1.cp, getD_eq_headD_drop, hd2]
  obtain ⟨s', hs', p2⟩ := emit_lexeme_back h p1
    (fun lexeme => pq_new_int_token .PQ_INT_TOK (strtoll lexeme 10) 0)
    (by omega : 2 ≤ k + d.length + 1) (by omega) (by omega)
  rw [show k + d.length + 1 - 2 - k + 1 = d.length by omega, take_of_drop_append hd] at hs'
  refine ⟨s', ?_, ?_⟩
  · have key := loop_of_run_ret W s hr1 ((pot_float_frac_stop W s1 (by rw [hcp]; exact hstop)).trans
      hs') m
    unfold pq_scanner_next_token
    rw [show m + (d.length + 2) = m + 1 + (d.length + 1) by omega]
    exact key
  · rw [show k + d.length + 1 - 2 + 1 = k + d.length by omega] at p2
    exact p2

/-- The scan of a float and an exponent letter, with or without a sign, that no digit
follows. -/
theorem float_before_exponent {W : WCtype} (hW : W.IsoAscii) {buf : Bytes} (h : IsAscii buf)
    {k : Nat} {s : pq_scanner} {d1 d2 sg rest : Bytes} {x : Nat} (hp : ScanPos buf k k s)
    (hd : buf.drop k = d1 ++ 46 :: (d2 ++ x :: (sg ++ rest))) (hne1 : d1 ≠ []) (hne2 : d2 ≠ [])
    (hdig1 : ∀ c ∈ d1, pq_is_unicode_dec_char c = true)
    (hdig2 : ∀ c ∈ d2, pq_is_unicode_dec_char c = true) (hx : x = 101 ∨ x = 69)
    (hsg : (sg = [] ∧ rest.headD 0 ≠ 43 ∧ rest.headD 0 ≠ 45) ∨ sg = [43] ∨ sg = [45])
    (hstop : pq_is_unicode_dec_char (rest.headD 0) = false) (m : Nat) :
    ∃ s', pq_scanner_next_token W (m + (d1.length + d2.length + sg.length + 3)) s
        = some ⟨some (pq_new_flt_token .PQ_FLT_TOK (strtod (d1 ++ 46 :: d2)) 0), none, s'⟩
      ∧ ScanPos buf (k + d1.length + 1 + d2.length) (k + d1.length + 1 + d2.length) s' := by
  obtain ⟨s1, hr1, p1⟩ := digits_to_period hW h hp hd hne1 hdig1
  have hpos1 : 0 < d1.length := List.length_pos.mpr hne1
  obtain ⟨c2, r2, rfl⟩ : ∃ c2 r2, d2 = c2 :: r2 := by
    cases d2 with
    | nil => exact absurd rfl hne2
    | cons a l => exact ⟨a, l, rfl⟩
  have hd1 := (drop_append_length hd).1
  obtain ⟨_, _, hd2⟩ := drop_eq_cons_getD hd1
  rw [List.cons_append] at hd2
  obtain ⟨hc2, hlt2, hd3⟩ := drop_eq_cons_getD hd2
  obtain ⟨hr2, p2⟩ := run_keep_ascii W h p1 hlt2
    (pot_float_frac_digit W s1 (by rw [p1.cp, hc2]; exact hdig2 c2 (List.mem_cons_self _ _)))
  obtain ⟨s3, hr3, p3⟩ := run_class_ascii W .FLOAT_FRAC pq_is_unicode_dec_char
    (float_frac_digit W) h k r2 _ _ _ p2 hd3 (fun c hc => hdig2 c (List.mem_cons_of_mem _ hc))
  have hd4 := (drop_append_length hd3).1
  obtain ⟨hcx, hltx, hd5⟩ := drop_eq_cons_getD hd4
  obtain ⟨hr4, p4⟩ := run_keep_ascii W h p3 hltx
    (float_frac_exp W s3 (by rw [p3.cp, hcx]; exact hx))
  have hrun := run_add W _ _ _ _ _ _ _ _
    (run_add W _ _ _ _ _ _ _ _ (run_add W _ _ _ _ _ _ _ _ hr1 hr2) hr3) hr4
  have hlex : (buf.drop k).take (d1.length + 1 + (c2 :: r2).length) = d1 ++ 46 :: (c2 :: r2) := by
    have := take_of_drop_append
      (show buf.drop k = (d1 ++ 46 :: (c2 :: r2)) ++ (x :: (sg ++ rest)) by
        rw [hd]; simp)
    rw [← this]
    congr 1
    simp only [List.length_append, List.length_cons]
    omega
  rcases hsg with ⟨rfl, h43, h45⟩ | hsign
  · rw [List.nil_append] at hd5
    have hcp : (pq_scanner_forward s3 1).cp = rest.headD 0 := by
      rw [p4.cp, getD_eq_headD_drop, hd5]
    obtain ⟨s', hs', p5⟩ := emit_lexeme_back h p4
      (fun lexeme => pq_new_flt_token .PQ_FLT_TOK (strtod lexeme) 0)
      (by omega : 2 ≤ k + d1.length + 1 + 1 + r2.length + 1) (by omega) (by omega)
    rw [show k + d1.length + 1 + 1 + r2.length + 1 - 2 - k + 1
        = d1.length + 1 + (c2 :: r2).length by simp only [List.length_cons]; omega, hlex] at hs'
    refine ⟨s', ?_, ?_⟩
    · have key := loop_of_run_ret W s hrun
        ((pot_float_exp_stop W _ (by rw [hcp]; exact hstop) (by rw [hcp]; exact h43)
          (by rw [hcp]; exact h45)).trans hs') m
      unfold pq_scanner_next_token
      rw [show m + (d1.length + (c2 :: r2).length + ([] : Bytes).length + 3)
          = m + 1 + (1 + (r2.length + (1 + (d1.length + 1)))) by
        simp only [List.length_cons, List.length_nil]; omega]
      exact key
    · rw [show k + d1.length + 1 + 1 + r2.length + 1 - 2 + 1
          = k + d1.length + 1 + (c2 :: r2).length by simp only [List.length_cons]; omega] at p5
      exact p5
  · obtain ⟨g, hg, rfl⟩ : ∃ g, (g = 43 ∨ g = 45) ∧ sg = [g] := by
      rcases hsign with rfl | rfl
      · exact ⟨43, Or.inl rfl, rfl⟩
      · exact ⟨45, Or.inr rfl, rfl⟩
    rw [List.singleton_append] at hd5
    obtain ⟨hcg, hltg, hd6⟩ := drop_eq_cons_getD hd5
    obtain ⟨hr5, p5⟩ := run_keep_ascii W h p4 hltg
      (pot_float_exp_sign W _ (by rw [p4.cp, hcg]; exact hg))
    have hcp : (pq_scanner_forward (pq_scanner_forward s3 1) 1).cp = rest.headD 0 := by
      rw [p5.cp, getD_eq_headD_drop, hd6]
    obtain ⟨s', hs', p6⟩ := emit_lexeme_back h p5
      (fun lexeme => pq_new_flt_token .PQ_FLT_TOK (strtod lexeme) 0)
      (by omega : 3 ≤ k + d1.length + 1 + 1 + r2.length + 1 + 1) (by omega) (by omega)
    rw [show k + d1.length + 1 + 1 + r2.length + 1 + 1 - 3 - k + 1
        = d1.length + 1 + (c2 :: r2).length by simp only [List.length_cons]; omega, hlex] at hs'
    refine ⟨s', ?_, ?_⟩
    · have key := loop_of_run_ret W s (run_add W _ _ _ _ _ _ _ _ hrun hr5)
        ((pot_float_exp_int_stop W _ (by rw [hcp]; exact hstop)).trans hs') m
      unfold pq_scanner_next_token
      rw [show m + (d1.length + (c2 :: r2).length + [g].length + 3)
          = m + 1 + (1 + (1 + (r2.length + (1 + (d1.length + 1))))) by
        simp only [List.length_cons, List.length_nil]; omega]
      exact key
    · rw [show k + d1.length + 1 + 1 + r2.length + 1 + 1 - 3 + 1
          = k + d1.length + 1 + (c2 :: r2).length by simp only [List.length_cons]; omega] at p6
      exact p6

/-- C23: the scanner is at the start of a token at offset `k` of an ASCII buffer. When `0`
and one of the letters `b`, `o`, `x` stand there and no digit of that radix follows,
`pq_scanner_next_token` returns the INTEGER 0 and the next lexeme starts at the letter. When
decimal digits `d` and a period stand there and no digit follows, it returns the INTEGER
that `strtoll` reads from `d` and the next lexeme starts at the period. When a float
`d1.d2` and `e` or `E`, with or without a sign behind it, stand there and no digit follows,
it returns the FLOAT of the text `d1.d2` and the next lexeme starts at the `e`. What follows
may be the end of the buffer. -/
theorem C23_failed_continuation_gives_lookahead_back {W : WCtype} (hW : W.IsoAscii)
    (buf : Bytes) (k : Nat) (s : pq_scanner) (h : IsAscii buf) (hp : ScanPos buf k k s) :
    (∀ (L : Nat) (rest : Bytes) (fuel : Nat), buf.drop k = 48 :: L :: rest →
      ((L = 98 ∧ pq_is_unicode_bin_char (rest.headD 0) = false)
        ∨ (L = 111 ∧ pq_is_unicode_oct_char (rest.headD 0) = false)
        ∨ (L = 120 ∧ pq_is_unicode_hex_char (rest.headD 0) = false)) →
      3 ≤ fuel →
      ∃ s', pq_scanner_next_token W fuel s
          = some ⟨some (pq_new_int_token .PQ_INT_TOK 0 0), none, s'⟩
        ∧ ScanPos buf (k + 1) (k + 1) s' ∧ s'.cp = L)
    ∧ (∀ (d rest : Bytes) (fuel : Nat), buf.drop k = d ++ 46 :: rest → d ≠ [] →
      (∀ c ∈ d, pq_is_unicode_dec_char c = true) →
      pq_is_unicode_dec_char (rest.headD 0) = false → d.length + 2 ≤ fuel →
      ∃ s', pq_scanner_next_token W fuel s
          = some ⟨some (pq_new_int_token .PQ_INT_TOK (strtoll d 10) 0), none, s'⟩
        ∧ ScanPos buf (k + d.length) (k + d.length) s' ∧ s'.cp = 46)
    ∧ (∀ (d1 d2 sg rest : Bytes) (x fuel : Nat),
      buf.drop k = d1 ++ 46 :: (d2 ++ x :: (sg ++ rest)) → d1 ≠ [] → d2 ≠ [] →
      (∀ c ∈ d1, pq_is_unicode_dec_char c = true) →
      (∀ c ∈ d2, pq_is_unicode_dec_char c = true) → (x = 101 ∨ x = 69) →
      ((sg = [] ∧ rest.headD 0 ≠ 43 ∧ rest.headD 0 ≠ 45) ∨ sg = [43] ∨ sg = [45]) →
      pq_is_unicode_dec_char (rest.headD 0) = false →
      d1.length + d2.length + sg.length + 3 ≤ fuel →
      ∃ s', pq_scanner_next_token W fuel s
          = some ⟨some (pq_new_flt_token .PQ_FLT_TOK (strtod (d1 ++ 46 :: d2)) 0), none, s'⟩
        ∧ ScanPos buf (k + d1.length + 1 + d2.length) (k + d1.length + 1 + d2.length) s'
        ∧ s'.cp = x) := by
  refine ⟨?_, ?_, ?_⟩
  · intro L rest fuel hd hL hfuel
    obtain ⟨m, rfl⟩ : ∃ m, fuel = m + 3 := ⟨fuel - 3, by omega⟩
    have hcp : buf.getD (k + 1) 0 = L := by
      obtain ⟨_, _, hd1⟩ := drop_eq_cons_getD hd
      exact (drop_eq_cons_getD hd1).1
    have key : ∃ s', pq_scanner_next_token W (m + 3) s
          = some ⟨some (pq_new_int_token .PQ_INT_TOK 0 0), none, s'⟩
        ∧ ScanPos buf (k + 1) (k + 1) s' := by
      rcases hL with ⟨rfl, hs⟩ | ⟨rfl, hs⟩ | ⟨rfl, hs⟩
      · exact radix_without_digit W h hp hd .POT_BIN_INT (pot_rad_bin W)
          (fun s1 h1 => pot_bin_stop W s1 (by rw [h1]; exact hs)) m
      · exact radix_without_digit W h hp hd .POT_OCT_INT (pot_rad_oct W)
          (fun s1 h1 => pot_oct_stop W s1 (by rw [h1]; exact hs)) m
      · exact radix_without_digit W h hp hd .POT_HEX_INT (pot_rad_hex W)
          (fun s1 h1 => pot_hex_stop W s1 (by rw [h1]; exact hs)) m
    obtain ⟨s', h1, h2⟩ := key
    exact ⟨s', h1, h2, by rw [h2.cp, hcp]⟩
  · intro d rest fuel hd hne hdig hstop hfuel
    obtain ⟨m, rfl⟩ : ∃ m, fuel = m + (d.length + 2) := ⟨fuel - (d.length + 2), by omega⟩
    obtain ⟨s', h1, h2⟩ := integer_before_period hW h hp hd hne hdig hstop m
    exact ⟨s', h1, h2, by rw [h2.cp]; exact (drop_eq_cons_getD (drop_append_length hd).1).1⟩
  · intro d1 d2 sg rest x fuel hd hne1 hne2 hdig1 hdig2 hx hsg hstop hfuel
    obtain ⟨m, rfl⟩ : ∃ m, fuel = m + (d1.length + d2.length + sg.length + 3) :=
      ⟨fuel - (d1.length + d2.length + sg.length + 3), by omega⟩
    obtain ⟨s', h1, h2⟩ := float_before_exponent hW h hp hd hne1 hne2 hdig1 hdig2 hx hsg hstop m
    refine ⟨s', h1, h2, ?_⟩
    rw [h2.cp]
    have hd1 := (drop_append_length hd).1
    obtain ⟨_, _, hd2⟩ := drop_eq_cons_getD hd1
    have hd3 := (drop_append_length hd2).1
    exact (drop_eq_cons_getD hd3).1

/-- C23 (witness): `0xg` gives the INTEGER 0 and the next lexeme starts at `x`; `1.` gives the
INTEGER 1 and the next lexeme starts at the period, which the next call returns as the END
token; `1.5e+` gives the FLOAT `1.5` and the next lexeme starts at `e`. -/
theorem C23_witness :
    (∃ s', pq_scanner_next_token asciiW 3 (pq_scanner_set_buffer pq_new_scanner [48, 120, 103])
          = some ⟨some (pq_new_int_token .PQ_INT_TOK 0 0), none, s'⟩
        ∧ ScanPos [48, 120, 103] (0 + 1) (0 + 1) s' ∧ s'.cp = 120)
    ∧ (∃ s', pq_scanner_next_token asciiW 3 (pq_scanner_set_buffer pq_new_scanner [49, 46])
          = some ⟨some (pq_new_int_token .PQ_INT_TOK (strtoll [49] 10) 0), none, s'⟩
        ∧ ScanPos [49, 46] (0 + [49].length) (0 + [49].length) s' ∧ s'.cp = 46)
    ∧ strtoll [49] 10 = 1
    ∧ ((pq_scanner_next_token asciiW 3 (pq_scanner_set_buffer pq_new_scanner [49, 46])).bind
        fun r => pq_scanner_next_token asciiW 3 r.scanner).map (fun r => (r.tok, r.err))
      = some (some (pq_new_str_literal_token .PQ_END_TOK [46] 0), none)
    ∧ (∃ s', pq_scanner_next_token asciiW 6
            (pq_scanner_set_buffer pq_new_scanner [49, 46, 53, 101, 43])
          = some ⟨some (pq_new_flt_token .PQ_FLT_TOK (strtod ([49] ++ 46 :: [53])) 0), none, s'⟩
        ∧ ScanPos [49, 46, 53, 101, 43] (0 + [49].length + 1 + [53].length)
            (0 + [49].length + 1 + [53].length) s'
        ∧ s'.cp = 101) := by
  have a1 : IsAscii [48, 120, 103] := by decide
  have a2 : IsAscii [49, 46] := by decide
  have a3 : IsAscii [49, 46, 53, 101, 43] := by decide
  refine ⟨?_, ?_, by decide, by decide!, ?_⟩
  · exact (C23_failed_continuation_gives_lookahead_back asciiW_isoAscii [48, 120, 103] 0 _ a1
      (ScanPos.set_buffer pq_new_scanner a1)).1 120 [103] 3 rfl
      (Or.inr (Or.inr ⟨rfl, by decide⟩)) (by decide)
  · exact (C23_failed_continuation_gives_lookahead_back asciiW_isoAscii [49, 46] 0 _ a2
      (ScanPos.set_buffer pq_new_scanner a2)).2.1 [49] [] 3 rfl (by decide) (by decide)
      (by decide) (by decide)
  · exact (C23_failed_continuation_gives_lookahead_back asciiW_isoAscii [49, 46, 53, 101, 43] 0
      _ a3 (ScanPos.set_buffer pq_new_scanner a3)).2.2 [49] [53] [43] [] 101 6 rfl (by decide)
      (by decide) (by decide) (by decide) (Or.inl rfl) (Or.inr (Or.inl rfl)) (by decide)
      (by decide)

/-! ## Escape sequences in quoted atoms -/

theorem get?_set_cases {α : Type} {l : List α} {i j : Nat} {x y : α}
    (h : (l.set i y).get? j = some x) : (j = i ∧ x = y) ∨ (j ≠ i ∧ l.get? j = some x) := by
  by_cases hij : j = i
  · subst hij
    have hlt : j < l.length := by
      have := get?_some_lt h
      simpa using this
    simp only [List.get?_eq_getElem?, List.getElem?_set_self, hlt] at h
    simp only [if_true, Option.some.injEq] at h
    exact Or.inl ⟨rfl, h.symm⟩
  · refine Or.inr ⟨hij, ?_⟩
    simp only [List.get?_eq_getElem?] at h ⊢
    rw [List.getElem?_set_ne (Ne.symm hij)] at h
    exact h

theorem get?_append_cases {α : Type} {l : List α} {j : Nat} {x y : α}
    (h : (l ++ [y]).get? j = some x) : l.get? j = some x ∨ (j = l.length ∧ x = y) := by
  simp only [List.get?_eq_getElem?] at h ⊢
  by_cases hlt : j < l.length
  · rw [List.getElem?_append_left hlt] at h
    exact Or.inl h
  · have hj : j < (l ++ [y]).length := by
      by_contra hc
      rw [List.getElem?_eq_none (by omega)] at h
      cases h
    simp only [List.length_append, List.length_singleton] at hj
    have hje : j = l.length := by omega
    subst hje
    simp only [List.getElem?_concat_length, Option.some.injEq] at h
    exact Or.inr ⟨rfl, h.symm⟩

theorem pq_heap.keeps_nil_set {h : pq_heap} {root : Ptr} (hk : h.keeps_nil root)
    {i : Ptr} (hi : root < i) {y : pq_syntax_tree_node} (hy : y.after root) :
    pq_heap.keeps_nil { h with nodes := h.nodes.set i y } root := by
  refine ⟨?_, ?_⟩
  · have h1 := hk.1
    simp only [List.get?_eq_getElem?] at h1 ⊢
    rw [List.getElem?_set_ne (Nat.ne_of_gt hi)]
    exact h1
  · intro j n hj hn
    rcases get?_set_cases hn with ⟨_, h1⟩ | ⟨_, h1⟩
    · rw [h1]; exact hy
    · exact hk.2 j n hj h1

theorem pq_heap.keeps_nil_same {h h2 : pq_heap} {root : Ptr} (hk : h.keeps_nil root)
    (hn : h2.nodes = h.nodes) : h2.keeps_nil root := by
  unfold pq_heap.keeps_nil
  rw [hn]
  exact hk

theorem pq_heap.nil_with_same {h h2 : pq_heap} {root : Ptr} {G : List (Option Ptr)}
    (hG : h.nil_with root G) (hn : h2.nodes = h.nodes) : h2.nil_with root G :=
  ⟨pq_heap.keeps_nil_same hG.1 hn, hG.2⟩

theorem pq_heap.nil_with_of {h : pq_heap} {root : Ptr} {G G' : List (Option Ptr)}
    (hG : h.nil_with root G') (hsub : G ⊆ none :: G') : h.nil_with root G := by
  refine ⟨hG.1, fun nd hnd p hp => ?_⟩
  rcases List.mem_cons.mp (hsub hnd) with h0 | h1
  · rw [h0] at hp; cases hp
  · exact hG.2 nd h1 p hp

theorem pq_heap.nil_with_new_term {h : pq_heap} {root : Ptr} {G : List (Option Ptr)}
    (hG : h.nil_with root G) (tm : pq_term) : (h.new_term tm).1.nil_with root G :=
  pq_heap.nil_with_same hG rfl

theorem pq_heap.nil_with_new_node {h : pq_heap} {root : Ptr} {G : List (Option Ptr)}
    (hG : h.nil_with root G) (item : Option Ptr) :
    (pq_new_syntax_tree_node h item).1.nil_with root
      (some (pq_new_syntax_tree_node h item).2 :: G) := by
  have hlt := get?_some_lt hG.1.1
  refine ⟨⟨?_, ?_⟩, ?_⟩
  · exact get?_append_of_some _ hG.1.1
  · intro j n hj hn
    rcases get?_append_cases hn with h1 | ⟨_, h1⟩
    · exact hG.1.2 j n hj h1
    · rw [h1]
      unfold pq_syntax_tree_node.after
      constructor <;> intro p hp <;> cases hp
  · intro nd hnd p hp
    rcases List.mem_cons.mp hnd with h0 | h0
    · rw [h0] at hp
      cases hp
      exact hlt
    · exact hG.2 nd h0 p hp

theorem pq_heap.nil_with_new_list {h : pq_heap} {root : Ptr} {G : List (Option Ptr)}
    (hG : h.nil_with root G) : (pq_new_list h).1.nil_with root G :=
  pq_heap.nil_with_same hG rfl

theorem pq_heap.nil_with_push_back {h h2 : pq_heap} {root : Ptr} {G : List (Option Ptr)}
    (hG : h.nil_with root G) {list : Ptr} {item : Option Ptr}
    (hp : pq_list_push_back h list item = some h2) : h2.nil_with root G := by
  unfold pq_list_push_back at hp
  split at hp
  · cases hp
  · split at hp
    · cases hp
    · simp only [Option.some.injEq] at hp
      subst hp
      exact pq_heap.nil_with_same hG rfl

theorem pq_heap.nil_with_set_item_priority {h h2 : pq_heap} {root : Ptr}
    {G : List (Option Ptr)} (hG : h.nil_with root G) {node : Option Ptr} {p : Nat}
    (hp : h.set_item_priority node p = some h2) : h2.nil_with root G := by
  unfold pq_heap.set_item_priority at hp
  repeat' split at hp
  all_goals first
    | cases hp; done
    | (simp only [Option.some.injEq] at hp
       subst hp
       exact pq_heap.nil_with_same hG rfl)

theorem pq_heap.nil_with_negate_item {h h2 : pq_heap} {root : Ptr}
    {G : List (Option Ptr)} (hG : h.nil_with root G) {node : Option Ptr}
    (hp : h.negate_item node = some h2) : h2.nil_with root G := by
  unfold pq_heap.negate_item at hp
  repeat' split at hp
  all_goals first
    | cases hp; done
    | (simp only [Option.some.injEq] at hp
       subst hp
       exact pq_heap.nil_with_same hG rfl)

theorem pq_syntax_tree_node.after_next {n : pq_syntax_tree_node} {root : Ptr}
    (hn : n.after root) {p : Ptr} (hp : root < p) :
    pq_syntax_tree_node.after { n with next := some p } root := by
  refine ⟨fun q hq => ?_, fun q hq => hn.2 q hq⟩
  simp only [Option.some.injEq] at hq
  rw [← hq]; exact hp

theorem pq_syntax_tree_node.after_prev {n : pq_syntax_tree_node} {root : Ptr}
    (hn : n.after root) {p : Ptr} (hp : root < p) :
    pq_syntax_tree_node.after { n with prev := some p } root := by
  refine ⟨fun q hq => hn.1 q hq, fun q hq => ?_⟩
  simp only [Option.some.injEq] at hq
  rw [← hq]; exact hp

/-- The links that `pq_syntax_tree_add_right_sibling_node` writes: no node allocated after the
sentinel gets a link to the sentinel, and the sentinel is not written. -/
theorem pq_heap.nil_with_add_right_sibling {h h2 : pq_heap} {root : Ptr}
    {G : List (Option Ptr)} (hG : h.nil_with root G) {node sibling : Option Ptr}
    (hnode : node ∈ G) (hsib : sibling ∈ G)
    (hadd : pq_syntax_tree_add_right_sibling_node h node sibling = some h2) :
    h2.nil_with root G := by
  refine ⟨?_, hG.2⟩
  unfold pq_syntax_tree_add_right_sibling_node at hadd
  cases sibling with
  | none =>
    simp only [Option.some.injEq] at hadd
    subst hadd
    exact hG.1
  | some sib =>
    cases node with
    | none => simp at hadd
    | some nd =>
      have hsr : root < sib := hG.2 _ hsib sib rfl
      have hnr : root < nd := hG.2 _ hnode nd rfl
      simp only at hadd
      cases hs : h.nodes.get? sib with
      | none => rw [hs] at hadd; simp at hadd
      | some s =>
        cases hn : h.nodes.get? nd with
        | none => rw [hs, hn] at hadd; simp at hadd
        | some n =>
          rw [hs, hn] at hadd
          simp only at hadd
          have hna := hG.1.2 nd n hnr hn
          have k1 : pq_heap.keeps_nil
              { h with nodes := h.nodes.set sib { s with prev := some nd, next := n.next } }
              root :=
            pq_heap.keeps_nil_set hG.1 hsr
              ⟨fun p hp => hna.1 p hp, fun p hp => by
                simp only [Option.some.injEq] at hp
                rw [← hp]; exact hnr⟩
          cases hnx : n.next with
          | none =>
            rw [hnx] at hadd k1
            simp only at hadd
            cases h1 : (h.nodes.set sib { s with prev := some nd, next := none }).get? nd with
            | none => rw [h1] at hadd; simp at hadd
            | some n1 =>
              rw [h1] at hadd
              simp only [Option.some.injEq] at hadd
              subst hadd
              exact pq_heap.keeps_nil_set k1 hnr
                (pq_syntax_tree_node.after_next (k1.2 nd n1 hnr h1) hsr)
          | some nx =>
            have hxr : root < nx := hna.1 nx hnx
            rw [hnx] at hadd k1
            simp only at hadd
            cases h0 : (h.nodes.set sib { s with prev := some nd, next := some nx }).get? nx with
            | none => rw [h0] at hadd; simp at hadd
            | some x =>
              rw [h0] at hadd
              simp only at hadd
              have k2 := pq_heap.keeps_nil_set k1 hxr
                (pq_syntax_tree_node.after_prev (k1.2 nx x hxr h0) hsr)
              cases h1 : ((h.nodes.set sib { s with prev := some nd, next := some nx }).set nx
                  { x with prev := some sib }).get? nd with
              | none => rw [h1] at hadd; simp at hadd
              | some n1 =>
                rw [h1] at hadd
                simp only [Option.some.injEq] at hadd
                subst hadd
                exact pq_heap.keeps_nil_set k2 hnr
                  (pq_syntax_tree_node.after_next (k2.2 nd n1 hnr h1) hsr)

/-! ### The steps of the parser keep the sentinel -/

theorem holds_next_token_nil {β : Type} (W : WCtype) (sf : Nat) (st : pq_state)
    {f : Unit → pq_state → pq_res β} {Q' : β → pq_state → Prop} {root : Ptr}
    {G : List (Option Ptr)} (hG : st.heap.nil_with root G)
    (hf : ∀ st1 : pq_state, st1.heap.nil_with root G → (f () st1).holds Q') :
    ((pq_parser_next_token W sf st).bind f).holds Q' := by
  unfold pq_parser_next_token
  cases pq_scanner_next_token W sf st.parser.scanner with
  | none => trivial
  | some r => exact hf _ hG

theorem holds_set_item_priority_nil {α : Type} (st : pq_state) {root : Ptr}
    {G : List (Option Ptr)} {node : Option Ptr} {p : Nat} {k : pq_state → pq_res α}
    {Q : α → pq_state → Prop} (hG : st.heap.nil_with root G)
    (hk : ∀ st1 : pq_state, st1.heap.nil_with root G → (k st1).holds Q) :
    (st.with_heap (st.heap.set_item_priority node p) k).holds Q := by
  unfold pq_state.with_heap
  cases hset : st.heap.set_item_priority node p with
  | none => trivial
  | some h2 => exact hk _ (pq_heap.nil_with_set_item_priority hG hset)

theorem holds_push_back_nil {α : Type} (st : pq_state) {root : Ptr} {G : List (Option Ptr)}
    {list : Ptr} {item : Option Ptr} {k : pq_state → pq_res α} {Q : α → pq_state → Prop}
    (hG : st.heap.nil_with root G)
    (hk : ∀ st1 : pq_state, st1.heap.nil_with root G → (k st1).holds Q) :
    (st.with_heap (pq_list_push_back st.heap list item) k).holds Q := by
  unfold pq_state.with_heap
  cases hset : pq_list_push_back st.heap list item with
  | none => trivial
  | some h2 => exact hk _ (pq_heap.nil_with_push_back hG hset)

theorem holds_add_right_sibling_nil {α : Type} (st : pq_state) {root : Ptr}
    {G : List (Option Ptr)} {node sibling : Option Ptr} {k : pq_state → pq_res α}
    {Q : α → pq_state → Prop} (hG : st.heap.nil_with root G) (hnode : node ∈ G)
    (hsib : sibling ∈ G)
    (hk : ∀ st1 : pq_state, st1.heap.nil_with root G → (k st1).holds Q) :
    (st.with_heap (pq_syntax_tree_add_right_sibling_node st.heap node sibling) k).holds Q := by
  unfold pq_state.with_heap
  cases hset : pq_syntax_tree_add_right_sibling_node st.heap node sibling with
  | none => trivial
  | some h2 => exact hk _ (pq_heap.nil_with_add_right_sibling hG hnode hsib hset)

theorem holds_negate_item_nil {α : Type} (st : pq_state) {root : Ptr} {G : List (Option Ptr)}
    {node : Option Ptr} {k : pq_state → pq_res α} {Q : α → pq_state → Prop}
    (hG : st.heap.nil_with root G)
    (hk : ∀ st1 : pq_state, st1.heap.nil_with root G → (k st1).holds Q) :
    (st.with_heap (st.heap.negate_item node) k).holds Q := by
  unfold pq_state.with_heap
  cases hset : st.heap.negate_item node with
  | none => trivial
  | some h2 => exact hk _ (pq_heap.nil_with_negate_item hG hset)

theorem holds_new_list_nil {α : Type} (st : pq_state) {root : Ptr} {G : List (Option Ptr)}
    {k : Ptr → pq_state → pq_res α} {Q : α → pq_state → Prop}
    (hG : st.heap.nil_with root G)
    (hk : ∀ (l : Ptr) (st1 : pq_state), st1.heap.nil_with root G → (k l st1).holds Q) :
    (st.alloc pq_new_list k).holds Q :=
  hk _ _ (pq_heap.nil_with_new_list hG)

theorem holds_new_term_node_nil {α : Type} (st : pq_state) {root : Ptr}
    {G : List (Option Ptr)} (tm : pq_term) {k : Ptr → pq_state → pq_res α}
    {Q : α → pq_state → Prop} (hG : st.heap.nil_with root G)
    (hk : ∀ (nd : Ptr) (st1 : pq_state), st1.heap.nil_with root (some nd :: G) →
      (k nd st1).holds Q) :
    (st.alloc (fun h => h.new_term tm) fun t st =>
      st.alloc (fun h => pq_new_syntax_tree_node h (some t)) k).holds Q :=
  hk _ _ (pq_heap.nil_with_new_node (pq_heap.nil_with_new_term hG tm) _)

theorem holds_new_term_nil {α : Type} (st : pq_state) {root : Ptr} {G : List (Option Ptr)}
    (tm : pq_term) {k : Ptr → pq_state → pq_res α} {Q : α → pq_state → Prop}
    (hG : st.heap.nil_with root G)
    (hk : ∀ (t : Ptr) (st1 : pq_state), st1.heap.nil_with root G → (k t st1).holds Q) :
    (st.alloc (fun h => h.new_term tm) k).holds Q :=
  hk _ _ (pq_heap.nil_with_new_term hG tm)

theorem holds_link_infix_op_nil (st : pq_state) {root : Ptr} {G : List (Option Ptr)}
    (left right : Option Ptr) (op_name : Bytes) (spec : pq_op_specifier)
    (hG : st.heap.nil_with root G) (hl : left ∈ G) (hr : right ∈ G) :
    (pq_parse_link_infix_op st left right op_name spec).holds
      (fun v st1 => v = left ∧ st1.heap.nil_with root G) := by
  unfold pq_parse_link_infix_op
  refine holds_new_term_node_nil st
    ⟨.op_data op_name spec, 1201, PQ_TERM_ATOM_TYPE ||| PQ_TERM_OPERATOR_TYPE⟩ hG
    fun nd st1 h1 => ?_
  refine holds_add_right_sibling_nil _ h1 (List.mem_cons_of_mem _ hl)
    (List.mem_cons_self _ _) fun st2 h2 => ?_
  refine holds_add_right_sibling_nil _ h2 (List.mem_cons_self _ _)
    (List.mem_cons_of_mem _ hr) fun st3 h3 => ?_
  exact ⟨rfl, pq_heap.nil_with_of h3 (List.subset_cons_of_subset _
    (List.subset_cons_of_subset _ (List.Subset.refl _)))⟩

theorem holds_link_postfix_op_nil (st : pq_state) {root : Ptr} {G : List (Option Ptr)}
    (left : Option Ptr) (op_name : Bytes) (spec : pq_op_specifier)
    (hG : st.heap.nil_with root G) (hl : left ∈ G) :
    (pq_parse_link_postfix_op st left op_name spec).holds
      (fun v st1 => v = left ∧ st1.heap.nil_with root G) := by
  unfold pq_parse_link_postfix_op
  refine holds_new_term_node_nil st
    ⟨.op_data op_name spec, 1201, PQ_TERM_ATOM_TYPE ||| PQ_TERM_OPERATOR_TYPE⟩ hG
    fun nd st1 h1 => ?_
  refine holds_add_right_sibling_nil _ h1 (List.mem_cons_of_mem _ hl)
    (List.mem_cons_self _ _) fun st2 h2 => ?_
  exact ⟨rfl, pq_heap.nil_with_of h2 (List.subset_cons_of_subset _
    (List.subset_cons_of_subset _ (List.Subset.refl _)))⟩

theorem holds_link_prefix_operand_nil (st : pq_state) {root : Ptr} {G : List (Option Ptr)}
    (right : Option Ptr) (op_name : Bytes) (spec : pq_op_specifier)
    (hG : st.heap.nil_with root G) (hright : right ∈ G) :
    (pq_parse_link_prefix_operand st right op_name spec).holds
      (fun v st1 => st1.heap.nil_with root (v :: G)) := by
  unfold pq_parse_link_prefix_operand
  split
  · trivial
  · split
    · refine holds_negate_item_nil _ hG fun st1 h1 => ?_
      exact pq_heap.nil_with_of h1 (by
        intro x hx
        rcases List.mem_cons.mp hx with h0 | h0
        · exact List.mem_cons_of_mem _ (by rw [h0]; exact hright)
        · exact List.mem_cons_of_mem _ h0)
    · refine holds_new_term_node_nil st ⟨.op_data op_name spec, 1201,
        PQ_TERM_ATOM_TYPE ||| PQ_TERM_OPERATOR_TYPE⟩ hG fun nd st1 h1 => ?_
      refine holds_add_right_sibling_nil _ h1 (List.mem_cons_self _ _)
        (List.mem_cons_of_mem _ hright) fun st2 h2 => ?_
      exact h2

/-! ### The parser functions keep the sentinel -/

theorem nil_arg_step (W : WCtype) (sf fuel : Nat) (root : Ptr)
    (ih1 : ∀ p st G, p ≤ 1201 → st.heap.nil_with root G →
      (pq_parse_prolog_term W sf fuel p st).holds (fun v st1 => st1.heap.nil_with root (v :: G)))
    (st : pq_state) (G : List (Option Ptr))
    (hG : st.heap.nil_with root G) :
    (pq_parse_prolog_arg W sf (fuel + 1) st).holds
      (fun _ st1 => st1.heap.nil_with root G) := by
  rw [pq_parse_prolog_arg]
  try simp only [pq_new_atom_term, pq_new_integer_term, pq_new_float_term, pq_new_variable_term,
    pq_new_functor_term, pq_new_list_term]
  repeat' first
    | exact trivial
    | assumption
    | omega
    | exact Nat.le_refl _
    | exact Nat.zero_le _
    | rfl
    | exact Or.inl rfl
    | exact Or.inr rfl
    | exact List.mem_cons_self _ _
    | exact List.mem_cons_of_mem _ (List.mem_cons_self _ _)
    | ((try simp only [holds_ok, set_err_heap, node?_map_arg_list, node?_operand, node?_none])
       apply pq_heap.nil_with_of <;>
         first
         | assumption
         | ((try simp only [List.cons_subset, List.mem_cons, eq_self_iff_true, true_or, or_true,
              true_and])
            (repeat' first
              | exact List.Subset.refl _
              | exact List.nil_subset _
              | apply List.subset_cons_of_subset)
            done))
    | (apply pq_res.holds_mono; apply holds_link_infix_op_nil)
    | (apply pq_res.holds_mono; apply holds_link_postfix_op_nil)
    | (apply pq_res.holds_mono; apply holds_link_prefix_operand_nil)
    | apply holds_new_list_nil
    | apply holds_new_term_node_nil
    | apply holds_new_term_nil
    | apply holds_set_item_priority_nil
    | apply holds_push_back_nil
    | apply holds_next_token_nil W sf
    | (apply pq_res.holds_mono; apply ih1)
    | (apply pq_res.holds_mono; apply ih2)
    | (apply pq_res.holds_mono; apply ih4)
    | (apply pq_res.holds_mono; apply ih8)
    | (apply pq_res.holds_bind; apply ih1)
    | (apply pq_res.holds_bind; apply ih2)
    | (apply pq_res.holds_bind; apply ih3)
    | (apply pq_res.holds_bind; apply ih4)
    | (apply pq_res.holds_bind; apply ih5)
    | (apply pq_res.holds_bind; apply ih6)
    | (apply pq_res.holds_bind; apply ih7)
    | (apply pq_res.holds_bind; apply ih8)
    | rintro _ _ ⟨rfl, _⟩
    | intro _
    | split

theorem nil_arg_list_step (W : WCtype) (sf fuel : Nat) (root : Ptr)
    (ih4 : ∀ l st G, st.heap.nil_with root G →
      (pq_parse_prolog_arg_list_loop W sf fuel l st).holds (fun _ st1 => st1.heap.nil_with root G))
    (ih6 : ∀ st G, st.heap.nil_with root G →
      (pq_parse_prolog_arg W sf fuel st).holds (fun _ st1 => st1.heap.nil_with root G))
    (st : pq_state) (G : List (Option Ptr))
    (hG : st.heap.nil_with root G) :
    (pq_parse_prolog_arg_list W sf (fuel + 1) st).holds
      (fun _ st1 => st1.heap.nil_with root G) := by
  rw [pq_parse_prolog_arg_list]
  try simp only [pq_new_atom_term, pq_new_integer_term, pq_new_float_term, pq_new_variable_term,
    pq_new_functor_term, pq_new_list_term]
  repeat' first
    | exact trivial
    | assumption
    | omega
    | exact Nat.le_refl _
    | exact Nat.zero_le _
    | rfl
    | exact Or.inl rfl
    | exact Or.inr rfl
    | exact List.mem_cons_self _ _
    | exact List.mem_cons_of_mem _ (List.mem_cons_self _ _)
    | ((try simp only [holds_ok, set_err_heap, node?_map_arg_list, node?_operand, node?_none])
       apply pq_heap.nil_with_of <;>
         first
         | assumption
         | ((try simp only [List.cons_subset, List.mem_cons, eq_self_iff_true, true_or, or_true,
              true_and])
            (repeat' first
              | exact List.Subset.refl _
              | exact List.nil_subset _
              | apply List.subset_cons_of_subset)
            done))
    | (apply pq_res.holds_mono; apply holds_link_infix_op_nil)
    | (apply pq_res.holds_mono; apply holds_link_postfix_op_nil)
    | (apply pq_res.holds_mono; apply holds_link_prefix_operand_nil)
    | apply holds_new_list_nil
    | apply holds_new_term_node_nil
    | apply holds_new_term_nil
    | apply holds_set_item_priority_nil
    | apply holds_push_back_nil
    | apply holds_next_token_nil W sf
    | (apply pq_res.holds_mono; apply ih1)
    | (apply pq_res.holds_mono; apply ih2)
    | (apply pq_res.holds_mono; apply ih4)
    | (apply pq_res.holds_mono; apply ih8)
    | (apply pq_res.holds_bind; apply ih1)
    | (apply pq_res.holds_bind; apply ih2)
    | (apply pq_res.holds_bind; apply ih3)
    | (apply pq_res.holds_bind; apply ih4)
    | (apply pq_res.holds_bind; apply ih5)
    | (apply pq_res.holds_bind; apply ih6)
    | (apply pq_res.holds_bind; apply ih7)
    | (apply pq_res.holds_bind; apply ih8)
    | rintro _ _ ⟨rfl, _⟩
    | intro _
    | split

theorem nil_arg_list_loop_step (W : WCtype) (sf fuel : Nat) (root : Ptr)
    (ih4 : ∀ l st G, st.heap.nil_with root G →
      (pq_parse_prolog_arg_list_loop W sf fuel l st).holds (fun _ st1 => st1.heap.nil_with root G))
    (ih6 : ∀ st G, st.heap.nil_with root G →
      (pq_parse_prolog_arg W sf fuel st).holds (fun _ st1 => st1.heap.nil_with root G))
    (l : Ptr) (st : pq_state) (G : List (Option Ptr))
    (hG : st.heap.nil_with root G) :
    (pq_parse_prolog_arg_list_loop W sf (fuel + 1) l st).holds
      (fun _ st1 => st1.heap.nil_with root G) := by
  rw [pq_parse_prolog_arg_list_loop]
  try simp only [pq_new_atom_term, pq_new_integer_term, pq_new_float_term, pq_new_variable_term,
    pq_new_functor_term, pq_new_list_term]
  repeat' first
    | exact trivial
    | assumption
    | omega
    | exact Nat.le_refl _
    | exact Nat.zero_le _
    | rfl
    | exact Or.inl rfl
    | exact Or.inr rfl
    | exact List.mem_cons_self _ _
    | exact List.mem_cons_of_mem _ (List.mem_cons_self _ _)
    | ((try simp only [holds_ok, set_err_heap, node?_map_arg_list, node?_operand, node?_none])
       apply pq_heap.nil_with_of <;>
         first
         | assumption
         | ((try simp only [List.cons_subset, List.mem_cons, eq_self_iff_true, true_or, or_true,
              true_and])
            (repeat' first
              | exact List.Subset.refl _
              | exact List.nil_subset _
              | apply List.subset_cons_of_subset)
            done))
    | (apply pq_res.holds_mono; apply holds_link_infix_op_nil)
    | (apply pq_res.holds_mono; apply holds_link_postfix_op_nil)
    | (apply pq_res.holds_mono; apply holds_link_prefix_operand_nil)
    | apply holds_new_list_nil
    | apply holds_new_term_node_nil
    | apply holds_new_term_nil
    | apply holds_set_item_priority_nil
    | apply holds_push_back_nil
    | apply holds_next_token_nil W sf
    | (apply pq_res.holds_mono; apply ih1)
    | (apply pq_res.holds_mono; apply ih2)
    | (apply pq_res.holds_mono; apply ih4)
    | (apply pq_res.holds_mono; apply ih8)
    | (apply pq_res.holds_bind; apply ih1)
    | (apply pq_res.holds_bind; apply ih2)
    | (apply pq_res.holds_bind; apply ih3)
    | (apply pq_res.holds_bind; apply ih4)
    | (apply pq_res.holds_bind; apply ih5)
    | (apply pq_res.holds_bind; apply ih6)
    | (apply pq_res.holds_bind; apply ih7)
    | (apply pq_res.holds_bind; apply ih8)
    | rintro _ _ ⟨rfl, _⟩
    | intro _
    | split

theorem nil_items_step (W : WCtype) (sf fuel : Nat) (root : Ptr)
    (ih6 : ∀ st G, st.heap.nil_with root G →
      (pq_parse_prolog_arg W sf fuel st).holds (fun _ st1 => st1.heap.nil_with root G))
    (ih8 : ∀ l st G, st.heap.nil_with root G →
      (pq_parse_prolog_items_loop W sf fuel l st).holds (fun _ st1 => st1.heap.nil_with root G))
    (st : pq_state) (G : List (Option Ptr))
    (hG : st.heap.nil_with root G) :
    (pq_parse_prolog_items W sf (fuel + 1) st).holds
      (fun _ st1 => st1.heap.nil_with root G) := by
  rw [pq_parse_prolog_items]
  try simp only [pq_new_atom_term, pq_new_integer_term, pq_new_float_term, pq_new_variable_term,
    pq_new_functor_term, pq_new_list_term]
  repeat' first
    | exact trivial
    | assumption
    | omega
    | exact Nat.le_refl _
    | exact Nat.zero_le _
    | rfl
    | exact Or.inl rfl
    | exact Or.inr rfl
    | exact List.mem_cons_self _ _
    | exact List.mem_cons_of_mem _ (List.mem_cons_self _ _)
    | ((try simp only [holds_ok, set_err_heap, node?_map_arg_list, node?_operand, node?_none])
       apply pq_heap.nil_with_of <;>
         first
         | assumption
         | ((try simp only [List.cons_subset, List.mem_cons, eq_self_iff_true, true_or, or_true,
              true_and])
            (repeat' first
              | exact List.Subset.refl _
              | exact List.nil_subset _
              | apply List.subset_cons_of_subset)
            done))
    | (apply pq_res.holds_mono; apply holds_link_infix_op_nil)
    | (apply pq_res.holds_mono; apply holds_link_postfix_op_nil)
    | (apply pq_res.holds_mono; apply holds_link_prefix_operand_nil)
    | apply holds_new_list_nil
    | apply holds_new_term_node_nil
    | apply holds_new_term_nil
    | apply holds_set_item_priority_nil
    | apply holds_push_back_nil
    | apply holds_next_token_nil W sf
    | (apply pq_res.holds_mono; apply ih1)
    | (apply pq_res.holds_mono; apply ih2)
    | (apply pq_res.holds_mono; apply ih4)
    | (apply pq_res.holds_mono; apply ih8)
    | (apply pq_res.holds_bind; apply ih1)
    | (apply pq_res.holds_bind; apply ih2)
    | (apply pq_res.holds_bind; apply ih3)
    | (apply pq_res.holds_bind; apply ih4)
    | (apply pq_res.holds_bind; apply ih5)
    | (apply pq_res.holds_bind; apply ih6)
    | (apply pq_res.holds_bind; apply ih7)
    | (apply pq_res.holds_bind; apply ih8)
    | rintro _ _ ⟨rfl, _⟩
    | intro _
    | split

theorem nil_items_loop_step (W : WCtype) (sf fuel : Nat) (root : Ptr)
    (ih6 : ∀ st G, st.heap.nil_with root G →
      (pq_parse_prolog_arg W sf fuel st).holds (fun _ st1 => st1.heap.nil_with root G))
    (ih8 : ∀ l st G, st.heap.nil_with root G →
      (pq_parse_prolog_items_loop W sf fuel l st).holds (fun _ st1 => st1.heap.nil_with root G))
    (l : Ptr) (st : pq_state) (G : List (Option Ptr))
    (hG : st.heap.nil_with root G) :
    (pq_parse_prolog_items_loop W sf (fuel + 1) l st).holds
      (fun _ st1 => st1.heap.nil_with root G) := by
  rw [pq_parse_prolog_items_loop]
  try simp only [pq_new_atom_term, pq_new_integer_term, pq_new_float_term, pq_new_variable_term,
    pq_new_functor_term, pq_new_list_term]
  repeat' first
    | exact trivial
    | assumption
    | omega
    | exact Nat.le_refl _
    | exact Nat.zero_le _
    | rfl
    | exact Or.inl rfl
    | exact Or.inr rfl
    | exact List.mem_cons_self _ _
    | exact List.mem_cons_of_mem _ (List.mem_cons_self _ _)
    | ((try simp only [holds_ok, set_err_heap, node?_map_arg_list, node?_operand, node?_none])
       apply pq_heap.nil_with_of <;>
         first
         | assumption
         | ((try simp only [List.cons_subset, List.mem_cons, eq_self_iff_true, true_or, or_true,
              true_and])
            (repeat' first
              | exact List.Subset.refl _
              | exact List.nil_subset _
              | apply List.subset_cons_of_subset)
            done))
    | (apply pq_res.holds_mono; apply holds_link_infix_op_nil)
    | (apply pq_res.holds_mono; apply holds_link_postfix_op_nil)
    | (apply pq_res.holds_mono; apply holds_link_prefix_operand_nil)
    | apply holds_new_list_nil
    | apply holds_new_term_node_nil
    | apply holds_new_term_nil
    | apply holds_set_item_priority_nil
    | apply holds_push_back_nil
    | apply holds_next_token_nil W sf
    | (apply pq_res.holds_mono; apply ih1)
    | (apply pq_res.holds_mono; apply ih2)
    | (apply pq_res.holds_mono; apply ih4)
    | (apply pq_res.holds_mono; apply ih8)
    | (apply pq_res.holds_bind; apply ih1)
    | (apply pq_res.holds_bind; apply ih2)
    | (apply pq_res.holds_bind; apply ih3)
    | (apply pq_res.holds_bind; apply ih4)
    | (apply pq_res.holds_bind; apply ih5)
    | (apply pq_res.holds_bind; apply ih6)
    | (apply pq_res.holds_bind; apply ih7)
    | (apply pq_res.holds_bind; apply ih8)
    | rintro _ _ ⟨rfl, _⟩
    | intro _
    | split

theorem nil_operand_or_arg_list_step (W : WCtype) (sf fuel : Nat) (root : Ptr)
    (ih1 : ∀ p st G, p ≤ 1201 → st.heap.nil_with root G →
      (pq_parse_prolog_term W sf fuel p st).holds (fun v st1 => st1.heap.nil_with root (v :: G)))
    (ih4 : ∀ l st G, st.heap.nil_with root G →
      (pq_parse_prolog_arg_list_loop W sf fuel l st).holds (fun _ st1 => st1.heap.nil_with root G))
    (p : Nat) (st : pq_state) (G : List (Option Ptr))
    (hp : p ≤ 1201) (hG : st.heap.nil_with root G) :
    (pq_parse_prolog_operand_or_arg_list W sf (fuel + 1) p st).holds
      (fun v st1 => st1.heap.nil_with root (pq_operand_or_arg_list.node? v :: G)) := by
  rw [pq_parse_prolog_operand_or_arg_list]
  try simp only [pq_new_atom_term, pq_new_integer_term, pq_new_float_term, pq_new_variable_term,
    pq_new_functor_term, pq_new_list_term]
  repeat' first
    | exact trivial
    | assumption
    | omega
    | exact Nat.le_refl _
    | exact Nat.zero_le _
    | rfl
    | exact Or.inl rfl
    | exact Or.inr rfl
    | exact List.mem_cons_self _ _
    | exact List.mem_cons_of_mem _ (List.mem_cons_self _ _)
    | ((try simp only [holds_ok, set_err_heap, node?_map_arg_list, node?_operand, node?_none])
       apply pq_heap.nil_with_of <;>
         first
         | assumption
         | ((try simp only [List.cons_subset, List.mem_cons, eq_self_iff_true, true_or, or_true,
              true_and])
            (repeat' first
              | exact List.Subset.refl _
              | exact List.nil_subset _
              | apply List.subset_cons_of_subset)
            done))
    | (apply pq_res.holds_mono; apply holds_link_infix_op_nil)
    | (apply pq_res.holds_mono; apply holds_link_postfix_op_nil)
    | (apply pq_res.holds_mono; apply holds_link_prefix_operand_nil)
    | apply holds_new_list_nil
    | apply holds_new_term_node_nil
    | apply holds_new_term_nil
    | apply holds_set_item_priority_nil
    | apply holds_push_back_nil
    | apply holds_next_token_nil W sf
    | (apply pq_res.holds_mono; apply ih1)
    | (apply pq_res.holds_mono; apply ih2)
    | (apply pq_res.holds_mono; apply ih4)
    | (apply pq_res.holds_mono; apply ih8)
    | (apply pq_res.holds_bind; apply ih1)
    | (apply pq_res.holds_bind; apply ih2)
    | (apply pq_res.holds_bind; apply ih3)
    | (apply pq_res.holds_bind; apply ih4)
    | (apply pq_res.holds_bind; apply ih5)
    | (apply pq_res.holds_bind; apply ih6)
    | (apply pq_res.holds_bind; apply ih7)
    | (apply pq_res.holds_bind; apply ih8)
    | rintro _ _ ⟨rfl, _⟩
    | intro _
    | split

set_option maxHeartbeats 2000000 in
theorem nil_prefix_step (W : WCtype) (sf fuel : Nat) (root : Ptr)
    (ih1 : ∀ p st G, p ≤ 1201 → st.heap.nil_with root G →
      (pq_parse_prolog_term W sf fuel p st).holds (fun v st1 => st1.heap.nil_with root (v :: G)))
    (ih3 : ∀ p st G, p ≤ 1201 → st.heap.nil_with root G →
      (pq_parse_prolog_operand_or_arg_list W sf fuel p st).holds
        (fun v st1 => st1.heap.nil_with root (pq_operand_or_arg_list.node? v :: G)))
    (p : Nat) (st : pq_state) (G : List (Option Ptr))
    (hp0 : 0 < p) (hp : p ≤ 1201) (hG : st.heap.nil_with root G) :
    (pq_parse_prolog_prefix_op_or_functor_or_atom W sf (fuel + 1) p st).holds
      (fun v st1 => st1.heap.nil_with root (v :: G)) := by
  rw [pq_parse_prolog_prefix_op_or_functor_or_atom]
  try simp only [pq_new_atom_term, pq_new_integer_term, pq_new_float_term, pq_new_variable_term,
    pq_new_functor_term, pq_new_list_term]
  have hdec : pq_priority_dec p ≤ 1201 := pq_priority_dec_le hp0 hp
  generalize pq_priority_dec p = q at hdec ⊢
  repeat' first
    | exact trivial
    | assumption
    | omega
    | exact Nat.le_refl _
    | exact Nat.zero_le _
    | rfl
    | exact Or.inl rfl
    | exact Or.inr rfl
    | exact List.mem_cons_self _ _
    | exact List.mem_cons_of_mem _ (List.mem_cons_self _ _)
    | ((try simp only [holds_ok, set_err_heap, node?_map_arg_list, node?_operand, node?_none])
       apply pq_heap.nil_with_of <;>
         first
         | assumption
         | ((try simp only [List.cons_subset, List.mem_cons, eq_self_iff_true, true_or, or_true,
              true_and])
            (repeat' first
              | exact List.Subset.refl _
              | exact List.nil_subset _
              | apply List.subset_cons_of_subset)
            done))
    | (apply pq_res.holds_mono; apply holds_link_infix_op_nil)
    | (apply pq_res.holds_mono; apply holds_link_postfix_op_nil)
    | (apply pq_res.holds_mono; apply holds_link_prefix_operand_nil)
    | apply holds_new_list_nil
    | apply holds_new_term_node_nil
    | apply holds_new_term_nil
    | apply holds_set_item_priority_nil
    | apply holds_push_back_nil
    | apply holds_next_token_nil W sf
    | (apply pq_res.holds_mono; apply ih1)
    | (apply pq_res.holds_mono; apply ih2)
    | (apply pq_res.holds_mono; apply ih4)
    | (apply pq_res.holds_mono; apply ih8)
    | (apply pq_res.holds_bind; apply ih1)
    | (apply pq_res.holds_bind; apply ih2)
    | (apply pq_res.holds_bind; apply ih3)
    | (apply pq_res.holds_bind; apply ih4)
    | (apply pq_res.holds_bind; apply ih5)
    | (apply pq_res.holds_bind; apply ih6)
    | (apply pq_res.holds_bind; apply ih7)
    | (apply pq_res.holds_bind; apply ih8)
    | rintro _ _ ⟨rfl, _⟩
    | intro _
    | split

set_option maxHeartbeats 8000000 in
theorem nil_term_step (W : WCtype) (sf fuel : Nat) (root : Ptr)
    (ih1 : ∀ p st G, p ≤ 1201 → st.heap.nil_with root G →
      (pq_parse_prolog_term W sf fuel p st).holds (fun v st1 => st1.heap.nil_with root (v :: G)))
    (ih2 : ∀ p st G, 0 < p → p ≤ 1201 → st.heap.nil_with root G →
      (pq_parse_prolog_prefix_op_or_functor_or_atom W sf fuel p st).holds
        (fun v st1 => st1.heap.nil_with root (v :: G)))
    (ih5 : ∀ st G, st.heap.nil_with root G →
      (pq_parse_prolog_arg_list W sf fuel st).holds (fun _ st1 => st1.heap.nil_with root G))
    (ih7 : ∀ st G, st.heap.nil_with root G →
      (pq_parse_prolog_items W sf fuel st).holds (fun _ st1 => st1.heap.nil_with root G))
    (p : Nat) (st : pq_state) (G : List (Option Ptr))
    (hp : p ≤ 1201) (hG : st.heap.nil_with root G) :
    (pq_parse_prolog_term W sf (fuel + 1) p st).holds
      (fun v st1 => st1.heap.nil_with root (v :: G)) := by
  rw [pq_parse_prolog_term]
  try simp only [pq_new_atom_term, pq_new_integer_term, pq_new_float_term, pq_new_variable_term,
    pq_new_functor_term, pq_new_list_term]
  repeat' first
    | exact trivial
    | assumption
    | omega
    | exact Nat.le_refl _
    | exact Nat.zero_le _
    | rfl
    | exact Or.inl rfl
    | exact Or.inr rfl
    | exact List.mem_cons_self _ _
    | exact List.mem_cons_of_mem _ (List.mem_cons_self _ _)
    | ((try simp only [holds_ok, set_err_heap, node?_map_arg_list, node?_operand, node?_none])
       apply pq_heap.nil_with_of <;>
         first
         | assumption
         | ((try simp only [List.cons_subset, List.mem_cons, eq_self_iff_true, true_or, or_true,
              true_and])
            (repeat' first
              | exact List.Subset.refl _
              | exact List.nil_subset _
              | apply List.subset_cons_of_subset)
            done))
    | (apply pq_res.holds_mono; apply holds_link_infix_op_nil)
    | (apply pq_res.holds_mono; apply holds_link_postfix_op_nil)
    | (apply pq_res.holds_mono; apply holds_link_prefix_operand_nil)
    | apply holds_new_list_nil
    | apply holds_new_term_node_nil
    | apply holds_new_term_nil
    | apply holds_set_item_priority_nil
    | apply holds_push_back_nil
    | apply holds_next_token_nil W sf
    | (apply pq_res.holds_mono; apply ih1)
    | (apply pq_res.holds_mono; apply ih2)
    | (apply pq_res.holds_mono; apply ih4)
    | (apply pq_res.holds_mono; apply ih8)
    | (apply pq_res.holds_bind; apply ih1)
    | (apply pq_res.holds_bind; apply ih2)
    | (apply pq_res.holds_bind; apply ih3)
    | (apply pq_res.holds_bind; apply ih4)
    | (apply pq_res.holds_bind; apply ih5)
    | (apply pq_res.holds_bind; apply ih6)
    | (apply pq_res.holds_bind; apply ih7)
    | (apply pq_res.holds_bind; apply ih8)
    | rintro _ _ ⟨rfl, _⟩
    | intro _
    | split

/-- The parser keeps the sentinel, and the nodes it returns were allocated after it. -/
theorem parse_keeps_nil (W : WCtype) (sf : Nat) (root : Ptr) : ∀ fuel : Nat,
    (∀ p st G, p ≤ 1201 → st.heap.nil_with root G →
      (pq_parse_prolog_term W sf fuel p st).holds (fun v st1 => st1.heap.nil_with root (v :: G)))
    ∧ (∀ p st G, 0 < p → p ≤ 1201 → st.heap.nil_with root G →
      (pq_parse_prolog_prefix_op_or_functor_or_atom W sf fuel p st).holds
        (fun v st1 => st1.heap.nil_with root (v :: G)))
    ∧ (∀ p st G, p ≤ 1201 → st.heap.nil_with root G →
      (pq_parse_prolog_operand_or_arg_list W sf fuel p st).holds
        (fun v st1 => st1.heap.nil_with root (pq_operand_or_arg_list.node? v :: G)))
    ∧ (∀ l st G, st.heap.nil_with root G →
      (pq_parse_prolog_arg_list_loop W sf fuel l st).holds (fun _ st1 => st1.heap.nil_with root G))
    ∧ (∀ st G, st.heap.nil_with root G →
      (pq_parse_prolog_arg_list W sf fuel st).holds (fun _ st1 => st1.heap.nil_with root G))
    ∧ (∀ st G, st.heap.nil_with root G →
      (pq_parse_prolog_arg W sf fuel st).holds (fun _ st1 => st1.heap.nil_with root G))
    ∧ (∀ st G, st.heap.nil_with root G →
      (pq_parse_prolog_items W sf fuel st).holds (fun _ st1 => st1.heap.nil_with root G))
    ∧ (∀ l st G, st.heap.nil_with root G →
      (pq_parse_prolog_items_loop W sf fuel l st).holds (fun _ st1 => st1.heap.nil_with root G))
  | 0 => by
    refine ⟨?_, ?_, ?_, ?_, ?_, ?_, ?_, ?_⟩
    · intro p st G _ _; rw [pq_parse_prolog_term]; exact trivial
    · intro p st G _ _ _; rw [pq_parse_prolog_prefix_op_or_functor_or_atom]; exact trivial
    · intro p st G _ _; rw [pq_parse_prolog_operand_or_arg_list]; exact trivial
    · intro l st G _; rw [pq_parse_prolog_arg_list_loop]; exact trivial
    · intro st G _; rw [pq_parse_prolog_arg_list]; exact trivial
    · intro st G _; rw [pq_parse_prolog_arg]; exact trivial
    · intro st G _; rw [pq_parse_prolog_items]; exact trivial
    · intro l st G _; rw [pq_parse_prolog_items_loop]; exact trivial
  | fuel + 1 => by
    obtain ⟨ih1, ih2, ih3, ih4, ih5, ih6, ih7, ih8⟩ := parse_keeps_nil W sf root fuel
    exact ⟨fun p st G hp hG => nil_term_step W sf fuel root ih1 ih2 ih5 ih7 p st G hp hG,
      fun p st G hp0 hp hG => nil_prefix_step W sf fuel root ih1 ih3 p st G hp0 hp hG,
      fun p st G hp hG => nil_operand_or_arg_list_step W sf fuel root ih1 ih4 p st G hp hG,
      fun l st G hG => nil_arg_list_loop_step W sf fuel root ih4 ih6 l st G hG,
      fun st G hG => nil_arg_list_step W sf fuel root ih4 ih6 st G hG,
      fun st G hG => nil_arg_step W sf fuel root ih1 st G hG,
      fun st G hG => nil_items_step W sf fuel root ih6 ih8 st G hG,
      fun l st G hG => nil_items_loop_step W sf fuel root ih6 ih8 l st G hG⟩

/-- The clauses of a text: the sentinel is kept, and the returned node was allocated after
it. -/
theorem text_keeps_nil (W : WCtype) (sf : Nat) (root : Ptr) : ∀ (fuel : Nat) (st : pq_state)
    (G : List (Option Ptr)), st.heap.nil_with root G →
      (pq_parse_prolog_text W sf fuel st).holds (fun v st1 => st1.heap.nil_with root (v :: G))
  | 0, st, G, _ => by rw [pq_parse_prolog_text]; exact trivial
  | fuel + 1, st, G, hG => by
    have ih1 := (parse_keeps_nil W sf root fuel).1
    have iht := text_keeps_nil W sf root fuel
    rw [pq_parse_prolog_text]
    repeat' first
      | exact trivial
      | assumption
      | omega
      | exact List.mem_cons_self _ _
      | exact List.mem_cons_of_mem _ (List.mem_cons_self _ _)
      | ((try simp only [holds_ok, set_err_heap])
         apply pq_heap.nil_with_of <;>
           first
           | assumption
           | ((try simp only [List.cons_subset, List.mem_cons, eq_self_iff_true, true_or, or_true,
                true_and])
              (repeat' first
                | exact List.Subset.refl _
                | exact List.nil_subset _
                | apply List.subset_cons_of_subset)
              done))
      | apply holds_add_right_sibling_nil
      | apply holds_next_token_nil W sf
      | (apply pq_res.holds_bind; apply ih1)
      | (apply pq_res.holds_bind; apply iht)
      | intro _
      | split

/-- The tree that `pq_parser_parse` returns, and its sentinel in the heap that the parse
leaves. -/
theorem parser_parse_keeps_nil (W : WCtype) (sf fuel : Nat) (st : pq_state) :
    (pq_parser_parse W sf fuel st).holds (fun tree st1 =>
      tree = ⟨some st.heap.nodes.length⟩ ∧ st1.heap.keeps_nil st.heap.nodes.length) := by
  unfold pq_parser_parse pq_state.alloc
  have h0 : pq_heap.nil_with
      (pq_new_syntax_tree_nil_node st.heap).1 st.heap.nodes.length [] := by
    refine ⟨⟨?_, ?_⟩, fun nd hnd => by cases hnd⟩
    · simp [pq_new_syntax_tree_nil_node]
    · intro j n hj hn
      have hlt : j < st.heap.nodes.length + 1 := by
        have := get?_some_lt hn
        simpa [pq_new_syntax_tree_nil_node] using this
      exact absurd hlt (Nat.not_lt.mpr hj)
  refine holds_next_token_nil W sf _ h0 fun st1 h1 => ?_
  refine pq_res.holds_bind (text_keeps_nil W sf _ fuel st1 [] h1) fun v st2 h2 => ?_
  exact ⟨rfl, h2.1⟩

/-- A clause that is one integer: with three units of fuel `pq_parser_parse` returns, the
heap holds the sentinel and the node of the integer, and they are not linked. -/
theorem parse_integer_clause (W : WCtype) (sf : Nat) (buffer : Bytes) (n pri : Int) (d : Nat)
    (dot : pq_tok) (m : Nat) (hdot : dot.tag = .PQ_END_TOK)
    (hy : pq_buffer_yields W sf buffer [⟨.PQ_INT_TOK, .i n, pri, d⟩, dot] = true) :
    ∃ st1, pq_parser_parse W sf (m + 3) (pq_state.init buffer) = .ok ⟨some 0⟩ st1
      ∧ st1.parser.err = none
      ∧ st1.heap.terms = [⟨.int_val n, 0, PQ_TERM_NUMERIC_TYPE ||| PQ_TERM_INTEGER_TYPE⟩]
      ∧ st1.heap.nodes = [⟨none, some 0, some 0, none⟩, ⟨some 0, none, none, none⟩] := by
  unfold pq_buffer_yields at hy
  obtain ⟨sc1, e0, y0⟩ := pq_scanner_yields_cons hy
  obtain ⟨sc2, e1, y1⟩ := pq_scanner_yields_cons y0
  obtain ⟨sc3, e2⟩ := pq_scanner_yields_nil y1
  have hzero := term_zero_int W sf m
    ⟨⟨sc1, some ⟨.PQ_INT_TOK, .i n, pri, d⟩, none⟩, (pq_new_syntax_tree_nil_node pq_heap.empty).1⟩
    n pri d _ rfl e1
  have hterm := term_pos_before_end W sf (m + 1) 1200 _ _ ⟨.PQ_INT_TOK, .i n, pri, d⟩ dot _
    (by decide) rfl (by simp [pq_tok.is_prefix_operator_name]) hzero rfl rfl hdot
  have htext := text_one_term_eval (f := m + 1) hdot hterm e2
  refine ⟨⟨⟨sc3, none, none⟩,
    ⟨[⟨.int_val n, 0, PQ_TERM_NUMERIC_TYPE ||| PQ_TERM_INTEGER_TYPE⟩],
      [⟨none, some 0, some 0, none⟩, ⟨some 0, none, none, none⟩], [], []⟩⟩, ?_, rfl, rfl, rfl⟩
  unfold pq_parser_parse pq_state.alloc pq_state.init pq_parser_set_buffer pq_new_parser_rec
  simp only [pq_parser_next_token_eq _ _ _ e0, pq_res.bind_ok]
  rw [show m + 3 = m + 1 + 2 by omega, htext]
  rfl

/-- C29: whatever the buffer and the state of the parser, when `pq_parser_parse` returns, the
tree it returns is the tree it created before the parse: `children_nil` is the node that was
allocated first, and in the heap that the parse leaves this node has no item and both of its
links point to the node itself, so that the list of the children of the root holds no node.
No node allocated during the parse has a link to it. For a buffer that holds an integer and
the end token the call returns with three units of fuel: the integer was parsed into a term
and a node, and the returned tree is empty. -/
theorem C29_parse_returns_the_empty_tree (W : WCtype) (sf : Nat) :
    (∀ (fuel : Nat) (st st1 : pq_state) (tree : pq_syntax_tree),
      pq_parser_parse W sf fuel st = .ok tree st1 →
      tree.children_nil = some st.heap.nodes.length
      ∧ st.heap.nodes.get? st.heap.nodes.length = none
      ∧ st1.heap.nodes.get? st.heap.nodes.length
          = some ⟨none, some st.heap.nodes.length, some st.heap.nodes.length, none⟩
      ∧ ∀ j n, st.heap.nodes.length < j → st1.heap.nodes.get? j = some n →
          n.next ≠ some st.heap.nodes.length ∧ n.prev ≠ some st.heap.nodes.length)
    ∧ (∀ (buffer : Bytes) (n pri : Int) (d : Nat) (dot : pq_tok) (m : Nat),
      dot.tag = .PQ_END_TOK →
      pq_buffer_yields W sf buffer [⟨.PQ_INT_TOK, .i n, pri, d⟩, dot] = true →
      ∃ st1, pq_parser_parse W sf (m + 3) (pq_state.init buffer) = .ok ⟨some 0⟩ st1
        ∧ st1.parser.err = none
        ∧ st1.heap.terms = [⟨.int_val n, 0, PQ_TERM_NUMERIC_TYPE ||| PQ_TERM_INTEGER_TYPE⟩]
        ∧ st1.heap.nodes = [⟨none, some 0, some 0, none⟩, ⟨some 0, none, none, none⟩]) := by
  refine ⟨fun fuel st st1 tree h => ?_,
    fun buffer n pri d dot m hdot hy => parse_integer_clause W sf buffer n pri d dot m hdot hy⟩
  have key := parser_parse_keeps_nil W sf fuel st
  rw [h] at key
  obtain ⟨h1, h2, h3⟩ := key
  refine ⟨by rw [h1], List.get?_eq_none.mpr (Nat.le_refl _), h2, fun j n hj hn => ?_⟩
  have ha := h3 j n hj hn
  refine ⟨fun hc => ?_, fun hc => ?_⟩
  · exact absurd (ha.1 _ hc) (Nat.lt_irrefl _)
  · exact absurd (ha.2 _ hc) (Nat.lt_irrefl _)

/-- C29 (witness): the parse of `foo(a, b). x :- y.` by a new parser returns without an error,
the heap then holds six terms and five nodes, and the returned tree is the empty tree of
node 0; the parse of `42.` returns with three units of fuel. -/
theorem C29_witness :
    (∃ st1, pq_parser_parse asciiW 32 32 (pq_state.init (cstr "foo(a, b). x :- y."))
        = .ok ⟨some 0⟩ st1
      ∧ st1.parser.err = none ∧ st1.heap.terms.length = 6 ∧ st1.heap.nodes.length = 5
      ∧ st1.heap.nodes.get? 0 = some ⟨none, some 0, some 0, none⟩)
    ∧ (∃ st1, pq_parser_parse asciiW 4 (0 + 3) (pq_state.init (cstr "42.")) = .ok ⟨some 0⟩ st1
      ∧ st1.parser.err = none
      ∧ st1.heap.terms = [⟨.int_val 42, 0, PQ_TERM_NUMERIC_TYPE ||| PQ_TERM_INTEGER_TYPE⟩]
      ∧ st1.heap.nodes = [⟨none, some 0, some 0, none⟩, ⟨some 0, none, none, none⟩]) := by
  refine ⟨?_, (C29_parse_returns_the_empty_tree asciiW 4).2 (cstr "42.") 42 0 0 pq_end_tok 0
    (by decide) (by decide!)⟩
  have hs : (pq_parser_parse asciiW 32 32 (pq_state.init (cstr "foo(a, b). x :- y."))).state?.map
      (fun st => (st.parser.err, st.heap.terms.length, st.heap.nodes.length))
      = some (none, 6, 5) := by decide!
  cases hrun : pq_parser_parse asciiW 32 32 (pq_state.init (cstr "foo(a, b). x :- y.")) with
  | fault e =>
    rw [hrun] at hs
    cases hs
  | ok tree st1 =>
    rw [hrun] at hs
    simp only [pq_res.state?, Option.map_some', Option.some.injEq, Prod.mk.injEq] at hs
    obtain ⟨h1, _, h3, _⟩ :=
      (C29_parse_returns_the_empty_tree asciiW 32).1 32 _ st1 tree hrun
    have ht : tree = ⟨some 0⟩ := by
      cases tree
      simp only [pq_syntax_tree.mk.injEq]
      exact h1
    rw [ht]
    exact ⟨st1, rfl, hs.1, hs.2.1, hs.2.2, h3⟩

/-! ## The capacity of the growable string -/

set_option maxRecDepth 100000 in
/-- The size and the capacity after 32, 64, 65 and 66 calls of `pq_string_append_char` on a
new string. -/
theorem append_char_sizes :
    ((List.replicate 32 97).foldl pq_string_append_char pq_new_string).str_size = 32
    ∧ ((List.replicate 64 97).foldl pq_string_append_char pq_new_string).str_size = 64
    ∧ ((List.replicate 64 97).foldl pq_string_append_char pq_new_string).mem_size = 64
    ∧ ((List.replicate 65 97).foldl pq_string_append_char pq_new_string).mem_size = 64
    ∧ ((List.replicate 66 97).foldl pq_string_append_char pq_new_string).mem_size = 96 := by
  decide!

/-- C37 (evaluation at the failing input): one `pq_string_append_str` of 33 bytes on a new
string leaves the recorded capacity at 32 and the size at 33, so the 33 bytes and the NUL are
written to an allocation of 32 bytes; after 64 calls of `pq_string_append_char` on a new
string the size is 64 and the capacity is 64, so the NUL is written behind the allocation. -/
theorem C37_append_writes_behind_the_capacity :
    (pq_string_append_str pq_new_string (List.replicate 33 97)).str_size = 33
    ∧ (pq_string_append_str pq_new_string (List.replicate 33 97)).mem_size = 32
    ∧ ((List.replicate 64 97).foldl pq_string_append_char pq_new_string).str_size = 64
    ∧ ((List.replicate 64 97).foldl pq_string_append_char pq_new_string).mem_size = 64 :=
  ⟨by decide!, by decide!, append_char_sizes.2.1, append_char_sizes.2.2.1⟩

/-- C38 (amended): an append operation that changes the recorded capacity adds to it: the
offset 32 for `pq_string_append_char`, and the offset 32 plus the length of the appended
bytes less one for `pq_string_append_str` and `pq_string_append_string`. -/
theorem C38_growth_adds_the_offset (dest : pq_string) :
    (∀ ch, (pq_string_append_char dest ch).mem_size ≠ dest.mem_size →
      (pq_string_append_char dest ch).mem_size = dest.mem_size + PQ_STRING_MEM_OFFSET)
    ∧ (∀ src : Bytes, (pq_string_append_str dest src).mem_size ≠ dest.mem_size →
      (pq_string_append_str dest src).mem_size
        = dest.mem_size + (PQ_STRING_MEM_OFFSET + strlen src - 1))
    ∧ (∀ src : pq_string, (pq_string_append_string dest src).mem_size ≠ dest.mem_size →
      (pq_string_append_string dest src).mem_size
        = dest.mem_size + (PQ_STRING_MEM_OFFSET + src.str_size - 1)) := by
  refine ⟨fun ch h => ?_, fun src h => ?_, fun src h => ?_⟩
  · unfold pq_string_append_char at h ⊢
    simp only [] at h ⊢
    split at h
    · rename_i hc
      rw [if_pos hc]
    · exact absurd rfl h
  · unfold pq_string_append_str at h ⊢
    simp only [] at h ⊢
    split at h
    · exact absurd rfl h
    · rename_i hl
      rw [if_neg hl]
      split at h
      · rename_i hc
        rw [if_pos hc]
      · exact absurd rfl h
  · unfold pq_string_append_string at h ⊢
    simp only [] at h ⊢
    split at h
    · exact absurd rfl h
    · rename_i hl
      rw [if_neg hl]
      split at h
      · rename_i hc
        rw [if_pos hc]
      · exact absurd rfl h

/-- C38 (witness): the first `pq_string_append_char` on a new string takes the capacity from
32 to 64, and `pq_string_append_str` of 40 bytes takes it from 32 to 103. -/
theorem C38_witness :
    (pq_string_append_char pq_new_string 97).mem_size ≠ pq_new_string.mem_size
    ∧ (pq_string_append_char pq_new_string 97).mem_size
        = pq_new_string.mem_size + PQ_STRING_MEM_OFFSET
    ∧ (pq_string_append_str pq_new_string (List.replicate 40 97)).mem_size
        = pq_new_string.mem_size + (PQ_STRING_MEM_OFFSET + strlen (List.replicate 40 97) - 1)
    ∧ (pq_string_append_str pq_new_string (List.replicate 40 97)).mem_size = 103 :=
  ⟨by decide,
    (C38_growth_adds_the_offset pq_new_string).1 97 (by decide),
    (C38_growth_adds_the_offset pq_new_string).2.1 (List.replicate 40 97) (by decide),
    by decide⟩

/-- C38 (counterexample): the first `pq_string_append_char` on a new string grows the
capacity from 32 to 64, which is below twice 32 plus 32; the next growth, at the 66th call,
takes it from 64 to 96. -/
theorem C38_counterexample_growth_is_not_doubling :
    pq_new_string.mem_size = 32
    ∧ (pq_string_append_char pq_new_string 97).mem_size = 64
    ∧ (pq_string_append_char pq_new_string 97).mem_size < 2 * pq_new_string.mem_size + 32
    ∧ ((List.replicate 65 97).foldl pq_string_append_char pq_new_string).mem_size = 64
    ∧ ((List.replicate 66 97).foldl pq_string_append_char pq_new_string).mem_size = 96 :=
  ⟨by decide, by decide, by decide, append_char_sizes.2.2.2.1, append_char_sizes.2.2.2.2⟩

/-! ## Lists built by `pq_list_push_back` -/

theorem pq_pushed_list.of_new_list (h : pq_heap) :
    pq_pushed_list (pq_new_list h).1 (pq_new_list h).2 h.list_nodes.length 0 none := by
  refine ⟨?_, h.list_nodes.length, ?_, ?_⟩ <;> simp [pq_new_list]

theorem pq_pushed_list.push_back {h : pq_heap} {list nil : Ptr} {k : Nat} {last : Option Ptr}
    (hp : pq_pushed_list h list nil k last) (x : Option Ptr) :
    ∃ h1, pq_list_push_back h list x = some h1 ∧ pq_pushed_list h1 list nil (k + 1) x := by
  obtain ⟨hl, pv, hn, _⟩ := hp
  have hlt : nil < h.list_nodes.length := get?_some_lt hn
  have hllt : list < h.lists.length := get?_some_lt hl
  unfold pq_list_push_back
  simp only [hl, hn]
  refine ⟨_, rfl, ?_, h.list_nodes.length, ?_, ?_⟩
  · simp [hllt]
  · simp only [List.get?_eq_getElem?]
    rw [List.getElem?_set_self (by simp; exact Nat.lt_succ_of_lt hlt)]
  · simp only [List.get?_eq_getElem?]
    rw [List.getElem?_set_ne (Nat.ne_of_lt hlt)]
    simp

theorem pq_pushed_list.push_back_all {list nil : Ptr} :
    ∀ (items : List (Option Ptr)) (h : pq_heap) (k : Nat) (last : Option Ptr),
      pq_pushed_list h list nil k last →
      ∃ h1, pq_list_push_back_all h list items = some h1
        ∧ pq_pushed_list h1 list nil (k + items.length) (items.getLast?.getD last)
  | [], h, k, last, hp => ⟨h, rfl, hp⟩
  | x :: xs, h, k, last, hp => by
    obtain ⟨h1, e1, p1⟩ := hp.push_back x
    obtain ⟨h2, e2, p2⟩ := pq_pushed_list.push_back_all xs h1 (k + 1) x p1
    refine ⟨h2, ?_, ?_⟩
    · rw [pq_list_push_back_all, e1]
      exact e2
    · rw [List.length_cons, show k + (xs.length + 1) = k + 1 + xs.length by omega]
      have hlast : (x :: xs).getLast?.getD last = xs.getLast?.getD x := by
        cases xs with
        | nil => rfl
        | cons y ys =>
          rw [List.getLast?_cons_cons, List.getLast?_eq_getLast _ (List.cons_ne_nil y ys)]
          rfl
      rw [hlast]
      exact p2

/-- C39 (the list after the pushes): whatever the items, the calls of `pq_list_push_back` on
a new list leave a list with the recorded size of their number whose last pushed item is
what `pq_list_back` returns, but the `next` link of the sentinel still points to the
sentinel: `pq_list_front` returns the item of the sentinel, which was never written, and the
walk along the `next` links from the sentinel meets no item. For the items 7, 8, 9 the walk
along the `prev` links meets all three. -/
theorem C39_push_back_leaves_next_of_sentinel (h : pq_heap) (items : List (Option Ptr)) :
    (∃ h1, pq_list_push_back_all (pq_new_list h).1 (pq_new_list h).2 items = some h1
      ∧ h1.list_size (pq_new_list h).2 = some items.length
      ∧ pq_list_back h1 (pq_new_list h).2 = some (items.getLast?.getD none)
      ∧ pq_list_front h1 (pq_new_list h).2 = some none
      ∧ h1.list_items_by_next (pq_new_list h).2 = [])
    ∧ (pq_list_push_back_all (pq_new_list pq_heap.empty).1 0 [some 7, some 8, some 9]).map
        (fun h1 => (h1.list_items_by_prev 0, h1.list_items_by_next 0, pq_list_front h1 0))
      = some ([some 7, some 8, some 9], [], some none) := by
  refine ⟨?_, by decide⟩
  obtain ⟨h1, e1, hl, pv, hn, hpv⟩ := pq_pushed_list.push_back_all items _ 0 none
    (pq_pushed_list.of_new_list h)
  refine ⟨h1, e1, ?_, ?_, ?_, ?_⟩
  · unfold pq_heap.list_size
    rw [hl, Nat.zero_add]
    rfl
  · unfold pq_list_back pq_list_end_node
    rw [hl]
    simp only [hn]
    exact hpv
  · unfold pq_list_front pq_list_end_node
    rw [hl]
    simp only [hn, if_true]
    rfl
  · unfold pq_heap.list_items_by_next
    rw [hl]
    simp only [hn]
    cases h1.list_nodes.length with
    | zero => rfl
    | succ m => simp [pq_heap.list_walk]

/-! ## Children of a node of the syntax tree -/

/-- C40 (evaluation): a new node is a leaf without children. After one
`pq_syntax_tree_add_right_child` (or one `pq_syntax_tree_add_left_child`) the node has one
child, and `pq_syntax_tree_is_leaf` still answers true: both links of the sentinel point to
that child. After two calls it has two children and the answer is false. -/
theorem C40_is_leaf_with_one_child :
    (pq_syntax_tree_is_leaf (pq_new_syntax_tree_node pq_heap.empty (some 5)).1 0 = some true
      ∧ (pq_new_syntax_tree_node pq_heap.empty (some 5)).1.child_items 0 = [])
    ∧ (pq_syntax_tree_add_right_child (pq_new_syntax_tree_node pq_heap.empty (some 5)).1
          (some 0) (some 7)).map
        (fun h => (h.child_items 0, pq_syntax_tree_is_leaf h 0)) = some ([some 7], some true)
    ∧ (pq_syntax_tree_add_left_child (pq_new_syntax_tree_node pq_heap.empty (some 5)).1
          (some 0) (some 7)).map
        (fun h => (h.child_items 0, pq_syntax_tree_is_leaf h 0)) = some ([some 7], some true)
    ∧ ((pq_syntax_tree_add_right_child (pq_new_syntax_tree_node pq_heap.empty (some 5)).1
          (some 0) (some 7)).bind fun h => pq_syntax_tree_add_right_child h (some 0) (some 8)).map
        (fun h => (h.child_items 0, pq_syntax_tree_is_leaf h 0))
      = some ([some 7, some 8], some false)
    ∧ ((pq_syntax_tree_add_left_child (pq_new_syntax_tree_node pq_heap.empty (some 5)).1
          (some 0) (some 7)).bind fun h => pq_syntax_tree_add_left_child h (some 0) (some 8)).map
        (fun h => (h.child_items 0, pq_syntax_tree_is_leaf h 0))
      = some ([some 8, some 7], some false) := by
  refine ⟨⟨by decide, by decide⟩, by decide, by decide, by decide, by decide⟩

/-! ## The prefix operator `-`, the scanner after an error, and the line counter -/

/-- C31 (evaluation at the failing input): the parse of `- a.` ends without an error and
leaves one node and one term, the atom `a`: no operator term for `-` was made, the branch
for `-` returns the operand whatever it is. The parse of `\+ a.` leaves the operator term of
`\+` with the specifier fy in front of the atom, and in `- 1.` the sign goes into the
integer. -/
theorem C31_minus_before_an_atom_leaves_no_operator :
    (pq_parse_buffer asciiW 32 32 (cstr "- a.")).err? = some none
    ∧ (pq_parse_buffer asciiW 32 32 (cstr "- a.")).val? = some (some 0)
    ∧ (pq_parse_buffer asciiW 32 32 (cstr "- a.")).heap?.map (fun h => (h.terms, h.nodes))
      = some ([⟨.atom_id (cstr "a"), 0, PQ_TERM_ATOM_TYPE⟩], [⟨some 0, none, none, none⟩])
    ∧ (pq_parse_buffer asciiW 32 32 (cstr "\\+ a.")).val? = some (some 1)
    ∧ (pq_parse_buffer asciiW 32 32 (cstr "\\+ a.")).heap?.map (fun h => (h.terms, h.nodes))
      = some ([⟨.atom_id (cstr "a"), 0, PQ_TERM_ATOM_TYPE⟩,
          ⟨.op_data (cstr "\\+") .PQ_OP_FY, 1201, PQ_TERM_ATOM_TYPE ||| PQ_TERM_OPERATOR_TYPE⟩],
        [⟨some 0, none, some 1, none⟩, ⟨some 1, some 0, none, none⟩])
    ∧ (pq_parse_buffer asciiW 32 32 (cstr "- 1.")).heap?.map (fun h => (h.terms, h.nodes))
      = some ([⟨.int_val (-1), 0, PQ_TERM_NUMERIC_TYPE ||| PQ_TERM_INTEGER_TYPE⟩],
        [⟨some 0, none, none, none⟩]) := by
  decide!

/-- C32 (evaluation at the failing input): on the buffer `'a` the call of
`pq_scanner_next_token` ends with the error of the missing closing quote. The offsets `beg`
and `end` are back at 0, where the buffer holds the quote (code point 39), but the scanner
still holds the code point 0 that it read at the end of the buffer. -/
theorem C32_error_keeps_the_code_point_of_its_position :
    (pq_scanner_next_token asciiW 8 (pq_scanner_set_buffer pq_new_scanner [39, 97])).map
        (fun r => (r.tok, r.err))
      = some (none, some (cstr "[ln 1 col 3] error, expected closing quotation"))
    ∧ (pq_scanner_next_token asciiW 8 (pq_scanner_set_buffer pq_new_scanner [39, 97])).map
        (fun r => (r.scanner.beg, r.scanner.end_, r.scanner.cp, r.scanner.cp_bytes))
      = some (0, 0, 0, 1)
    ∧ pq_utf8_to_cp [39, 97] 0 = some (39, 1) := by
  decide!

/-- C34 (evaluation at the failing input): on the buffer of `a` and a newline character the
call of `pq_scanner_next_token` returns the name `a` and leaves the scanner at offset 1 with
the line 0, though no newline character lies before offset 1: `pq_scanner_rewind` takes a
line off when the code point that it leaves is a newline. With the newline in front of `a`
and a blank behind, the line is 2 at offset 2, one newline before it. -/
theorem C34_rewind_from_a_newline_takes_a_line_off :
    (pq_scanner_next_token asciiW 8 (pq_scanner_set_buffer pq_new_scanner [97, 10])).map
        (fun r => (r.tok, r.err, r.scanner.end_, r.scanner.ln))
      = some (some (pq_new_str_token .PQ_NAME_TOK [97] 0), none, 1, 0)
    ∧ pq_newlines_before [97, 10] 1 = 0
    ∧ (pq_scanner_next_token asciiW 8 (pq_scanner_set_buffer pq_new_scanner [10, 97, 32])).map
        (fun r => (r.tok, r.err, r.scanner.end_, r.scanner.ln))
      = some (some (pq_new_str_token .PQ_NAME_TOK [97] 0), none, 2, 2)
    ∧ pq_newlines_before [10, 97, 32] 2 = 1 := by
  decide!

/-! ## Positions in a text of characters -/

theorem char_ok_shape {c : pq_char} (h : pq_char_ok c) :
    ∃ b0 tail, c.bytes = b0 :: tail ∧ pq_is_utf8_1st_byte b0 = true
      ∧ ∀ b ∈ tail, pq_is_utf8_1st_byte b = false := by
  obtain ⟨cp, bytes⟩ := c
  obtain ⟨h0, h⟩ := h
  simp only at h0 h
  rcases bytes with _ | ⟨b0, _ | ⟨b1, _ | ⟨b2, _ | ⟨b3, _ | ⟨b4, t⟩⟩⟩⟩⟩
  · simp [pq_utf8_to_cp] at h
  all_goals
    refine ⟨b0, _, rfl, ?_⟩
    simp only [pq_utf8_to_cp, pq_is_utf8_non_1st_byte, List.getD_eq_getElem?_getD,
      List.getElem?_cons_zero, List.getElem?_cons_succ, Option.getD_some, Nat.zero_add,
      List.length_cons, List.length_nil, List.getElem?_nil, Option.getD_none] at h
    simp only [pq_is_utf8_1st_byte, List.mem_cons, List.mem_nil_iff, or_false, forall_eq_or_imp,
      forall_eq]
    split_ifs at h <;> simp_all <;> omega

theorem rewind_end_char (pre : Bytes) (b0 : Nat) (tail post : Bytes)
    (h0 : pq_is_utf8_1st_byte b0 = true) (ht : ∀ b ∈ tail, pq_is_utf8_1st_byte b = false) :
    ∀ k, k ≤ tail.length →
      pq_scanner_rewind_end (pre ++ (b0 :: tail ++ post)) (pre.length + k + 1) = pre.length
  | 0, _ => by
    show pq_scanner_rewind_end _ (pre.length + 1) = _
    rw [pq_scanner_rewind_end]
    have : (pre ++ (b0 :: tail ++ post)).getD pre.length 0 = b0 := by
      rw [List.getD_eq_getElem?_getD, List.getElem?_append_right (Nat.le_refl _)]
      simp
    rw [this, if_pos h0]
  | k + 1, hk => by
    show pq_scanner_rewind_end _ (pre.length + (k + 1) + 1) = _
    rw [pq_scanner_rewind_end]
    have hget : (pre ++ (b0 :: tail ++ post)).getD (pre.length + (k + 1)) 0 = tail.getD k 0 := by
      simp only [List.getD_eq_getElem?_getD, List.cons_append]
      rw [List.getElem?_append_right (by omega)]
      simp only [Nat.add_sub_cancel_left, List.getElem?_cons_succ]
      rw [List.getElem?_append_left (by omega)]
    have hmem : tail.getD k 0 ∈ tail := by
      rw [List.getD_eq_getElem?_getD, List.getElem?_eq_getElem (by omega)]
      exact List.getElem_mem _
    rw [hget, ht _ hmem]
    simp only [Bool.false_eq_true, if_false]
    exact rewind_end_char pre b0 tail post h0 ht k (by omega)

/-- The search for the first byte of the character in front of `end`, when that is the
character `c`. -/
theorem rewind_end_ok {c : pq_char} (hc : pq_char_ok c) (pre post : Bytes) :
    pq_scanner_rewind_end (pre ++ (c.bytes ++ post)) (pre.length + c.bytes.length)
      = pre.length := by
  obtain ⟨b0, tail, hb, h0, ht⟩ := char_ok_shape hc
  rw [hb]
  exact rewind_end_char pre b0 tail post h0 ht tail.length (Nat.le_refl _)

theorem chars_bytes_snoc (pre : List pq_char) (c : pq_char) (rest : List pq_char) :
    pq_chars_bytes (pre ++ [c] ++ rest)
      = pq_chars_bytes pre ++ (c.bytes ++ pq_chars_bytes rest) := by
  simp [pq_chars_bytes]

theorem chars_bytes_snoc_length (pre : List pq_char) (c : pq_char) :
    (pq_chars_bytes (pre ++ [c])).length = (pq_chars_bytes pre).length + c.bytes.length := by
  simp [pq_chars_bytes]

theorem TextAt.drop_eq {pre rest : List pq_char} {s : pq_scanner} (h : TextAt pre rest s) :
    s.buffer.drop s.end_ = pq_chars_bytes rest := by
  rw [h.buffer, h.end_, chars_bytes_append, List.drop_left]

theorem TextAt.ok_rest {pre rest : List pq_char} {s : pq_scanner} (h : TextAt pre rest s) :
    ∀ c ∈ rest, pq_char_ok c := fun c hc => h.ok c (List.mem_append_right _ hc)

theorem TextAt.ok_pre {pre rest : List pq_char} {s : pq_scanner} (h : TextAt pre rest s) :
    ∀ c ∈ pre, pq_char_ok c := fun c hc => h.ok c (List.mem_append_left _ hc)

/-- The decoding at a position of the text. -/
theorem TextAt.text_decode {pre rest : List pq_char} {s : pq_scanner} (h : TextAt pre rest s) :
    TextPos pre rest (pq_scanner_decode s) := by
  obtain ⟨n, hdec, hn⟩ := decode_chars h.ok_rest h.drop_eq
  unfold pq_scanner_decode
  rw [hdec]
  exact ⟨⟨h.ok, h.buffer, h.buffer_sz, h.end_⟩, rfl, hn⟩

theorem TextPos.to_char_pos {pre rest : List pq_char} {s : pq_scanner} (h : TextPos pre rest s) :
    CharPos (pq_chars_bytes (pre ++ rest)) s.beg (pq_chars_bytes pre).length rest s :=
  ⟨h.pos.buffer, h.pos.buffer_sz, rfl, h.pos.end_, by rw [← h.pos.buffer, ← h.pos.end_]; exact h.pos.drop_eq,
    h.cp, h.cp_bytes⟩

theorem TextPos.text_of_set_buffer (s0 : pq_scanner) {cs : List pq_char}
    (hok : ∀ c ∈ cs, pq_char_ok c) :
    TextPos [] cs (pq_scanner_set_buffer s0 (pq_chars_bytes cs)) := by
  have h := CharPos.of_set_buffer s0 hok
  exact ⟨⟨by simpa using hok, h.buffer, h.buffer_sz, h.end_⟩, h.cp, h.cp_bytes⟩

theorem forward_succ (s : pq_scanner) (i : Nat) :
    pq_scanner_forward s (i + 1) = pq_scanner_forward (pq_scanner_forward s 1) i := by
  by_cases hg : s.end_ ≤ size_dec s.buffer_sz
  · simp only [pq_scanner_forward, hg, if_true]
  · have h1 : pq_scanner_forward s 1 = s := by simp only [pq_scanner_forward, hg, if_false]
    rw [h1]
    cases i with
    | zero => exact h1
    | succ i => simp only [pq_scanner_forward, hg, if_false]

/-- One character forward in a text. -/
theorem TextPos.text_forward {pre rest : List pq_char} {c : pq_char} {s : pq_scanner}
    (h : TextPos pre (c :: rest) s) :
    TextPos (pre ++ [c]) rest (pq_scanner_forward s 1)
      ∧ (pq_scanner_forward s 1).col = s.col + 1
      ∧ (pq_scanner_forward s 1).beg = s.beg
      ∧ (pq_scanner_forward s 1).end_ = s.end_ + c.bytes.length := by
  have hcp := h.to_char_pos
  have hf := hcp.forward_char h.pos.ok_rest
  have hfmt : pq_scanner_forward s 1 =
      { s with ln := if s.cp = 10 then s.ln + 1 else s.ln, end_ := s.end_ + c.bytes.length,
               cp := (pq_scanner_forward s 1).cp, cp_bytes := (pq_scanner_forward s 1).cp_bytes,
               col := s.col + 1 } := by
    have hd := h.pos.drop_eq
    rw [chars_bytes_cons] at hd
    have hc := char_ok_bytes (h.pos.ok_rest c (List.mem_cons_self _ _))
    have hle := lt_length_of_drop hd hc.1
    have hd2 := drop_add_of_append hd
    obtain ⟨n, hdec, hn⟩ := decode_chars
      (fun x hx => h.pos.ok_rest x (List.mem_cons_of_mem _ hx)) hd2
    have hk : s.cp_bytes = ((c.bytes.length : Nat) : Int) := by rw [h.cp_bytes]; rfl
    have e := forward_one_valid s c.bytes.length _ n (by rw [h.pos.buffer_sz, ← h.pos.buffer]; omega)
      hk hdec
    rw [e]
  refine ⟨⟨⟨?_, ?_, ?_, ?_⟩, hf.cp, hf.cp_bytes⟩, ?_, ?_, ?_⟩
  · simpa using h.pos.ok
  · rw [hf.buffer]; simp
  · rw [hf.buffer_sz]; simp
  · rw [hf.end_, chars_bytes_snoc_length]
  · rw [hfmt]
  · rw [hfmt]
  · rw [hfmt]

/-- Forward over the characters `mid` of a text. -/
theorem TextPos.text_forward_many {rest : List pq_char} :
    ∀ (mid pre : List pq_char) (s : pq_scanner), TextPos pre (mid ++ rest) s →
      TextPos (pre ++ mid) rest (pq_scanner_forward s mid.length)
        ∧ (pq_scanner_forward s mid.length).col = s.col + mid.length
        ∧ (pq_scanner_forward s mid.length).beg = s.beg
  | [], pre, s, h => by
    refine ⟨?_, rfl, rfl⟩
    simpa [pq_scanner_forward] using h
  | c :: mid, pre, s, h => by
    obtain ⟨h1, hcol, hbeg, _⟩ := TextPos.text_forward h
    obtain ⟨h2, hcol2, hbeg2⟩ := TextPos.text_forward_many mid (pre ++ [c]) _ h1
    rw [List.length_cons, forward_succ]
    refine ⟨?_, ?_, ?_⟩
    · simpa using h2
    · rw [hcol2, hcol]; omega
    · rw [hbeg2, hbeg]

/-- One pass of the loop of `pq_scanner_rewind` over the character `c` in front of `end`. -/
theorem TextAt.rewind_step {pre rest : List pq_char} {c : pq_char} {s : pq_scanner}
    (h : TextAt (pre ++ [c]) rest s) (n : Nat) :
    ∃ t, pq_scanner_rewind_loop s (n + 1) = pq_scanner_rewind_loop t n
      ∧ TextAt pre (c :: rest) t ∧ t.col = size_dec s.col ∧ t.beg = s.beg := by
  have hc : pq_char_ok c := h.ok_pre c (by simp)
  have hpos : s.end_ > 0 := by
    rw [h.end_, chars_bytes_snoc_length]
    have := (char_ok_bytes hc).1
    omega
  have hre : pq_scanner_rewind_end s.buffer s.end_ = (pq_chars_bytes pre).length := by
    rw [h.buffer, h.end_, chars_bytes_snoc, chars_bytes_snoc_length]
    exact rewind_end_ok hc _ _
  rw [pq_scanner_rewind_loop, if_pos hpos]
  refine ⟨_, rfl, ⟨?_, ?_, ?_, ?_⟩, ?_, ?_⟩
  · simpa using h.ok
  · by_cases h10 : s.cp = 10 <;> simp [h10, h.buffer]
  · by_cases h10 : s.cp = 10 <;> simp [h10, h.buffer_sz]
  · by_cases h10 : s.cp = 10 <;> simp [h10, hre]
  · by_cases h10 : s.cp = 10 <;> simp [h10]
  · by_cases h10 : s.cp = 10 <;> simp [h10]

/-- The loop of `pq_scanner_rewind` over the characters `mid` in front of `end`. -/
theorem TextAt.rewind_many {pre : List pq_char} :
    ∀ (n : Nat) (mid rest : List pq_char) (s : pq_scanner), mid.length = n →
      TextAt (pre ++ mid) rest s → ∀ col0, s.col = col0 + n →
      TextAt pre (mid ++ rest) (pq_scanner_rewind_loop s n)
        ∧ (pq_scanner_rewind_loop s n).col = col0
        ∧ (pq_scanner_rewind_loop s n).beg = s.beg
  | 0, mid, rest, s, hn, h, col0, hcol => by
    have hm : mid = [] := List.length_eq_zero.mp hn
    subst hm
    refine ⟨?_, by simpa [pq_scanner_rewind_loop] using hcol, rfl⟩
    simpa [pq_scanner_rewind_loop] using h
  | n + 1, mid, rest, s, hn, h, col0, hcol => by
    rcases List.eq_nil_or_concat mid with hm | ⟨mid2, c, hm⟩
    · subst hm; simp at hn
    · subst hm
      have hn2 : mid2.length = n := by simpa using hn
      have h1 : TextAt (pre ++ mid2 ++ [c]) rest s := by simpa using h
      obtain ⟨t, e, ht, hcolt, hbegt⟩ := TextAt.rewind_step h1 n
      have hcolt2 : t.col = col0 + n := by
        rw [hcolt, hcol, size_dec_pos (by omega)]
        omega
      obtain ⟨h2, hc2, hb2⟩ := TextAt.rewind_many n mid2 (c :: rest) t hn2 ht col0 hcolt2
      rw [e]
      refine ⟨?_, hc2, ?_⟩
      · simpa using h2
      · rw [hb2, hbegt]

/-- C33 (amended): in a buffer of characters that the decoder accepts, with the scanner at a
character boundary and holding the decoding there, `pq_scanner_forward` over `k` characters
that the text still has, followed by `pq_scanner_rewind` by `k`, restores the column, `beg`,
`end`, the code point and its length. -/
theorem C33_forward_then_rewind_within_the_text (pre mid rest : List pq_char) (s : pq_scanner)
    (h : TextPos pre (mid ++ rest) s) :
    (pq_scanner_rewind (pq_scanner_forward s mid.length) mid.length).col = s.col
    ∧ (pq_scanner_rewind (pq_scanner_forward s mid.length) mid.length).beg = s.beg
    ∧ (pq_scanner_rewind (pq_scanner_forward s mid.length) mid.length).end_ = s.end_
    ∧ (pq_scanner_rewind (pq_scanner_forward s mid.length) mid.length).cp = s.cp
    ∧ (pq_scanner_rewind (pq_scanner_forward s mid.length) mid.length).cp_bytes = s.cp_bytes
    ∧ pq_utf8_to_cp s.buffer s.end_ = some (s.cp, s.cp_bytes.toNat) := by
  have hdec : pq_utf8_to_cp s.buffer s.end_ = some (s.cp, s.cp_bytes.toNat) := by
    obtain ⟨n, hdec, hn⟩ := decode_chars h.pos.ok_rest h.pos.drop_eq
    rw [hdec, h.cp, h.cp_bytes, ← hn]
    rfl
  cases hk : mid.length with
  | zero =>
    exact ⟨rfl, rfl, rfl, rfl, rfl, hdec⟩
  | succ k =>
    rw [← hk]
    obtain ⟨hf, hcol, hbeg⟩ := TextPos.text_forward_many mid pre s h
    obtain ⟨hr, hcol2, hbeg2⟩ := TextAt.rewind_many mid.length mid rest _ rfl hf.pos s.col hcol
    have hp := hr.text_decode
    have hrw : pq_scanner_rewind (pq_scanner_forward s mid.length) mid.length
        = pq_scanner_decode (pq_scanner_rewind_loop (pq_scanner_forward s mid.length) mid.length) := by
      unfold pq_scanner_rewind
      rw [if_pos (by omega)]
    rw [hrw]
    have hkeep : ∀ t : pq_scanner, (pq_scanner_decode t).col = t.col
        ∧ (pq_scanner_decode t).beg = t.beg ∧ (pq_scanner_decode t).end_ = t.end_ := by
      intro t
      unfold pq_scanner_decode
      split <;> exact ⟨rfl, rfl, rfl⟩
    refine ⟨?_, ?_, ?_, ?_, ?_, hdec⟩
    · rw [(hkeep _).1, hcol2]
    · rw [(hkeep _).2.1, hbeg2, hbeg]
    · rw [hp.pos.end_, h.pos.end_]
    · rw [hp.cp, h.cp]
    · rw [hp.cp_bytes, h.cp_bytes]

/-- C33 (witness): the text `aéb` from its start, forward and back over `a` and `é`. -/
theorem C33_witness :
    TextPos [] ([⟨97, [97]⟩, ⟨233, [195, 169]⟩] ++ [⟨98, [98]⟩])
        (pq_scanner_set_buffer pq_new_scanner
          (pq_chars_bytes ([⟨97, [97]⟩, ⟨233, [195, 169]⟩] ++ [⟨98, [98]⟩])))
    ∧ (pq_scanner_rewind (pq_scanner_forward (pq_scanner_set_buffer pq_new_scanner
          (pq_chars_bytes ([⟨97, [97]⟩, ⟨233, [195, 169]⟩] ++ [⟨98, [98]⟩]))) 2) 2).end_ = 0
    ∧ (pq_scanner_rewind (pq_scanner_forward (pq_scanner_set_buffer pq_new_scanner
          (pq_chars_bytes ([⟨97, [97]⟩, ⟨233, [195, 169]⟩] ++ [⟨98, [98]⟩]))) 2) 2).cp = 97 :=
  ⟨TextPos.text_of_set_buffer pq_new_scanner (by decide),
    (C33_forward_then_rewind_within_the_text [] [⟨97, [97]⟩, ⟨233, [195, 169]⟩] [⟨98, [98]⟩] _
      (TextPos.text_of_set_buffer pq_new_scanner (by decide))).2.2.1,
    (C33_forward_then_rewind_within_the_text [] [⟨97, [97]⟩, ⟨233, [195, 169]⟩] [⟨98, [98]⟩] _
      (TextPos.text_of_set_buffer pq_new_scanner (by decide))).2.2.2.1⟩

/-- C33 (counterexample): in the buffer `ab` with the scanner at `b`, `pq_scanner_forward` by 2
stops at the end of the buffer after one character, and `pq_scanner_rewind` by 2 then goes
back two characters: `end` is 0 and the code point is `a`, not the 1 and the `b` from
before. -/
theorem C33_counterexample_forward_stops_at_the_end :
    (pq_scanner_forward (pq_scanner_set_buffer pq_new_scanner [97, 98]) 1).end_ = 1
    ∧ (pq_scanner_forward (pq_scanner_set_buffer pq_new_scanner [97, 98]) 1).cp = 98
    ∧ (pq_scanner_forward (pq_scanner_forward
        (pq_scanner_set_buffer pq_new_scanner [97, 98]) 1) 2).end_ = 2
    ∧ (pq_scanner_rewind (pq_scanner_forward (pq_scanner_forward
        (pq_scanner_set_buffer pq_new_scanner [97, 98]) 1) 2) 2).end_ = 0
    ∧ (pq_scanner_rewind (pq_scanner_forward (pq_scanner_forward
        (pq_scanner_set_buffer pq_new_scanner [97, 98]) 1) 2) 2).cp = 97 := by
  decide

/-! ## Progress of the passes through the state machine of the scanner -/

theorem lower_zero {W : WCtype} (hW : W.IsoAscii) : pq_is_unicode_lower_char W 0 = false := by
  rw [hW.lower (by decide)]; decide

theorem pq_heap.list_filled_none (h : pq_heap) : h.list_filled none := by
  intro l hl; cases hl

theorem pq_heap.fun_with_of {h : pq_heap} {G G' : List (Option Ptr)} (hG : h.fun_with G')
    (hsub : G ⊆ none :: G') : h.fun_with G := by
  refine ⟨hG.1, fun l hl => ?_⟩
  rcases List.mem_cons.mp (hsub hl) with h0 | h1
  · subst h0; exact h.list_filled_none
  · exact hG.2 l h1

theorem pq_heap.fun_with_of_res {h : pq_heap} {e : Bool} {v : Option Ptr}
    {G : List (Option Ptr)} (hr : h.fun_res e v G) : h.fun_with (v :: G) := hr.1

theorem pq_heap.is_some_of_res {h : pq_heap} {e : Bool} {v : Option Ptr}
    {G : List (Option Ptr)} (hr : h.fun_res e v G) (he : ¬ e = true) : v.isSome = true :=
  hr.2 (by cases e <;> simp_all)

theorem pq_heap.fun_res_some {h : pq_heap} {e : Bool} {l : Ptr} {G : List (Option Ptr)}
    (hG : h.fun_with (some l :: G)) : h.fun_res e (some l) G := ⟨hG, fun _ => rfl⟩

theorem pq_heap.fun_res_err {h : pq_heap} {e : Bool} {G G' : List (Option Ptr)}
    (hG : h.fun_with G') (hsub : G ⊆ none :: G') (he : e = true) : h.fun_res e none G := by
  refine ⟨pq_heap.fun_with_of hG ?_, fun hc => ?_⟩
  · intro x hx
    rcases List.mem_cons.mp hx with h0 | h0
    · subst h0; exact List.mem_cons_self _ _
    · exact hsub h0
  · rw [he] at hc; cases hc

theorem pq_heap.fun_res_map {h : pq_heap} {e : Bool} {r : Option Ptr} {G : List (Option Ptr)}
    (hr : h.fun_res e r G) :
    h.fun_with (pq_operand_or_arg_list.list? (r.map fun l => .arg_list l) :: G) := by
  cases r with
  | none => exact hr.1
  | some l => exact hr.1

/-- The heap `h2` has the functor terms of `h`, and its lists are those of `h`, grown if
changed: what holds of the argument lists in `h` holds in `h2`. -/
theorem pq_heap.fun_with_ext {h h2 : pq_heap} {G : List (Option Ptr)} (hG : h.fun_with G)
    (ht : ∀ t ∈ h2.terms, t.fun_args = none ∨ ∃ t0 ∈ h.terms, t.fun_args = t0.fun_args)
    (hl : ∀ l lst, h.lists.get? l = some lst →
      ∃ lst2, h2.lists.get? l = some lst2 ∧ lst.size ≤ lst2.size) : h2.fun_with G := by
  have hf : ∀ a, h.list_filled a → h2.list_filled a := by
    intro a ha l hal
    obtain ⟨lst, h1, h2⟩ := ha l hal
    obtain ⟨lst2, h3, h4⟩ := hl l lst h1
    exact ⟨lst2, h3, Nat.le_trans h2 h4⟩
  refine ⟨fun t htm args hargs => ?_, fun l hl => hf l (hG.2 l hl)⟩
  rcases ht t htm with h0 | ⟨t0, ht0, h0⟩
  · rw [h0] at hargs; cases hargs
  · rw [h0] at hargs
    exact ⟨(hG.1 t0 ht0 args hargs).1, hf args (hG.1 t0 ht0 args hargs).2⟩

theorem pq_heap.fun_with_same {h h2 : pq_heap} {G : List (Option Ptr)} (hG : h.fun_with G)
    (ht : h2.terms = h.terms) (hl : h2.lists = h.lists) : h2.fun_with G :=
  pq_heap.fun_with_ext hG (fun t htm => Or.inr ⟨t, by rw [← ht]; exact htm, rfl⟩)
    (fun l lst h1 => ⟨lst, by rw [hl]; exact h1, Nat.le_refl _⟩)

theorem pq_heap.fun_with_new_term {h : pq_heap} {G : List (Option Ptr)} (hG : h.fun_with G)
    (tm : pq_term) (hf : tm.fun_args = none) : (h.new_term tm).1.fun_with G := by
  refine pq_heap.fun_with_ext hG (fun t htm => ?_) (fun l lst h1 => ⟨lst, h1, Nat.le_refl _⟩)
  simp only [pq_heap.new_term, List.mem_append, List.mem_singleton] at htm
  rcases htm with h1 | h1
  · exact Or.inr ⟨t, h1, rfl⟩
  · subst h1; exact Or.inl hf

theorem pq_heap.fun_with_new_functor {h : pq_heap} {G : List (Option Ptr)} (hG : h.fun_with G)
    (val : Bytes) (p ty : Nat) {args : Option Ptr} (hmem : args ∈ G)
    (hsome : args.isSome = true) :
    (h.new_term ⟨.fun_data val args, p, ty⟩).1.fun_with G := by
  refine ⟨fun t htm a ha => ?_, hG.2⟩
  simp only [pq_heap.new_term, List.mem_append, List.mem_singleton] at htm
  rcases htm with h1 | h1
  · exact hG.1 t h1 a ha
  · subst h1
    simp only [pq_term.fun_args, Option.some.injEq] at ha
    subst ha
    exact ⟨hsome, hG.2 _ hmem⟩

theorem pq_heap.fun_with_new_node {h : pq_heap} {G : List (Option Ptr)} (hG : h.fun_with G)
    (item : Option Ptr) : (pq_new_syntax_tree_node h item).1.fun_with G :=
  pq_heap.fun_with_same hG rfl rfl

theorem pq_heap.fun_with_new_list {h : pq_heap} {G : List (Option Ptr)} (hG : h.fun_with G) :
    (pq_new_list h).1.fun_with G :=
  pq_heap.fun_with_ext hG (fun t htm => Or.inr ⟨t, htm, rfl⟩)
    (fun _ lst h1 => ⟨lst, get?_append_of_some _ h1, Nat.le_refl _⟩)

theorem pq_heap.fun_with_push_back {h h2 : pq_heap} {G : List (Option Ptr)} (hG : h.fun_with G)
    {list : Ptr} {item : Option Ptr} (hpush : pq_list_push_back h list item = some h2) :
    h2.fun_with (some list :: G) := by
  unfold pq_list_push_back at hpush
  split at hpush
  · cases hpush
  · rename_i l hl
    split at hpush
    · cases hpush
    · simp only [Option.some.injEq] at hpush
      subst hpush
      have hmono : ∀ j lst, h.lists.get? j = some lst →
          ∃ lst2, (h.lists.set list { l with size := l.size + 1 }).get? j = some lst2
            ∧ lst.size ≤ lst2.size := by
        intro j lst hj
        obtain ⟨z, hz1, hz2, hz3⟩ := get?_set_item h.lists list j lst
          { l with size := l.size + 1 } hj
        refine ⟨z, hz1, ?_⟩
        by_cases hij : j = list
        · rw [hz3 hij]
          subst hij
          rw [hl] at hj
          cases hj
          exact Nat.le_succ _
        · rw [hz2 hij]
      have key : ∀ h2 : pq_heap, h2.terms = h.terms →
          h2.lists = h.lists.set list { l with size := l.size + 1 } →
          h2.fun_with (some list :: G) := by
        intro h2 ht hl2
        have h1 : h2.fun_with G := pq_heap.fun_with_ext hG
          (fun t htm => Or.inr ⟨t, by rw [← ht]; exact htm, rfl⟩)
          (fun j lst hj => by rw [hl2]; exact hmono j lst hj)
        refine ⟨h1.1, fun a ha => ?_⟩
        rcases List.mem_cons.mp ha with h0 | h0
        · subst h0
          intro j hj
          cases hj
          obtain ⟨z, hz1, _, hz3⟩ := get?_set_item h.lists list list l
            { l with size := l.size + 1 } hl
          exact ⟨z, by rw [hl2]; exact hz1, by rw [hz3 rfl]; exact Nat.succ_pos _⟩
        · exact h1.2 a h0
      exact key _ rfl rfl

theorem pq_heap.fun_with_set_item_priority {h h2 : pq_heap} {G : List (Option Ptr)}
    (hG : h.fun_with G) {node : Option Ptr} {p : Nat}
    (hset : h.set_item_priority node p = some h2) : h2.fun_with G := by
  unfold pq_heap.set_item_priority at hset
  repeat' split at hset
  all_goals first
    | (simp only [Option.some.injEq] at hset
       subst hset
       rename_i ti _ _ t ht
       refine pq_heap.fun_with_ext hG (fun t2 ht2 => ?_)
         (fun l lst h1 => ⟨lst, h1, Nat.le_refl _⟩)
       rcases List.mem_or_eq_of_mem_set ht2 with h5 | h5
       · exact Or.inr ⟨t2, h5, rfl⟩
       · subst h5
         exact Or.inr ⟨t, List.mem_iff_get?.mpr ⟨ti, ht⟩, rfl⟩)
    | cases hset

theorem pq_term.negate_fun_args (t : pq_term) : t.negate.fun_args = t.fun_args := by
  unfold pq_term.negate
  split
  · split <;> simp_all [pq_term.fun_args]
  · split
    · split <;> simp_all [pq_term.fun_args]
    · rfl

theorem pq_heap.fun_with_negate_item {h h2 : pq_heap} {G : List (Option Ptr)}
    (hG : h.fun_with G) {node : Option Ptr} (hset : h.negate_item node = some h2) :
    h2.fun_with G := by
  unfold pq_heap.negate_item at hset
  repeat' split at hset
  all_goals first
    | (simp only [Option.some.injEq] at hset
       subst hset
       rename_i ti _ _ t ht
       refine pq_heap.fun_with_ext hG (fun t2 ht2 => ?_)
         (fun l lst h1 => ⟨lst, h1, Nat.le_refl _⟩)
       rcases List.mem_or_eq_of_mem_set ht2 with h5 | h5
       · exact Or.inr ⟨t2, h5, rfl⟩
       · subst h5
         exact Or.inr ⟨t, List.mem_iff_get?.mpr ⟨ti, ht⟩, pq_term.negate_fun_args t⟩)
    | cases hset

theorem add_right_sibling_lists {h h2 : pq_heap} {node sibling : Option Ptr}
    (hadd : pq_syntax_tree_add_right_sibling_node h node sibling = some h2) :
    h2.lists = h.lists := by
  unfold pq_syntax_tree_add_right_sibling_node at hadd
  cases sibling with
  | none =>
    simp only [Option.some.injEq] at hadd
    subst hadd
    rfl
  | some sib =>
    cases node with
    | none => simp at hadd
    | some nd =>
      simp only at hadd
      cases hs : h.nodes.get? sib with
      | none => rw [hs] at hadd; simp at hadd
      | some s =>
        cases hn : h.nodes.get? nd with
        | none => rw [hs, hn] at hadd; simp at hadd
        | some n =>
          rw [hs, hn] at hadd
          simp only at hadd
          cases hnx : n.next with
          | none =>
            rw [hnx] at hadd
            simp only at hadd
            cases h1 : (h.nodes.set sib { s with prev := some nd, next := none }).get? nd with
            | none => rw [h1] at hadd; simp at hadd
            | some n1 =>
              rw [h1] at hadd
              simp only [Option.some.injEq] at hadd
              subst hadd
              rfl
          | some nx =>
            rw [hnx] at hadd
            simp only at hadd
            cases h0 : (h.nodes.set sib { s with prev := some nd, next := some nx }).get? nx with
            | none => rw [h0] at hadd; simp at hadd
            | some x =>
              rw [h0] at hadd
              simp only at hadd
              cases h1 : ((h.nodes.set sib { s with prev := some nd, next := some nx }).set nx
                  { x with prev := some sib }).get? nd with
              | none => rw [h1] at hadd; simp at hadd
              | some n1 =>
                rw [h1] at hadd
                simp only [Option.some.injEq] at hadd
                subst hadd
                rfl

theorem pq_heap.fun_with_add_right_sibling {h h2 : pq_heap} {G : List (Option Ptr)}
    (hG : h.fun_with G) {node sibling : Option Ptr}
    (hadd : pq_syntax_tree_add_right_sibling_node h node sibling = some h2) : h2.fun_with G :=
  pq_heap.fun_with_same hG (add_right_sibling_nodes_ext hadd).1 (add_right_sibling_lists hadd)

theorem pq_heap.fun_res_of {h : pq_heap} {e : Bool} {v : Option Ptr} {G G' : List (Option Ptr)}
    (hr : h.fun_res e v G') (hsub : G ⊆ none :: G') : h.fun_res e v G := by
  refine ⟨pq_heap.fun_with_of hr.1 ?_, hr.2⟩
  intro x hx
  rcases List.mem_cons.mp hx with h0 | h0
  · subst h0; exact List.mem_cons_of_mem _ (List.mem_cons_self _ _)
  · rcases List.mem_cons.mp (hsub h0) with h1 | h1
    · subst h1; exact List.mem_cons_self _ _
    · exact List.mem_cons_of_mem _ (List.mem_cons_of_mem _ h1)

theorem list?_none : pq_operand_or_arg_list.list? none = none := rfl

theorem list?_operand (n : Option Ptr) :
    pq_operand_or_arg_list.list? (some (.operand n)) = none := rfl

theorem holds_next_token_fun {β : Type} (W : WCtype) (sf : Nat) (st : pq_state)
    {f : Unit → pq_state → pq_res β} {Q' : β → pq_state → Prop} {G : List (Option Ptr)}
    (hG : st.heap.fun_with G)
    (hf : ∀ st1 : pq_state, st1.heap.fun_with G → (f () st1).holds Q') :
    ((pq_parser_next_token W sf st).bind f).holds Q' := by
  unfold pq_parser_next_token
  cases pq_scanner_next_token W sf st.parser.scanner with
  | none => trivial
  | some r => exact hf _ hG

theorem holds_set_item_priority_fun {α : Type} (st : pq_state) {G : List (Option Ptr)}
    {node : Option Ptr} {p : Nat} {k : pq_state → pq_res α} {Q : α → pq_state → Prop}
    (hG : st.heap.fun_with G)
    (hk : ∀ st1 : pq_state, st1.heap.fun_with G → (k st1).holds Q) :
    (st.with_heap (st.heap.set_item_priority node p) k).holds Q := by
  unfold pq_state.with_heap
  cases hset : st.heap.set_item_priority node p with
  | none => trivial
  | some h2 => exact hk _ (pq_heap.fun_with_set_item_priority hG hset)

theorem holds_push_back_fun {α : Type} (st : pq_state) {G : List (Option Ptr)}
    {list : Ptr} {item : Option Ptr} {k : pq_state → pq_res α} {Q : α → pq_state → Prop}
    (hG : st.heap.fun_with G)
    (hk : ∀ st1 : pq_state, st1.heap.fun_with (some list :: G) → (k st1).holds Q) :
    (st.with_heap (pq_list_push_back st.heap list item) k).holds Q := by
  unfold pq_state.with_heap
  cases hset : pq_list_push_back st.heap list item with
  | none => trivial
  | some h2 => exact hk _ (pq_heap.fun_with_push_back hG hset)

theorem holds_add_right_sibling_fun {α : Type} (st : pq_state) {G : List (Option Ptr)}
    {node sibling : Option Ptr} {k : pq_state → pq_res α} {Q : α → pq_state → Prop}
    (hG : st.heap.fun_with G)
    (hk : ∀ st1 : pq_state, st1.heap.fun_with G → (k st1).holds Q) :
    (st.with_heap (pq_syntax_tree_add_right_sibling_node st.heap node sibling) k).holds Q := by
  unfold pq_state.with_heap
  cases hset : pq_syntax_tree_add_right_sibling_node st.heap node sibling with
  | none => trivial
  | some h2 => exact hk _ (pq_heap.fun_with_add_right_sibling hG hset)

theorem holds_negate_item_fun {α : Type} (st : pq_state) {G : List (Option Ptr)}
    {node : Option Ptr} {k : pq_state → pq_res α} {Q : α → pq_state → Prop}
    (hG : st.heap.fun_with G)
    (hk : ∀ st1 : pq_state, st1.heap.fun_with G → (k st1).holds Q) :
    (st.with_heap (st.heap.negate_item node) k).holds Q := by
  unfold pq_state.with_heap
  cases hset : st.heap.negate_item node with
  | none => trivial
  | some h2 => exact hk _ (pq_heap.fun_with_negate_item hG hset)

theorem holds_new_list_fun {α : Type} (st : pq_state) {G : List (Option Ptr)}
    {k : Ptr → pq_state → pq_res α} {Q : α → pq_state → Prop}
    (hG : st.heap.fun_with G)
    (hk : ∀ (l : Ptr) (st1 : pq_state), st1.heap.fun_with G → (k l st1).holds Q) :
    (st.alloc pq_new_list k).holds Q :=
  hk _ _ (pq_heap.fun_with_new_list hG)

theorem holds_new_functor_node_fun {α : Type} (st : pq_state) {G : List (Option Ptr)}
    (val : Bytes) (p ty : Nat) {args : Option Ptr}
    {k : Ptr → pq_state → pq_res α} {Q : α → pq_state → Prop}
    (hG : st.heap.fun_with G) (hmem : args ∈ G) (hsome : args.isSome = true)
    (hk : ∀ (nd : Ptr) (st1 : pq_state), st1.heap.fun_with G → (k nd st1).holds Q) :
    (st.alloc (fun h => h.new_term ⟨.fun_data val args, p, ty⟩) fun t st =>
      st.alloc (fun h => pq_new_syntax_tree_node h (some t)) k).holds Q :=
  hk _ _ (pq_heap.fun_with_new_node (pq_heap.fun_with_new_functor hG val p ty hmem hsome) _)

theorem holds_new_term_node_fun {α : Type} (st : pq_state) {G : List (Option Ptr)} (tm : pq_term)
    {k : Ptr → pq_state → pq_res α} {Q : α → pq_state → Prop}
    (hG : st.heap.fun_with G) (hf : tm.fun_args = none)
    (hk : ∀ (nd : Ptr) (st1 : pq_state), st1.heap.fun_with G → (k nd st1).holds Q) :
    (st.alloc (fun h => h.new_term tm) fun t st =>
      st.alloc (fun h => pq_new_syntax_tree_node h (some t)) k).holds Q :=
  hk _ _ (pq_heap.fun_with_new_node (pq_heap.fun_with_new_term hG tm hf) _)

theorem holds_new_term_fun {α : Type} (st : pq_state) {G : List (Option Ptr)} (tm : pq_term)
    {k : Ptr → pq_state → pq_res α} {Q : α → pq_state → Prop}
    (hG : st.heap.fun_with G) (hf : tm.fun_args = none)
    (hk : ∀ (t : Ptr) (st1 : pq_state), st1.heap.fun_with G → (k t st1).holds Q) :
    (st.alloc (fun h => h.new_term tm) k).holds Q :=
  hk _ _ (pq_heap.fun_with_new_term hG tm hf)

theorem holds_link_infix_op_fun (st : pq_state) {G : List (Option Ptr)}
    (left right : Option Ptr) (op_name : Bytes) (spec : pq_op_specifier)
    (hG : st.heap.fun_with G) :
    (pq_parse_link_infix_op st left right op_name spec).holds
      (fun _ st1 => st1.heap.fun_with G) := by
  unfold pq_parse_link_infix_op
  refine holds_new_term_node_fun st
    ⟨.op_data op_name spec, 1201, PQ_TERM_ATOM_TYPE ||| PQ_TERM_OPERATOR_TYPE⟩ hG rfl
    fun nd st1 h1 => ?_
  refine holds_add_right_sibling_fun _ h1 fun st2 h2 => ?_
  refine holds_add_right_sibling_fun _ h2 fun st3 h3 => ?_
  exact h3

theorem holds_link_postfix_op_fun (st : pq_state) {G : List (Option Ptr)} (left : Option Ptr)
    (op_name : Bytes) (spec : pq_op_specifier) (hG : st.heap.fun_with G) :
    (pq_parse_link_postfix_op st left op_name spec).holds
      (fun _ st1 => st1.heap.fun_with G) := by
  unfold pq_parse_link_postfix_op
  refine holds_new_term_node_fun st
    ⟨.op_data op_name spec, 1201, PQ_TERM_ATOM_TYPE ||| PQ_TERM_OPERATOR_TYPE⟩ hG rfl
    fun nd st1 h1 => ?_
  refine holds_add_right_sibling_fun _ h1 fun st2 h2 => ?_
  exact h2

theorem holds_link_prefix_operand_fun (st : pq_state) {G : List (Option Ptr)}
    (right : Option Ptr) (op_name : Bytes) (spec : pq_op_specifier)
    (hG : st.heap.fun_with G) :
    (pq_parse_link_prefix_operand st right op_name spec).holds
      (fun _ st1 => st1.heap.fun_with G) := by
  unfold pq_parse_link_prefix_operand
  split
  · trivial
  · split
    · refine holds_negate_item_fun _ hG fun st1 h1 => ?_
      exact h1
    · refine holds_new_term_node_fun st ⟨.op_data op_name spec, 1201,
        PQ_TERM_ATOM_TYPE ||| PQ_TERM_OPERATOR_TYPE⟩ hG rfl fun nd st1 h1 => ?_
      refine holds_add_right_sibling_fun _ h1 fun st2 h2 => ?_
      exact h2

theorem fun_arg_step (W : WCtype) (sf fuel : Nat)
    (ih1 : ∀ p st G, st.heap.fun_with G →
      (pq_parse_prolog_term W sf fuel p st).holds
        (fun _ st1 => st1.heap.fun_with G))
    (st : pq_state) (G : List (Option Ptr))
    (hG : st.heap.fun_with G) :
    (pq_parse_prolog_arg W sf (fuel + 1) st).holds
      (fun _ st1 => st1.heap.fun_with G) := by
  rw [pq_parse_prolog_arg]
  try simp only [pq_new_atom_term, pq_new_integer_term, pq_new_float_term, pq_new_variable_term,
    pq_new_functor_term, pq_new_list_term]
  repeat' first
    | exact trivial
    | assumption
    | rfl
    | exact List.mem_cons_self _ _
    | exact List.mem_cons_of_mem _ (List.mem_cons_self _ _)
    | (apply pq_heap.is_some_of_res <;> assumption)
    | (apply pq_heap.fun_with_of_res
       assumption)
    | ((try simp only [holds_ok])
       apply pq_heap.fun_res_map
       assumption)
    | ((try simp only [holds_ok])
       apply pq_heap.fun_res_some
       assumption)
    | ((try simp only [holds_ok, set_err_heap])
       apply pq_heap.fun_res_err <;>
         first
           | assumption
           | ((try simp only [List.cons_subset, List.mem_cons, eq_self_iff_true, true_or, or_true,
                true_and])
              (repeat' first
                | exact List.Subset.refl _
                | exact List.nil_subset _
                | apply List.subset_cons_of_subset)
              done))
    | ((try simp only [holds_ok, set_err_heap])
       apply pq_heap.fun_res_of <;>
         first
           | assumption
           | ((try simp only [List.cons_subset, List.mem_cons, eq_self_iff_true, true_or, or_true,
                true_and])
              (repeat' first
                | exact List.Subset.refl _
                | exact List.nil_subset _
                | apply List.subset_cons_of_subset)
              done))
    | ((try simp only [holds_ok, set_err_heap, list?_none, list?_operand])
       apply pq_heap.fun_with_of <;>
         first
           | assumption
           | (apply pq_heap.fun_with_of_res
              assumption)
           | ((try simp only [List.cons_subset, List.mem_cons, eq_self_iff_true, true_or, or_true,
                true_and])
              (repeat' first
                | exact List.Subset.refl _
                | exact List.nil_subset _
                | apply List.subset_cons_of_subset)
              done))
    | (apply pq_res.holds_mono; apply holds_link_infix_op_fun)
    | (apply pq_res.holds_mono; apply holds_link_postfix_op_fun)
    | (apply pq_res.holds_mono; apply holds_link_prefix_operand_fun)
    | apply holds_new_list_fun
    | apply holds_new_functor_node_fun
    | apply holds_new_term_node_fun
    | apply holds_new_term_fun
    | apply holds_set_item_priority_fun
    | apply holds_push_back_fun
    | apply holds_next_token_fun W sf
    | (apply pq_res.holds_mono; apply ih1)
    | (apply pq_res.holds_bind; apply ih1)
    | intro _
    | split

theorem fun_arg_list_step (W : WCtype) (sf fuel : Nat)
    (ih4 : ∀ l st G, st.heap.fun_with (some l :: G) →
      (pq_parse_prolog_arg_list_loop W sf fuel l st).holds
        (fun v st1 => st1.heap.fun_res st1.has_err v G))
    (ih6 : ∀ st G, st.heap.fun_with G →
      (pq_parse_prolog_arg W sf fuel st).holds
        (fun _ st1 => st1.heap.fun_with G))
    (st : pq_state) (G : List (Option Ptr))
    (hG : st.heap.fun_with G) :
    (pq_parse_prolog_arg_list W sf (fuel + 1) st).holds
      (fun v st1 => st1.heap.fun_res st1.has_err v G) := by
  rw [pq_parse_prolog_arg_list]
  try simp only [pq_new_atom_term, pq_new_integer_term, pq_new_float_term, pq_new_variable_term,
    pq_new_functor_term, pq_new_list_term]
  repeat' first
    | exact trivial
    | assumption
    | rfl
    | exact List.mem_cons_self _ _
    | exact List.mem_cons_of_mem _ (List.mem_cons_self _ _)
    | (apply pq_heap.is_some_of_res <;> assumption)
    | (apply pq_heap.fun_with_of_res
       assumption)
    | ((try simp only [holds_ok])
       apply pq_heap.fun_res_map
       assumption)
    | ((try simp only [holds_ok])
       apply pq_heap.fun_res_some
       assumption)
    | ((try simp only [holds_ok, set_err_heap])
       apply pq_heap.fun_res_err <;>
         first
           | assumption
           | ((try simp only [List.cons_subset, List.mem_cons, eq_self_iff_true, true_or, or_true,
                true_and])
              (repeat' first
                | exact List.Subset.refl _
                | exact List.nil_subset _
                | apply List.subset_cons_of_subset)
              done))
    | ((try simp only [holds_ok, set_err_heap])
       apply pq_heap.fun_res_of <;>
         first
           | assumption
           | ((try simp only [List.cons_subset, List.mem_cons, eq_self_iff_true, true_or, or_true,
                true_and])
              (repeat' first
                | exact List.Subset.refl _
                | exact List.nil_subset _
                | apply List.subset_cons_of_subset)
              done))
    | ((try simp only [holds_ok, set_err_heap, list?_none, list?_operand])
       apply pq_heap.fun_with_of <;>
         first
           | assumption
           | (apply pq_heap.fun_with_of_res
              assumption)
           | ((try simp only [List.cons_subset, List.mem_cons, eq_self_iff_true, true_or, or_true,
                true_and])
              (repeat' first
                | exact List.Subset.refl _
                | exact List.nil_subset _
                | apply List.subset_cons_of_subset)
              done))
    | (apply pq_res.holds_mono; apply holds_link_infix_op_fun)
    | (apply pq_res.holds_mono; apply holds_link_postfix_op_fun)
    | (apply pq_res.holds_mono; apply holds_link_prefix_operand_fun)
    | apply holds_new_list_fun
    | apply holds_new_functor_node_fun
    | apply holds_new_term_node_fun
    | apply holds_new_term_fun
    | apply holds_set_item_priority_fun
    | apply holds_push_back_fun
    | apply holds_next_token_fun W sf
    | (apply pq_res.holds_mono; apply ih4)
    | (apply pq_res.holds_mono; apply ih6)
    | (apply pq_res.holds_bind; apply ih4)
    | (apply pq_res.holds_bind; apply ih6)
    | intro _
    | split

theorem fun_arg_list_loop_step (W : WCtype) (sf fuel : Nat)
    (ih4 : ∀ l st G, st.heap.fun_with (some l :: G) →
      (pq_parse_prolog_arg_list_loop W sf fuel l st).holds
        (fun v st1 => st1.heap.fun_res st1.has_err v G))
    (ih6 : ∀ st G, st.heap.fun_with G →
      (pq_parse_prolog_arg W sf fuel st).holds
        (fun _ st1 => st1.heap.fun_with G))
    (l : Ptr) (st : pq_state) (G : List (Option Ptr))
    (hG : st.heap.fun_with (some l :: G)) :
    (pq_parse_prolog_arg_list_loop W sf (fuel + 1) l st).holds
      (fun v st1 => st1.heap.fun_res st1.has_err v G) := by
  rw [pq_parse_prolog_arg_list_loop]
  try simp only [pq_new_atom_term, pq_new_integer_term, pq_new_float_term, pq_new_variable_term,
    pq_new_functor_term, pq_new_list_term]
  repeat' first
    | exact trivial
    | assumption
    | rfl
    | exact List.mem_cons_self _ _
    | exact List.mem_cons_of_mem _ (List.mem_cons_self _ _)
    | (apply pq_heap.is_some_of_res <;> assumption)
    | (apply pq_heap.fun_with_of_res
       assumption)
    | ((try simp only [holds_ok])
       apply pq_heap.fun_res_map
       assumption)
    | ((try simp only [holds_ok])
       apply pq_heap.fun_res_some
       assumption)
    | ((try simp only [holds_ok, set_err_heap])
       apply pq_heap.fun_res_err <;>
         first
           | assumption
           | ((try simp only [List.cons_subset, List.mem_cons, eq_self_iff_true, true_or, or_true,
                true_and])
              (repeat' first
                | exact List.Subset.refl _
                | exact List.nil_subset _
                | apply List.subset_cons_of_subset)
              done))
    | ((try simp only [holds_ok, set_err_heap])
       apply pq_heap.fun_res_of <;>
         first
           | assumption
           | ((try simp only [List.cons_subset, List.mem_cons, eq_self_iff_true, true_or, or_true,
                true_and])
              (repeat' first
                | exact List.Subset.refl _
                | exact List.nil_subset _
                | apply List.subset_cons_of_subset)
              done))
    | ((try simp only [holds_ok, set_err_heap, list?_none, list?_operand])
       apply pq_heap.fun_with_of <;>
         first
           | assumption
           | (apply pq_heap.fun_with_of_res
              assumption)
           | ((try simp only [List.cons_subset, List.mem_cons, eq_self_iff_true, true_or, or_true,
                true_and])
              (repeat' first
                | exact List.Subset.refl _
                | exact List.nil_subset _
                | apply List.subset_cons_of_subset)
              done))
    | (apply pq_res.holds_mono; apply holds_link_infix_op_fun)
    | (apply pq_res.holds_mono; apply holds_link_postfix_op_fun)
    | (apply pq_res.holds_mono; apply holds_link_prefix_operand_fun)
    | apply holds_new_list_fun
    | apply holds_new_functor_node_fun
    | apply holds_new_term_node_fun
    | apply holds_new_term_fun
    | apply holds_set_item_priority_fun
    | apply holds_push_back_fun
    | apply holds_next_token_fun W sf
    | (apply pq_res.holds_mono; apply ih4)
    | (apply pq_res.holds_mono; apply ih6)
    | (apply pq_res.holds_bind; apply ih4)
    | (apply pq_res.holds_bind; apply ih6)
    | intro _
    | split

theorem fun_items_step (W : WCtype) (sf fuel : Nat)
    (ih6 : ∀ st G, st.heap.fun_with G →
      (pq_parse_prolog_arg W sf fuel st).holds
        (fun _ st1 => st1.heap.fun_with G))
    (ih8 : ∀ l st G, st.heap.fun_with G →
      (pq_parse_prolog_items_loop W sf fuel l st).holds
        (fun _ st1 => st1.heap.fun_with G))
    (st : pq_state) (G : List (Option Ptr))
    (hG : st.heap.fun_with G) :
    (pq_parse_prolog_items W sf (fuel + 1) st).holds
      (fun _ st1 => st1.heap.fun_with G) := by
  rw [pq_parse_prolog_items]
  try simp only [pq_new_atom_term, pq_new_integer_term, pq_new_float_term, pq_new_variable_term,
    pq_new_functor_term, pq_new_list_term]
  repeat' first
    | exact trivial
    | assumption
    | rfl
    | exact List.mem_cons_self _ _
    | exact List.mem_cons_of_mem _ (List.mem_cons_self _ _)
    | (apply pq_heap.is_some_of_res <;> assumption)
    | (apply pq_heap.fun_with_of_res
       assumption)
    | ((try simp only [holds_ok])
       apply pq_heap.fun_res_map
       assumption)
    | ((try simp only [holds_ok])
       apply pq_heap.fun_res_some
       assumption)
    | ((try simp only [holds_ok, set_err_heap])
       apply pq_heap.fun_res_err <;>
         first
           | assumption
           | ((try simp only [List.cons_subset, List.mem_cons, eq_self_iff_true, true_or, or_true,
                true_and])
              (repeat' first
                | exact List.Subset.refl _
                | exact List.nil_subset _
                | apply List.subset_cons_of_subset)
              done))
    | ((try simp only [holds_ok, set_err_heap])
       apply pq_heap.fun_res_of <;>
         first
           | assumption
           | ((try simp only [List.cons_subset, List.mem_cons, eq_self_iff_true, true_or, or_true,
                true_and])
              (repeat' first
                | exact List.Subset.refl _
                | exact List.nil_subset _
                | apply List.subset_cons_of_subset)
              done))
    | ((try simp only [holds_ok, set_err_heap, list?_none, list?_operand])
       apply pq_heap.fun_with_of <;>
         first
           | assumption
           | (apply pq_heap.fun_with_of_res
              assumption)
           | ((try simp only [List.cons_subset, List.mem_cons, eq_self_iff_true, true_or, or_true,
                true_and])
              (repeat' first
                | exact List.Subset.refl _
                | exact List.nil_subset _
                | apply List.subset_cons_of_subset)
              done))
    | (apply pq_res.holds_mono; apply holds_link_infix_op_fun)
    | (apply pq_res.holds_mono; apply holds_link_postfix_op_fun)
    | (apply pq_res.holds_mono; apply holds_link_prefix_operand_fun)
    | apply holds_new_list_fun
    | apply holds_new_functor_node_fun
    | apply holds_new_term_node_fun
    | apply holds_new_term_fun
    | apply holds_set_item_priority_fun
    | apply holds_push_back_fun
    | apply holds_next_token_fun W sf
    | (apply pq_res.holds_mono; apply ih6)
    | (apply pq_res.holds_mono; apply ih8)
    | (apply pq_res.holds_bind; apply ih6)
    | (apply pq_res.holds_bind; apply ih8)
    | intro _
    | split

theorem fun_items_loop_step (W : WCtype) (sf fuel : Nat)
    (ih6 : ∀ st G, st.heap.fun_with G →
      (pq_parse_prolog_arg W sf fuel st).holds
        (fun _ st1 => st1.heap.fun_with G))
    (ih8 : ∀ l st G, st.heap.fun_with G →
      (pq_parse_prolog_items_loop W sf fuel l st).holds
        (fun _ st1 => st1.heap.fun_with G))
    (l : Ptr) (st : pq_state) (G : List (Option Ptr))
    (hG : st.heap.fun_with G) :
    (pq_parse_prolog_items_loop W sf (fuel + 1) l st).holds
      (fun _ st1 => st1.heap.fun_with G) := by
  rw [pq_parse_prolog_items_loop]
  try simp only [pq_new_atom_term, pq_new_integer_term, pq_new_float_term, pq_new_variable_term,
    pq_new_functor_term, pq_new_list_term]
  repeat' first
    | exact trivial
    | assumption
    | rfl
    | exact List.mem_cons_self _ _
    | exact List.mem_cons_of_mem _ (List.mem_cons_self _ _)
    | (apply pq_heap.is_some_of_res <;> assumption)
    | (apply pq_heap.fun_with_of_res
       assumption)
    | ((try simp only [holds_ok])
       apply pq_heap.fun_res_map
       assumption)
    | ((try simp only [holds_ok])
       apply pq_heap.fun_res_some
       assumption)
    | ((try simp only [holds_ok, set_err_heap])
       apply pq_heap.fun_res_err <;>
         first
           | assumption
           | ((try simp only [List.cons_subset, List.mem_cons, eq_self_iff_true, true_or, or_true,
                true_and])
              (repeat' first
                | exact List.Subset.refl _
                | exact List.nil_subset _
                | apply List.subset_cons_of_subset)
              done))
    | ((try simp only [holds_ok, set_err_heap])
       apply pq_heap.fun_res_of <;>
         first
           | assumption
           | ((try simp only [List.cons_subset, List.mem_cons, eq_self_iff_true, true_or, or_true,
                true_and])
              (repeat' first
                | exact List.Subset.refl _
                | exact List.nil_subset _
                | apply List.subset_cons_of_subset)
              done))
    | ((try simp only [holds_ok, set_err_heap, list?_none, list?_operand])
       apply pq_heap.fun_with_of <;>
         first
           | assumption
           | (apply pq_heap.fun_with_of_res
              assumption)
           | ((try simp only [List.cons_subset, List.mem_cons, eq_self_iff_true, true_or, or_true,
                true_and])
              (repeat' first
                | exact List.Subset.refl _
                | exact List.nil_subset _
                | apply List.subset_cons_of_subset)
              done))
    | (apply pq_res.holds_mono; apply holds_link_infix_op_fun)
    | (apply pq_res.holds_mono; apply holds_link_postfix_op_fun)
    | (apply pq_res.holds_mono; apply holds_link_prefix_operand_fun)
    | apply holds_new_list_fun
    | apply holds_new_functor_node_fun
    | apply holds_new_term_node_fun
    | apply holds_new_term_fun
    | apply holds_set_item_priority_fun
    | apply holds_push_back_fun
    | apply holds_next_token_fun W sf
    | (apply pq_res.holds_mono; apply ih6)
    | (apply pq_res.holds_mono; apply ih8)
    | (apply pq_res.holds_bind; apply ih6)
    | (apply pq_res.holds_bind; apply ih8)
    | intro _
    | split

theorem fun_operand_or_arg_list_step (W : WCtype) (sf fuel : Nat)
    (ih1 : ∀ p st G, st.heap.fun_with G →
      (pq_parse_prolog_term W sf fuel p st).holds
        (fun _ st1 => st1.heap.fun_with G))
    (ih4 : ∀ l st G, st.heap.fun_with (some l :: G) →
      (pq_parse_prolog_arg_list_loop W sf fuel l st).holds
        (fun v st1 => st1.heap.fun_res st1.has_err v G))
    (p : Nat) (st : pq_state) (G : List (Option Ptr))
    (hG : st.heap.fun_with G) :
    (pq_parse_prolog_operand_or_arg_list W sf (fuel + 1) p st).holds
      (fun v st1 => st1.heap.fun_with (pq_operand_or_arg_list.list? v :: G)) := by
  rw [pq_parse_prolog_operand_or_arg_list]
  try simp only [pq_new_atom_term, pq_new_integer_term, pq_new_float_term, pq_new_variable_term,
    pq_new_functor_term, pq_new_list_term]
  repeat' first
    | exact trivial
    | assumption
    | rfl
    | exact List.mem_cons_self _ _
    | exact List.mem_cons_of_mem _ (List.mem_cons_self _ _)
    | (apply pq_heap.is_some_of_res <;> assumption)
    | (apply pq_heap.fun_with_of_res
       assumption)
    | ((try simp only [holds_ok])
       apply pq_heap.fun_res_map
       assumption)
    | ((try simp only [holds_ok])
       apply pq_heap.fun_res_some
       assumption)
    | ((try simp only [holds_ok, set_err_heap])
       apply pq_heap.fun_res_err <;>
         first
           | assumption
           | ((try simp only [List.cons_subset, List.mem_cons, eq_self_iff_true, true_or, or_true,
                true_and])
              (repeat' first
                | exact List.Subset.refl _
                | exact List.nil_subset _
                | apply List.subset_cons_of_subset)
              done))
    | ((try simp only [holds_ok, set_err_heap])
       apply pq_heap.fun_res_of <;>
         first
           | assumption
           | ((try simp only [List.cons_subset, List.mem_cons, eq_self_iff_true, true_or, or_true,
                true_and])
              (repeat' first
                | exact List.Subset.refl _
                | exact List.nil_subset _
                | apply List.subset_cons_of_subset)
              done))
    | ((try simp only [holds_ok, set_err_heap, list?_none, list?_operand])
       apply pq_heap.fun_with_of <;>
         first
           | assumption
           | (apply pq_heap.fun_with_of_res
              assumption)
           | ((try simp only [List.cons_subset, List.mem_cons, eq_self_iff_true, true_or, or_true,
                true_and])
              (repeat' first
                | exact List.Subset.refl _
                | exact List.nil_subset _
                | apply List.subset_cons_of_subset)
              done))
    | (apply pq_res.holds_mono; apply holds_link_infix_op_fun)
    | (apply pq_res.holds_mono; apply holds_link_postfix_op_fun)
    | (apply pq_res.holds_mono; apply holds_link_prefix_operand_fun)
    | apply holds_new_list_fun
    | apply holds_new_functor_node_fun
    | apply holds_new_term_node_fun
    | apply holds_new_term_fun
    | apply holds_set_item_priority_fun
    | apply holds_push_back_fun
    | apply holds_next_token_fun W sf
    | (apply pq_res.holds_mono; apply ih1)
    | (apply pq_res.holds_mono; apply ih4)
    | (apply pq_res.holds_bind; apply ih1)
    | (apply pq_res.holds_bind; apply ih4)
    | intro _
    | split

theorem fun_prefix_step (W : WCtype) (sf fuel : Nat)
    (ih1 : ∀ p st G, st.heap.fun_with G →
      (pq_parse_prolog_term W sf fuel p st).holds
        (fun _ st1 => st1.heap.fun_with G))
    (ih3 : ∀ p st G, st.heap.fun_with G →
      (pq_parse_prolog_operand_or_arg_list W sf fuel p st).holds
        (fun v st1 => st1.heap.fun_with (pq_operand_or_arg_list.list? v :: G)))
    (p : Nat) (st : pq_state) (G : List (Option Ptr))
    (hG : st.heap.fun_with G) :
    (pq_parse_prolog_prefix_op_or_functor_or_atom W sf (fuel + 1) p st).holds
      (fun _ st1 => st1.heap.fun_with G) := by
  rw [pq_parse_prolog_prefix_op_or_functor_or_atom]
  try simp only [pq_new_atom_term, pq_new_integer_term, pq_new_float_term, pq_new_variable_term,
    pq_new_functor_term, pq_new_list_term]
  generalize pq_priority_dec p = q
  repeat' first
    | exact trivial
    | assumption
    | rfl
    | exact List.mem_cons_self _ _
    | exact List.mem_cons_of_mem _ (List.mem_cons_self _ _)
    | (apply pq_heap.is_some_of_res <;> assumption)
    | (apply pq_heap.fun_with_of_res
       assumption)
    | ((try simp only [holds_ok])
       apply pq_heap.fun_res_map
       assumption)
    | ((try simp only [holds_ok])
       apply pq_heap.fun_res_some
       assumption)
    | ((try simp only [holds_ok, set_err_heap])
       apply pq_heap.fun_res_err <;>
         first
           | assumption
           | ((try simp only [List.cons_subset, List.mem_cons, eq_self_iff_true, true_or, or_true,
                true_and])
              (repeat' first
                | exact List.Subset.refl _
                | exact List.nil_subset _
                | apply List.subset_cons_of_subset)
              done))
    | ((try simp only [holds_ok, set_err_heap])
       apply pq_heap.fun_res_of <;>
         first
           | assumption
           | ((try simp only [List.cons_subset, List.mem_cons, eq_self_iff_true, true_or, or_true,
                true_and])
              (repeat' first
                | exact List.Subset.refl _
                | exact List.nil_subset _
                | apply List.subset_cons_of_subset)
              done))
    | ((try simp only [holds_ok, set_err_heap, list?_none, list?_operand])
       apply pq_heap.fun_with_of <;>
         first
           | assumption
           | (apply pq_heap.fun_with_of_res
              assumption)
           | ((try simp only [List.cons_subset, List.mem_cons, eq_self_iff_true, true_or, or_true,
                true_and])
              (repeat' first
                | exact List.Subset.refl _
                | exact List.nil_subset _
                | apply List.subset_cons_of_subset)
              done))
    | (apply pq_res.holds_mono; apply holds_link_infix_op_fun)
    | (apply pq_res.holds_mono; apply holds_link_postfix_op_fun)
    | (apply pq_res.holds_mono; apply holds_link_prefix_operand_fun)
    | apply holds_new_list_fun
    | apply holds_new_functor_node_fun
    | apply holds_new_term_node_fun
    | apply holds_new_term_fun
    | apply holds_set_item_priority_fun
    | apply holds_push_back_fun
    | apply holds_next_token_fun W sf
    | (apply pq_res.holds_mono; apply ih1)
    | (apply pq_res.holds_mono; apply ih3)
    | (apply pq_res.holds_bind; apply ih1)
    | (apply pq_res.holds_bind; apply ih3)
    | intro _
    | split

set_option maxHeartbeats 4000000 in
theorem fun_term_step (W : WCtype) (sf fuel : Nat)
    (ih1 : ∀ p st G, st.heap.fun_with G →
      (pq_parse_prolog_term W sf fuel p st).holds
        (fun _ st1 => st1.heap.fun_with G))
    (ih2 : ∀ p st G, st.heap.fun_with G →
      (pq_parse_prolog_prefix_op_or_functor_or_atom W sf fuel p st).holds
        (fun _ st1 => st1.heap.fun_with G))
    (ih5 : ∀ st G, st.heap.fun_with G →
      (pq_parse_prolog_arg_list W sf fuel st).holds
        (fun v st1 => st1.heap.fun_res st1.has_err v G))
    (ih7 : ∀ st G, st.heap.fun_with G →
      (pq_parse_prolog_items W sf fuel st).holds
        (fun _ st1 => st1.heap.fun_with G))
    (p : Nat) (st : pq_state) (G : List (Option Ptr))
    (hG : st.heap.fun_with G) :
    (pq_parse_prolog_term W sf (fuel + 1) p st).holds
      (fun _ st1 => st1.heap.fun_with G) := by
  rw [pq_parse_prolog_term]
  try simp only [pq_new_atom_term, pq_new_integer_term, pq_new_float_term, pq_new_variable_term,
    pq_new_functor_term, pq_new_list_term]
  repeat' first
    | exact trivial
    | assumption
    | rfl
    | exact List.mem_cons_self _ _
    | exact List.mem_cons_of_mem _ (List.mem_cons_self _ _)
    | (apply pq_heap.is_some_of_res <;> assumption)
    | (apply pq_heap.fun_with_of_res
       assumption)
    | ((try simp only [holds_ok])
       apply pq_heap.fun_res_map
       assumption)
    | ((try simp only [holds_ok])
       apply pq_heap.fun_res_some
       assumption)
    | ((try simp only [holds_ok, set_err_heap])
       apply pq_heap.fun_res_err <;>
         first
           | assumption
           | ((try simp only [List.cons_subset, List.mem_cons, eq_self_iff_true, true_or, or_true,
                true_and])
              (repeat' first
                | exact List.Subset.refl _
                | exact List.nil_subset _
                | apply List.subset_cons_of_subset)
              done))
    | ((try simp only [holds_ok, set_err_heap])
       apply pq_heap.fun_res_of <;>
         first
           | assumption
           | ((try simp only [List.cons_subset, List.mem_cons, eq_self_iff_true, true_or, or_true,
                true_and])
              (repeat' first
                | exact List.Subset.refl _
                | exact List.nil_subset _
                | apply List.subset_cons_of_subset)
              done))
    | ((try simp only [holds_ok, set_err_heap, list?_none, list?_operand])
       apply pq_heap.fun_with_of <;>
         first
           | assumption
           | (apply pq_heap.fun_with_of_res
              assumption)
           | ((try simp only [List.cons_subset, List.mem_cons, eq_self_iff_true, true_or, or_true,
                true_and])
              (repeat' first
                | exact List.Subset.refl _
                | exact List.nil_subset _
                | apply List.subset_cons_of_subset)
              done))
    | (apply pq_res.holds_mono; apply holds_link_infix_op_fun)
    | (apply pq_res.holds_mono; apply holds_link_postfix_op_fun)
    | (apply pq_res.holds_mono; apply holds_link_prefix_operand_fun)
    | apply holds_new_list_fun
    | apply holds_new_functor_node_fun
    | apply holds_new_term_node_fun
    | apply holds_new_term_fun
    | apply holds_set_item_priority_fun
    | apply holds_push_back_fun
    | apply holds_next_token_fun W sf
    | (apply pq_res.holds_mono; apply ih1)
    | (apply pq_res.holds_mono; apply ih2)
    | (apply pq_res.holds_mono; apply ih5)
    | (apply pq_res.holds_mono; apply ih7)
    | (apply pq_res.holds_bind; apply ih1)
    | (apply pq_res.holds_bind; apply ih2)
    | (apply pq_res.holds_bind; apply ih5)
    | (apply pq_res.holds_bind; apply ih7)
    | intro _
    | split

/-- The parser keeps the argument lists of the functor terms of the heap. -/
theorem parse_functors_ok (W : WCtype) (sf : Nat) : ∀ fuel : Nat,
    (∀ p st G, st.heap.fun_with G →
      (pq_parse_prolog_term W sf fuel p st).holds
        (fun _ st1 => st1.heap.fun_with G))
    ∧ (∀ p st G, st.heap.fun_with G →
      (pq_parse_prolog_prefix_op_or_functor_or_atom W sf fuel p st).holds
        (fun _ st1 => st1.heap.fun_with G))
    ∧ (∀ p st G, st.heap.fun_with G →
      (pq_parse_prolog_operand_or_arg_list W sf fuel p st).holds
        (fun v st1 => st1.heap.fun_with (pq_operand_or_arg_list.list? v :: G)))
    ∧ (∀ l st G, st.heap.fun_with (some l :: G) →
      (pq_parse_prolog_arg_list_loop W sf fuel l st).holds
        (fun v st1 => st1.heap.fun_res st1.has_err v G))
    ∧ (∀ st G, st.heap.fun_with G →
      (pq_parse_prolog_arg_list W sf fuel st).holds
        (fun v st1 => st1.heap.fun_res st1.has_err v G))
    ∧ (∀ st G, st.heap.fun_with G →
      (pq_parse_prolog_arg W sf fuel st).holds
        (fun _ st1 => st1.heap.fun_with G))
    ∧ (∀ st G, st.heap.fun_with G →
      (pq_parse_prolog_items W sf fuel st).holds
        (fun _ st1 => st1.heap.fun_with G))
    ∧ (∀ l st G, st.heap.fun_with G →
      (pq_parse_prolog_items_loop W sf fuel l st).holds
        (fun _ st1 => st1.heap.fun_with G))
  | 0 => by
    refine ⟨?_, ?_, ?_, ?_, ?_, ?_, ?_, ?_⟩
    · intro p st G _; rw [pq_parse_prolog_term]; exact trivial
    · intro p st G _; rw [pq_parse_prolog_prefix_op_or_functor_or_atom]; exact trivial
    · intro p st G _; rw [pq_parse_prolog_operand_or_arg_list]; exact trivial
    · intro l st G _; rw [pq_parse_prolog_arg_list_loop]; exact trivial
    · intro st G _; rw [pq_parse_prolog_arg_list]; exact trivial
    · intro st G _; rw [pq_parse_prolog_arg]; exact trivial
    · intro st G _; rw [pq_parse_prolog_items]; exact trivial
    · intro l st G _; rw [pq_parse_prolog_items_loop]; exact trivial
  | fuel + 1 => by
    obtain ⟨ih1, ih2, ih3, ih4, ih5, ih6, ih7, ih8⟩ := parse_functors_ok W sf fuel
    exact ⟨fun p st G hG => fun_term_step W sf fuel ih1 ih2 ih5 ih7 p st G hG,
      fun p st G hG => fun_prefix_step W sf fuel ih1 ih3 p st G hG,
      fun p st G hG => fun_operand_or_arg_list_step W sf fuel ih1 ih4 p st G hG,
      fun l st G hG => fun_arg_list_loop_step W sf fuel ih4 ih6 l st G hG,
      fun st G hG => fun_arg_list_step W sf fuel ih4 ih6 st G hG,
      fun st G hG => fun_arg_step W sf fuel ih1 st G hG,
      fun st G hG => fun_items_step W sf fuel ih6 ih8 st G hG,
      fun l st G hG => fun_items_loop_step W sf fuel ih6 ih8 l st G hG⟩

theorem text_functors_ok (W : WCtype) (sf : Nat) : ∀ (fuel : Nat) (st : pq_state)
    (G : List (Option Ptr)), st.heap.fun_with G →
      (pq_parse_prolog_text W sf fuel st).holds (fun _ st1 => st1.heap.fun_with G)
  | 0, st, G, _ => by rw [pq_parse_prolog_text]; exact trivial
  | fuel + 1, st, G, hG => by
    have ih1 := (parse_functors_ok W sf fuel).1
    have iht := text_functors_ok W sf fuel
    rw [pq_parse_prolog_text]
    repeat' first
      | exact trivial
      | assumption
      | ((try simp only [holds_ok, set_err_heap])
         apply pq_heap.fun_with_of <;>
           first
           | assumption
           | ((try simp only [List.cons_subset, List.mem_cons, eq_self_iff_true, true_or, or_true,
                true_and])
              (repeat' first
                | exact List.Subset.refl _
                | exact List.nil_subset _
                | apply List.subset_cons_of_subset)
              done))
      | apply holds_add_right_sibling_fun
      | apply holds_next_token_fun W sf
      | (apply pq_res.holds_bind; apply ih1)
      | (apply pq_res.holds_bind; apply iht)
      | intro _
      | split

theorem empty_fun_with : pq_heap.empty.fun_with [] :=
  ⟨fun t ht => (by cases ht), fun l hl => (by cases hl)⟩

/-- C35: whatever the buffer, in the heap that the parser leaves every functor term has an
argument list that is not `NULL` and is allocated, and the recorded size of that list is at
least 1. -/
theorem C35_functor_terms_have_arguments (W : WCtype) (sf fuel : Nat) (buffer : Bytes)
    (h : pq_heap) (hh : (pq_parse_buffer W sf fuel buffer).heap? = some h) :
    ∀ t ∈ h.terms, ∀ id args, t.data = .fun_data id args →
      ∃ l lst, args = some l ∧ h.lists.get? l = some lst ∧ 1 ≤ lst.size := by
  have key : (pq_parse_buffer W sf fuel buffer).holds (fun _ st1 => st1.heap.fun_with []) := by
    unfold pq_parse_buffer
    apply holds_next_token_fun W sf _ empty_fun_with
    intro st1 h1
    exact text_functors_ok W sf fuel st1 [] h1
  cases hr : pq_parse_buffer W sf fuel buffer with
  | fault e => rw [hr] at hh; cases hh
  | ok v st =>
    rw [hr] at hh key
    simp only [pq_res.heap?, Option.some.injEq] at hh
    subst hh
    intro t ht id args hd
    have hfa : t.fun_args = some args := by
      unfold pq_term.fun_args
      rw [hd]
    obtain ⟨hsome, hfill⟩ := key.1 t ht args hfa
    cases args with
    | none => cases hsome
    | some l =>
      obtain ⟨lst, h1, h2⟩ := hfill l rfl
      exact ⟨l, lst, rfl, h1, h2⟩

/-- C35 (witness): the heap that the parse of `f(a, b).` leaves, with the functor term `f`
and its list of size 2. -/
theorem C35_witness :
    (pq_parse_buffer asciiW 32 32 (cstr "f(a, b).")).heap?
      = some ⟨[⟨.atom_id (cstr "a"), 1201, PQ_TERM_ATOM_TYPE⟩,
          ⟨.atom_id (cstr "b"), 1201, PQ_TERM_ATOM_TYPE⟩,
          ⟨.fun_data (cstr "f") (some 0), 0, PQ_TERM_ATOM_TYPE ||| PQ_TERM_FUNCTOR_TYPE⟩],
        [⟨some 2, none, none, none⟩], [⟨0, 2⟩],
        [⟨none, some 2, some 0⟩, ⟨some 0, some 0, some 0⟩, ⟨some 1, some 1, some 0⟩]⟩
    ∧ ∀ t ∈ [(⟨.atom_id (cstr "a"), 1201, PQ_TERM_ATOM_TYPE⟩ : pq_term),
          ⟨.atom_id (cstr "b"), 1201, PQ_TERM_ATOM_TYPE⟩,
          ⟨.fun_data (cstr "f") (some 0), 0, PQ_TERM_ATOM_TYPE ||| PQ_TERM_FUNCTOR_TYPE⟩],
        ∀ id args, t.data = .fun_data id args →
          ∃ l lst, args = some l ∧ [(⟨0, 2⟩ : pq_list)].get? l = some lst ∧ 1 ≤ lst.size :=
  ⟨by decide!,
    C35_functor_terms_have_arguments asciiW 32 32 (cstr "f(a, b).")
      ⟨[⟨.atom_id (cstr "a"), 1201, PQ_TERM_ATOM_TYPE⟩,
          ⟨.atom_id (cstr "b"), 1201, PQ_TERM_ATOM_TYPE⟩,
          ⟨.fun_data (cstr "f") (some 0), 0, PQ_TERM_ATOM_TYPE ||| PQ_TERM_FUNCTOR_TYPE⟩],
        [⟨some 2, none, none, none⟩], [⟨0, 2⟩],
        [⟨none, some 2, some 0⟩, ⟨some 0, some 0, some 0⟩, ⟨some 1, some 1, some 0⟩]⟩
      (by decide!)⟩

end Poqer
